import Mathlib

/-!
# ERC-8004 registry parser: a shallow embedding and its verification

The development follows the JavaScript sources module by module
(`UriClassifier`, `UriDecoder`, `EventDecoder`, `RegistrationValidator`,
`MetadataExtractor`, `Validation`, `Erc8004RegistryParser`).

Modelling conventions.

* JavaScript values are the inductive type `JsVal`.  An object is the list of
  its own properties in `Object.keys` order; a well-formed object has pairwise
  distinct keys.  Document numbers are integers: the code never computes with
  them, it only tests their truthiness and `typeof` and prints them.
* A JavaScript string is a Lean `String`, a sequence of code points; `length`
  and `slice` count UTF-16 code units, two for a code point above the basic
  plane.  `toLowerCase` is the ASCII mapping.
* A raised exception is the `Except.error` branch of `Except JsError`.  The
  messages array that the source mutates with `push` is threaded through the
  functions as an explicit accumulator.
* What the sources import from the platform (`Buffer`, `zlib`, `JSON`, `URL`,
  `BigInt`, `ethers`) is a field of the structure `Host`; every function that
  reaches the platform takes the host as its first argument.  The theorems
  hold for every host; `refHost` is a concrete one, on which the embedding is
  evaluated at the inputs of the test suite.
* A block of statements of a long source function (an `if`/`else if` chain
  on one field, the body of a `forEach` callback) is a function of its own,
  named after what it checks; the source function is their composition in
  source order.
-/

namespace Erc8004

/-! ## JavaScript values -/

/-- JavaScript values that can reach the parser. -/
inductive JsVal where
  | undefined
  | null
  | bool (b : Bool)
  | num (n : Int)
  | str (s : String)
  | arr (xs : List JsVal)
  | obj (kvs : List (String × JsVal))

/-- Exceptions: a runtime `TypeError`, or `throw new Error( msg )`. -/
inductive JsError where
  | typeError
  | error (msg : String)
  deriving DecidableEq, Repr

namespace JsVal

instance : Inhabited JsVal := ⟨undefined⟩

/-- Truthiness, as used by `!v`, `v || w` and `if( v )`. -/
def truthy : JsVal → Bool
  | undefined => false
  | null => false
  | bool b => b
  | num n => n != 0
  | str s => s != ""
  | arr _ => true
  | obj _ => true

/-- The operator `a || b` on already evaluated operands. -/
def or (a b : JsVal) : JsVal := if a.truthy then a else b

/-- The test `v === undefined`. -/
def isUndefined : JsVal → Bool
  | undefined => true
  | _ => false

/-- The test `v === null`. -/
def isNull : JsVal → Bool
  | null => true
  | _ => false

/-- The test `typeof v === 'string'`. -/
def isString : JsVal → Bool
  | str _ => true
  | _ => false

/-- The test `typeof v === 'boolean'`. -/
def isBoolean : JsVal → Bool
  | bool _ => true
  | _ => false

/-- The test `Array.isArray( v )`. -/
def isArray : JsVal → Bool
  | arr _ => true
  | _ => false

/-- The test `v === true`. -/
def isTrue : JsVal → Bool
  | bool true => true
  | _ => false

/-- The test `v === s` for a string constant `s`. -/
def eqStr (v : JsVal) (s : String) : Bool :=
  match v with
  | str t => t == s
  | _ => false

/-- The operator `typeof v`. -/
def typeof : JsVal → String
  | undefined => "undefined"
  | null => "object"
  | bool _ => "boolean"
  | num _ => "number"
  | str _ => "string"
  | arr _ => "object"
  | obj _ => "object"

/-- Property read `v[ key ]` for the fixed keys the sources use (`type`,
`name`, `url`, `endpoint`, `services`, `topics`, `data`, ...): reading from
`null` or `undefined` raises a `TypeError`, an object yields its own property
or `undefined`, and no other value carries one of these keys. -/
def get (v : JsVal) (key : String) : Except JsError JsVal :=
  match v with
  | undefined => .error .typeError
  | null => .error .typeError
  | obj kvs => .ok ((kvs.lookup key).getD undefined)
  | _ => .ok undefined

/-- Index read `xs[ i ]` on an array. -/
def index (xs : List JsVal) (i : Nat) : JsVal := (xs.get? i).getD undefined

mutual
/-- String conversion of a template literal, `${ v }`. -/
def toStr : JsVal → String
  | undefined => "undefined"
  | null => "null"
  | bool b => if b then "true" else "false"
  | num n => toString n
  | str s => s
  | arr xs => joinStr xs
  | obj _ => "[object Object]"
/-- The elements of an array joined with commas (`Array.prototype.join`):
`null` and `undefined` elements print as the empty string. -/
def joinStr : List JsVal → String
  | [] => ""
  | [x] => elemStr x
  | x :: y :: rest => elemStr x ++ "," ++ joinStr (y :: rest)
/-- One element inside `join`. -/
def elemStr : JsVal → String
  | undefined => ""
  | null => ""
  | bool b => if b then "true" else "false"
  | num n => toString n
  | str s => s
  | arr xs => joinStr xs
  | obj _ => "[object Object]"
end

end JsVal

/-! ## JavaScript string methods -/

/-- Code points removed by `String.prototype.trim` (WhiteSpace and
LineTerminator of ECMAScript). -/
def isJsWhitespace (c : Char) : Bool :=
  let n := c.toNat
  n == 0x09 || n == 0x0A || n == 0x0B || n == 0x0C || n == 0x0D || n == 0x20 ||
  n == 0xA0 || n == 0x1680 || (0x2000 ≤ n && n ≤ 0x200A) || n == 0x2028 ||
  n == 0x2029 || n == 0x202F || n == 0x205F || n == 0x3000 || n == 0xFEFF

/-- Remove trailing whitespace from a character list. -/
def trimEndChars (cs : List Char) : List Char :=
  (cs.reverse.dropWhile isJsWhitespace).reverse

/-- The method `s.trim()`. -/
def jsTrim (s : String) : String :=
  ⟨trimEndChars (s.data.dropWhile isJsWhitespace)⟩

/-- The method `s.startsWith( p )`. -/
def startsWith (s p : String) : Bool := p.data.isPrefixOf s.data

/-- The method `s.includes( p )`. -/
def includes (s p : String) : Bool := s.data.tails.any (fun t => p.data.isPrefixOf t)

/-- Drop the first `n` UTF-16 code units of a text.  A code point above the
basic plane is two units; when the cut falls inside one, JavaScript keeps its
second unit, a lone surrogate, which a Lean string cannot hold and which is
written U+FFFD here. -/
def dropUnits : Nat → List Char → List Char
  | 0, cs => cs
  | _ + 1, [] => []
  | n + 1, c :: cs =>
    if c.toNat < 0x10000 then dropUnits n cs
    else
      match n with
      | 0 => Char.ofNat 0xFFFD :: cs
      | m + 1 => dropUnits m cs

/-- The method `s.slice( n )` for a non-negative `n`. -/
def slice (s : String) (n : Nat) : String := ⟨dropUnits n s.data⟩

/-- The method `s.toLowerCase()`. -/
def toLowerCase (s : String) : String := ⟨s.data.map Char.toLower⟩

/-- The call `v.toLowerCase()` on an arbitrary value: only strings have the
method, every other value raises a `TypeError`. -/
def JsVal.toLowerCase (v : JsVal) : Except JsError String :=
  match v with
  | .str s => .ok (Erc8004.toLowerCase s)
  | _ => .error .typeError

/-- The value of `s.length`: the number of UTF-16 code units of the string, two
for every code point above the basic plane. -/
def utf16Length (s : String) : Nat :=
  (s.data.map (fun c => if c.toNat < 0x10000 then 1 else 2)).sum

/-- The value of a digit in a numeric literal, letters counting from ten. -/
def digitOf (c : Char) : Nat :=
  if '0' ≤ c && c ≤ '9' then c.toNat - 48
  else if 'a' ≤ c && c ≤ 'z' then c.toNat - 87
  else if 'A' ≤ c && c ≤ 'Z' then c.toNat - 55
  else 36

/-- The number that a text of digits spells in a base. -/
def digitsValue (base : Nat) (ds : List Char) : Nat :=
  ds.foldl (fun a c => a * base + digitOf c) 0

/-- A non-empty text of digits of a base. -/
def isDigits (base : Nat) (ds : List Char) : Bool :=
  !ds.isEmpty && ds.all (fun c => digitOf c < base)

/-- The exponent part of a decimal literal, `e` or `E` with an optionally
signed integer; the empty text is the exponent zero and any other text is no
exponent part. -/
def exponentPart (cs : List Char) : Option Int :=
  match cs with
  | [] => some 0
  | e :: rest =>
    if e == 'e' || e == 'E' then
      match rest with
      | '+' :: ds => if isDigits 10 ds then some (digitsValue 10 ds) else none
      | '-' :: ds => if isDigits 10 ds then some (-(digitsValue 10 ds : Int)) else none
      | ds => if isDigits 10 ds then some (digitsValue 10 ds) else none
    else none

/-- The grammar `StrUnsignedDecimalLiteral` without `Infinity`: digits, an
optional fraction and an optional exponent, with a digit before or after the
point.  The result `(m, e)` stands for the number `m * 10 ^ e`. -/
def unsignedDecimal (cs : List Char) : Option (Nat × Int) :=
  let ip := cs.takeWhile (fun c => digitOf c < 10)
  match cs.dropWhile (fun c => digitOf c < 10) with
  | '.' :: r =>
    let fp := r.takeWhile (fun c => digitOf c < 10)
    if ip.isEmpty && fp.isEmpty then none
    else (exponentPart (r.dropWhile (fun c => digitOf c < 10))).map
      (fun e => (digitsValue 10 (ip ++ fp), e - fp.length))
  | r => if ip.isEmpty then none else (exponentPart r).map (fun e => (digitsValue 10 ip, e))

/-- The number of binary digits of `n`, counted in at most `fuel` steps. -/
def binaryDigits (fuel n : Nat) : Nat :=
  match fuel with
  | 0 => 0
  | f + 1 => if n = 0 then 0 else binaryDigits f (n / 2) + 1

/-- Whether the double nearest to `m * 10 ^ e` is below the integer `n`, for
`0 < n < 2 ^ 52`: the number is below the midpoint of `n` and the double
before it, which lies `1 / d` under `n`. -/
def roundsBelow (m : Nat) (e : Int) (n : Nat) : Bool :=
  let k := binaryDigits n n - 1
  let d := 2 ^ (if n = 2 ^ k then 54 - k else 53 - k)
  match e with
  | .ofNat a => m * 10 ^ a * d < n * d - 1
  | .negSucc a => m * d < (n * d - 1) * 10 ^ (a + 1)

/-- An unsigned literal of `StringToNumber` compared with `n`. -/
def unsignedBelow (cs : List Char) (n : Nat) : Bool :=
  if cs == "Infinity".data then false
  else
    match unsignedDecimal cs with
    | some (m, e) => roundsBelow m e n
    | none => false

/-- A literal in base 16, 8 or 2 compared with `n`; without digits the text is
not a number. -/
def radixBelow (base : Nat) (ds : List Char) (n : Nat) : Bool :=
  isDigits base ds && roundsBelow (digitsValue base ds) 0 n

/-- The comparison `Number( s ) < n` on a trimmed text, for `0 < n < 2 ^ 52`:
the empty text is zero, a text outside the grammar is `NaN` and compares
false, a negative number is below `n`. -/
def numericBelow (cs : List Char) (n : Nat) : Bool :=
  match cs with
  | [] => 0 < n
  | '0' :: x :: ds =>
    if x == 'x' || x == 'X' then radixBelow 16 ds n
    else if x == 'o' || x == 'O' then radixBelow 8 ds n
    else if x == 'b' || x == 'B' then radixBelow 2 ds n
    else unsignedBelow ('0' :: x :: ds) n
  | '-' :: rest => rest == "Infinity".data || (unsignedDecimal rest).isSome
  | '+' :: rest => unsignedBelow rest n
  | rest => unsignedBelow rest n

/-- The comparison `v < n` of a value with a number literal `n`, for
`0 < n < 2 ^ 52`: `undefined` converts to `NaN` and compares false, `null` to
zero, booleans to zero and one, and strings, arrays and objects compare by
the number that their string conversion spells. -/
def JsVal.lessThan (v : JsVal) (n : Nat) : Bool :=
  match v with
  | .undefined => false
  | .null => 0 < n
  | .bool b => (if b then 1 else 0) < n
  | .num k => k < (n : Int)
  | v => numericBelow (jsTrim v.toStr).data n

/-! ## UriClassifier.mjs -/

namespace UriClassifier

/-- Source: `#looksLikeJson`. -/
def looksLikeJson (value : String) : Bool :=
  let startsWithBrace := startsWith value "\x7b" || startsWith value "["
  startsWithBrace

/-- Source: `#detectType`. -/
def detectType (uri : JsVal) : String :=
  match uri with
  | .undefined => "empty"
  | .null => "empty"
  | .str s =>
    if s == "" then "empty"
    else
      let trimmed := jsTrim s
      if trimmed == "" then "empty"
      else if startsWith trimmed "data:" && includes trimmed "enc=gzip" then "gzip"
      else if startsWith trimmed "data:application/json;base64," then "base64"
      else if startsWith trimmed "https://" || startsWith trimmed "http://" then "http"
      else if startsWith trimmed "ipfs://" then "ipfs"
      else
        let isJson := looksLikeJson trimmed
        if isJson then "json" else "unknown"
  | _ => "unknown"

/-- Source: `UriClassifier.classify`; the model returns the `uriAgentType` field. -/
def classify (uri : JsVal) : String :=
  let uriAgentType := detectType uri
  uriAgentType

/-- The closed set of tags. -/
def tags : List String := ["empty", "base64", "gzip", "http", "ipfs", "json", "unknown"]

/-- The decision list of the specification, read off its wording: it is
applied to the whitespace-trimmed string `t`, first match wins. -/
def decisionList (t : String) : String :=
  if t = "" then "empty"
  else if startsWith t "data:" ∧ includes t "enc=gzip" then "gzip"
  else if startsWith t "data:application/json;base64," then "base64"
  else if startsWith t "http://" ∨ startsWith t "https://" then "http"
  else if startsWith t "ipfs://" then "ipfs"
  else if startsWith t "\x7b" ∨ startsWith t "[" then "json"
  else "unknown"

end UriClassifier

/-! ## The host platform -/

/-- Octet sequences (`Buffer`); every element is meant modulo 256. -/
abbrev Bytes := List Nat

/-- The platform functions the sources call.  A field of type `Option`
is `none` where the JavaScript call raises. -/
structure Host where
  /-- Source: `Buffer.from( s, 'base64' )`. -/
  base64Decode : String → Option Bytes
  /-- Source: `buffer.toString( 'base64' )`. -/
  base64Encode : Bytes → String
  /-- Source: `buffer.toString( 'utf-8' )`. -/
  utf8Decode : Bytes → String
  /-- Source: `Buffer.from( s, 'utf-8' )`. -/
  utf8Encode : String → Bytes
  /-- Source: `gunzipSync( buffer )` of `node:zlib`. -/
  gunzipSync : Bytes → Option Bytes
  /-- Source: `JSON.parse( s )`. -/
  jsonParse : String → Option JsVal
  /-- Source: `JSON.stringify( v )`, a string or `undefined`. -/
  jsonStringify : JsVal → JsVal
  /-- Source: `new URL( s )` returns instead of raising. -/
  isUrl : String → Bool
  /-- Source: `BigInt( topic ).toString()`. -/
  bigIntToString : JsVal → Option String
  /-- Source: `getAddress( s )` of `ethers`. -/
  getAddress : String → Option String
  /-- Source: `AbiCoder.defaultAbiCoder().decode( [ 'string' ], data )[0]`. -/
  abiDecodeString : JsVal → Option String

/-! ## UriDecoder.mjs -/

namespace UriDecoder

/-- The record `{ status, messages, decodedRegistrationFile }`. -/
structure Decoded where
  status : Bool
  messages : List String
  decodedRegistrationFile : JsVal

/-- Line terminators, which `.` of a regular expression does not match. -/
def isLineTerminator (c : Char) : Bool :=
  c.toNat == 0x0A || c.toNat == 0x0D || c.toNat == 0x2028 || c.toNat == 0x2029

/-- The capture group of `uri.match( /base64,(.+)$/ )`: the match starts at
the leftmost `base64,` whose rest of the input is non-empty and free of line
terminators, and the group is that rest. -/
def matchBase64 : List Char → Option (List Char)
  | [] => none
  | c :: rest =>
    let payload := (c :: rest).drop 7
    if "base64,".data.isPrefixOf (c :: rest) && !payload.isEmpty
        && payload.all (fun d => !isLineTerminator d) then
      some payload
    else
      matchBase64 rest

/-- The call `s.replace( pat, '' )` with a string pattern: the first
occurrence is removed. -/
def removeFirst (pat : List Char) : List Char → List Char
  | [] => []
  | c :: rest =>
    if pat.isPrefixOf (c :: rest) then (c :: rest).drop pat.length
    else c :: removeFirst pat rest

/-- Character class `[0-9a-fA-F]`. -/
def isHexDigit (c : Char) : Bool :=
  ('0' ≤ c && c ≤ '9') || ('a' ≤ c && c ≤ 'f') || ('A' ≤ c && c ≤ 'F')

/-- The test `/^0x[0-9a-fA-F]{40}$/.test( cid )`. -/
def looksLikeAddress (cid : List Char) : Bool :=
  match cid with
  | '0' :: 'x' :: hex => hex.length == 40 && hex.all isHexDigit
  | _ => false

/-- Source: `#isValidUtf8`. -/
def isValidUtf8 (rt : Host) (value original : String) : Bool :=
  let reEncoded := rt.base64Encode (rt.utf8Encode value)
  let isValid := reEncoded == original
  isValid

/-- Source: `#checkIpfsCid`; `uri.replace` on `null` raises. -/
def checkIpfsCid (uri : Option String) : Except JsError Bool :=
  match uri with
  | none => .error .typeError
  | some u =>
    let cid := removeFirst "ipfs://".data u.data
    let hasEthAddress := looksLikeAddress cid
    .ok hasEthAddress

/-- Source: `#decodeBase64`; `uri.slice` on `null` raises. -/
def decodeBase64 (rt : Host) (uri : Option String) : Except JsError Decoded :=
  match uri with
  | none => .error .typeError
  | some u =>
    let messages : List String := []
    let pfx := "data:application/json;base64,"
    let b64String := slice u pfx.length
    match rt.base64Decode b64String with
    | none =>
      .ok ⟨false, messages ++ ["uri: Invalid base64 encoding"], .null⟩
    | some buffer =>
      let decoded := rt.utf8Decode buffer
      let isValid := isValidUtf8 rt decoded b64String
      if !isValid then
        .ok ⟨false, messages ++ ["uri: Decoded base64 is not valid UTF-8"], .null⟩
      else
        match rt.jsonParse decoded with
        | none =>
          .ok ⟨false, messages ++ ["uri: Contains inline JSON but parsing failed"], .null⟩
        | some parsed => .ok ⟨true, messages, parsed⟩

/-- Source: `#decodeJson`; `JSON.parse( null )` parses the text `null`. -/
def decodeJson (rt : Host) (uri : Option String) : Decoded :=
  let messages : List String := []
  match rt.jsonParse (uri.getD "null") with
  | none => ⟨false, messages ++ ["uri: Contains inline JSON but parsing failed"], .null⟩
  | some parsed => ⟨true, messages, parsed⟩

/-- Source: `#decodeGzip`; `uri.match` on `null` raises. -/
def decodeGzip (rt : Host) (uri : Option String) : Except JsError Decoded :=
  match uri with
  | none => .error .typeError
  | some u =>
    let messages : List String := []
    match matchBase64 u.data with
    | none =>
      .ok ⟨false, messages ++ ["uri: Gzip encoding detected but not decodable in this environment"], .null⟩
    | some b64Match1 =>
      match (rt.base64Decode ⟨b64Match1⟩).bind rt.gunzipSync with
      | none =>
        .ok ⟨false, messages ++ ["uri: Gzip encoding detected but not decodable in this environment"], .null⟩
      | some unzipped =>
        let decompressed := rt.utf8Decode unzipped
        match rt.jsonParse decompressed with
        | none =>
          .ok ⟨false, messages ++ ["uri: Contains inline JSON but parsing failed"], .null⟩
        | some parsed => .ok ⟨true, messages, parsed⟩

/-- Source: `UriDecoder.decode`.  The URI is a string or `null` (`none`). -/
def decode (rt : Host) (uri : Option String) (uriAgentType : String) : Except JsError Decoded :=
  let messages : List String := []
  if uriAgentType == "empty" then
    .ok ⟨false, messages ++ ["uri: Is empty, agent has no Registration File"], .null⟩
  else if uriAgentType == "http" then
    .ok ⟨false, messages ++ ["uri: HTTP URL detected, metadata not resolved (requires fetch)"], .null⟩
  else if uriAgentType == "ipfs" then do
    let hasEthAddress ← checkIpfsCid uri
    let messages :=
      if hasEthAddress then
        messages ++ ["uri: IPFS CID looks like an Ethereum address, not a valid content hash"]
      else messages
    let messages := messages ++ ["uri: IPFS URI detected, metadata not resolved (requires gateway)"]
    pure ⟨false, messages, .null⟩
  else if uriAgentType == "gzip" then do
    let r ← decodeGzip rt uri
    pure ⟨r.status, messages ++ r.messages, r.decodedRegistrationFile⟩
  else if uriAgentType == "base64" then do
    let r ← decodeBase64 rt uri
    pure ⟨r.status, messages ++ r.messages, r.decodedRegistrationFile⟩
  else if uriAgentType == "json" then
    let r := decodeJson rt uri
    .ok ⟨r.status, messages ++ r.messages, r.decodedRegistrationFile⟩
  else
    .ok ⟨false, messages ++ ["uri: Unknown format, cannot classify"], .null⟩

end UriDecoder

/-! ## EventDecoder.mjs -/

namespace EventDecoder

/-- Signature hash of the `Registered` event. -/
def REGISTERED_TOPIC0 : String :=
  "0xca52e62c367d81bb2e328eb795f7c7ba24afb478408a26c0e201d155c449bc4a"

/-- Signature hash of the `URIUpdated` event. -/
def URI_UPDATED_TOPIC0 : String :=
  "0x3a2c7fffc2cba7582c690e3b82c453ea02a308326a98a3ad7576c606336409fb"

/-- The recognised signatures. -/
def KNOWN_TOPIC0S : List String := [REGISTERED_TOPIC0, URI_UPDATED_TOPIC0]

/-- Minimal length of the `data` string. -/
def MIN_DATA_HEX_LENGTH : Nat := 66

/-- The record `{ status, messages, agentId, ownerAddress, decodedAgentUri }`;
`none` is `null`. -/
structure Decoded where
  status : Bool
  messages : List String
  agentId : Option String
  ownerAddress : Option String
  decodedAgentUri : Option String

/-- The test `KNOWN_TOPIC0S.includes( topic0 )`. -/
def isKnownTopic0 (topic0 : JsVal) : Bool :=
  match topic0 with
  | .str s => KNOWN_TOPIC0S.contains s
  | _ => false

/-- Source: `#validateTopics`; returns `valid` and the messages. -/
def validateTopics (eventLog : JsVal) (messages : List String) :
    Except JsError (Bool × List String) :=
  if !eventLog.truthy then
    .ok (false, messages ++ ["log: Missing or empty topics array"])
  else do
    let topics ← eventLog.get "topics"
    match topics with
    | .arr (topic0 :: _) =>
      if !isKnownTopic0 topic0 then
        pure (false, messages ++
          ["log.topics[0]: Unknown event signature, not a recognized ERC-8004 event"])
      else
        pure (true, messages)
    | _ => pure (false, messages ++ ["log: Missing or empty topics array"])

/-- The read `data.length` on a value that is neither `null` nor `undefined`:
a string has its number of UTF-16 code units, an array its number of
elements, an object its own property `length`, and every other value has no
such property. -/
def lengthOf (data : JsVal) : JsVal :=
  match data with
  | .str s => .num (utf16Length s)
  | .arr xs => .num xs.length
  | .obj kvs => (kvs.lookup "length").getD .undefined
  | _ => .undefined

/-- The comparison `data.length < MIN_DATA_HEX_LENGTH`. -/
def lengthBelow (data : JsVal) (n : Nat) : Bool := (lengthOf data).lessThan n

/-- Source: `#validateData`. -/
def validateData (eventLog : JsVal) (messages : List String) :
    Except JsError (Bool × List String) := do
  let data ← eventLog.get "data"
  if data.isUndefined || data.isNull then
    pure (false, messages ++ ["log: Missing data field"])
  else if lengthBelow data MIN_DATA_HEX_LENGTH then
    pure (false, messages ++ ["log.data: Too short for ABI-encoded string (minimum 66 bytes)"])
  else
    pure (true, messages)

/-- Source: `#extractAgentId`; the exception of `BigInt` is caught. -/
def extractAgentId (rt : Host) (topic : JsVal) (messages : List String) :
    Option String × List String :=
  match rt.bigIntToString topic with
  | some agentId => (some agentId, messages)
  | none => (none, messages ++ ["log.topics[1]: Cannot decode as uint256 agentId"])

/-- The expression `'0x' + topic.slice( 26 )`: strings and arrays have
`slice`, on any other value the call raises (`none`). -/
def addressHex (topic : JsVal) : Option String :=
  match topic with
  | .str s => some ("0x" ++ slice s 26)
  | .arr xs => some ("0x" ++ JsVal.toStr (.arr (xs.drop 26)))
  | _ => none

/-- Source: `#extractOwnerAddress`; every exception is caught. -/
def extractOwnerAddress (rt : Host) (topic : JsVal) (messages : List String) :
    Option String × List String :=
  match (addressHex topic).bind rt.getAddress with
  | some ownerAddress => (some ownerAddress, messages)
  | none => (none, messages ++ ["log.topics[2]: Cannot decode as address"])

/-- Source: `#decodeAbiString`; every exception is caught. -/
def decodeAbiString (rt : Host) (data : JsVal) (messages : List String) :
    Option String × List String :=
  match rt.abiDecodeString data with
  | some decodedAgentUri => (some decodedAgentUri, messages)
  | none => (none, messages ++ ["log.data: ABI string decoding failed"])

/-- The read `eventLog[ 'topics' ][ i ]` once `topics` is known to be an array. -/
def topicAt (eventLog : JsVal) (i : Nat) : Except JsError JsVal := do
  let topics ← eventLog.get "topics"
  match topics with
  | .arr xs => pure (JsVal.index xs i)
  | .undefined => .error .typeError
  | .null => .error .typeError
  | _ => pure .undefined

/-- Source: `EventDecoder.decode`. -/
def decode (rt : Host) (eventLog : JsVal) : Except JsError Decoded := do
  let messages : List String := []
  let (topicsValid, messages) ← validateTopics eventLog messages
  if !topicsValid then
    pure ⟨false, messages, none, none, none⟩
  else
    let (dataValid, messages) ← validateData eventLog messages
    if !dataValid then
      pure ⟨false, messages, none, none, none⟩
    else
      let (agentId, messages) := extractAgentId rt (← topicAt eventLog 1) messages
      let (ownerAddress, messages) := extractOwnerAddress rt (← topicAt eventLog 2) messages
      if messages.length > 0 then
        pure ⟨false, messages, agentId, ownerAddress, none⟩
      else
        let (decodedAgentUri, messages) := decodeAbiString rt (← eventLog.get "data") messages
        if messages.length > 0 then
          pure ⟨false, messages, agentId, ownerAddress, decodedAgentUri⟩
        else
          pure ⟨true, messages, agentId, ownerAddress, decodedAgentUri⟩

end EventDecoder

/-! ## RegistrationValidator.mjs -/

/-- The exact `type` value of the specification. -/
def SPEC_TYPE_VALUE : String := "https://eips.ethereum.org/EIPS/eip-8004#registration-v1"

namespace RegistrationValidator

/-- Known protocol identifiers. -/
def KNOWN_PROTOCOLS : List String := ["mcp", "a2a", "oasf", "ens", "did"]

/-- Known trust models. -/
def KNOWN_TRUST_TYPES : List String := ["reputation", "crypto-economic", "tee-attestation"]

/-- Top-level fields of the specification. -/
def KNOWN_SPEC_FIELDS : List String :=
  ["type", "name", "description", "image", "services", "x402Support", "active", "supportedTrust"]

/-- The record `{ status, messages }`. -/
structure Validated where
  status : Bool
  messages : List String

/-- Source: `#isValidUrl`; the argument is converted to a string by `URL`. -/
def isValidUrl (rt : Host) (value : JsVal) : Bool := rt.isUrl value.toStr

/-- The chain `if ... else if ...` on `parsed[ 'type' ]` in
`#validateRequiredFields`. -/
def checkType (type : JsVal) (messages : List String) : List String :=
  if type.isUndefined then
    messages ++ ["type: Missing required field (expected \"" ++ SPEC_TYPE_VALUE ++ "\")"]
  else if !type.isString then
    messages ++ ["type: Is not type of \"string\""]
  else if !type.eqStr SPEC_TYPE_VALUE then
    messages ++ ["type: Invalid value \"" ++ type.toStr ++ "\" (expected \""
      ++ SPEC_TYPE_VALUE ++ "\")"]
  else messages

/-- The chain on `parsed[ 'name' ]` in `#validateRequiredFields`. -/
def checkName (name : JsVal) (messages : List String) : List String :=
  if name.isUndefined then messages ++ ["name: Missing required field"]
  else if !name.isString then messages ++ ["name: Is not type of \"string\""]
  else if name.eqStr "" then messages ++ ["name: Is empty string"]
  else messages

/-- The chain on `parsed[ 'description' ]` in `#validateRequiredFields`. -/
def checkDescription (description : JsVal) (messages : List String) : List String :=
  if description.isUndefined then messages ++ ["description: Missing field"]
  else if !description.isString then messages ++ ["description: Is not type of \"string\""]
  else if description.eqStr "" then messages ++ ["description: Is empty string"]
  else messages

/-- Source: `#validateRequiredFields`. -/
def validateRequiredFields (parsed : JsVal) (messages : List String) :
    Except JsError (List String) := do
  let messages := checkType (← parsed.get "type") messages
  let messages := checkName (← parsed.get "name") messages
  let messages := checkDescription (← parsed.get "description") messages
  pure messages

/-- The chain on `hasType` and `hasName` in the callback of `#validateServices`. -/
def checkProtocolKey (hasType hasName : Bool) (index : Nat) (messages : List String) :
    List String :=
  if !hasType && !hasName then
    messages ++ ["services[" ++ toString index
      ++ "]: Missing protocol identifier (\"type\" or \"name\")"]
  else if !hasType && hasName then
    messages ++ ["services[" ++ toString index
      ++ "].name: Uses \"name\" instead of spec-defined \"type\""]
  else messages

/-- The chain on `hasUrl` and `hasEndpoint` in the callback of `#validateServices`. -/
def checkEndpointKey (hasUrl hasEndpoint : Bool) (index : Nat) (messages : List String) :
    List String :=
  if !hasUrl && !hasEndpoint then
    messages ++ ["services[" ++ toString index ++ "]: Missing endpoint (\"url\" or \"endpoint\")"]
  else if !hasUrl && hasEndpoint then
    messages ++ ["services[" ++ toString index
      ++ "].endpoint: Uses \"endpoint\" instead of spec-defined \"url\""]
  else messages

/-- The test of the protocol identifier in the callback of `#validateServices`. -/
def checkProtocol (protocolValue : JsVal) (normalizedProtocol : String) (index : Nat)
    (messages : List String) : List String :=
  if protocolValue.truthy && !KNOWN_PROTOCOLS.contains normalizedProtocol then
    messages ++ ["services[" ++ toString index ++ "]: Unknown protocol \""
      ++ protocolValue.toStr ++ "\" (known: " ++ ", ".intercalate KNOWN_PROTOCOLS ++ ")"]
  else messages

/-- The test of the endpoint in the callback of `#validateServices`. -/
def checkUrl (rt : Host) (urlValue : JsVal) (index : Nat) (messages : List String) :
    List String :=
  if !urlValue.isNull then
    let isValid := isValidUrl rt urlValue
    if !isValid then messages ++ ["services[" ++ toString index ++ "].url: Invalid URL format"]
    else messages
  else messages

/-- The callback of `forEach` in `#validateServices`, for one entry. -/
def validateService (rt : Host) (service : JsVal) (index : Nat) (messages : List String) :
    Except JsError (List String) := do
  let hasType := !(← service.get "type").isUndefined
  let hasName := !(← service.get "name").isUndefined
  let messages := checkProtocolKey hasType hasName index messages
  let hasUrl := !(← service.get "url").isUndefined
  let hasEndpoint := !(← service.get "endpoint").isUndefined
  let messages := checkEndpointKey hasUrl hasEndpoint index messages
  let protocolValue := (← service.get "type").or ((← service.get "name").or (.str ""))
  let normalizedProtocol ← protocolValue.toLowerCase
  let messages := checkProtocol protocolValue normalizedProtocol index messages
  let urlValue := (← service.get "url").or ((← service.get "endpoint").or .null)
  let messages := checkUrl rt urlValue index messages
  pure messages

/-- The loop `parsed[ 'services' ].forEach( ( service, index ) => ... )`,
from position `index` on. -/
def validateServicesFrom (rt : Host) :
    List JsVal → Nat → List String → Except JsError (List String)
  | [], _, messages => .ok messages
  | service :: rest, index, messages =>
    match validateService rt service index messages with
    | .error e => .error e
    | .ok messages => validateServicesFrom rt rest (index + 1) messages

/-- Source: `#validateServices`. -/
def validateServices (rt : Host) (parsed : JsVal) (messages : List String) :
    Except JsError (List String) := do
  let services ← parsed.get "services"
  match services with
  | .undefined => pure messages
  | .arr [] => pure (messages ++ ["services: Is empty array"])
  | .arr xs => validateServicesFrom rt xs 0 messages
  | _ => pure (messages ++ ["services: Is not type of \"array\""])

/-- The test of the lower-case key in `#validateX402`. -/
def checkX402Case (hasCorrectCase hasLowerCase : Bool) (messages : List String) : List String :=
  if hasLowerCase && !hasCorrectCase then
    messages ++
      ["x402support: Uses lowercase \"x402support\" instead of spec-defined \"x402Support\""]
  else messages

/-- The test of the type of the flag in `#validateX402`. -/
def checkX402Type (hasCorrectCase : Bool) (x402Value : JsVal) (messages : List String) :
    List String :=
  if !x402Value.isUndefined && !x402Value.isBoolean then
    let fieldName := if hasCorrectCase then "x402Support" else "x402support"
    messages ++ [fieldName ++ ": Is not type of \"boolean\", got \"" ++ x402Value.typeof ++ "\""]
  else messages

/-- Source: `#validateX402`. -/
def validateX402 (parsed : JsVal) (messages : List String) : Except JsError (List String) := do
  let hasCorrectCase := !(← parsed.get "x402Support").isUndefined
  let hasLowerCase := !(← parsed.get "x402support").isUndefined
  let messages := checkX402Case hasCorrectCase hasLowerCase messages
  let x402Value ←
    if hasCorrectCase then parsed.get "x402Support"
    else if hasLowerCase then parsed.get "x402support"
    else pure .undefined
  let messages := checkX402Type hasCorrectCase x402Value messages
  pure messages

/-- The test `KNOWN_TRUST_TYPES.includes( trustValue )`. -/
def isKnownTrust (trustValue : JsVal) : Bool :=
  match trustValue with
  | .str s => KNOWN_TRUST_TYPES.contains s
  | _ => false

/-- The loop `parsed[ 'supportedTrust' ].forEach( ( trustValue, index ) => ... )`,
from position `index` on. -/
def validateTrustFrom : List JsVal → Nat → List String → List String
  | [], _, messages => messages
  | trustValue :: rest, index, messages =>
    let messages :=
      if !isKnownTrust trustValue then
        messages ++ ["supportedTrust[" ++ toString index ++ "]: Unknown value \""
          ++ trustValue.toStr ++ "\" (known: " ++ ", ".intercalate KNOWN_TRUST_TYPES ++ ")"]
      else messages
    validateTrustFrom rest (index + 1) messages

/-- The block on `parsed[ 'image' ]` in `#validateOptionalFields`. -/
def checkImage (rt : Host) (image : JsVal) (messages : List String) : List String :=
  if !image.isUndefined then
    if !image.isString then messages ++ ["image: Is not type of \"string\""]
    else
      let isValid := isValidUrl rt image
      if !isValid then messages ++ ["image: Is not a valid URL"] else messages
  else messages

/-- The block on `parsed[ 'active' ]` in `#validateOptionalFields`. -/
def checkActive (active : JsVal) (messages : List String) : List String :=
  if !active.isUndefined && !active.isBoolean then
    messages ++ ["active: Is not type of \"boolean\""]
  else messages

/-- The block on `parsed[ 'supportedTrust' ]` in `#validateOptionalFields`. -/
def checkSupportedTrust (supportedTrust : JsVal) (messages : List String) : List String :=
  if !supportedTrust.isUndefined then
    match supportedTrust with
    | .arr xs => validateTrustFrom xs 0 messages
    | _ => messages ++ ["supportedTrust: Is not type of \"array\""]
  else messages

/-- Source: `#validateOptionalFields`. -/
def validateOptionalFields (rt : Host) (parsed : JsVal) (messages : List String) :
    Except JsError (List String) := do
  let messages := checkImage rt (← parsed.get "image") messages
  let messages := checkActive (← parsed.get "active") messages
  let messages := checkSupportedTrust (← parsed.get "supportedTrust") messages
  pure messages

/-- The call `Object.keys( v )`. -/
def objectKeys (v : JsVal) : List String :=
  match v with
  | .obj kvs => kvs.map Prod.fst
  | _ => []

/-- The loop `Object.keys( parsed ).forEach( ( key ) => ... )` of
`#validateExtraFields`. -/
def validateKeys (allowedFields : List String) : List String → List String → List String
  | [], messages => messages
  | key :: rest, messages =>
    let messages :=
      if !allowedFields.contains key then
        messages ++ [key ++ ": Unknown field not defined in ERC-8004 spec"]
      else messages
    validateKeys allowedFields rest messages

/-- Source: `#validateExtraFields`. -/
def validateExtraFields (parsed : JsVal) (messages : List String) : List String :=
  let allowedFields := KNOWN_SPEC_FIELDS ++ ["x402support"]
  validateKeys allowedFields (objectKeys parsed) messages

/-- Source: `RegistrationValidator.validate`; the argument `uriType` is not
read by the source. -/
def validate (rt : Host) (json : JsVal) : Except JsError Validated :=
  let messages : List String := []
  match json with
  | .null => .ok ⟨false, ["json: Is null or undefined"]⟩
  | .undefined => .ok ⟨false, ["json: Is null or undefined"]⟩
  | .obj kvs => do
    let messages ← validateRequiredFields (.obj kvs) messages
    let messages ← validateServices rt (.obj kvs) messages
    let messages ← validateX402 (.obj kvs) messages
    let messages ← validateOptionalFields rt (.obj kvs) messages
    let messages := validateExtraFields (.obj kvs) messages
    let status := messages.length == 0
    pure ⟨status, messages⟩
  | _ => .ok ⟨false, ["json: Is not a valid object"]⟩

end RegistrationValidator

/-! ## MetadataExtractor.mjs -/

namespace MetadataExtractor

/-- The thirteen flags. -/
structure Categories where
  isEmpty : Bool
  isBase64 : Bool
  isHttp : Bool
  isIpfs : Bool
  isJson : Bool
  isGzip : Bool
  isUnknown : Bool
  isParseable : Bool
  isSpecCompliant : Bool
  isX402 : Bool
  isMcp : Bool
  isA2A : Bool
  isActive : Option Bool

/-- One element of `entries.services`. -/
structure Service where
  protocol : JsVal
  endpoint : JsVal

/-- The normalized fields; `none` in `agentId` and `ownerAddress` is `null`. -/
structure Entries where
  agentId : Option String
  ownerAddress : Option String
  uriAgentType : String
  name : JsVal
  description : JsVal
  x402Support : JsVal
  services : List Service
  mcpEndpoint : JsVal
  a2aEndpoint : JsVal
  image : JsVal
  active : JsVal
  supportedTrust : JsVal
  raw : JsVal

/-- The expression `id || null` on a string or `null`. -/
def orNull (id : Option String) : Option String :=
  match id with
  | some s => if s != "" then some s else none
  | none => none

/-- Source: `#detectX402`; returns `hasX402` and `x402Value`. -/
def detectX402 (decodedRegistrationFile : JsVal) : Except JsError (Bool × JsVal) := do
  let hasCorrectCase := !(← decodedRegistrationFile.get "x402Support").isUndefined
  let hasLowerCase := !(← decodedRegistrationFile.get "x402support").isUndefined
  if hasCorrectCase then
    let v ← decodedRegistrationFile.get "x402Support"
    pure (v.isTrue, v)
  else if hasLowerCase then
    let v ← decodedRegistrationFile.get "x402support"
    pure (v.isTrue, v)
  else
    pure (false, .bool false)

/-- The expression `( service[ 'type' ] || service[ 'name' ] || '' ).toLowerCase()`. -/
def protocolOf (service : JsVal) : Except JsError String := do
  let type ← service.get "type"
  let value ← if type.truthy then pure type else do
    let name ← service.get "name"
    pure (name.or (.str ""))
  value.toLowerCase

/-- The expression `service[ 'url' ] || service[ 'endpoint' ] || null`. -/
def endpointOf (service : JsVal) : Except JsError JsVal := do
  let url ← service.get "url"
  if url.truthy then pure url else do
    let endpoint ← service.get "endpoint"
    pure (endpoint.or .null)

/-- The loop of `#detectProtocols` over the services, on the pair
`( hasMcp, hasA2A )`. -/
def detectProtocolsLoop : List JsVal → Bool × Bool → Except JsError (Bool × Bool)
  | [], acc => .ok acc
  | service :: rest, (hasMcp, hasA2A) =>
    match protocolOf service with
    | .error e => .error e
    | .ok protocol =>
      let hasMcp := if protocol == "mcp" then true else hasMcp
      let hasA2A := if protocol == "a2a" then true else hasA2A
      detectProtocolsLoop rest (hasMcp, hasA2A)

/-- Source: `#detectProtocols`; returns `hasMcp` and `hasA2A`. -/
def detectProtocols (decodedRegistrationFile : JsVal) : Except JsError (Bool × Bool) := do
  let services ← decodedRegistrationFile.get "services"
  match services with
  | .arr [] => pure (false, false)
  | .arr xs => detectProtocolsLoop xs (false, false)
  | _ => pure (false, false)

/-- The callback of `some` in `#checkSpecCompliance`. -/
def serviceDeviates (service : JsVal) : Except JsError Bool := do
  let name ← service.get "name"
  let usesName ← if !name.isUndefined then do
      let type ← service.get "type"
      pure type.isUndefined
    else pure false
  let endpoint ← service.get "endpoint"
  let usesEndpoint ← if !endpoint.isUndefined then do
      let url ← service.get "url"
      pure url.isUndefined
    else pure false
  let result := usesName || usesEndpoint
  pure result

/-- The call `services.some( ... )`: it stops at the first entry for which the
callback is true. -/
def someDeviates : List JsVal → Except JsError Bool
  | [] => .ok false
  | service :: rest =>
    match serviceDeviates service with
    | .error e => .error e
    | .ok true => .ok true
    | .ok false => someDeviates rest

/-- Source: `#checkSpecCompliance`. -/
def checkSpecCompliance (decodedRegistrationFile : JsVal) : Except JsError Bool := do
  let type ← decodedRegistrationFile.get "type"
  if !type.eqStr SPEC_TYPE_VALUE then pure false
  else
    let name ← decodedRegistrationFile.get "name"
    if !name.truthy || !name.isString then pure false
    else
      let lower ← decodedRegistrationFile.get "x402support"
      let upper ← decodedRegistrationFile.get "x402Support"
      if !lower.isUndefined && upper.isUndefined then pure false
      else
        let services ← decodedRegistrationFile.get "services"
        match services with
        | .arr xs =>
          let hasDeviation ← someDeviates xs
          if hasDeviation then pure false else pure true
        | _ => pure true

/-- The value of `isActive`: `typeof activeValue === 'boolean' ? activeValue : null`. -/
def activeFlag (activeValue : JsVal) : Option Bool :=
  match activeValue with
  | .bool b => some b
  | _ => none

/-- Source: `#buildCategories`. -/
def buildCategories (decodedRegistrationFile : JsVal) (uriAgentType : String) :
    Except JsError Categories := do
  let (hasX402, _) ← detectX402 decodedRegistrationFile
  let (hasMcp, hasA2A) ← detectProtocols decodedRegistrationFile
  let isSpecCompliant ← checkSpecCompliance decodedRegistrationFile
  let active ← decodedRegistrationFile.get "active"
  let activeValue := if !active.isUndefined then active else .null
  pure {
    isEmpty := false
    isBase64 := uriAgentType == "base64"
    isHttp := uriAgentType == "http"
    isIpfs := uriAgentType == "ipfs"
    isJson := uriAgentType == "json"
    isGzip := uriAgentType == "gzip"
    isUnknown := uriAgentType == "unknown"
    isParseable := true
    isSpecCompliant := isSpecCompliant
    isX402 := hasX402
    isMcp := hasMcp
    isA2A := hasA2A
    isActive := activeFlag activeValue }

/-- Source: `#buildEmptyCategories`. -/
def buildEmptyCategories (uriAgentType : String) : Categories :=
  { isEmpty := uriAgentType == "empty"
    isBase64 := uriAgentType == "base64"
    isHttp := uriAgentType == "http"
    isIpfs := uriAgentType == "ipfs"
    isJson := uriAgentType == "json"
    isGzip := uriAgentType == "gzip"
    isUnknown := uriAgentType == "unknown"
    isParseable := false
    isSpecCompliant := false
    isX402 := false
    isMcp := false
    isA2A := false
    isActive := none }

/-- The loop of `#extractEndpoints` over the services, on the pair
`( mcpEndpoint, a2aEndpoint )`. -/
def extractEndpointsLoop : List JsVal → JsVal × JsVal → Except JsError (JsVal × JsVal)
  | [], acc => .ok acc
  | service :: rest, (mcpEndpoint, a2aEndpoint) =>
    match protocolOf service with
    | .error e => .error e
    | .ok protocol =>
      match endpointOf service with
      | .error e => .error e
      | .ok endpoint =>
        let mcpEndpoint :=
          if protocol == "mcp" && mcpEndpoint.isNull then endpoint else mcpEndpoint
        let a2aEndpoint :=
          if protocol == "a2a" && a2aEndpoint.isNull then endpoint else a2aEndpoint
        extractEndpointsLoop rest (mcpEndpoint, a2aEndpoint)

/-- Source: `#extractEndpoints`; returns `mcpEndpoint` and `a2aEndpoint`. -/
def extractEndpoints (decodedRegistrationFile : JsVal) : Except JsError (JsVal × JsVal) := do
  let services ← decodedRegistrationFile.get "services"
  match services with
  | .arr [] => pure (.null, .null)
  | .arr xs => extractEndpointsLoop xs (.null, .null)
  | _ => pure (.null, .null)

/-- The callback of `map` in `#extractServices`. -/
def extractService (service : JsVal) : Except JsError Service := do
  let type ← service.get "type"
  let protocol ← if type.truthy then pure type else do
    let name ← service.get "name"
    pure (name.or .null)
  let endpoint ← endpointOf service
  pure { protocol := protocol, endpoint := endpoint }

/-- The call `rawServices.map( ... )`. -/
def extractServicesMap : List JsVal → Except JsError (List Service)
  | [] => .ok []
  | service :: rest =>
    match extractService service with
    | .error e => .error e
    | .ok r =>
      match extractServicesMap rest with
      | .error e => .error e
      | .ok rs => .ok (r :: rs)

/-- Source: `#extractServices`. -/
def extractServices (decodedRegistrationFile : JsVal) : Except JsError (List Service) := do
  let rawServices ← decodedRegistrationFile.get "services"
  match rawServices with
  | .arr [] => pure []
  | .arr xs => extractServicesMap xs
  | _ => pure []

/-- Source: `#buildEntries`. -/
def buildEntries (rt : Host) (decodedRegistrationFile : JsVal) (uriAgentType : String)
    (agentId ownerAddress : Option String) : Except JsError Entries := do
  let (mcpEndpoint, a2aEndpoint) ← extractEndpoints decodedRegistrationFile
  let services ← extractServices decodedRegistrationFile
  let (hasX402, x402Value) ← detectX402 decodedRegistrationFile
  let name ← decodedRegistrationFile.get "name"
  let description ← decodedRegistrationFile.get "description"
  let image ← decodedRegistrationFile.get "image"
  let active ← decodedRegistrationFile.get "active"
  let supportedTrust ← decodedRegistrationFile.get "supportedTrust"
  pure {
    agentId := orNull agentId
    ownerAddress := orNull ownerAddress
    uriAgentType := uriAgentType
    name := name.or .null
    description := description.or .null
    x402Support := if hasX402 then x402Value else .bool false
    services := services
    mcpEndpoint := mcpEndpoint
    a2aEndpoint := a2aEndpoint
    image := image.or .null
    active := if !active.isUndefined then active else .null
    supportedTrust := supportedTrust.or .null
    raw := rt.jsonStringify decodedRegistrationFile }

/-- Source: `#buildEmptyEntries`. -/
def buildEmptyEntries (uriAgentType : String) (agentId ownerAddress : Option String) : Entries :=
  { agentId := orNull agentId
    ownerAddress := orNull ownerAddress
    uriAgentType := uriAgentType
    name := .null
    description := .null
    x402Support := .bool false
    services := []
    mcpEndpoint := .null
    a2aEndpoint := .null
    image := .null
    active := .null
    supportedTrust := .null
    raw := .null }

/-- Source: `MetadataExtractor.extract`. -/
def extract (rt : Host) (decodedRegistrationFile : JsVal) (uriAgentType : String)
    (agentId ownerAddress : Option String) : Except JsError (Categories × Entries) :=
  if decodedRegistrationFile.isNull || decodedRegistrationFile.isUndefined then
    let categories := buildEmptyCategories uriAgentType
    let entries := buildEmptyEntries uriAgentType agentId ownerAddress
    .ok (categories, entries)
  else do
    let categories ← buildCategories decodedRegistrationFile uriAgentType
    let entries ← buildEntries rt decodedRegistrationFile uriAgentType agentId ownerAddress
    pure (categories, entries)

end MetadataExtractor

/-! ## Validation.mjs -/

/-- The record `{ status, messages }` of a protocol validator. -/
structure ValidatorResult where
  status : Bool
  messages : List String

/-- The capability `Validator.validate( { endpoint } )`; it may raise. -/
structure Validator where
  validate : JsVal → Except JsError ValidatorResult

/-- The argument `additionalValidators`: absent, `null`, a value that is not
a plain object (a primitive, a function or an array), or a mapping with
the optional keys `mcp` and `a2a`. -/
inductive ValidatorsArg where
  | undefined
  | null
  | notObject
  | mapping (mcp a2a : Option Validator)

namespace Validation

/-- The record `{ status, messages }`. -/
structure Checked where
  status : Bool
  messages : List String

/-- The test `typeof v !== 'object' || Array.isArray( v )`. -/
def notPlainObject (v : JsVal) : Bool := v.typeof != "object" || v.isArray

/-- The check of `additionalValidators`, shared by two entry points. -/
def checkValidators (additionalValidators : ValidatorsArg) (messages : List String) :
    List String :=
  match additionalValidators with
  | .notObject => messages ++ ["additionalValidators: Must be an object"]
  | _ => messages

/-- The check that a value is `undefined`, `null` or a string. -/
def checkStringOrNull (v : JsVal) (label : String) (messages : List String) : List String :=
  if !v.isUndefined && !v.isNull && !v.isString then
    messages ++ [label ++ ": Must be a string or null"]
  else messages

/-- The check of a required string-or-null argument. -/
def checkRequiredString (v : JsVal) (label : String) (messages : List String) : List String :=
  if v.isUndefined then messages ++ [label ++ ": Missing value"]
  else if !v.isNull && !v.isString then messages ++ [label ++ ": Must be a string or null"]
  else messages

/-- The end of every validation function: status is true without messages. -/
def finish (messages : List String) : Checked :=
  if messages.length > 0 then ⟨false, messages⟩ else ⟨true, messages⟩

/-- Source: `Validation.validationStart`. -/
def validationStart (eventLog : JsVal) (additionalValidators : ValidatorsArg) : Checked :=
  let messages : List String := []
  let messages :=
    if eventLog.isUndefined then messages ++ ["eventLog: Missing value"]
    else if eventLog.isNull || notPlainObject eventLog then
      messages ++ ["eventLog: Must be an object"]
    else messages
  let messages := checkValidators additionalValidators messages
  finish messages

/-- Source: `Validation.validationValidateFromUri`. -/
def validationValidateFromUri (agentUri agentId ownerAddress : JsVal)
    (additionalValidators : ValidatorsArg) : Checked :=
  let messages : List String := []
  let messages := checkRequiredString agentUri "agentUri" messages
  let messages := checkStringOrNull agentId "agentId" messages
  let messages := checkStringOrNull ownerAddress "ownerAddress" messages
  let messages := checkValidators additionalValidators messages
  finish messages

/-- Source: `Validation.validationClassifyUri`. -/
def validationClassifyUri (decodedAgentUri : JsVal) : Checked :=
  let messages : List String := []
  let messages := checkRequiredString decodedAgentUri "decodedAgentUri" messages
  finish messages

/-- Source: `Validation.validationDecodeUri`. -/
def validationDecodeUri (decodedAgentUri uriAgentType : JsVal) : Checked :=
  let messages : List String := []
  let messages := checkRequiredString decodedAgentUri "decodedAgentUri" messages
  let messages := checkStringOrNull uriAgentType "uriAgentType" messages
  finish messages

/-- Source: `Validation.error`: raises with the messages joined by a comma. -/
def error (messages : List String) : JsError := .error (", ".intercalate messages)

end Validation

/-! ## Erc8004RegistryParser.mjs -/

namespace Erc8004RegistryParser

open MetadataExtractor (Categories Entries)

/-- The record `{ status, messages, categories, entries }`. -/
structure Result where
  status : Bool
  messages : List String
  categories : Categories
  entries : Entries

/-- The record `{ messages, categories, entries }` of `#runPipeline`. -/
structure PipelineResult where
  messages : List String
  categories : Categories
  entries : Entries

/-- The record `{ uriAgentType, categories }` of `classifyUri`. -/
structure Classified where
  uriAgentType : String
  categories : Categories

/-- A string-or-null argument as a value. -/
def uriValue (uri : Option String) : JsVal :=
  match uri with
  | some s => .str s
  | none => .null

/-- A validated string-or-null argument (`undefined` takes the default `null`). -/
def stringOrNull (v : JsVal) : Option String :=
  match v with
  | .str s => some s
  | _ => none

/-- The default `additionalValidators = {}` of an absent argument. -/
def withDefault (additionalValidators : ValidatorsArg) : ValidatorsArg :=
  match additionalValidators with
  | .undefined => .mapping none none
  | v => v

/-- Source: `#buildResult`. -/
def buildResult (messages : List String) (categories : Categories) (entries : Entries) : Result :=
  { status := messages.length == 0
    messages := messages
    categories := categories
    entries := entries }

/-- One protocol branch of the callback in `#runValidators`: the validator is
called when the protocol matches and the mapping has the key; the messages of a
failed validation are appended with their label. -/
def runValidator (validator : Option Validator) (applies : Bool) (label : String)
    (endpoint : JsVal) (index : Nat) (validatorMessages : List String) :
    Except JsError (List String) :=
  match applies, validator with
  | true, some v =>
    match v.validate endpoint with
    | .error e => .error e
    | .ok r =>
      if !r.status then
        .ok (validatorMessages ++ r.messages.map
          (fun msg => "services[" ++ toString index ++ "].url (" ++ label ++ "): " ++ msg))
      else .ok validatorMessages
  | _, _ => .ok validatorMessages

/-- The loop `services.forEach( ( service, index ) => ... )` of
`#runValidators`, from position `index` on. -/
def runValidatorsFrom (mcp a2a : Option Validator) :
    List JsVal → Nat → List String → Except JsError (List String)
  | [], _, validatorMessages => .ok validatorMessages
  | service :: rest, index, validatorMessages =>
    match MetadataExtractor.protocolOf service with
    | .error e => .error e
    | .ok protocol =>
      match MetadataExtractor.endpointOf service with
      | .error e => .error e
      | .ok endpoint =>
        if endpoint.isNull then runValidatorsFrom mcp a2a rest (index + 1) validatorMessages
        else
          match runValidator mcp (protocol == "mcp") "MCP" endpoint index validatorMessages with
          | .error e => .error e
          | .ok validatorMessages =>
            match runValidator a2a (protocol == "a2a") "A2A" endpoint index validatorMessages with
            | .error e => .error e
            | .ok validatorMessages =>
              runValidatorsFrom mcp a2a rest (index + 1) validatorMessages

/-- Source: `#runValidators`. -/
def runValidators (additionalValidators : ValidatorsArg) (decodedRegistrationFile : JsVal) :
    Except JsError (List String) :=
  let validatorMessages : List String := []
  match additionalValidators with
  | .mapping mcp a2a => do
    let services ← decodedRegistrationFile.get "services"
    match services with
    | .arr [] => pure validatorMessages
    | .arr xs => runValidatorsFrom mcp a2a xs 0 validatorMessages
    | _ => pure validatorMessages
  | _ => .ok validatorMessages

/-- Source: `#runPipeline`. -/
def runPipeline (rt : Host) (decodedAgentUri agentId ownerAddress : Option String)
    (additionalValidators : ValidatorsArg) : Except JsError PipelineResult := do
  let messages : List String := []
  let uriAgentType := UriClassifier.classify (uriValue decodedAgentUri)
  let decoded ← UriDecoder.decode rt decodedAgentUri uriAgentType
  let messages := messages ++ decoded.messages
  if !decoded.status || decoded.decodedRegistrationFile.isNull then
    let (categories, entries) ←
      MetadataExtractor.extract rt .null uriAgentType agentId ownerAddress
    pure ⟨messages, categories, entries⟩
  else
    let validated ← RegistrationValidator.validate rt decoded.decodedRegistrationFile
    let messages := messages ++ validated.messages
    let (categories, entries) ←
      MetadataExtractor.extract rt decoded.decodedRegistrationFile uriAgentType agentId
        ownerAddress
    let validatorMessages ← runValidators additionalValidators decoded.decodedRegistrationFile
    let messages := messages ++ validatorMessages
    pure ⟨messages, categories, entries⟩

/-- Source: `Erc8004RegistryParser.start`. -/
def start (rt : Host) (eventLog : JsVal) (additionalValidators : ValidatorsArg) :
    Except JsError Result := do
  let additionalValidators := withDefault additionalValidators
  let checked := Validation.validationStart eventLog additionalValidators
  if !checked.status then throw (Validation.error checked.messages)
  let allMessages : List String := []
  let decoded ← EventDecoder.decode rt eventLog
  let allMessages := allMessages ++ decoded.messages
  if !decoded.status || decoded.decodedAgentUri.isNone then
    let (categories, _) ←
      MetadataExtractor.extract rt .null "empty" decoded.agentId decoded.ownerAddress
    let (_, entries) ←
      MetadataExtractor.extract rt .null "empty" decoded.agentId decoded.ownerAddress
    pure (buildResult allMessages categories entries)
  else
    let pipelineResult ←
      runPipeline rt decoded.decodedAgentUri decoded.agentId decoded.ownerAddress
        additionalValidators
    let allMessages := allMessages ++ pipelineResult.messages
    pure {
      status := allMessages.length == 0
      messages := allMessages
      categories := pipelineResult.categories
      entries := pipelineResult.entries }

/-- Source: `Erc8004RegistryParser.validateFromUri`. -/
def validateFromUri (rt : Host) (agentUri agentId ownerAddress : JsVal)
    (additionalValidators : ValidatorsArg) : Except JsError Result := do
  let additionalValidators := withDefault additionalValidators
  let checked :=
    Validation.validationValidateFromUri agentUri agentId ownerAddress additionalValidators
  if !checked.status then throw (Validation.error checked.messages)
  let pipelineResult ←
    runPipeline rt (stringOrNull agentUri) (stringOrNull agentId) (stringOrNull ownerAddress)
      additionalValidators
  pure {
    status := pipelineResult.messages.length == 0
    messages := pipelineResult.messages
    categories := pipelineResult.categories
    entries := pipelineResult.entries }

/-- Source: `Erc8004RegistryParser.classifyUri`. -/
def classifyUri (rt : Host) (decodedAgentUri : JsVal) : Except JsError Classified := do
  let checked := Validation.validationClassifyUri decodedAgentUri
  if !checked.status then throw (Validation.error checked.messages)
  let uriAgentType := UriClassifier.classify decodedAgentUri
  let (categories, _) ← MetadataExtractor.extract rt .null uriAgentType none none
  pure ⟨uriAgentType, categories⟩

/-- Source: `Erc8004RegistryParser.decodeUri`. -/
def decodeUri (rt : Host) (decodedAgentUri uriAgentType : JsVal) :
    Except JsError UriDecoder.Decoded := do
  let checked := Validation.validationDecodeUri decodedAgentUri uriAgentType
  if !checked.status then throw (Validation.error checked.messages)
  let resolvedUriAgentType :=
    match uriAgentType with
    | .str t => if t != "" then t else UriClassifier.classify decodedAgentUri
    | _ => UriClassifier.classify decodedAgentUri
  UriDecoder.decode rt (stringOrNull decodedAgentUri) resolvedUriAgentType

/-- Source: `Erc8004RegistryParser.decodeEventLog`. -/
def decodeEventLog (rt : Host) (eventLog : JsVal) : Except JsError EventDecoder.Decoded := do
  let checked := Validation.validationStart eventLog .undefined
  if !checked.status then throw (Validation.error checked.messages)
  EventDecoder.decode rt eventLog

/-- Source: `Erc8004RegistryParser.categorizeRegistration`. -/
def categorizeRegistration (rt : Host) (decodedRegistrationFile : JsVal) :
    Except JsError (Categories × Entries) :=
  MetadataExtractor.extract rt decodedRegistrationFile "base64" none none

end Erc8004RegistryParser

/-! ## Keccak-256

The hash function behind the checksum of `getAddress`: the sponge over the
permutation Keccak-f[1600] with rate 136 octets and the padding `0x01 .. 0x80`.
A state is the list of its 25 lanes, lane `(x, y)` at position `x + 5 * y`,
every lane a number below `2 ^ 64`. -/

namespace Keccak

/-- The largest lane, `2 ^ 64 - 1`. -/
def mask64 : Nat := 18446744073709551615

/-- Rotation of a lane to the left by `n < 64` bits. -/
def rotl (x n : Nat) : Nat := ((x <<< n) ||| (x >>> (64 - n))) &&& mask64

/-- The round constants. -/
def roundConstants : List Nat :=
  [0x0000000000000001, 0x0000000000008082, 0x800000000000808A, 0x8000000080008000,
   0x000000000000808B, 0x0000000080000001, 0x8000000080008081, 0x8000000000008009,
   0x000000000000008A, 0x0000000000000088, 0x0000000080008009, 0x000000008000000A,
   0x000000008000808B, 0x800000000000008B, 0x8000000000008089, 0x8000000000008003,
   0x8000000000008002, 0x8000000000000080, 0x000000000000800A, 0x800000008000000A,
   0x8000000080008081, 0x8000000000008080, 0x0000000080000001, 0x8000000080008008]

/-- The rotation offsets, by position of the lane. -/
def rotations : List Nat :=
  [0, 1, 62, 28, 27, 36, 44, 6, 55, 20, 3, 10, 43, 25, 39, 41, 45, 15, 21, 8, 18, 2, 61, 56, 14]

/-- The lane `(x, y)`, coordinates modulo 5. -/
def lane (st : List Nat) (x y : Nat) : Nat := st.getD (x % 5 + 5 * (y % 5)) 0

/-- The step theta. -/
def theta (st : List Nat) : List Nat :=
  let c := (List.range 5).map
    (fun x => lane st x 0 ^^^ lane st x 1 ^^^ lane st x 2 ^^^ lane st x 3 ^^^ lane st x 4)
  let d := (List.range 5).map
    (fun x => c.getD ((x + 4) % 5) 0 ^^^ rotl (c.getD ((x + 1) % 5) 0) 1)
  (List.range 25).map (fun i => st.getD i 0 ^^^ d.getD (i % 5) 0)

/-- The steps rho and pi: the lane at `(x, y)` comes rotated from the lane at
`(x + 3 * y, x)`. -/
def rhoPi (st : List Nat) : List Nat :=
  (List.range 25).map (fun i =>
    let x := (i % 5 + 3 * (i / 5)) % 5
    let y := i % 5
    rotl (lane st x y) (rotations.getD (x + 5 * y) 0))

/-- The step chi. -/
def chi (st : List Nat) : List Nat :=
  (List.range 25).map (fun i =>
    lane st (i % 5) (i / 5) ^^^
      ((mask64 ^^^ lane st (i % 5 + 1) (i / 5)) &&& lane st (i % 5 + 2) (i / 5)))

/-- The step iota. -/
def iota (rc : Nat) (st : List Nat) : List Nat :=
  match st with
  | a :: rest => (a ^^^ rc) :: rest
  | [] => []

/-- One round. -/
def round (st : List Nat) (rc : Nat) : List Nat := iota rc (chi (rhoPi (theta st)))

/-- The permutation Keccak-f[1600]. -/
def permute (st : List Nat) : List Nat := roundConstants.foldl round st

/-- The little-endian value of an octet sequence. -/
def leNat : List Nat → Nat
  | [] => 0
  | b :: rest => b % 256 + 256 * leNat rest

/-- The first `n` lanes of an octet sequence. -/
def lanesOf : Nat → List Nat → List Nat
  | 0, _ => []
  | n + 1, bs => leNat (bs.take 8) :: lanesOf n (bs.drop 8)

/-- Absorption of one block of 136 octets. -/
def absorb (st block : List Nat) : List Nat :=
  permute ((List.range 25).map (fun i => st.getD i 0 ^^^ (lanesOf 17 block).getD i 0))

/-- The padding to a multiple of 136 octets. -/
def pad (bs : List Nat) : List Nat :=
  let k := 135 - bs.length % 136
  if k = 0 then bs ++ [0x81] else bs ++ [0x01] ++ List.replicate (k - 1) 0 ++ [0x80]

/-- Absorption of `n` blocks. -/
def absorbAll : Nat → List Nat → List Nat → List Nat
  | 0, st, _ => st
  | n + 1, st, bs => absorbAll n (absorb st (bs.take 136)) (bs.drop 136)

/-- The `n` little-endian octets of a lane. -/
def leBytes : Nat → Nat → List Nat
  | 0, _ => []
  | n + 1, v => v % 256 :: leBytes n (v / 256)

/-- The 32 octets of the Keccak-256 hash of an octet sequence. -/
def keccak256 (bs : List Nat) : List Nat :=
  let padded := pad bs
  let st := absorbAll (padded.length / 136) (List.replicate 25 0) padded
  (st.take 4).flatMap (leBytes 8)

end Keccak

/-! ## A concrete host

`refHost` implements the platform functions in Lean, so that the embedding can
be evaluated on concrete inputs: standard padded base64 with the lenient
decoder of `Buffer`, UTF-8, and JSON restricted to integer numbers, with the
properties of a parsed object in the order of their first occurrence.  Two
fields are simplified: `gunzipSync` always raises (an environment without
gzip support) and `isUrl` only looks for a scheme.  `getAddress` applies the
EIP-55 checksum with the Keccak-256 of the section before. -/

namespace RefHost

/-- The base64 alphabet. -/
def alphabet : List Char :=
  "ABCDEFGHIJKLMNOPQRSTUVWXYZabcdefghijklmnopqrstuvwxyz0123456789+/".data

/-- The character of a sextet. -/
def sextetChar (n : Nat) : Char := alphabet.getD (n % 64) 'A'

/-- The sextet of a character; `Buffer` also reads the URL-safe `-` and `_`. -/
def charSextet (c : Char) : Option Nat :=
  if 'A' ≤ c && c ≤ 'Z' then some (c.toNat - 65)
  else if 'a' ≤ c && c ≤ 'z' then some (c.toNat - 97 + 26)
  else if '0' ≤ c && c ≤ '9' then some (c.toNat - 48 + 52)
  else if c == '+' || c == '-' then some 62
  else if c == '/' || c == '_' then some 63
  else none

/-- Standard padded base64 of an octet sequence. -/
def base64Encode : Bytes → String
  | [] => ""
  | [a] =>
    ⟨[sextetChar (a % 256 / 4), sextetChar (a % 4 * 16), '=', '=']⟩
  | [a, b] =>
    ⟨[sextetChar (a % 256 / 4), sextetChar (a % 4 * 16 + b % 256 / 16),
      sextetChar (b % 16 * 4), '=']⟩
  | a :: b :: c :: rest =>
    ⟨[sextetChar (a % 256 / 4), sextetChar (a % 4 * 16 + b % 256 / 16),
      sextetChar (b % 16 * 4 + c % 256 / 64), sextetChar (c % 64)]⟩ ++ base64Encode rest

/-- The sextets of a base64 text: characters outside the alphabet are skipped
and the first `=` ends the text. -/
def sextets : List Char → List Nat
  | [] => []
  | c :: rest =>
    if c == '=' then []
    else
      match charSextet c with
      | some n => n :: sextets rest
      | none => sextets rest

/-- Octets of a sextet sequence; a single left-over sextet is dropped. -/
def octets : List Nat → Bytes
  | a :: b :: c :: d :: rest =>
    (a * 4 + b / 16) :: (b % 16 * 16 + c / 4) :: (c % 4 * 64 + d) :: octets rest
  | [a, b, c] => [a * 4 + b / 16, b % 16 * 16 + c / 4]
  | [a, b] => [a * 4 + b / 16]
  | _ => []

/-- The lenient decoder of `Buffer.from( s, 'base64' )`; it never raises. -/
def base64Decode (s : String) : Option Bytes := some (octets (sextets s.data))

/-- UTF-8 octets of one character. -/
def utf8Char (c : Char) : Bytes :=
  let n := c.toNat
  if n < 0x80 then [n]
  else if n < 0x800 then [0xC0 + n / 64, 0x80 + n % 64]
  else if n < 0x10000 then [0xE0 + n / 4096, 0x80 + n / 64 % 64, 0x80 + n % 64]
  else [0xF0 + n / 262144, 0x80 + n / 4096 % 64, 0x80 + n / 64 % 64, 0x80 + n % 64]

/-- UTF-8 octets of a string. -/
def utf8Encode (s : String) : Bytes := s.data.flatMap utf8Char

/-- The test for a continuation octet. -/
def isCont (b : Nat) : Bool := 0x80 ≤ b && b < 0xC0

/-- UTF-8 decoding with the replacement character for every octet that does
not start a well-formed sequence. -/
def utf8DecodeChars : Bytes → List Char
  | [] => []
  | a :: rest =>
    if a < 0x80 then Char.ofNat a :: utf8DecodeChars rest
    else
      match rest with
      | b :: c :: d :: rest3 =>
        if 0xC2 ≤ a && a < 0xE0 && isCont b then
          Char.ofNat ((a - 0xC0) * 64 + (b - 0x80)) :: utf8DecodeChars (c :: d :: rest3)
        else if 0xE0 ≤ a && a < 0xF0 && isCont b && isCont c
            && 0x800 ≤ (a - 0xE0) * 4096 + (b - 0x80) * 64 + (c - 0x80)
            && !(0xD800 ≤ (a - 0xE0) * 4096 + (b - 0x80) * 64 + (c - 0x80)
              && (a - 0xE0) * 4096 + (b - 0x80) * 64 + (c - 0x80) < 0xE000) then
          Char.ofNat ((a - 0xE0) * 4096 + (b - 0x80) * 64 + (c - 0x80))
            :: utf8DecodeChars (d :: rest3)
        else if 0xF0 ≤ a && a < 0xF5 && isCont b && isCont c && isCont d
            && 0x10000 ≤ (a - 0xF0) * 262144 + (b - 0x80) * 4096 + (c - 0x80) * 64 + (d - 0x80)
            && (a - 0xF0) * 262144 + (b - 0x80) * 4096 + (c - 0x80) * 64 + (d - 0x80) < 0x110000
        then
          Char.ofNat ((a - 0xF0) * 262144 + (b - 0x80) * 4096 + (c - 0x80) * 64 + (d - 0x80))
            :: utf8DecodeChars rest3
        else Char.ofNat 0xFFFD :: utf8DecodeChars (b :: c :: d :: rest3)
      | [b, c] =>
        if 0xC2 ≤ a && a < 0xE0 && isCont b then
          Char.ofNat ((a - 0xC0) * 64 + (b - 0x80)) :: utf8DecodeChars [c]
        else if 0xE0 ≤ a && a < 0xF0 && isCont b && isCont c
            && 0x800 ≤ (a - 0xE0) * 4096 + (b - 0x80) * 64 + (c - 0x80)
            && !(0xD800 ≤ (a - 0xE0) * 4096 + (b - 0x80) * 64 + (c - 0x80)
              && (a - 0xE0) * 4096 + (b - 0x80) * 64 + (c - 0x80) < 0xE000) then
          [Char.ofNat ((a - 0xE0) * 4096 + (b - 0x80) * 64 + (c - 0x80))]
        else Char.ofNat 0xFFFD :: utf8DecodeChars [b, c]
      | [b] =>
        if 0xC2 ≤ a && a < 0xE0 && isCont b then
          [Char.ofNat ((a - 0xC0) * 64 + (b - 0x80))]
        else Char.ofNat 0xFFFD :: utf8DecodeChars [b]
      | [] => [Char.ofNat 0xFFFD]

/-- The decoder of `buffer.toString( 'utf-8' )`. -/
def utf8Decode (bs : Bytes) : String := ⟨utf8DecodeChars (bs.map (· % 256))⟩

/-- A lower-case hexadecimal digit. -/
def hexDigit (n : Nat) : Char := "0123456789abcdef".data.getD (n % 16) '0'

/-- The escape sequence of one character inside a JSON string. -/
def escapeChar (c : Char) : List Char :=
  if c.toNat == 0x22 then [Char.ofNat 0x5C, Char.ofNat 0x22]
  else if c.toNat == 0x5C then [Char.ofNat 0x5C, Char.ofNat 0x5C]
  else if c.toNat == 0x08 then [Char.ofNat 0x5C, 'b']
  else if c.toNat == 0x0C then [Char.ofNat 0x5C, 'f']
  else if c.toNat == 0x0A then [Char.ofNat 0x5C, 'n']
  else if c.toNat == 0x0D then [Char.ofNat 0x5C, 'r']
  else if c.toNat == 0x09 then [Char.ofNat 0x5C, 't']
  else if c.toNat < 0x20 then
    [Char.ofNat 0x5C, 'u', '0', '0', hexDigit (c.toNat / 16), hexDigit c.toNat]
  else [c]

/-- A quoted JSON string. -/
def quote (s : String) : String :=
  ⟨Char.ofNat 0x22 :: (s.data.flatMap escapeChar ++ [Char.ofNat 0x22])⟩

mutual
/-- The text of `JSON.stringify( v )`; `none` is `undefined`. -/
def stringify : JsVal → Option String
  | .undefined => none
  | .null => some "null"
  | .bool b => some (if b then "true" else "false")
  | .num n => some (toString n)
  | .str s => some (quote s)
  | .arr xs => some ("[" ++ ",".intercalate (stringifyElems xs) ++ "]")
  | .obj kvs => some ("\x7b" ++ ",".intercalate (stringifyMembers kvs) ++ "\x7d")
/-- The texts of the elements of an array: `undefined` prints as `null`. -/
def stringifyElems : List JsVal → List String
  | [] => []
  | x :: rest => (stringify x).getD "null" :: stringifyElems rest
/-- The texts of the members of an object: `undefined` values are left out. -/
def stringifyMembers : List (String × JsVal) → List String
  | [] => []
  | (k, x) :: rest =>
    match stringify x with
    | some t => (quote k ++ ":" ++ t) :: stringifyMembers rest
    | none => stringifyMembers rest
end

/-- Source: `JSON.stringify( v )` as a value. -/
def jsonStringify (v : JsVal) : JsVal :=
  match stringify v with
  | some t => .str t
  | none => .undefined

/-- Skip JSON whitespace. -/
def skipWs : List Char → List Char
  | [] => []
  | c :: cs =>
    if c == ' ' || c.toNat == 0x09 || c.toNat == 0x0A || c.toNat == 0x0D then skipWs cs
    else c :: cs

/-- The value of a hexadecimal digit. -/
def hexVal (c : Char) : Option Nat :=
  if '0' ≤ c && c ≤ '9' then some (c.toNat - 48)
  else if 'a' ≤ c && c ≤ 'f' then some (c.toNat - 87)
  else if 'A' ≤ c && c ≤ 'F' then some (c.toNat - 55)
  else none

/-- The value of four hexadecimal digits. -/
def hex4 (a b c d : Char) : Option Nat := do
  let x ← hexVal a
  let y ← hexVal b
  let z ← hexVal c
  let w ← hexVal d
  pure (x * 4096 + y * 256 + z * 16 + w)

/-- The rest of a JSON string after its opening quote: the characters read so
far, then the input.  Escapes of surrogate halves are not supported. -/
def parseString (acc : List Char) : List Char → Option (String × List Char)
  | [] => none
  | c :: rest =>
    if c.toNat == 0x22 then some (⟨acc⟩, rest)
    else if c.toNat == 0x5C then
      match rest with
      | 'u' :: x :: y :: z :: w :: rest2 =>
        match hex4 x y z w with
        | some n =>
          if 0xD800 ≤ n && n < 0xE000 then none
          else parseString (acc ++ [Char.ofNat n]) rest2
        | none => none
      | e :: rest2 =>
        if e.toNat == 0x22 || e.toNat == 0x5C || e == '/' then parseString (acc ++ [e]) rest2
        else if e == 'b' then parseString (acc ++ [Char.ofNat 0x08]) rest2
        else if e == 'f' then parseString (acc ++ [Char.ofNat 0x0C]) rest2
        else if e == 'n' then parseString (acc ++ [Char.ofNat 0x0A]) rest2
        else if e == 'r' then parseString (acc ++ [Char.ofNat 0x0D]) rest2
        else if e == 't' then parseString (acc ++ [Char.ofNat 0x09]) rest2
        else none
      | [] => none
    else if c.toNat < 0x20 then none
    else parseString (acc ++ [c]) rest

/-- Decimal digits at the front of the input, as a number, and the rest. -/
def parseDigits (acc : Nat) : List Char → Nat × List Char
  | [] => (acc, [])
  | c :: rest =>
    if '0' ≤ c && c ≤ '9' then parseDigits (acc * 10 + (c.toNat - 48)) rest
    else (acc, c :: rest)

/-- A JSON integer without sign: no leading zero, no fraction, no exponent. -/
def parseNat (cs : List Char) : Option (Nat × List Char) :=
  match cs with
  | c :: rest =>
    if c == '0' then
      match rest with
      | d :: _ =>
        if ('0' ≤ d && d ≤ '9') || d == '.' || d == 'e' || d == 'E' then none else some (0, rest)
      | [] => some (0, rest)
    else if '1' ≤ c && c ≤ '9' then
      match parseDigits 0 (c :: rest) with
      | (n, d :: rest2) => if d == '.' || d == 'e' || d == 'E' then none else some (n, d :: rest2)
      | (n, []) => some (n, [])
    else none
  | [] => none

/-- Define a property of an object under construction: a repeated key keeps
its place and takes the new value. -/
def setKey (kvs : List (String × JsVal)) (k : String) (v : JsVal) : List (String × JsVal) :=
  if kvs.any (fun p => p.1 == k) then kvs.map (fun p => if p.1 == k then (k, v) else p)
  else kvs ++ [(k, v)]

mutual
/-- A JSON value at the front of the input, with fuel for the recursion. -/
def parseValue : Nat → List Char → Option (JsVal × List Char)
  | 0, _ => none
  | fuel + 1, cs =>
    match skipWs cs with
    | [] => none
    | c :: rest =>
      if c.toNat == 0x7B then
        match skipWs rest with
        | d :: rest2 =>
          if d.toNat == 0x7D then some (.obj [], rest2) else parseMembers fuel [] (d :: rest2)
        | [] => none
      else if c == '[' then
        match skipWs rest with
        | d :: rest2 =>
          if d == ']' then some (.arr [], rest2) else parseElems fuel [] (d :: rest2)
        | [] => none
      else if c.toNat == 0x22 then
        match parseString [] rest with
        | some (s, rest2) => some (.str s, rest2)
        | none => none
      else if c == '-' then
        match parseNat rest with
        | some (n, rest2) => some (.num (-(n : Int)), rest2)
        | none => none
      else
        match c :: rest with
        | 't' :: 'r' :: 'u' :: 'e' :: rest2 => some (.bool true, rest2)
        | 'f' :: 'a' :: 'l' :: 's' :: 'e' :: rest2 => some (.bool false, rest2)
        | 'n' :: 'u' :: 'l' :: 'l' :: rest2 => some (.null, rest2)
        | other =>
          match parseNat other with
          | some (n, rest2) => some (.num (n : Int), rest2)
          | none => none
/-- The elements of an array after `[`, up to and including `]`. -/
def parseElems : Nat → List JsVal → List Char → Option (JsVal × List Char)
  | 0, _, _ => none
  | fuel + 1, acc, cs =>
    match parseValue fuel cs with
    | some (v, rest) =>
      match skipWs rest with
      | d :: rest2 =>
        if d == ',' then parseElems fuel (acc ++ [v]) rest2
        else if d == ']' then some (.arr (acc ++ [v]), rest2)
        else none
      | [] => none
    | none => none
/-- The members of an object after the opening brace, up to and including the
closing brace. -/
def parseMembers : Nat → List (String × JsVal) → List Char → Option (JsVal × List Char)
  | 0, _, _ => none
  | fuel + 1, acc, cs =>
    match skipWs cs with
    | q :: rest =>
      if q.toNat == 0x22 then
        match parseString [] rest with
        | some (k, rest2) =>
          match skipWs rest2 with
          | colon :: rest3 =>
            if colon == ':' then
              match parseValue fuel rest3 with
              | some (v, rest4) =>
                match skipWs rest4 with
                | d :: rest5 =>
                  if d == ',' then parseMembers fuel (setKey acc k v) rest5
                  else if d.toNat == 0x7D then some (.obj (setKey acc k v), rest5)
                  else none
                | [] => none
              | none => none
            else none
          | [] => none
        | none => none
      else none
    | [] => none
end

/-- Source: `JSON.parse( s )`, for JSON texts whose numbers are integers. -/
def jsonParse (s : String) : Option JsVal :=
  match parseValue (2 * s.length + 2) s.data with
  | some (v, rest) => if (skipWs rest).isEmpty then some v else none
  | none => none

/-- A simplified test for `new URL( s )`: the text has a scheme, and after the
scheme of a special URL there is a host. -/
def isUrl (s : String) : Bool :=
  let cs := s.data.dropWhile (fun c => c.toNat ≤ 0x20)
  match cs with
  | [] => false
  | c :: _ =>
    let scheme := cs.takeWhile (fun c => c.isAlphanum || c == '+' || c == '-' || c == '.')
    let rest := cs.drop scheme.length
    let name : String := toLowerCase ⟨scheme⟩
    c.isAlpha && rest.head? == some ':' &&
      (if ["http", "https", "ws", "wss", "ftp"].contains name then
        !((rest.drop 1).dropWhile (fun c => c == '/' || c.toNat == 0x5C)).isEmpty
      else true)

/-- The value of a sequence of hexadecimal digits. -/
def hexNat (acc : Nat) : List Char → Option Nat
  | [] => some acc
  | c :: rest =>
    match hexVal c with
    | some d => hexNat (acc * 16 + d) rest
    | none => none

/-- The value of a sequence of decimal digits. -/
def decNat (acc : Nat) : List Char → Option Nat
  | [] => some acc
  | c :: rest => if '0' ≤ c && c ≤ '9' then decNat (acc * 10 + (c.toNat - 48)) rest else none

/-- The value of a sequence of digits below `base`, for the bases 2 and 8. -/
def baseNat (base : Nat) (acc : Nat) : List Char → Option Nat
  | [] => some acc
  | c :: rest =>
    if '0' ≤ c && c.toNat < 48 + base then baseNat base (acc * base + (c.toNat - 48)) rest
    else none

/-- The integer denoted by a string for `BigInt` (`StringToBigInt`): the text
is trimmed; it is hexadecimal with `0x`, octal with `0o`, binary with `0b`, or
decimal with an optional sign; the empty string is zero. -/
def parseBigInt (s : String) : Option Int :=
  match (jsTrim s).data with
  | [] => some 0
  | '0' :: 'x' :: d :: rest => (hexNat 0 (d :: rest)).map Int.ofNat
  | '0' :: 'X' :: d :: rest => (hexNat 0 (d :: rest)).map Int.ofNat
  | '0' :: 'o' :: d :: rest => (baseNat 8 0 (d :: rest)).map Int.ofNat
  | '0' :: 'O' :: d :: rest => (baseNat 8 0 (d :: rest)).map Int.ofNat
  | '0' :: 'b' :: d :: rest => (baseNat 2 0 (d :: rest)).map Int.ofNat
  | '0' :: 'B' :: d :: rest => (baseNat 2 0 (d :: rest)).map Int.ofNat
  | '-' :: d :: rest => (decNat 0 (d :: rest)).map (fun n => -(n : Int))
  | '+' :: d :: rest => (decNat 0 (d :: rest)).map Int.ofNat
  | cs => (decNat 0 cs).map Int.ofNat

/-- Source: `BigInt( topic ).toString()`. -/
def bigIntToString (topic : JsVal) : Option String :=
  match topic with
  | .undefined => none
  | .null => none
  | .bool b => some (if b then "1" else "0")
  | .num n => some (toString n)
  | v => (parseBigInt v.toStr).map toString

/-- The EIP-55 spelling of forty hexadecimal digits (`getChecksumAddress` of
`ethers`): the digits in lower case, and digit `i` in upper case when nibble
`i` of the Keccak-256 hash of the lower-case text is 8 or more. -/
def toChecksum (hex : List Char) : List Char :=
  let lower := hex.map Char.toLower
  let nibbles := (Keccak.keccak256 (lower.map Char.toNat)).flatMap (fun b => [b / 16, b % 16])
  (lower.zip nibbles).map (fun p => if 8 ≤ p.2 then p.1.toUpper else p.1)

/-- The test `/([A-F].*[a-f])|([a-f].*[A-F])/` on hexadecimal digits: a
letter in upper case and a letter in lower case both occur. -/
def hasMixedCase (hex : List Char) : Bool :=
  hex.any (fun c => 'A' ≤ c && c ≤ 'F') && hex.any (fun c => 'a' ≤ c && c ≤ 'f')

/-- The call `getAddress( s )` of `ethers` on a string that starts with `0x`,
as every argument of the decoder does: `0x` and forty hexadecimal digits give
the EIP-55 spelling, unless the digits are written in mixed case and differ
from that spelling (bad checksum); everything else raises. -/
def getAddress (s : String) : Option String :=
  match s.data with
  | '0' :: 'x' :: hex =>
    if hex.length == 40 && hex.all UriDecoder.isHexDigit then
      let result : String := ⟨'0' :: 'x' :: toChecksum hex⟩
      if hasMixedCase hex && result != s then none else some result
    else none
  | _ => none

/-- The octets of a sequence of hexadecimal digit pairs. -/
def hexBytes : List Char → Option Bytes
  | [] => some []
  | [_] => none
  | a :: b :: rest =>
    match hexVal a, hexVal b, hexBytes rest with
    | some x, some y, some bs => some ((x * 16 + y) :: bs)
    | _, _, _ => none

/-- The big-endian value of an octet sequence. -/
def beNat (bs : Bytes) : Nat := bs.foldl (fun acc b => acc * 256 + b) 0

/-- ABI decoding of one dynamic string: the first word is the offset of the
string, whose first word is its length; the octets must be UTF-8. -/
def abiDecodeString (data : JsVal) : Option String :=
  match data with
  | .str s =>
    match s.data with
    | '0' :: 'x' :: hex =>
      match hexBytes hex with
      | some bs =>
        let offset := beNat (bs.take 32)
        let length := beNat ((bs.drop offset).take 32)
        let content := ((bs.drop (offset + 32)).take length)
        if 32 ≤ bs.length && offset + 32 ≤ bs.length && offset + 32 + length ≤ bs.length
            && utf8Encode (utf8Decode content) == content then
          some (utf8Decode content)
        else none
      | none => none
    | _ => none
  | _ => none

end RefHost

/-- The concrete host. -/
def refHost : Host where
  base64Decode := RefHost.base64Decode
  base64Encode := RefHost.base64Encode
  utf8Decode := RefHost.utf8Decode
  utf8Encode := RefHost.utf8Encode
  gunzipSync := fun _ => none
  jsonParse := RefHost.jsonParse
  jsonStringify := RefHost.jsonStringify
  isUrl := RefHost.isUrl
  bigIntToString := RefHost.bigIntToString
  getAddress := RefHost.getAddress
  abiDecodeString := RefHost.abiDecodeString

/-! ## Sample inputs -/

namespace Samples

/-- The base64 URI of the test suite whose document deviates from the
specification (`name`/`endpoint` aliases, lower-case `x402support`). -/
def realWorldUri : String :=
  "data:application/json;base64,eyJuYW1lIjoiUmVhbCBBZ2VudCIsImRlc2NyaXB0aW9uIjoiQSByZWFsIGFnZW50Iiwic2VydmljZXMiOlt7Im5hbWUiOiJNQ1AiLCJlbmRwb2ludCI6Imh0dHBzOi8vbWNwLmV4YW1wbGUuY29tIn1dLCJ4NDAyc3VwcG9ydCI6dHJ1ZX0="

/-- The properties of the document of `realWorldUri`. -/
def realWorldFields : List (String × JsVal) :=
  [("name", .str "Real Agent"), ("description", .str "A real agent"),
    ("services", .arr [.obj [("name", .str "MCP"), ("endpoint", .str "https://mcp.example.com")]]),
    ("x402support", .bool true)]

/-- The document of `realWorldUri`. -/
def realWorldJson : JsVal := .obj realWorldFields

/-- The properties of a document with a deviation in every group of checks. -/
def deviantFields : List (String × JsVal) :=
  [("type", .num 5), ("name", .str ""),
    ("services", .arr [
      .obj [("name", .str "MCP"), ("endpoint", .str "not a url")],
      .obj [("type", .str "xyz")]]),
    ("x402support", .str "yes"), ("image", .num 3), ("active", .str "no"),
    ("supportedTrust", .arr [.str "reputation", .str "foo", .str "bar"]),
    ("extra", .num 1), ("more", .num 2)]

/-- The messages of the registration validator on `deviantFields`. -/
def deviantMessages : List String :=
  ["type: Is not type of \"string\"", "name: Is empty string", "description: Missing field",
    "services[0].name: Uses \"name\" instead of spec-defined \"type\"",
    "services[0].endpoint: Uses \"endpoint\" instead of spec-defined \"url\"",
    "services[0].url: Invalid URL format",
    "services[1]: Missing endpoint (\"url\" or \"endpoint\")",
    "services[1]: Unknown protocol \"xyz\" (known: mcp, a2a, oasf, ens, did)",
    "x402support: Uses lowercase \"x402support\" instead of spec-defined \"x402Support\"",
    "x402support: Is not type of \"boolean\", got \"string\"",
    "image: Is not type of \"string\"", "active: Is not type of \"boolean\"",
    "supportedTrust[1]: Unknown value \"foo\" (known: reputation, crypto-economic, tee-attestation)",
    "supportedTrust[2]: Unknown value \"bar\" (known: reputation, crypto-economic, tee-attestation)",
    "extra: Unknown field not defined in ERC-8004 spec",
    "more: Unknown field not defined in ERC-8004 spec"]

/-- The messages that the test suite expects for `realWorldUri`. -/
def realWorldMessages : List String :=
  ["type: Missing required field (expected \"https://eips.ethereum.org/EIPS/eip-8004#registration-v1\")",
    "services[0].name: Uses \"name\" instead of spec-defined \"type\"",
    "services[0].endpoint: Uses \"endpoint\" instead of spec-defined \"url\"",
    "x402support: Uses lowercase \"x402support\" instead of spec-defined \"x402Support\""]

/-- A protocol validator that rejects every endpoint. -/
def rejecting : Validator := ⟨fun _ => .ok ⟨false, ["unreachable"]⟩⟩

/-- The JSON text of `realWorldJson`. -/
def realWorldText : String :=
  "\x7b\"name\":\"Real Agent\",\"description\":\"A real agent\",\"services\":[\x7b\"name\":\"MCP\",\"endpoint\":\"https://mcp.example.com\"\x7d],\"x402support\":true\x7d"

/-- A document whose list of services holds `null`. -/
def nullServiceJson : JsVal := .obj [("services", .arr [.null])]

/-- The JSON text of `nullServiceJson`. -/
def nullServiceText : String := "\x7b\"services\":[null]\x7d"

/-- The base64 data URI of `nullServiceJson`. -/
def nullServiceUri : String := "data:application/json;base64,eyJzZXJ2aWNlcyI6W251bGxdfQ=="

/-- A document whose service has a number as its protocol identifier. -/
def numericProtocolJson : JsVal := .obj [("services", .arr [.obj [("type", .num 5)]])]

end Samples

/-! ## Specification vocabulary -/

/-- The seven URI-type flags of a categories record. -/
def typeFlags (c : MetadataExtractor.Categories) : List Bool :=
  [c.isEmpty, c.isBase64, c.isHttp, c.isIpfs, c.isJson, c.isGzip, c.isUnknown]

/-- The URI-type flag that belongs to a tag; no flag belongs to a string
outside the closed set. -/
def flagOf (c : MetadataExtractor.Categories) (tag : String) : Bool :=
  if tag = "empty" then c.isEmpty
  else if tag = "base64" then c.isBase64
  else if tag = "http" then c.isHttp
  else if tag = "ipfs" then c.isIpfs
  else if tag = "json" then c.isJson
  else if tag = "gzip" then c.isGzip
  else if tag = "unknown" then c.isUnknown
  else false

/-- The messages of a pipeline run on a URI as the specification orders them:
the messages of the decoder; then, when a document was decoded, the messages
of the registration validator on it and the messages of the injected
validators. -/
def stageMessages (rt : Host) (uri : Option String) (additionalValidators : ValidatorsArg) :
    Except JsError (List String) := do
  let decoded ← UriDecoder.decode rt uri (UriClassifier.classify (Erc8004RegistryParser.uriValue uri))
  if decoded.decodedRegistrationFile.isNull then
    pure decoded.messages
  else
    let validated ← RegistrationValidator.validate rt decoded.decodedRegistrationFile
    let validatorMessages ←
      Erc8004RegistryParser.runValidators additionalValidators decoded.decodedRegistrationFile
    pure (decoded.messages ++ validated.messages ++ validatorMessages)

/-- The messages of the registration validator as the specification groups
them: every check runs on the document by itself, starting from no messages,
and the groups are concatenated in the order required fields, services, x402,
optional fields, unknown fields. -/
def groupedMessages (rt : Host) (document : JsVal) : Except JsError (List String) := do
  let required ← RegistrationValidator.validateRequiredFields document []
  let services ← RegistrationValidator.validateServices rt document []
  let x402 ← RegistrationValidator.validateX402 document []
  let optional ← RegistrationValidator.validateOptionalFields rt document []
  let unknown := RegistrationValidator.validateExtraFields document []
  pure (required ++ services ++ x402 ++ optional ++ unknown)

/-- The value of a top-level field of an object, `undefined` when absent. -/
def field (kvs : List (String × JsVal)) (key : String) : JsVal :=
  (kvs.lookup key).getD .undefined

/-- The shape of standard padded base64 text: characters of the alphabet,
then only `=`. -/
def paddedBase64 : List Char → Bool
  | [] => true
  | c :: rest =>
    if c == '=' then rest.all (· == '=')
    else (c.isAlphanum || c == '+' || c == '/') && paddedBase64 rest

/-- The test for an `=` directly followed by `g`, as in `enc=gzip`. -/
def hasEqualsG : List Char → Bool
  | a :: b :: rest => (a == '=' && b == 'g') || hasEqualsG (b :: rest)
  | _ => false

/-- The key that tells the groups of validator messages apart: a marker for a
message that ends in `c` (the unknown-field messages end in `spec`), otherwise
the first two characters of the message. -/
def topKey (m : String) : List Char :=
  if m.data.getLast? = some 'c' then ['*'] else m.data.take 2

/-- The part of an indexed message behind its index: the text after the first
`n` characters and the decimal digits that follow them, cut to twelve
characters. -/
def slotKey (n : Nat) (m : String) : List Char :=
  (((m.data.drop n).dropWhile Char.isDigit).take 12)

/-- The decimal digits of an indexed message behind its first `n` characters. -/
def indexKey (n : Nat) (m : String) : List Char :=
  (m.data.drop n).takeWhile Char.isDigit

/-- What the proof of distinctness records about a services message of
index `i`: its group key, its index and the set its slot key lies in. -/
def ServiceMsg (i : Nat) (S : List (List Char)) (m : String) : Prop :=
  topKey m = ['s', 'e'] ∧ indexKey 9 m = (toString i).data ∧ slotKey 9 m ∈ S

/-- The decimal value of a digit string. -/
def decVal (cs : List Char) : Nat := cs.foldl (fun a c => a * 10 + (c.toNat - 48)) 0

/-- The text that ends every unknown-field message. -/
def unknownFieldText : String := ": Unknown field not defined in ERC-8004 spec"

/-- The method `s.endsWith( q )`. -/
def endsWith (s q : String) : Bool := q.data.isSuffixOf s.data

/-- The messages of a list that are about the top-level field `fieldName`:
they start with the name of the field and a colon, and they do not report a key
as unknown. -/
def messagesFor (fieldName : String) (messages : List String) : List String :=
  messages.filter (fun m => startsWith m (fieldName ++ ": ") && !endsWith m unknownFieldText)

/-- The message of the specification for the field `type`: none for the exact
specification value, otherwise one that tells the absent field, the non-string
value and the wrong value apart. -/
def typeMessage (v : JsVal) : Option String :=
  match v with
  | .undefined => some ("type: Missing required field (expected \"" ++ SPEC_TYPE_VALUE ++ "\")")
  | .str s =>
    if s = SPEC_TYPE_VALUE then none
    else some ("type: Invalid value \"" ++ s ++ "\" (expected \"" ++ SPEC_TYPE_VALUE ++ "\")")
  | _ => some "type: Is not type of \"string\""

/-- The message of the specification for the fields `name` and `description`:
none for a non-empty string, otherwise one that tells the absent field (with
the text `missing`), the non-string value and the empty string apart. -/
def textMessage (fieldName missing : String) (v : JsVal) : Option String :=
  match v with
  | .undefined => some (fieldName ++ ": " ++ missing)
  | .str s => if s = "" then some (fieldName ++ ": Is empty string") else none
  | _ => some (fieldName ++ ": Is not type of \"string\"")

/-- The top-level keys that the specification allows: the known fields and
the lower-case alias of the x402 flag. -/
def allowedTopLevelKeys : List String :=
  ["type", "name", "description", "image", "services", "x402Support", "active",
    "supportedTrust", "x402support"]

/-- The unknown-field messages of a list. -/
def unknownFieldMessages (messages : List String) : List String :=
  messages.filter (fun m => endsWith m unknownFieldText)

namespace Samples

/-- A document whose only service has the empty string under `type` and a
known protocol under `name`. -/
def emptyTypeFields : List (String × JsVal) :=
  [("type", .str SPEC_TYPE_VALUE), ("name", .str "Agent"), ("description", .str "An agent"),
    ("services", .arr [.obj [("type", .str ""), ("name", .str "mcp"),
      ("url", .str "https://mcp.example.com")]])]

end Samples

/-- The property `v[ key ]` of a value that is neither `null` nor
`undefined`: the own property of an object, and `undefined` on every other
value. -/
def propertyOf (v : JsVal) (key : String) : JsVal :=
  match v with
  | .obj kvs => field kvs key
  | _ => .undefined

/-- A service entry uses an alias: it has `name` without `type`, or
`endpoint` without `url`. -/
def usesAlias (service : JsVal) : Bool :=
  (!(propertyOf service "name").isUndefined && (propertyOf service "type").isUndefined) ||
  (!(propertyOf service "endpoint").isUndefined && (propertyOf service "url").isUndefined)

namespace Samples

/-- A document that follows the specification: a service with `type` and
`url`, and the flag `x402Support`. -/
def compliantFields : List (String × JsVal) :=
  [("type", .str SPEC_TYPE_VALUE), ("name", .str "Agent"), ("description", .str "An agent"),
    ("services", .arr [.obj [("type", .str "MCP"), ("url", .str "https://mcp.example.com")]]),
    ("x402Support", .bool true)]

end Samples

/-- The pair `{ protocol, endpoint }` of a service as the specification
words it: the protocol is `type`, else `name`, else `null`; the endpoint is
`url`, else `endpoint`, else `null`. -/
def normalizedService (service : JsVal) : MetadataExtractor.Service :=
  { protocol := (propertyOf service "type").or ((propertyOf service "name").or .null)
    endpoint := (propertyOf service "url").or ((propertyOf service "endpoint").or .null) }

/-- The lower-cased protocol of a service: the first truthy value among `type`
and `name` when it is a string, the empty string when neither is truthy, and
nothing when that value is not a string. -/
def lowerProtocol (service : JsVal) : Option String :=
  match (propertyOf service "type").or ((propertyOf service "name").or (.str "")) with
  | .str s => some (toLowerCase s)
  | _ => none

/-- The endpoint of the first service whose protocol lower-cases to `p` and
whose endpoint is not `null`; `null` when there is no such service. -/
def firstEndpoint (p : String) : List JsVal → JsVal
  | [] => .null
  | service :: rest =>
    if lowerProtocol service = some p ∧ (normalizedService service).endpoint.isNull = false then
      (normalizedService service).endpoint
    else firstEndpoint p rest

namespace Samples

/-- A document with two services of protocol `mcp`: the first one has no
endpoint, the second one has a `url`. -/
def twoMcpFields : List (String × JsVal) :=
  [("services", .arr [.obj [("type", .str "mcp")],
    .obj [("type", .str "mcp"), ("url", .str "https://b.example")]])]

/-- A document whose only service has the protocol `mcp` and no endpoint. -/
def mcpWithoutEndpointJson : JsVal := .obj [("services", .arr [.obj [("type", .str "mcp")]])]

/-- A `Registered` event log whose data is the ABI encoding of the inline JSON
URI `\x7b"services":[\x7b"type":"mcp"\x7d]\x7d`, the text of
`mcpWithoutEndpointJson`. -/
def mcpWithoutEndpointLog : JsVal :=
  .obj [("topics", .arr [.str EventDecoder.REGISTERED_TOPIC0,
      .str "0x0000000000000000000000000000000000000000000000000000000000000001",
      .str "0x0000000000000000000000001111111111111111111111111111111111111111"]),
    ("data", .str "0x0000000000000000000000000000000000000000000000000000000000000020000000000000000000000000000000000000000000000000000000000000001d7b227365727669636573223a5b7b2274797065223a226d6370227d5d7d000000")]

end Samples

/-- The validator that a mapping holds for a lower-cased protocol, with the
label of its messages. -/
def validatorFor (mcp a2a : Option Validator) (protocol : String) :
    Option (Validator × String) :=
  if protocol = "mcp" then mcp.map (fun v => (v, "MCP"))
  else if protocol = "a2a" then a2a.map (fun v => (v, "A2A"))
  else none

/-- The messages that the service at position `index` contributes, as the
specification words it: nothing unless the mapping holds a validator for the
protocol of the service and the endpoint is not `null`; otherwise the validator
is asked about the endpoint and, when it answers with status false, each of its
messages is rendered with the index and the label. (A validator that raises
ends the run, so this case leaves nothing to say about the messages.) -/
def injectedFor (mcp a2a : Option Validator) (index : Nat) (service : JsVal) : List String :=
  let endpoint := (normalizedService service).endpoint
  match (lowerProtocol service).bind (validatorFor mcp a2a) with
  | none => []
  | some (v, label) =>
    if endpoint.isNull then []
    else
      match v.validate endpoint with
      | .ok r =>
        if r.status then []
        else r.messages.map
          (fun m => "services[" ++ toString index ++ "].url (" ++ label ++ "): " ++ m)
      | .error _ => []

/-- The contributions of the services from position `index` on, in ascending
order. -/
def injectedFrom (mcp a2a : Option Validator) : List JsVal → Nat → List String
  | [], _ => []
  | service :: rest, index =>
    injectedFor mcp a2a index service ++ injectedFrom mcp a2a rest (index + 1)

namespace Samples

/-- A protocol validator that raises on every endpoint. -/
def raising : Validator := ⟨fun _ => .error (.error "validator called")⟩

/-- A protocol validator that rejects every endpoint with two messages. -/
def rejectingTwice : Validator := ⟨fun _ => .ok ⟨false, ["first", "second"]⟩⟩

/-- A document with three services: `mcp` with a `url`, `a2a` without an
endpoint, and `a2a` under the alias keys. -/
def threeServicesJson : JsVal :=
  .obj [("services", .arr [
    .obj [("type", .str "MCP"), ("url", .str "https://mcp.example.com")],
    .obj [("type", .str "a2a")],
    .obj [("name", .str "A2A"), ("endpoint", .str "https://a2a.example.com")]])]

end Samples

namespace Samples

/-- A document with the three required fields and nothing else. -/
def minimalFields : List (String × JsVal) :=
  [("type", .str SPEC_TYPE_VALUE), ("name", .str "Agent"), ("description", .str "An agent")]

end Samples

/-- A service entry on which the property reads and `toLowerCase` of the
sources do not raise: it is neither `null` nor `undefined`, and the first truthy
value among its `type` and `name`, if there is one, is a string. -/
def wellFormedService (service : JsVal) : Bool :=
  !(service.isNull || service.isUndefined) &&
    ((propertyOf service "type").or ((propertyOf service "name").or (.str ""))).isString

/-- The messages of the two extractions from the topics, as the
specification orders them: the one for the agent identifier when it could not
be decoded, then the one for the owner address when it could not be decoded. -/
def extractionMessages (agentId ownerAddress : Option String) : List String :=
  (if agentId.isNone then ["log.topics[1]: Cannot decode as uint256 agentId"] else []) ++
  (if ownerAddress.isNone then ["log.topics[2]: Cannot decode as address"] else [])

namespace Samples

/-- The topics of the test suite: the `Registered` signature, the agent
identifier 42 and the owner address. -/
def testTopics : List JsVal :=
  [.str EventDecoder.REGISTERED_TOPIC0,
    .str "0x000000000000000000000000000000000000000000000000000000000000002a",
    .str "0x0000000000000000000000008ec6c9a8a6b0d69f48734c4b7ecd1cbb190a0d69"]

/-- The owner address of the test suite in its EIP-55 spelling,
`OWNER_ADDRESS`. -/
def ownerAddress : String := "0x8Ec6C9A8A6b0d69f48734c4b7Ecd1cbb190a0D69"

/-- The base64 data URI of the compliant document of the test suite,
`VALID_BASE64_URI`. -/
def validBase64Uri : String :=
  "data:application/json;base64,eyJuYW1lIjoiVGVzdCBBZ2VudCIsImRlc2NyaXB0aW9uIjoiQSB0ZXN0IGFnZW50IiwidHlwZSI6Imh0dHBzOi8vZWlwcy5ldGhlcmV1bS5vcmcvRUlQUy9laXAtODAwNCNyZWdpc3RyYXRpb24tdjEiLCJzZXJ2aWNlcyI6W3sidHlwZSI6Im1jcCIsInVybCI6Imh0dHBzOi8vbWNwLmV4YW1wbGUuY29tIn1dLCJ4NDAyU3VwcG9ydCI6dHJ1ZSwiYWN0aXZlIjp0cnVlfQ=="

/-- The ABI encoding of `validBase64Uri`, `ABI_ENCODED_SPEC_URI` of the test
suite. -/
def abiSpecUri : String :=
  "0x00000000000000000000000000000000000000000000000000000000000000200000000000000000000000000000000000000000000000000000000000000135646174613a6170706c69636174696f6e2f6a736f6e3b6261736536342c65794a755957316c496a6f695647567a644342425a32567564434973496d526c63324e796158423061573975496a6f69515342305a584e304947466e5a5735304969776964486c775a534936496d68306448427a4f6938765a576c776379356c6447686c636d563162533576636d637652556c515579396c615841744f4441774e434e795a576470633352795958527062323474646a45694c434a7a5a584a3261574e6c637949365733736964486c775a534936496d316a63434973496e567962434936496d68306448427a4f69387662574e774c6d5634595731776247557559323974496e31644c434a344e44417955335677634739796443493664484a315a53776959574e3061585a6c496a7030636e566c66513d3d0000000000000000000000"

/-- The ABI encoding of the empty string, `ABI_ENCODED_EMPTY_URI` of the test
suite. -/
def abiEmptyUri : String :=
  "0x00000000000000000000000000000000000000000000000000000000000000200000000000000000000000000000000000000000000000000000000000000000"

/-- The event log `REGISTERED_LOG_BASE64` of the test suite. -/
def registeredLogBase64 : JsVal := .obj [("topics", .arr testTopics), ("data", .str abiSpecUri)]

/-- The event log `REGISTERED_LOG_EMPTY` of the test suite. -/
def registeredLogEmpty : JsVal := .obj [("topics", .arr testTopics), ("data", .str abiEmptyUri)]

/-- The event log `UNKNOWN_EVENT_LOG` of the test suite. -/
def unknownEventLog : JsVal :=
  .obj [("topics", .arr [
      .str "0xdeadbeefdeadbeefdeadbeefdeadbeefdeadbeefdeadbeefdeadbeefdeadbeef",
      .str "0x000000000000000000000000000000000000000000000000000000000000002a",
      .str "0x0000000000000000000000008ec6c9a8a6b0d69f48734c4b7ecd1cbb190a0d69"]),
    ("data", .str abiSpecUri)]

/-- The event log `LOG_MISSING_TOPICS` of the test suite. -/
def logMissingTopics : JsVal := .obj [("topics", .arr []), ("data", .str abiSpecUri)]

/-- The event log `LOG_MISSING_DATA` of the test suite. -/
def logMissingData : JsVal := .obj [("topics", .arr testTopics)]

/-- The event log `LOG_SHORT_DATA` of the test suite. -/
def logShortData : JsVal := .obj [("topics", .arr testTopics), ("data", .str "0x0000000000000000")]

/-- An event log whose data is `0x` followed by 64 hexadecimal digits, one
32-byte word that holds the offset 32. -/
def logOneWordData : JsVal :=
  .obj [("topics", .arr testTopics),
    ("data", .str "0x0000000000000000000000000000000000000000000000000000000000000020")]

/-- An event log whose data is `0x`, 62 zeros and the code point U+1F600: 65
code points and 66 UTF-16 code units. -/
def logAstralData : JsVal :=
  .obj [("topics", .arr testTopics),
    ("data", .str ("0x00000000000000000000000000000000000000000000000000000000000000"
      ++ String.singleton (Char.ofNat 0x1F600)))]

/-- An event log whose `topics[1]` is the decimal text of a negative number. -/
def logNegativeAgentId : JsVal :=
  .obj [("topics", .arr [.str EventDecoder.REGISTERED_TOPIC0, .str "-5",
      .str "0x0000000000000000000000008ec6c9a8a6b0d69f48734c4b7ecd1cbb190a0d69"]),
    ("data", .str abiEmptyUri)]

/-- An event log whose `topics[1]` is `0x1` followed by 64 zeros, the number
`2^256` written with 65 hexadecimal digits. -/
def logWideAgentId : JsVal :=
  .obj [("topics", .arr [.str EventDecoder.REGISTERED_TOPIC0,
      .str "0x10000000000000000000000000000000000000000000000000000000000000000",
      .str "0x0000000000000000000000008ec6c9a8a6b0d69f48734c4b7ecd1cbb190a0d69"]),
    ("data", .str abiEmptyUri)]

/-- The event log `REGISTERED_LOG_EMPTY` with the first two letters of the
owner address in upper case: a 32-byte word of hexadecimal digits whose
address part is in mixed case and differs from the EIP-55 spelling
`0x8Ec6C9...`. -/
def logMixedCaseOwner : JsVal :=
  .obj [("topics", .arr [.str EventDecoder.REGISTERED_TOPIC0,
      .str "0x000000000000000000000000000000000000000000000000000000000000002a",
      .str "0x0000000000000000000000008EC6c9a8a6b0d69f48734c4b7ecd1cbb190a0d69"]),
    ("data", .str abiEmptyUri)]

/-- An event log whose `topics[1]` and `topics[2]` are not decodable. -/
def logBadTopics : JsVal :=
  .obj [("topics", .arr [.str EventDecoder.REGISTERED_TOPIC0, .str "0xzz", .str "0x1234"]),
    ("data", .str abiEmptyUri)]

/-- An event log whose `topics[2]` is not decodable. -/
def logBadOwner : JsVal :=
  .obj [("topics", .arr [.str EventDecoder.REGISTERED_TOPIC0,
      .str "0x000000000000000000000000000000000000000000000000000000000000002a",
      .str "0x1234"]),
    ("data", .str abiEmptyUri)]

end Samples

/-- A 32-byte word of a log: `0x` followed by 64 hexadecimal digits. -/
def isHexWord (s : String) : Bool :=
  match s.data with
  | '0' :: 'x' :: hex => hex.length == 64 && hex.all UriDecoder.isHexDigit
  | _ => false

/-- The number that a text of hexadecimal digits spells. -/
def hexValue (hex : List Char) : Nat :=
  hex.foldl (fun acc c => acc * 16 + (RefHost.hexVal c).getD 0) 0

/-- The last `k` octets of the big-endian spelling of `n`. -/
def beBytes : Nat → Nat → Bytes
  | 0, _ => []
  | k + 1, n => beBytes k (n / 256) ++ [n % 256]

/-- The two hexadecimal digits of an octet. -/
def hexOfByte (b : Nat) : List Char := [RefHost.hexDigit (b / 16), RefHost.hexDigit b]

/-- The ABI encoding of a single dynamic string whose UTF-8 octets are
`content`, as the text of the `data` of a log: the word 32 (the offset), the
length as a word, the octets, and zeros up to a multiple of 32 octets. -/
def abiEncodeString (content : Bytes) : String :=
  ⟨'0' :: 'x' :: (beBytes 32 32 ++ beBytes 32 content.length ++ content
    ++ List.replicate ((32 - content.length % 32) % 32) 0).flatMap hexOfByte⟩

namespace Samples

/-- The base64 URI `INVALID_BASE64_URI` of the test suite. -/
def invalidBase64Uri : String := "data:application/json;base64,!!!invalid-base64!!!"

/-- A base64 data URI whose payload is the base64 text of the JSON text
`null`. -/
def nullDocumentUri : String := "data:application/json;base64,bnVsbA=="

/-- The base64 URI of the test suite behind one space. -/
def spacedBase64Uri : String := " " ++ validBase64Uri

/-- A gzip data URI in which the marker `base64,` occurs twice. -/
def twoMarkerUri : String := "data:application/json;enc=gzip;base64,AAAAbase64,BBBB"

/-- The document `SPEC_COMPLIANT_JSON` of the test suite, which
`validBase64Uri` encodes. -/
def specCompliantJson : JsVal :=
  .obj [("name", .str "Test Agent"), ("description", .str "A test agent"),
    ("type", .str SPEC_TYPE_VALUE),
    ("services", .arr [.obj [("type", .str "mcp"), ("url", .str "https://mcp.example.com")]]),
    ("x402Support", .bool true), ("active", .bool true)]

/-- A document with the required `type` and `name` and no `description`. -/
def noDescriptionFields : List (String × JsVal) :=
  [("type", .str SPEC_TYPE_VALUE), ("name", .str "Agent")]

end Samples

/-- The text behind the last occurrence of `pat` in a text, as the
specification words the payload of a gzip URI; `none` when `pat` does not
occur. -/
def afterLast (pat : List Char) : List Char → Option (List Char)
  | [] => none
  | c :: rest =>
    match afterLast pat rest with
    | some p => some p
    | none => if pat.isPrefixOf (c :: rest) then some ((c :: rest).drop pat.length) else none

/-- A character of the base64 alphabet. -/
def isBase64Char (c : Char) : Bool := c.isAlphanum || c == '+' || c == '/'

/-- A valid base64 text, as `toString( 'base64' )` writes it: groups of four
characters of the alphabet, where the last group may end in one or two `=`. -/
def isStandardBase64 : List Char → Bool
  | [] => true
  | a :: b :: c :: d :: rest =>
    isBase64Char a && isBase64Char b &&
      (if rest.isEmpty then
        (c == '=' && d == '=') || (isBase64Char c && (d == '=' || isBase64Char d))
      else isBase64Char c && isBase64Char d && isStandardBase64 rest)
  | _ => false

/-- The parameter violations of a call of `validateFromUri`, as the
specification lists them, in the order `agentUri`, `agentId`, `ownerAddress`,
`additionalValidators`: `agentUri` is absent, or is neither `null` nor a
string; `agentId`, when given, is neither `null` nor a string; the same for
`ownerAddress`; `additionalValidators`, when given and not `null`, is no plain
object. -/
def parameterViolations (agentUri agentId ownerAddress : JsVal)
    (additionalValidators : ValidatorsArg) : List String :=
  (match agentUri with
    | .undefined => ["agentUri: Missing value"]
    | .null => []
    | .str _ => []
    | _ => ["agentUri: Must be a string or null"]) ++
  (match agentId with
    | .undefined => []
    | .null => []
    | .str _ => []
    | _ => ["agentId: Must be a string or null"]) ++
  (match ownerAddress with
    | .undefined => []
    | .null => []
    | .str _ => []
    | _ => ["ownerAddress: Must be a string or null"]) ++
  (match additionalValidators with
    | .notObject => ["additionalValidators: Must be an object"]
    | _ => [])

/-- The texts of the parameter violations of `validateFromUri`. -/
def parameterViolationTexts : List String :=
  ["agentUri: Missing value", "agentUri: Must be a string or null",
    "agentId: Must be a string or null", "ownerAddress: Must be a string or null",
    "additionalValidators: Must be an object"]

namespace Samples

/-- The gzip data URI `GZIP_URI` of the test suite. -/
def gzipUri : String :=
  "data:application/json;enc=gzip;level=6;base64,H4sIAAAAAAAAA6tWKkktLlGyUlAqS8wpTtVRSizIULJRKs9ILUpVslIqzy9KSQUAVcHkNSUAAAA="

end Samples

/-- The text that the decoding branch of a tag hands to `JSON.parse`: for
`json` the URI itself (`null` converts to the text `null`); for `base64` the
UTF-8 text of the octets that the URI without its first 29 characters
decodes to; for `gzip` the UTF-8 text of the unzipped octets of the capture
group of `/base64,(.+)$/`; no other tag decodes a text. -/
def decodedText (rt : Host) (uri : Option String) (tag : String) : Option String :=
  if tag = "json" then some (uri.getD "null")
  else if tag = "base64" then
    uri.bind (fun u => (rt.base64Decode (slice u 29)).map rt.utf8Decode)
  else if tag = "gzip" then
    uri.bind (fun u => (UriDecoder.matchBase64 u.data).bind (fun p =>
      ((rt.base64Decode ⟨p⟩).bind rt.gunzipSync).map rt.utf8Decode))
  else none

/-! ## Status and messages -/

theorem length_beq_zero_iff {α : Type} (l : List α) : ((l.length == 0) = true) ↔ l = [] := by
  cases l <;> simp

namespace UriDecoder

theorem decodeGzip_status (rt : Host) (uri : Option String) (r : Decoded)
    (h : decodeGzip rt uri = .ok r) : r.status = true ↔ r.messages = [] := by
  unfold decodeGzip at h
  split at h
  · cases h
  · simp only [List.nil_append] at h
    split at h
    · cases h; simp
    · split at h
      · cases h; simp
      · split at h <;> (cases h; simp)

theorem decodeBase64_status (rt : Host) (uri : Option String) (r : Decoded)
    (h : decodeBase64 rt uri = .ok r) : r.status = true ↔ r.messages = [] := by
  unfold decodeBase64 at h
  split at h
  · cases h
  · simp only [List.nil_append] at h
    split at h
    · cases h; simp
    · split at h
      · cases h; simp
      · split at h <;> (cases h; simp)

theorem decodeJson_status (rt : Host) (uri : Option String) :
    (decodeJson rt uri).status = true ↔ (decodeJson rt uri).messages = [] := by
  unfold decodeJson
  split <;> simp

theorem uriDecode_status (rt : Host) (uri : Option String) (t : String) (r : Decoded)
    (h : decode rt uri t = .ok r) : r.status = true ↔ r.messages = [] := by
  unfold decode at h
  simp only [List.nil_append] at h
  split_ifs at h
  · cases h; simp
  · cases h; simp
  · simp only [bind, Except.bind] at h
    split at h
    · cases h
    · simp only [pure, Except.pure] at h
      cases h; simp
  · simp only [bind, Except.bind] at h
    split at h
    · cases h
    · rename_i r' hr
      simp only [pure, Except.pure] at h
      cases h
      exact decodeGzip_status rt uri r' hr
  · simp only [bind, Except.bind] at h
    split at h
    · cases h
    · rename_i r' hr
      simp only [pure, Except.pure] at h
      cases h
      exact decodeBase64_status rt uri r' hr
  · cases h
    exact decodeJson_status rt uri
  · cases h; simp

end UriDecoder

namespace EventDecoder

theorem validateTopics_cases (log : JsVal) (ms m : List String) (b : Bool)
    (h : validateTopics log ms = .ok (b, m)) :
    (b = true ∧ m = ms) ∨ (b = false ∧ ∃ x, m = ms ++ [x]) := by
  unfold validateTopics at h
  split_ifs at h
  · cases h; exact Or.inr ⟨rfl, _, rfl⟩
  · simp only [bind, Except.bind] at h
    split at h
    · cases h
    · split at h
      · split_ifs at h
        · cases h; exact Or.inr ⟨rfl, _, rfl⟩
        · cases h; exact Or.inl ⟨rfl, rfl⟩
      · cases h; exact Or.inr ⟨rfl, _, rfl⟩

theorem validateData_cases (log : JsVal) (ms m : List String) (b : Bool)
    (h : validateData log ms = .ok (b, m)) :
    (b = true ∧ m = ms) ∨ (b = false ∧ ∃ x, m = ms ++ [x]) := by
  unfold validateData at h
  simp only [bind, Except.bind] at h
  split at h
  · cases h
  · split_ifs at h
    · cases h; exact Or.inr ⟨rfl, _, rfl⟩
    · cases h; exact Or.inr ⟨rfl, _, rfl⟩
    · cases h; exact Or.inl ⟨rfl, rfl⟩

theorem eventDecode_status (rt : Host) (log : JsVal) (r : Decoded)
    (h : decode rt log = .ok r) : r.status = true ↔ r.messages = [] := by
  unfold decode at h
  simp only [bind, Except.bind, pure, Except.pure] at h
  split at h
  · cases h
  · rename_i p hp
    obtain ⟨b, m⟩ := p
    rcases validateTopics_cases _ _ _ _ hp with ⟨rfl, rfl⟩ | ⟨rfl, x, rfl⟩
    · simp only [Bool.not_true, Bool.false_eq_true, ↓reduceIte] at h
      split at h
      · cases h
      · rename_i q hq
        obtain ⟨b2, m2⟩ := q
        rcases validateData_cases _ _ _ _ hq with ⟨rfl, rfl⟩ | ⟨rfl, x, rfl⟩
        · simp only [Bool.not_true, Bool.false_eq_true, ↓reduceIte] at h
          split at h
          · cases h
          · split at h
            · cases h
            · split_ifs at h with h1
              · cases h
                constructor
                · intro hh; cases hh
                · intro hh; simp only at hh; rw [hh] at h1; simp at h1
              · split at h
                · cases h
                · split_ifs at h with h2
                  · cases h
                    constructor
                    · intro hh; cases hh
                    · intro hh; simp only at hh; rw [hh] at h2; simp at h2
                  · cases h
                    simp only [true_iff]
                    simpa using h2
        · simp at h
          cases h; simp
    · simp at h
      cases h; simp

end EventDecoder

namespace RegistrationValidator

theorem validate_status (rt : Host) (json : JsVal) (r : Validated)
    (h : validate rt json = .ok r) : r.status = true ↔ r.messages = [] := by
  unfold validate at h
  split at h
  · cases h; simp
  · cases h; simp
  · simp only [bind, Except.bind, pure, Except.pure] at h
    split at h
    · cases h
    · split at h
      · cases h
      · split at h
        · cases h
        · split at h
          · cases h
          · cases h
            exact length_beq_zero_iff _
  · cases h; simp

end RegistrationValidator

namespace Erc8004RegistryParser

theorem start_status (rt : Host) (log : JsVal) (v : ValidatorsArg) (r : Result)
    (h : start rt log v = .ok r) : r.status = true ↔ r.messages = [] := by
  unfold start at h
  simp only [bind, Except.bind, pure, Except.pure, buildResult] at h
  split at h
  · cases h
  · split at h
    · cases h
    · split_ifs at h
      · split at h
        · cases h
        · split at h
          · cases h
          · cases h
            exact length_beq_zero_iff _
      · split at h
        · cases h
        · cases h
          exact length_beq_zero_iff _

theorem validateFromUri_status (rt : Host) (uri a o : JsVal) (v : ValidatorsArg) (r : Result)
    (h : validateFromUri rt uri a o v = .ok r) : r.status = true ↔ r.messages = [] := by
  unfold validateFromUri at h
  simp only [bind, Except.bind, pure, Except.pure] at h
  split at h
  · cases h
  · split at h
    · cases h
    · cases h
      exact length_beq_zero_iff _

theorem decodeUri_eq (rt : Host) (uri t : JsVal) (r : UriDecoder.Decoded)
    (h : decodeUri rt uri t = .ok r) :
    ∃ tag, UriDecoder.decode rt (stringOrNull uri) tag = .ok r := by
  unfold decodeUri at h
  simp only [bind, Except.bind, pure, Except.pure] at h
  split at h
  · cases h
  · exact ⟨_, h⟩

theorem decodeEventLog_eq (rt : Host) (log : JsVal) (r : EventDecoder.Decoded)
    (h : decodeEventLog rt log = .ok r) : EventDecoder.decode rt log = .ok r := by
  unfold decodeEventLog at h
  simp only [bind, Except.bind, pure, Except.pure] at h
  split at h
  · cases h
  · exact h

end Erc8004RegistryParser

/-- C2. In every result that one of `start`, `validateFromUri`, `decodeUri`,
`decodeEventLog`, `UriDecoder.decode`, `EventDecoder.decode` and
`RegistrationValidator.validate` returns, the status is true exactly when the
list of messages is empty. -/
theorem status_iff_no_messages (rt : Host) :
    (∀ log v r, Erc8004RegistryParser.start rt log v = .ok r →
      (r.status = true ↔ r.messages = [])) ∧
    (∀ uri agentId owner v r,
      Erc8004RegistryParser.validateFromUri rt uri agentId owner v = .ok r →
      (r.status = true ↔ r.messages = [])) ∧
    (∀ uri tag r, Erc8004RegistryParser.decodeUri rt uri tag = .ok r →
      (r.status = true ↔ r.messages = [])) ∧
    (∀ log r, Erc8004RegistryParser.decodeEventLog rt log = .ok r →
      (r.status = true ↔ r.messages = [])) ∧
    (∀ uri tag r, UriDecoder.decode rt uri tag = .ok r →
      (r.status = true ↔ r.messages = [])) ∧
    (∀ log r, EventDecoder.decode rt log = .ok r →
      (r.status = true ↔ r.messages = [])) ∧
    (∀ json r, RegistrationValidator.validate rt json = .ok r →
      (r.status = true ↔ r.messages = [])) := by
  refine ⟨?_, ?_, ?_, ?_, ?_, ?_, ?_⟩
  · exact fun log v r h => Erc8004RegistryParser.start_status rt log v r h
  · exact fun uri a o v r h => Erc8004RegistryParser.validateFromUri_status rt uri a o v r h
  · intro uri tag r h
    obtain ⟨t, ht⟩ := Erc8004RegistryParser.decodeUri_eq rt uri tag r h
    exact UriDecoder.uriDecode_status rt _ t r ht
  · intro log r h
    exact EventDecoder.eventDecode_status rt log r (Erc8004RegistryParser.decodeEventLog_eq rt log r h)
  · exact fun uri tag r h => UriDecoder.uriDecode_status rt uri tag r h
  · exact fun log r h => EventDecoder.eventDecode_status rt log r h
  · exact fun json r h => RegistrationValidator.validate_status rt json r h

/-! ## Classification -/

theorem startsWith_iff (s p : String) : startsWith s p = true ↔ p.data <+: s.data := by
  unfold startsWith
  exact List.isPrefixOf_iff_prefix

theorem includes_iff (s p : String) : includes s p = true ↔ p.data <:+: s.data := by
  unfold includes
  rw [List.any_eq_true, List.infix_iff_prefix_suffix]
  constructor
  · rintro ⟨t, ht, hp⟩
    exact ⟨t, List.isPrefixOf_iff_prefix.mp hp, (List.mem_tails _ _).mp ht⟩
  · rintro ⟨t, hp, ht⟩
    exact ⟨t, (List.mem_tails _ _).mpr ht, List.isPrefixOf_iff_prefix.mpr hp⟩

theorem trimEndChars_eq (cs : List Char) : trimEndChars cs = cs.rdropWhile isJsWhitespace := rfl

theorem trimEndChars_append (a b : List Char) (c : Char) (hc : isJsWhitespace c = false) :
    trimEndChars ((a ++ [c]) ++ b) = (a ++ [c]) ++ trimEndChars b := by
  simp only [trimEndChars_eq]
  induction b using List.reverseRecOn with
  | nil =>
    simp only [List.append_nil, List.rdropWhile_nil]
    exact List.rdropWhile_concat_neg _ _ _ (by simp [hc])
  | append_singleton b x ih =>
    by_cases hx : isJsWhitespace x = true
    · rw [← List.append_assoc, List.rdropWhile_concat_pos _ _ _ hx,
        List.rdropWhile_concat_pos _ _ _ hx, ih]
    · rw [← List.append_assoc, List.rdropWhile_concat_neg _ _ _ hx,
        List.rdropWhile_concat_neg _ _ _ hx, List.append_assoc]

theorem dropWhile_append_cons (l r : List Char) (c : Char) (hc : isJsWhitespace c = false) :
    ∃ l', (l ++ c :: r).dropWhile isJsWhitespace = l' ++ c :: r := by
  rw [List.dropWhile_append]
  split
  · exact ⟨[], by simp [List.dropWhile_cons, hc]⟩
  · exact ⟨_, rfl⟩

/-- Trimming keeps every occurrence of a text that neither starts nor ends
with whitespace. -/
theorem jsTrim_infix (s : String) (p : List Char) (a z : Char)
    (ha : isJsWhitespace a = false) (hz : isJsWhitespace z = false)
    (h : (a :: (p ++ [z])) <:+: s.data) : (a :: (p ++ [z])) <:+: (jsTrim s).data := by
  obtain ⟨l, r, hs⟩ := h
  unfold jsTrim
  simp only
  have e : s.data = l ++ a :: (p ++ z :: r) := by
    rw [← hs]; simp
  obtain ⟨l', hl'⟩ := dropWhile_append_cons l (p ++ z :: r) a ha
  rw [e, hl']
  have e2 : l' ++ a :: (p ++ z :: r) = ((l' ++ a :: p) ++ [z]) ++ r := by simp
  rw [e2, trimEndChars_append _ _ _ hz]
  exact ⟨l', trimEndChars r, by simp⟩

/-- Trimming keeps a leading text that neither starts nor ends with whitespace. -/
theorem jsTrim_prefix (s : String) (p : List Char) (a z : Char)
    (ha : isJsWhitespace a = false) (hz : isJsWhitespace z = false)
    (h : (a :: (p ++ [z])) <+: s.data) : (a :: (p ++ [z])) <+: (jsTrim s).data := by
  obtain ⟨r, hs⟩ := h
  unfold jsTrim
  simp only
  have e : s.data = ((a :: p) ++ [z]) ++ r := by rw [← hs]; simp
  rw [e]
  have e1 : (((a :: p) ++ [z]) ++ r).dropWhile isJsWhitespace = ((a :: p) ++ [z]) ++ r := by
    simp [List.dropWhile_cons, ha]
  rw [e1, trimEndChars_append _ _ _ hz]
  exact ⟨trimEndChars r, by simp⟩

namespace UriClassifier

theorem classify_str (s : String) : classify (.str s) = decisionList (jsTrim s) := by
  unfold classify detectType decisionList looksLikeJson
  by_cases h0 : s = ""
  · subst h0
    decide
  · simp only [beq_iff_eq, h0, ↓reduceIte, Bool.and_eq_true, Bool.or_eq_true]
    by_cases h1 : jsTrim s = ""
    · simp [h1]
    · simp only [h1, ↓reduceIte]
      by_cases h2 : startsWith (jsTrim s) "data:" = true ∧ includes (jsTrim s) "enc=gzip" = true
      · simp only [h2, and_self, ↓reduceIte]
      · simp only [h2, ↓reduceIte]
        by_cases h3 : startsWith (jsTrim s) "data:application/json;base64," = true
        · simp only [h3, ↓reduceIte]
        · simp only [h3, ↓reduceIte]
          by_cases h4 : startsWith (jsTrim s) "https://" = true
          · simp [h4]
          · by_cases h5 : startsWith (jsTrim s) "http://" = true
            · simp [h4, h5]
            · simp only [h4, h5, or_self, ↓reduceIte]

theorem decisionList_mem (t : String) : decisionList t ∈ tags := by
  unfold decisionList tags
  split_ifs <;> simp

end UriClassifier

/-- C5. The classifier is total with a closed range: for every value (a
string, `null`, `undefined` or anything else) it returns, and what it returns
is exactly one of the seven tags. -/
theorem classify_total (uri : JsVal) :
    UriClassifier.classify uri ∈ UriClassifier.tags ∧
    UriClassifier.tags.count (UriClassifier.classify uri) = 1 := by
  have hmem : UriClassifier.classify uri ∈ UriClassifier.tags := by
    cases uri with
    | str s => rw [UriClassifier.classify_str]; exact UriClassifier.decisionList_mem _
    | _ => simp [UriClassifier.classify, UriClassifier.detectType, UriClassifier.tags]
  refine ⟨hmem, ?_⟩
  have hd : UriClassifier.tags.Nodup := by decide
  exact List.count_eq_one_of_mem hd hmem

/-- C6. On a string the classifier is the first-match-wins decision list of
the specification applied to the trimmed string; in particular a string that
starts with `data:application/json;base64,` and contains `enc=gzip` is tagged
`gzip`. -/
theorem classify_decision_list (s : String) :
    UriClassifier.classify (.str s) = UriClassifier.decisionList (jsTrim s) ∧
    (startsWith s "data:application/json;base64," = true → includes s "enc=gzip" = true →
      UriClassifier.classify (.str s) = "gzip") := by
  refine ⟨UriClassifier.classify_str s, ?_⟩
  intro hp hi
  rw [UriClassifier.classify_str]
  have h1 : startsWith (jsTrim s) "data:" = true := by
    rw [startsWith_iff] at hp ⊢
    have h29 : "data:application/json;base64,".data <+: (jsTrim s).data :=
      jsTrim_prefix s "ata:application/json;base64".data 'd' ',' (by decide) (by decide) hp
    exact List.IsPrefix.trans (by decide) h29
  have h2 : includes (jsTrim s) "enc=gzip" = true := by
    rw [includes_iff] at hi ⊢
    exact jsTrim_infix s "nc=gzi".data 'e' 'p' (by decide) (by decide) hi
  have h0 : jsTrim s ≠ "" := by
    intro h
    rw [h] at h1
    exact absurd h1 (by decide)
  unfold UriClassifier.decisionList
  simp [h0, h1, h2]

/-- Witness for C6: the test string of the classifier tests, with the gzip
marker behind the base64 prefix. -/
theorem classify_decision_list_witness :
    UriClassifier.classify (.str "data:application/json;base64,enc=gzip;abc") = "gzip" :=
  (classify_decision_list "data:application/json;base64,enc=gzip;abc").2
    (by decide) (by decide)

/-! ## The pipeline -/

namespace UriDecoder

theorem decodeGzip_fail_null (rt : Host) (uri : Option String) (r : Decoded)
    (h : decodeGzip rt uri = .ok r) (hs : r.status = false) :
    r.decodedRegistrationFile = .null := by
  unfold decodeGzip at h
  split at h
  · cases h
  · simp only [List.nil_append] at h
    split at h
    · cases h; rfl
    · split at h
      · cases h; rfl
      · split at h
        · cases h; rfl
        · cases h; cases hs

theorem decodeBase64_fail_null (rt : Host) (uri : Option String) (r : Decoded)
    (h : decodeBase64 rt uri = .ok r) (hs : r.status = false) :
    r.decodedRegistrationFile = .null := by
  unfold decodeBase64 at h
  split at h
  · cases h
  · simp only [List.nil_append] at h
    split at h
    · cases h; rfl
    · split at h
      · cases h; rfl
      · split at h
        · cases h; rfl
        · cases h; cases hs

theorem decodeJson_fail_null (rt : Host) (uri : Option String)
    (hs : (decodeJson rt uri).status = false) :
    (decodeJson rt uri).decodedRegistrationFile = .null := by
  unfold decodeJson at hs ⊢
  split
  · rfl
  · rename_i parsed hp
    rw [hp] at hs
    cases hs

/-- A failed decoding carries no document, and only the tags `gzip`, `base64`
and `json` can succeed. -/
theorem decode_cases (rt : Host) (uri : Option String) (t : String) (r : Decoded)
    (h : decode rt uri t = .ok r) :
    (r.status = false ∧ r.decodedRegistrationFile = .null) ∨
    (r.status = true ∧ (t = "gzip" ∨ t = "base64" ∨ t = "json")) := by
  unfold decode at h
  simp only [List.nil_append] at h
  split_ifs at h with h1 h2 h3 h4 h5 h6
  · cases h; exact Or.inl ⟨rfl, rfl⟩
  · cases h; exact Or.inl ⟨rfl, rfl⟩
  · simp only [bind, Except.bind] at h
    split at h
    · cases h
    · simp only [pure, Except.pure] at h
      cases h; exact Or.inl ⟨rfl, rfl⟩
  · simp only [bind, Except.bind] at h
    split at h
    · cases h
    · rename_i r' hr
      simp only [pure, Except.pure] at h
      cases h
      cases hs : r'.status
      · exact Or.inl ⟨rfl, decodeGzip_fail_null rt uri r' hr hs⟩
      · exact Or.inr ⟨rfl, Or.inl (by simpa using h4)⟩
  · simp only [bind, Except.bind] at h
    split at h
    · cases h
    · rename_i r' hr
      simp only [pure, Except.pure] at h
      cases h
      cases hs : r'.status
      · exact Or.inl ⟨rfl, decodeBase64_fail_null rt uri r' hr hs⟩
      · exact Or.inr ⟨rfl, Or.inr (Or.inl (by simpa using h5))⟩
  · cases h
    cases hs : (decodeJson rt uri).status
    · exact Or.inl ⟨rfl, decodeJson_fail_null rt uri hs⟩
    · exact Or.inr ⟨rfl, Or.inr (Or.inr (by simpa using h6))⟩
  · cases h; exact Or.inl ⟨rfl, rfl⟩

end UriDecoder

namespace MetadataExtractor

theorem extract_null (rt : Host) (tag : String) (a o : Option String) :
    extract rt .null tag a o = .ok (buildEmptyCategories tag, buildEmptyEntries tag a o) := rfl

theorem buildEmptyCategories_flags (tag : String) (h : tag ∈ UriClassifier.tags) :
    (typeFlags (buildEmptyCategories tag)).count true = 1 ∧
    flagOf (buildEmptyCategories tag) tag = true := by
  simp only [UriClassifier.tags, List.mem_cons, List.mem_singleton, List.not_mem_nil,
    or_false] at h
  rcases h with rfl | rfl | rfl | rfl | rfl | rfl | rfl <;> decide

theorem buildCategories_flags (doc : JsVal) (tag : String) (c : Categories)
    (h : buildCategories doc tag = .ok c) (ht : tag = "gzip" ∨ tag = "base64" ∨ tag = "json") :
    (typeFlags c).count true = 1 ∧ flagOf c tag = true := by
  unfold buildCategories at h
  simp only [bind, Except.bind, pure, Except.pure] at h
  split at h
  · cases h
  · split at h
    · cases h
    · split at h
      · cases h
      · split at h
        · cases h
        · cases h
          rcases ht with rfl | rfl | rfl <;> simp [typeFlags, flagOf, List.count_cons]

theorem extract_flags (rt : Host) (doc : JsVal) (tag : String) (a o : Option String)
    (c : Categories) (e : Entries) (h : extract rt doc tag a o = .ok (c, e))
    (hn : doc.isNull = false) (ht : tag = "gzip" ∨ tag = "base64" ∨ tag = "json") :
    (typeFlags c).count true = 1 ∧ flagOf c tag = true := by
  unfold extract at h
  split_ifs at h with h0
  · simp only [Bool.or_eq_true] at h0
    rcases h0 with h0 | h0
    · rw [hn] at h0; cases h0
    · cases h
      have : tag ∈ UriClassifier.tags := by
        rcases ht with rfl | rfl | rfl <;> decide
      exact buildEmptyCategories_flags tag this
  · simp only [bind, Except.bind, pure, Except.pure] at h
    split at h
    · cases h
    · rename_i c' hc
      split at h
      · cases h
      · cases h
        exact buildCategories_flags doc tag c hc ht

end MetadataExtractor

namespace Erc8004RegistryParser

theorem classify_mem (uri : JsVal) : UriClassifier.classify uri ∈ UriClassifier.tags := by
  cases uri with
  | str s => rw [UriClassifier.classify_str]; exact UriClassifier.decisionList_mem _
  | _ => simp [UriClassifier.classify, UriClassifier.detectType, UriClassifier.tags]

/-- What a returning pipeline run consists of. -/
theorem runPipeline_ok (rt : Host) (uri a o : Option String) (v : ValidatorsArg)
    (p : PipelineResult) (h : runPipeline rt uri a o v = .ok p) :
    stageMessages rt uri v = .ok p.messages ∧
    (typeFlags p.categories).count true = 1 ∧
    flagOf p.categories (UriClassifier.classify (uriValue uri)) = true := by
  unfold runPipeline at h
  unfold stageMessages
  simp only [bind, Except.bind, pure, Except.pure, List.nil_append] at h ⊢
  split at h
  · cases h
  · rename_i dec hdec
    rcases UriDecoder.decode_cases rt uri _ dec hdec with ⟨hs, hnull⟩ | ⟨hs, ht⟩
    · simp only [hs, hnull, Bool.not_false, Bool.true_or, ↓reduceIte, JsVal.isNull] at h ⊢
      rw [MetadataExtractor.extract_null] at h
      cases h
      exact ⟨rfl, MetadataExtractor.buildEmptyCategories_flags _ (classify_mem _)⟩
    · cases hn : dec.decodedRegistrationFile.isNull
      · simp only [hs, hn, Bool.not_true, Bool.or_self, Bool.false_eq_true, ↓reduceIte] at h ⊢
        split at h
        · cases h
        · rename_i val hval
          split at h
          · cases h
          · rename_i ce hce
            split at h
            · cases h
            · rename_i vm hvm
              cases h
              exact ⟨rfl, MetadataExtractor.extract_flags rt _ _ a o ce.1 ce.2 hce hn ht⟩
      · simp only [hs, hn, Bool.not_true, Bool.or_true, ↓reduceIte] at h ⊢
        rw [MetadataExtractor.extract_null] at h
        cases h
        exact ⟨rfl, MetadataExtractor.buildEmptyCategories_flags _ (classify_mem _)⟩

end Erc8004RegistryParser

namespace Validation

theorem finish_status (ms : List String) : (finish ms).status = true ↔ ms = [] := by
  unfold finish
  cases ms <;> simp

theorem checkStringOrNull_ne_nil (v : JsVal) (label : String) (ms : List String)
    (h : ms ≠ []) : checkStringOrNull v label ms ≠ [] := by
  unfold checkStringOrNull
  split_ifs <;> simp [h]

theorem checkValidators_ne_nil (v : ValidatorsArg) (ms : List String)
    (h : ms ≠ []) : checkValidators v ms ≠ [] := by
  unfold checkValidators
  split <;> simp [h]

theorem checkRequiredString_nil (v : JsVal) (label : String)
    (h : checkRequiredString v label [] = []) : v = .null ∨ ∃ s, v = .str s := by
  cases v <;> simp [checkRequiredString, JsVal.isUndefined, JsVal.isNull, JsVal.isString] at h ⊢

/-- A call of `validateFromUri` that passes the parameter check has a string
or `null` as its URI. -/
theorem validateFromUri_uri (uri a o : JsVal) (v : ValidatorsArg)
    (h : (validationValidateFromUri uri a o v).status = true) :
    uri = .null ∨ ∃ s, uri = .str s := by
  unfold validationValidateFromUri at h
  rw [finish_status] at h
  apply checkRequiredString_nil uri "agentUri"
  by_contra hne
  exact checkValidators_ne_nil _ _
    (checkStringOrNull_ne_nil _ _ _ (checkStringOrNull_ne_nil _ _ _ hne)) h

theorem classifyUri_uri (uri : JsVal) (h : (validationClassifyUri uri).status = true) :
    uri = .null ∨ ∃ s, uri = .str s := by
  unfold validationClassifyUri at h
  rw [finish_status] at h
  exact checkRequiredString_nil uri "decodedAgentUri" h

end Validation

namespace Erc8004RegistryParser

theorem uriValue_stringOrNull (uri : JsVal) (h : uri = .null ∨ ∃ s, uri = .str s) :
    uriValue (stringOrNull uri) = uri := by
  rcases h with rfl | ⟨s, rfl⟩ <;> rfl

/-- A returning `validateFromUri` passed the parameter check and returns the
record of a pipeline run. -/
theorem validateFromUri_ok (rt : Host) (uri a o : JsVal) (v : ValidatorsArg) (r : Result)
    (h : validateFromUri rt uri a o v = .ok r) :
    (uri = .null ∨ ∃ s, uri = .str s) ∧
    ∃ p, runPipeline rt (stringOrNull uri) (stringOrNull a) (stringOrNull o) (withDefault v)
        = .ok p ∧ r.messages = p.messages ∧ r.categories = p.categories ∧
      r.entries = p.entries := by
  unfold validateFromUri at h
  simp only [bind, Except.bind, pure, Except.pure] at h
  split at h
  · cases h
  · rename_i hu
    have hst : (Validation.validationValidateFromUri uri a o (withDefault v)).status = true := by
      simpa using hu
    refine ⟨Validation.validateFromUri_uri _ _ _ _ hst, ?_⟩
    split at h
    · cases h
    · rename_i p hp
      cases h
      exact ⟨p, hp, rfl, rfl, rfl⟩

/-- A returning `start` returns the messages of the event decoder, followed by
a pipeline run when the event was decoded. -/
theorem start_ok (rt : Host) (log : JsVal) (v : ValidatorsArg) (r : Result)
    (h : start rt log v = .ok r) :
    ∃ ev, EventDecoder.decode rt log = .ok ev ∧
      if (!ev.status || ev.decodedAgentUri.isNone) = true then
        r.messages = ev.messages ∧
        r.categories = MetadataExtractor.buildEmptyCategories "empty"
      else
        ∃ p, runPipeline rt ev.decodedAgentUri ev.agentId ev.ownerAddress (withDefault v)
            = .ok p ∧ r.messages = ev.messages ++ p.messages ∧
          r.categories = p.categories ∧ r.entries = p.entries := by
  unfold start at h
  simp only [bind, Except.bind, pure, Except.pure, buildResult, List.nil_append] at h
  split at h
  · cases h
  · split at h
    · cases h
    · rename_i ev hev
      refine ⟨ev, hev, ?_⟩
      split_ifs at h with hc
      · simp only [MetadataExtractor.extract_null] at h
        cases h
        rw [if_pos hc]
        exact ⟨rfl, rfl⟩
      · split at h
        · cases h
        · rename_i p hp
          cases h
          rw [if_neg hc]
          exact ⟨p, hp, rfl, rfl, rfl⟩

theorem classifyUri_ok (rt : Host) (uri : JsVal) (r : Classified)
    (h : classifyUri rt uri = .ok r) :
    r.uriAgentType = UriClassifier.classify uri ∧
    r.categories = MetadataExtractor.buildEmptyCategories (UriClassifier.classify uri) := by
  unfold classifyUri at h
  simp only [bind, Except.bind, pure, Except.pure, MetadataExtractor.extract_null] at h
  split at h
  · cases h
  · cases h
    exact ⟨rfl, rfl⟩

end Erc8004RegistryParser

/-- C1. In the categories that `start`, `validateFromUri` and `classifyUri`
return, exactly one of the seven URI-type flags is true, and it is the flag of
the tag that the classifier assigns to the URI (`isEmpty` when the event log
was not decoded to a URI). -/
theorem exactly_one_type_flag (rt : Host) :
    (∀ log v r, Erc8004RegistryParser.start rt log v = .ok r →
      (typeFlags r.categories).count true = 1 ∧
      ∃ ev, EventDecoder.decode rt log = .ok ev ∧
        flagOf r.categories
          (if (!ev.status || ev.decodedAgentUri.isNone) = true then "empty"
           else UriClassifier.classify (Erc8004RegistryParser.uriValue ev.decodedAgentUri))
          = true) ∧
    (∀ uri agentId owner v r,
      Erc8004RegistryParser.validateFromUri rt uri agentId owner v = .ok r →
      (typeFlags r.categories).count true = 1 ∧
      flagOf r.categories (UriClassifier.classify uri) = true) ∧
    (∀ uri r, Erc8004RegistryParser.classifyUri rt uri = .ok r →
      (typeFlags r.categories).count true = 1 ∧
      flagOf r.categories (UriClassifier.classify uri) = true) := by
  refine ⟨?_, ?_, ?_⟩
  · intro log v r h
    obtain ⟨ev, hev, hr⟩ := Erc8004RegistryParser.start_ok rt log v r h
    split_ifs at hr with hc
    · obtain ⟨-, hcat⟩ := hr
      rw [hcat]
      exact ⟨by decide, ev, hev, by rw [if_pos hc]; decide⟩
    · obtain ⟨p, hp, -, hcat, -⟩ := hr
      obtain ⟨-, h1, h2⟩ := Erc8004RegistryParser.runPipeline_ok rt _ _ _ _ p hp
      rw [hcat]
      exact ⟨h1, ev, hev, by rw [if_neg hc]; exact h2⟩
  · intro uri a o v r h
    obtain ⟨huri, p, hp, -, hcat, -⟩ := Erc8004RegistryParser.validateFromUri_ok rt uri a o v r h
    obtain ⟨-, h1, h2⟩ := Erc8004RegistryParser.runPipeline_ok rt _ _ _ _ p hp
    rw [Erc8004RegistryParser.uriValue_stringOrNull uri huri] at h2
    rw [hcat]
    exact ⟨h1, h2⟩
  · intro uri r h
    obtain ⟨-, hcat⟩ := Erc8004RegistryParser.classifyUri_ok rt uri r h
    rw [hcat]
    exact MetadataExtractor.buildEmptyCategories_flags _
      (Erc8004RegistryParser.classify_mem uri)

/-- C7. The messages of `validateFromUri` are the messages of the decoder,
followed, when a document was decoded, by the messages of the registration
validator on it and by the messages of the injected validators; the messages
of `start` are the messages of the event decoder followed by that sequence for
the decoded URI. -/
theorem messages_in_stage_order (rt : Host) :
    (∀ uri agentId owner v r,
      Erc8004RegistryParser.validateFromUri rt uri agentId owner v = .ok r →
      stageMessages rt (Erc8004RegistryParser.stringOrNull uri)
        (Erc8004RegistryParser.withDefault v) = .ok r.messages) ∧
    (∀ log v r, Erc8004RegistryParser.start rt log v = .ok r →
      ∃ ev, EventDecoder.decode rt log = .ok ev ∧
        if (!ev.status || ev.decodedAgentUri.isNone) = true then r.messages = ev.messages
        else ∃ ms, stageMessages rt ev.decodedAgentUri (Erc8004RegistryParser.withDefault v)
            = .ok ms ∧ r.messages = ev.messages ++ ms) := by
  refine ⟨?_, ?_⟩
  · intro uri a o v r h
    obtain ⟨-, p, hp, hm, -, -⟩ := Erc8004RegistryParser.validateFromUri_ok rt uri a o v r h
    rw [hm]
    exact (Erc8004RegistryParser.runPipeline_ok rt _ _ _ _ p hp).1
  · intro log v r h
    obtain ⟨ev, hev, hr⟩ := Erc8004RegistryParser.start_ok rt log v r h
    refine ⟨ev, hev, ?_⟩
    split_ifs at hr ⊢ with hc
    · exact hr.1
    · obtain ⟨p, hp, hm, -, -⟩ := hr
      exact ⟨p.messages, (Erc8004RegistryParser.runPipeline_ok rt _ _ _ _ p hp).1, hm⟩

set_option maxRecDepth 100000 in
/-- Witness for C1: the real-world base64 URI of the test suite. -/
theorem exactly_one_type_flag_witness :
    ∃ r, Erc8004RegistryParser.validateFromUri refHost (.str Samples.realWorldUri)
        .undefined .undefined .undefined = .ok r ∧
      (typeFlags r.categories).count true = 1 ∧ flagOf r.categories "base64" = true :=
  ⟨_, rfl, (exactly_one_type_flag refHost).2.1 (.str Samples.realWorldUri)
    .undefined .undefined .undefined _ rfl⟩

/-! ## Accumulation of validator messages -/

namespace RegistrationValidator

theorem checkType_acc (v : JsVal) (ms : List String) : checkType v ms = ms ++ checkType v [] := by
  unfold checkType; split_ifs <;> simp

theorem checkName_acc (v : JsVal) (ms : List String) : checkName v ms = ms ++ checkName v [] := by
  unfold checkName; split_ifs <;> simp

theorem checkDescription_acc (v : JsVal) (ms : List String) :
    checkDescription v ms = ms ++ checkDescription v [] := by
  unfold checkDescription; split_ifs <;> simp

theorem checkProtocolKey_acc (a b : Bool) (i : Nat) (ms : List String) :
    checkProtocolKey a b i ms = ms ++ checkProtocolKey a b i [] := by
  unfold checkProtocolKey; split_ifs <;> simp

theorem checkEndpointKey_acc (a b : Bool) (i : Nat) (ms : List String) :
    checkEndpointKey a b i ms = ms ++ checkEndpointKey a b i [] := by
  unfold checkEndpointKey; split_ifs <;> simp

theorem checkProtocol_acc (v : JsVal) (n : String) (i : Nat) (ms : List String) :
    checkProtocol v n i ms = ms ++ checkProtocol v n i [] := by
  unfold checkProtocol; split_ifs <;> simp

theorem checkUrl_acc (rt : Host) (v : JsVal) (i : Nat) (ms : List String) :
    checkUrl rt v i ms = ms ++ checkUrl rt v i [] := by
  unfold checkUrl; dsimp only; split_ifs <;> simp

theorem checkX402Case_acc (a b : Bool) (ms : List String) :
    checkX402Case a b ms = ms ++ checkX402Case a b [] := by
  unfold checkX402Case; split_ifs <;> simp

theorem checkX402Type_acc (a : Bool) (v : JsVal) (ms : List String) :
    checkX402Type a v ms = ms ++ checkX402Type a v [] := by
  unfold checkX402Type; split_ifs <;> simp

theorem checkImage_acc (rt : Host) (v : JsVal) (ms : List String) :
    checkImage rt v ms = ms ++ checkImage rt v [] := by
  unfold checkImage; dsimp only; split_ifs <;> simp

theorem checkActive_acc (v : JsVal) (ms : List String) :
    checkActive v ms = ms ++ checkActive v [] := by
  unfold checkActive; split_ifs <;> simp

theorem validateTrustFrom_acc (xs : List JsVal) (i : Nat) (ms : List String) :
    validateTrustFrom xs i ms = ms ++ validateTrustFrom xs i [] := by
  induction xs generalizing i ms with
  | nil => simp [validateTrustFrom]
  | cons x xs ih =>
    unfold validateTrustFrom
    simp only [List.nil_append]
    split_ifs
    · rw [ih, ih (i + 1) [_]]; simp
    · exact ih _ _

theorem checkSupportedTrust_acc (v : JsVal) (ms : List String) :
    checkSupportedTrust v ms = ms ++ checkSupportedTrust v [] := by
  unfold checkSupportedTrust
  split_ifs
  · split
    · exact validateTrustFrom_acc _ _ _
    · simp
  · simp

theorem validateKeys_acc (allowed keys : List String) (ms : List String) :
    validateKeys allowed keys ms = ms ++ validateKeys allowed keys [] := by
  induction keys generalizing ms with
  | nil => simp [validateKeys]
  | cons x xs ih =>
    unfold validateKeys
    simp only [List.nil_append]
    split_ifs
    · rw [ih, ih [_]]; simp
    · exact ih _

theorem validateExtraFields_acc (parsed : JsVal) (ms : List String) :
    validateExtraFields parsed ms = ms ++ validateExtraFields parsed [] := by
  unfold validateExtraFields
  exact validateKeys_acc _ _ _

theorem validateRequiredFields_acc (parsed : JsVal) (ms : List String) :
    validateRequiredFields parsed ms = (validateRequiredFields parsed []).map (ms ++ ·) := by
  unfold validateRequiredFields
  simp only [bind, Except.bind, pure, Except.pure]
  cases parsed.get "type" with
  | error e => rfl
  | ok type =>
    cases parsed.get "name" with
    | error e => rfl
    | ok name =>
      cases parsed.get "description" with
      | error e => rfl
      | ok description =>
        simp only [Except.map]
        rw [checkDescription_acc, checkName_acc, checkType_acc,
          checkDescription_acc _ (checkName _ _), checkName_acc _ (checkType _ _)]
        simp

theorem validateService_acc (rt : Host) (service : JsVal) (i : Nat) (ms : List String) :
    validateService rt service i ms = (validateService rt service i []).map (ms ++ ·) := by
  unfold validateService
  simp only [bind, Except.bind, pure, Except.pure]
  cases service.get "type" with
  | error e => rfl
  | ok type =>
    cases service.get "name" with
    | error e => rfl
    | ok name =>
      cases service.get "url" with
      | error e => rfl
      | ok url =>
        cases service.get "endpoint" with
        | error e => rfl
        | ok endpoint =>
          simp only
          cases (type.or (name.or (JsVal.str ""))).toLowerCase with
          | error e => rfl
          | ok n =>
            simp only [Except.map]
            rw [checkUrl_acc, checkProtocol_acc, checkEndpointKey_acc, checkProtocolKey_acc,
              checkUrl_acc _ _ _ (checkProtocol _ _ _ _),
              checkProtocol_acc _ _ _ (checkEndpointKey _ _ _ _),
              checkEndpointKey_acc _ _ _ (checkProtocolKey _ _ _ _)]
            simp

theorem validateServicesFrom_acc (rt : Host) (xs : List JsVal) (i : Nat) (ms : List String) :
    validateServicesFrom rt xs i ms = (validateServicesFrom rt xs i []).map (ms ++ ·) := by
  induction xs generalizing i ms with
  | nil => simp [validateServicesFrom, Except.map]
  | cons x xs ih =>
    unfold validateServicesFrom
    rw [validateService_acc]
    cases validateService rt x i [] with
    | error e => rfl
    | ok m =>
      simp only [Except.map]
      rw [ih, ih (i + 1) m]
      cases validateServicesFrom rt xs (i + 1) [] with
      | error e => rfl
      | ok m2 => simp [Except.map]

theorem validateServices_acc (rt : Host) (parsed : JsVal) (ms : List String) :
    validateServices rt parsed ms = (validateServices rt parsed []).map (ms ++ ·) := by
  unfold validateServices
  simp only [bind, Except.bind, pure, Except.pure]
  cases parsed.get "services" with
  | error e => rfl
  | ok services =>
    simp only
    split
    · simp [Except.map]
    · simp [Except.map]
    · exact validateServicesFrom_acc _ _ _ _
    · simp [Except.map]

theorem validateX402_acc (parsed : JsVal) (ms : List String) :
    validateX402 parsed ms = (validateX402 parsed []).map (ms ++ ·) := by
  unfold validateX402
  simp only [bind, Except.bind, pure, Except.pure]
  cases parsed.get "x402Support" with
  | error e => rfl
  | ok upper =>
    cases parsed.get "x402support" with
    | error e => rfl
    | ok lower =>
      simp only
      split_ifs <;>
      · simp only [Except.map]
        rw [checkX402Type_acc, checkX402Case_acc,
          checkX402Type_acc _ _ (checkX402Case _ _ _)]
        simp

theorem validateOptionalFields_acc (rt : Host) (parsed : JsVal) (ms : List String) :
    validateOptionalFields rt parsed ms
      = (validateOptionalFields rt parsed []).map (ms ++ ·) := by
  unfold validateOptionalFields
  simp only [bind, Except.bind, pure, Except.pure]
  cases parsed.get "image" with
  | error e => rfl
  | ok image =>
    cases parsed.get "active" with
    | error e => rfl
    | ok active =>
      cases parsed.get "supportedTrust" with
      | error e => rfl
      | ok trust =>
        simp only [Except.map]
        rw [checkSupportedTrust_acc, checkActive_acc, checkImage_acc,
          checkSupportedTrust_acc _ (checkActive _ _), checkActive_acc _ (checkImage _ _ _)]
        simp

end RegistrationValidator

namespace RegistrationValidator

theorem validate_grouped (rt : Host) (kvs : List (String × JsVal)) :
    (validate rt (.obj kvs)).map (·.messages) = groupedMessages rt (.obj kvs) := by
  unfold validate groupedMessages
  simp only [bind, Except.bind, pure, Except.pure]
  cases h1 : validateRequiredFields (.obj kvs) [] with
  | error e => rfl
  | ok m1 =>
    simp only
    rw [validateServices_acc]
    cases h2 : validateServices rt (.obj kvs) [] with
    | error e => rfl
    | ok m2 =>
      simp only [Except.map]
      rw [validateX402_acc]
      cases h3 : validateX402 (.obj kvs) [] with
      | error e => rfl
      | ok m3 =>
        simp only [Except.map]
        rw [validateOptionalFields_acc]
        cases h4 : validateOptionalFields rt (.obj kvs) [] with
        | error e => rfl
        | ok m4 =>
          simp only [Except.map]
          rw [validateExtraFields_acc]

theorem validateServicesFrom_groups (rt : Host) (xs : List JsVal) (i : Nat) (out : List String)
    (h : validateServicesFrom rt xs i [] = .ok out) :
    ∃ groups : List (List String),
      List.Forall₂ (fun p g => validateService rt p.2 p.1 [] = .ok g) (xs.enumFrom i) groups ∧
      out = groups.flatten := by
  induction xs generalizing i out with
  | nil =>
    simp only [validateServicesFrom] at h
    cases h
    exact ⟨[], List.Forall₂.nil, rfl⟩
  | cons x xs ih =>
    unfold validateServicesFrom at h
    split at h
    · cases h
    · rename_i m hm
      rw [validateServicesFrom_acc] at h
      cases h2 : validateServicesFrom rt xs (i + 1) [] with
      | error e => rw [h2] at h; cases h
      | ok m2 =>
        rw [h2] at h
        simp only [Except.map] at h
        cases h
        obtain ⟨groups, hg, rfl⟩ := ih (i + 1) m2 h2
        exact ⟨m :: groups, List.Forall₂.cons hm hg, by simp⟩

theorem validateRequiredFields_obj (kvs : List (String × JsVal)) :
    validateRequiredFields (.obj kvs) [] = .ok (checkType (field kvs "type") [] ++
      checkName (field kvs "name") [] ++ checkDescription (field kvs "description") []) := by
  unfold validateRequiredFields
  simp only [bind, Except.bind, pure, Except.pure, JsVal.get]
  rw [checkDescription_acc, checkName_acc]
  rfl

theorem validateOptionalFields_obj (rt : Host) (kvs : List (String × JsVal)) :
    validateOptionalFields rt (.obj kvs) [] = .ok (checkImage rt (field kvs "image") [] ++
      checkActive (field kvs "active") [] ++
      checkSupportedTrust (field kvs "supportedTrust") []) := by
  unfold validateOptionalFields
  simp only [bind, Except.bind, pure, Except.pure, JsVal.get]
  rw [checkSupportedTrust_acc, checkActive_acc]
  rfl

end RegistrationValidator

/-- C9. The messages of `RegistrationValidator.validate` on an object are the
concatenation of what the five checks produce on the document by themselves, in
the order required fields (type, name, description), services (by ascending
index), x402, optional fields (image, active, supportedTrust), unknown fields;
the validator returns exactly when every check does. -/
theorem validate_accumulates (rt : Host) (kvs : List (String × JsVal)) :
    (RegistrationValidator.validate rt (.obj kvs)).map (·.messages)
      = groupedMessages rt (.obj kvs) ∧
    RegistrationValidator.validateRequiredFields (.obj kvs) []
      = .ok (RegistrationValidator.checkType (field kvs "type") [] ++
          RegistrationValidator.checkName (field kvs "name") [] ++
          RegistrationValidator.checkDescription (field kvs "description") []) ∧
    RegistrationValidator.validateOptionalFields rt (.obj kvs) []
      = .ok (RegistrationValidator.checkImage rt (field kvs "image") [] ++
          RegistrationValidator.checkActive (field kvs "active") [] ++
          RegistrationValidator.checkSupportedTrust (field kvs "supportedTrust") []) ∧
    (∀ xs out, RegistrationValidator.validateServicesFrom rt xs 0 [] = .ok out →
      ∃ groups : List (List String),
        List.Forall₂ (fun p g => RegistrationValidator.validateService rt p.2 p.1 [] = .ok g)
          xs.enum groups ∧ out = groups.flatten) :=
  ⟨RegistrationValidator.validate_grouped rt kvs,
   RegistrationValidator.validateRequiredFields_obj kvs,
   RegistrationValidator.validateOptionalFields_obj rt kvs,
   fun xs out h => RegistrationValidator.validateServicesFrom_groups rt xs 0 out h⟩

/-! ## Distinct messages -/

theorem digitChar_lt (d : Nat) (h : d < 10) :
    (Nat.digitChar d).isDigit = true ∧ (Nat.digitChar d).toNat - 48 = d := by
  interval_cases d <;> exact ⟨by decide, by decide⟩

theorem decVal_append_singleton (cs : List Char) (c : Char) :
    decVal (cs ++ [c]) = decVal cs * 10 + (c.toNat - 48) := by
  simp [decVal, List.foldl_append]

theorem toDigitsCore_spec (fuel n : Nat) (ds : List Char) (h : n < fuel) :
    ∃ front, Nat.toDigitsCore 10 fuel n ds = front ++ ds ∧
      (∀ c ∈ front, c.isDigit = true) ∧ decVal front = n := by
  induction fuel generalizing n ds with
  | zero => omega
  | succ fuel ih =>
    unfold Nat.toDigitsCore
    simp only
    obtain ⟨hd, hv⟩ := digitChar_lt (n % 10) (Nat.mod_lt _ (by decide))
    split_ifs with h0
    · refine ⟨[Nat.digitChar (n % 10)], rfl, by simpa using hd, ?_⟩
      simp only [decVal, List.foldl_cons, List.foldl_nil, Nat.zero_mul, Nat.zero_add, hv]
      omega
    · have hlt : n / 10 < fuel := by omega
      obtain ⟨front, hf, hall, hval⟩ := ih (n / 10) (Nat.digitChar (n % 10) :: ds) hlt
      refine ⟨front ++ [Nat.digitChar (n % 10)], by rw [hf]; simp, ?_, ?_⟩
      · intro c hc
        rcases List.mem_append.mp hc with hc | hc
        · exact hall c hc
        · simp only [List.mem_singleton] at hc
          rw [hc]; exact hd
      · rw [decVal_append_singleton, hval, hv]
        omega

theorem toString_digits (n : Nat) :
    (∀ c ∈ (toString n).data, c.isDigit = true) ∧ decVal (toString n).data = n := by
  obtain ⟨front, hf, hall, hval⟩ := toDigitsCore_spec (n + 1) n [] (by omega)
  have : (toString n).data = front := by
    show (Nat.repr n).data = front
    unfold Nat.repr Nat.toDigits
    rw [hf]; simp [List.asString]
  rw [this]
  exact ⟨hall, hval⟩

theorem toString_nat_injective (i j : Nat) (h : (toString i).data = (toString j).data) : i = j := by
  rw [← (toString_digits i).2, ← (toString_digits j).2, h]

/-- Lists whose elements have keys in disjoint sets are disjoint. -/
theorem disjoint_of_key {α κ : Type} (f : α → κ) (A B : List α) (SA SB : List κ)
    (hA : ∀ a ∈ A, f a ∈ SA) (hB : ∀ b ∈ B, f b ∈ SB) (h : ∀ k ∈ SA, k ∉ SB) :
    A.Disjoint B := by
  intro a ha hb
  exact h _ (hA a ha) (hB a hb)

theorem nodup_append_of_key {α κ : Type} (f : α → κ) (A B : List α) (SA SB : List κ)
    (hA : ∀ a ∈ A, f a ∈ SA) (hB : ∀ b ∈ B, f b ∈ SB) (h : ∀ k ∈ SA, k ∉ SB)
    (nA : A.Nodup) (nB : B.Nodup) :
    (A ++ B).Nodup ∧ ∀ a ∈ A ++ B, f a ∈ SA ++ SB := by
  refine ⟨List.nodup_append.mpr ⟨nA, nB, disjoint_of_key f A B SA SB hA hB h⟩, ?_⟩
  intro a ha
  rcases List.mem_append.mp ha with ha | ha
  · exact List.mem_append_left _ (hA a ha)
  · exact List.mem_append_right _ (hB a ha)

theorem topKey_of (m : String) (g : List Char) (h1 : m.data.take 2 = g)
    (h2 : m.data.getLast? ≠ some 'c') : topKey m = g := by
  unfold topKey
  rw [if_neg h2, h1]

theorem getLast?_data_append (a b : String) (h : b.data ≠ []) :
    (a ++ b).data.getLast? = b.data.getLast? := by
  rw [String.data_append, List.getLast?_append_of_ne_nil _ h]

theorem keys_one {P : String → Prop} (m : String) (h : P m) :
    (([] : List String) ++ [m]).Nodup ∧ ∀ x ∈ ([] : List String) ++ [m], P x := by
  refine ⟨by simp, ?_⟩
  intro x hx
  simp only [List.nil_append, List.mem_singleton] at hx
  rw [hx]; exact h

theorem keys_none {P : String → Prop} :
    ([] : List String).Nodup ∧ ∀ x ∈ ([] : List String), P x := by
  simp

/-- The keys of an indexed message `base ++ digits ++ text ++ rest`. -/
theorem indexed_keys (n : Nat) (base ts lit rest : String) (hn : base.data.length = n)
    (hd : ∀ c ∈ ts.data, c.isDigit = true)
    (hl : 12 ≤ lit.data.length) (hh : (lit.data.headD 'a').isDigit = false) :
    slotKey n (base ++ (ts ++ (lit ++ rest))) = lit.data.take 12 ∧
    indexKey n (base ++ (ts ++ (lit ++ rest))) = ts.data := by
  subst hn
  unfold slotKey indexKey
  simp only [String.data_append]
  rw [List.drop_left, List.dropWhile_append_of_pos hd, List.takeWhile_append_of_pos hd]
  cases hlit : lit.data with
  | nil => rw [hlit] at hl; simp at hl
  | cons c cs =>
    rw [hlit] at hh hl
    simp only [List.headD_cons] at hh
    constructor
    · rw [List.cons_append, List.dropWhile_cons_of_neg (by simp [hh]),
        ← List.cons_append, List.take_append_of_le_length hl]
    · rw [List.cons_append, List.takeWhile_cons_of_neg (by simp [hh])]
      simp

theorem indexed_keys_end (n : Nat) (base ts lit : String) (hn : base.data.length = n)
    (hd : ∀ c ∈ ts.data, c.isDigit = true)
    (hl : 12 ≤ lit.data.length) (hh : (lit.data.headD 'a').isDigit = false) :
    slotKey n (base ++ (ts ++ lit)) = lit.data.take 12 ∧
    indexKey n (base ++ (ts ++ lit)) = ts.data := by
  have h := indexed_keys n base ts lit "" hn hd hl hh
  rw [String.append_empty] at h
  exact h

/-- The three keys of an indexed message. -/
theorem indexedMsg (n : Nat) (base : String) (g : List Char) (i : Nat) (lit rest m : String)
    (S : List (List Char)) (hn : base.data.length = n) (h2 : 2 ≤ n)
    (hg : base.data.take 2 = g) (hm : m = base ++ (toString i ++ (lit ++ rest)))
    (hl : 12 ≤ lit.data.length) (hh : (lit.data.headD 'a').isDigit = false)
    (hS : lit.data.take 12 ∈ S) (hlast : m.data.getLast? ≠ some 'c') :
    topKey m = g ∧ indexKey n m = (toString i).data ∧ slotKey n m ∈ S := by
  have hk := indexed_keys n base (toString i) lit rest hn (toString_digits i).1 hl hh
  refine ⟨topKey_of m g ?_ hlast, ?_, ?_⟩
  · rw [hm, String.data_append, List.take_append_of_le_length (by omega), hg]
  · rw [hm]; exact hk.2
  · rw [hm, hk.1]; exact hS

namespace RegistrationValidator

theorem checkType_keys (v : JsVal) :
    (checkType v []).Nodup ∧ ∀ m ∈ checkType v [], topKey m = ['t', 'y'] := by
  unfold checkType
  split_ifs
  · exact keys_one _
      (topKey_of _ _ rfl (by rw [getLast?_data_append _ _ (by decide)]; decide))
  · exact keys_one _ (topKey_of _ _ rfl (by decide))
  · exact keys_one _
      (topKey_of _ _ rfl (by rw [getLast?_data_append _ _ (by decide)]; decide))
  · exact keys_none

theorem checkName_keys (v : JsVal) :
    (checkName v []).Nodup ∧ ∀ m ∈ checkName v [], topKey m = ['n', 'a'] := by
  unfold checkName
  split_ifs
  · exact keys_one _ (topKey_of _ _ rfl (by decide))
  · exact keys_one _ (topKey_of _ _ rfl (by decide))
  · exact keys_one _ (topKey_of _ _ rfl (by decide))
  · exact keys_none

theorem checkDescription_keys (v : JsVal) :
    (checkDescription v []).Nodup ∧ ∀ m ∈ checkDescription v [], topKey m = ['d', 'e'] := by
  unfold checkDescription
  split_ifs
  · exact keys_one _ (topKey_of _ _ rfl (by decide))
  · exact keys_one _ (topKey_of _ _ rfl (by decide))
  · exact keys_one _ (topKey_of _ _ rfl (by decide))
  · exact keys_none

theorem checkImage_keys (rt : Host) (v : JsVal) :
    (checkImage rt v []).Nodup ∧ ∀ m ∈ checkImage rt v [], topKey m = ['i', 'm'] := by
  unfold checkImage
  dsimp only
  split_ifs
  · exact keys_one _ (topKey_of _ _ rfl (by decide))
  · exact keys_one _ (topKey_of _ _ rfl (by decide))
  · exact keys_none
  · exact keys_none

theorem checkActive_keys (v : JsVal) :
    (checkActive v []).Nodup ∧ ∀ m ∈ checkActive v [], topKey m = ['a', 'c'] := by
  unfold checkActive
  split_ifs
  · exact keys_one _ (topKey_of _ _ rfl (by decide))
  · exact keys_none

theorem checkProtocolKey_keys (a b : Bool) (i : Nat) :
    (checkProtocolKey a b i []).Nodup ∧
    ∀ m ∈ checkProtocolKey a b i [],
      ServiceMsg i ["]: Missing p".data, "].name: Uses".data] m := by
  unfold checkProtocolKey
  split_ifs
  · exact keys_one _ (indexedMsg 9 "services[" _ i
      "]: Missing protocol identifier (\"type\" or \"name\")" "" _ _ rfl (by decide) rfl
      (by simp only [String.append_assoc, String.append_empty]) (by decide) (by decide)
      (by decide) (by rw [getLast?_data_append _ _ (by decide)]; decide))
  · exact keys_one _ (indexedMsg 9 "services[" _ i
      "].name: Uses \"name\" instead of spec-defined \"type\"" "" _ _ rfl (by decide) rfl
      (by simp only [String.append_assoc, String.append_empty]) (by decide) (by decide)
      (by decide) (by rw [getLast?_data_append _ _ (by decide)]; decide))
  · exact keys_none

theorem checkEndpointKey_keys (a b : Bool) (i : Nat) :
    (checkEndpointKey a b i []).Nodup ∧
    ∀ m ∈ checkEndpointKey a b i [],
      ServiceMsg i ["]: Missing e".data, "].endpoint: ".data] m := by
  unfold checkEndpointKey
  split_ifs
  · exact keys_one _ (indexedMsg 9 "services[" _ i
      "]: Missing endpoint (\"url\" or \"endpoint\")" "" _ _ rfl (by decide) rfl
      (by simp only [String.append_assoc, String.append_empty]) (by decide) (by decide)
      (by decide) (by rw [getLast?_data_append _ _ (by decide)]; decide))
  · exact keys_one _ (indexedMsg 9 "services[" _ i
      "].endpoint: Uses \"endpoint\" instead of spec-defined \"url\"" "" _ _ rfl (by decide) rfl
      (by simp only [String.append_assoc, String.append_empty]) (by decide) (by decide)
      (by decide) (by rw [getLast?_data_append _ _ (by decide)]; decide))
  · exact keys_none

theorem checkProtocol_keys (v : JsVal) (n : String) (i : Nat) :
    (checkProtocol v n i []).Nodup ∧
    ∀ m ∈ checkProtocol v n i [], ServiceMsg i ["]: Unknown p".data] m := by
  unfold checkProtocol
  split_ifs
  · exact keys_one _ (indexedMsg 9 "services[" _ i "]: Unknown protocol \""
      (v.toStr ++ ("\" (known: " ++ (", ".intercalate KNOWN_PROTOCOLS ++ ")"))) _ _ rfl
      (by decide) rfl
      (by simp only [String.append_assoc]) (by decide) (by decide)
      (by decide) (by rw [getLast?_data_append _ _ (by decide)]; decide))
  · exact keys_none

theorem checkUrl_keys (rt : Host) (v : JsVal) (i : Nat) :
    (checkUrl rt v i []).Nodup ∧
    ∀ m ∈ checkUrl rt v i [], ServiceMsg i ["].url: Inval".data] m := by
  unfold checkUrl
  dsimp only
  split_ifs
  · exact keys_one _ (indexedMsg 9 "services[" _ i "].url: Invalid URL format" "" _ _ rfl
      (by decide) rfl
      (by simp only [String.append_assoc, String.append_empty]) (by decide) (by decide)
      (by decide) (by rw [getLast?_data_append _ _ (by decide)]; decide))
  · exact keys_none
  · exact keys_none

theorem validateService_eq (rt : Host) (service : JsVal) (i : Nat) (g : List String)
    (h : validateService rt service i [] = .ok g) :
    ∃ a b c d v n u, g = checkProtocolKey a b i [] ++ checkEndpointKey c d i [] ++
      checkProtocol v n i [] ++ checkUrl rt u i [] := by
  revert h
  unfold validateService
  simp only [bind, Except.bind, pure, Except.pure]
  cases service.get "type" with
  | error e => intro h; cases h
  | ok type =>
    cases service.get "name" with
    | error e => intro h; cases h
    | ok name =>
      cases service.get "url" with
      | error e => intro h; cases h
      | ok url =>
        cases service.get "endpoint" with
        | error e => intro h; cases h
        | ok endpoint =>
          simp only
          cases (type.or (name.or (JsVal.str ""))).toLowerCase with
          | error e => intro h; cases h
          | ok n =>
            intro h
            cases h
            rw [checkUrl_acc, checkProtocol_acc, checkEndpointKey_acc]
            exact ⟨_, _, _, _, _, _, _, rfl⟩

/-- The messages of one service entry are distinct and carry its index. -/
theorem validateService_keys (rt : Host) (service : JsVal) (i : Nat) (g : List String)
    (h : validateService rt service i [] = .ok g) :
    g.Nodup ∧ ∀ m ∈ g, topKey m = ['s', 'e'] ∧ indexKey 9 m = (toString i).data := by
  obtain ⟨a, b, c, d, v, n, u, rfl⟩ := validateService_eq rt service i g h
  obtain ⟨nA, kA⟩ := checkProtocolKey_keys a b i
  obtain ⟨nB, kB⟩ := checkEndpointKey_keys c d i
  obtain ⟨nC, kC⟩ := checkProtocol_keys v n i
  obtain ⟨nD, kD⟩ := checkUrl_keys rt u i
  obtain ⟨n1, k1⟩ := nodup_append_of_key (slotKey 9) _ _ _ _
    (fun m hm => (kA m hm).2.2) (fun m hm => (kB m hm).2.2) (by decide) nA nB
  obtain ⟨n2, k2⟩ := nodup_append_of_key (slotKey 9) _ _ _ _
    k1 (fun m hm => (kC m hm).2.2) (by decide) n1 nC
  obtain ⟨n3, -⟩ := nodup_append_of_key (slotKey 9) _ _ _ _
    k2 (fun m hm => (kD m hm).2.2) (by decide) n2 nD
  refine ⟨n3, ?_⟩
  intro m hm
  simp only [List.mem_append] at hm
  rcases hm with ((hm | hm) | hm) | hm
  · exact ⟨(kA m hm).1, (kA m hm).2.1⟩
  · exact ⟨(kB m hm).1, (kB m hm).2.1⟩
  · exact ⟨(kC m hm).1, (kC m hm).2.1⟩
  · exact ⟨(kD m hm).1, (kD m hm).2.1⟩

/-- The messages of the services loop are distinct. -/
theorem validateServicesFrom_keys (rt : Host) (xs : List JsVal) (i : Nat) (out : List String)
    (h : validateServicesFrom rt xs i [] = .ok out) :
    out.Nodup ∧ ∀ m ∈ out, topKey m = ['s', 'e'] ∧
      ∃ j, i ≤ j ∧ indexKey 9 m = (toString j).data := by
  induction xs generalizing i out with
  | nil =>
    simp only [validateServicesFrom] at h
    cases h
    simp
  | cons x xs ih =>
    unfold validateServicesFrom at h
    split at h
    · cases h
    · rename_i g hg
      rw [validateServicesFrom_acc] at h
      cases h2 : validateServicesFrom rt xs (i + 1) [] with
      | error e => rw [h2] at h; cases h
      | ok out2 =>
        rw [h2] at h
        simp only [Except.map] at h
        cases h
        obtain ⟨ng, kg⟩ := validateService_keys rt x i g hg
        obtain ⟨no, ko⟩ := ih (i + 1) out2 h2
        refine ⟨List.nodup_append.mpr ⟨ng, no, ?_⟩, ?_⟩
        · intro m hm1 hm2
          obtain ⟨j, hj, hjk⟩ := (ko m hm2).2
          have e := toString_nat_injective i j ((kg m hm1).2.symm.trans hjk)
          omega
        · intro m hm
          rcases List.mem_append.mp hm with hm | hm
          · exact ⟨(kg m hm).1, i, le_refl _, (kg m hm).2⟩
          · obtain ⟨j, hj, hjk⟩ := (ko m hm).2
            exact ⟨(ko m hm).1, j, by omega, hjk⟩

theorem validateServices_keys (rt : Host) (parsed : JsVal) (out : List String)
    (h : validateServices rt parsed [] = .ok out) :
    out.Nodup ∧ ∀ m ∈ out, topKey m = ['s', 'e'] := by
  unfold validateServices at h
  simp only [bind, Except.bind, pure, Except.pure] at h
  split at h
  · cases h
  · split at h
    · cases h; exact keys_none
    · cases h
      exact keys_one _ (topKey_of _ _ rfl (by decide))
    · obtain ⟨n, k⟩ := validateServicesFrom_keys rt _ 0 out h
      exact ⟨n, fun m hm => (k m hm).1⟩
    · cases h
      exact keys_one _ (topKey_of _ _ rfl (by decide))

/-- The messages of the `supportedTrust` loop are distinct. -/
theorem validateTrustFrom_keys (xs : List JsVal) (i : Nat) :
    (validateTrustFrom xs i []).Nodup ∧ ∀ m ∈ validateTrustFrom xs i [],
      topKey m = ['s', 'u'] ∧ ∃ j, i ≤ j ∧ indexKey 15 m = (toString j).data := by
  induction xs generalizing i with
  | nil => simp [validateTrustFrom]
  | cons x xs ih =>
    unfold validateTrustFrom
    simp only [List.nil_append]
    obtain ⟨no, ko⟩ := ih (i + 1)
    split_ifs
    · rw [validateTrustFrom_acc]
      have hm := indexedMsg 15 "supportedTrust[" ['s', 'u'] i "]: Unknown value \""
        (x.toStr ++ ("\" (known: " ++ (", ".intercalate KNOWN_TRUST_TYPES ++ ")")))
        ("supportedTrust[" ++ toString i ++ "]: Unknown value \""
          ++ x.toStr ++ "\" (known: " ++ ", ".intercalate KNOWN_TRUST_TYPES ++ ")")
        ["]: Unknown v".data] rfl (by decide) rfl
        (by simp only [String.append_assoc]) (by decide) (by decide)
        (by decide) (by rw [getLast?_data_append _ _ (by decide)]; decide)
      refine ⟨List.nodup_append.mpr ⟨by simp, no, ?_⟩, ?_⟩
      · intro m hm1 hm2
        simp only [List.mem_singleton] at hm1
        subst hm1
        obtain ⟨j, hj, hjk⟩ := (ko _ hm2).2
        have e := toString_nat_injective i j (hm.2.1.symm.trans hjk)
        omega
      · intro m hm'
        rcases List.mem_append.mp hm' with hm' | hm'
        · simp only [List.mem_singleton] at hm'
          subst hm'
          exact ⟨hm.1, i, le_refl _, hm.2.1⟩
        · obtain ⟨j, hj, hjk⟩ := (ko m hm').2
          exact ⟨(ko m hm').1, j, by omega, hjk⟩
    · refine ⟨no, ?_⟩
      intro m hm'
      obtain ⟨j, hj, hjk⟩ := (ko m hm').2
      exact ⟨(ko m hm').1, j, by omega, hjk⟩

theorem checkSupportedTrust_keys (v : JsVal) :
    (checkSupportedTrust v []).Nodup ∧ ∀ m ∈ checkSupportedTrust v [], topKey m = ['s', 'u'] := by
  unfold checkSupportedTrust
  split_ifs
  · split
    · obtain ⟨n, k⟩ := validateTrustFrom_keys _ 0
      exact ⟨n, fun m hm => (k m hm).1⟩
    · exact keys_one _ (topKey_of _ _ rfl (by decide))
  · exact keys_none

theorem checkX402Case_keys (a b : Bool) :
    (checkX402Case a b []).Nodup ∧ ∀ m ∈ checkX402Case a b [],
      topKey m = ['x', '4'] ∧ m.data.take 14 ∈ ["x402support: U".data] := by
  unfold checkX402Case
  split_ifs
  · exact keys_one _ ⟨topKey_of _ _ rfl (by decide), by decide⟩
  · exact keys_none

theorem checkX402Type_keys (a : Bool) (v : JsVal) :
    (checkX402Type a v []).Nodup ∧ ∀ m ∈ checkX402Type a v [],
      topKey m = ['x', '4'] ∧
      m.data.take 14 ∈ ["x402Support: I".data, "x402support: I".data] := by
  unfold checkX402Type
  dsimp only
  split_ifs
  · exact keys_one _
      ⟨topKey_of _ _ rfl (by rw [getLast?_data_append _ _ (by decide)]; decide), by
        simp [String.data_append]⟩
  · exact keys_one _
      ⟨topKey_of _ _ rfl (by rw [getLast?_data_append _ _ (by decide)]; decide), by
        simp [String.data_append]⟩
  · exact keys_none

theorem append_right_cancel_string (a b t : String) (h : a ++ t = b ++ t) : a = b := by
  have hd : (a ++ t).data = (b ++ t).data := by rw [h]
  rw [String.data_append, String.data_append] at hd
  exact String.ext (List.append_cancel_right hd)

/-- The unknown-field messages are distinct when the keys are. -/
theorem validateKeys_keys (allowed keys : List String) (hk : keys.Nodup) :
    (validateKeys allowed keys []).Nodup ∧ ∀ m ∈ validateKeys allowed keys [],
      topKey m = ['*'] ∧
      ∃ k ∈ keys, m = k ++ ": Unknown field not defined in ERC-8004 spec" := by
  induction keys with
  | nil => simp [validateKeys]
  | cons x xs ih =>
    unfold validateKeys
    simp only [List.nil_append]
    obtain ⟨hx, hxs⟩ := List.nodup_cons.mp hk
    obtain ⟨no, ko⟩ := ih hxs
    split_ifs
    · rw [validateKeys_acc]
      refine ⟨List.nodup_append.mpr ⟨by simp, no, ?_⟩, ?_⟩
      · intro m hm1 hm2
        simp only [List.mem_singleton] at hm1
        subst hm1
        obtain ⟨k, hk1, hk2⟩ := (ko _ hm2).2
        rw [append_right_cancel_string _ _ _ hk2] at hx
        exact hx hk1
      · intro m hm
        rcases List.mem_append.mp hm with hm | hm
        · simp only [List.mem_singleton] at hm
          subst hm
          refine ⟨?_, x, List.mem_cons_self _ _, rfl⟩
          unfold topKey
          rw [if_pos (by rw [getLast?_data_append _ _ (by decide)]; decide)]
        · obtain ⟨k, hk1, hk2⟩ := (ko m hm).2
          exact ⟨(ko m hm).1, k, List.mem_cons_of_mem _ hk1, hk2⟩
    · refine ⟨no, ?_⟩
      intro m hm
      obtain ⟨k, hk1, hk2⟩ := (ko m hm).2
      exact ⟨(ko m hm).1, k, List.mem_cons_of_mem _ hk1, hk2⟩

theorem required_keys (kvs : List (String × JsVal)) (out : List String)
    (h : validateRequiredFields (.obj kvs) [] = .ok out) :
    out.Nodup ∧ ∀ m ∈ out, topKey m ∈ [['t', 'y'], ['n', 'a'], ['d', 'e']] := by
  rw [validateRequiredFields_obj] at h
  cases h
  obtain ⟨nT, kT⟩ := checkType_keys (field kvs "type")
  obtain ⟨nN, kN⟩ := checkName_keys (field kvs "name")
  obtain ⟨nD, kD⟩ := checkDescription_keys (field kvs "description")
  obtain ⟨n1, k1⟩ := nodup_append_of_key topKey _ _ [['t', 'y']] [['n', 'a']]
    (fun m hm => List.mem_singleton.mpr (kT m hm))
    (fun m hm => List.mem_singleton.mpr (kN m hm)) (by decide) nT nN
  exact nodup_append_of_key topKey _ _ _ [['d', 'e']] k1
    (fun m hm => List.mem_singleton.mpr (kD m hm)) (by decide) n1 nD

theorem optional_keys (rt : Host) (kvs : List (String × JsVal)) (out : List String)
    (h : validateOptionalFields rt (.obj kvs) [] = .ok out) :
    out.Nodup ∧ ∀ m ∈ out, topKey m ∈ [['i', 'm'], ['a', 'c'], ['s', 'u']] := by
  rw [validateOptionalFields_obj] at h
  cases h
  obtain ⟨nI, kI⟩ := checkImage_keys rt (field kvs "image")
  obtain ⟨nA, kA⟩ := checkActive_keys (field kvs "active")
  obtain ⟨nR, kR⟩ := checkSupportedTrust_keys (field kvs "supportedTrust")
  obtain ⟨n1, k1⟩ := nodup_append_of_key topKey _ _ [['i', 'm']] [['a', 'c']]
    (fun m hm => List.mem_singleton.mpr (kI m hm))
    (fun m hm => List.mem_singleton.mpr (kA m hm)) (by decide) nI nA
  exact nodup_append_of_key topKey _ _ _ [['s', 'u']] k1
    (fun m hm => List.mem_singleton.mpr (kR m hm)) (by decide) n1 nR

theorem x402_keys (parsed : JsVal) (out : List String)
    (h : validateX402 parsed [] = .ok out) :
    out.Nodup ∧ ∀ m ∈ out, topKey m ∈ [['x', '4']] := by
  revert h
  unfold validateX402
  simp only [bind, Except.bind, pure, Except.pure]
  cases parsed.get "x402Support" with
  | error e => intro h; cases h
  | ok upper =>
    cases parsed.get "x402support" with
    | error e => intro h; cases h
    | ok lower =>
      simp only
      have key : ∀ v, (checkX402Type (!upper.isUndefined) v
          (checkX402Case (!upper.isUndefined) (!lower.isUndefined) [])).Nodup ∧
          ∀ m ∈ checkX402Type (!upper.isUndefined) v
            (checkX402Case (!upper.isUndefined) (!lower.isUndefined) []),
            topKey m ∈ [['x', '4']] := by
        intro v
        rw [checkX402Type_acc]
        obtain ⟨nC, kC⟩ := checkX402Case_keys (!upper.isUndefined) (!lower.isUndefined)
        obtain ⟨nT, kT⟩ := checkX402Type_keys (!upper.isUndefined) v
        obtain ⟨n1, -⟩ := nodup_append_of_key (fun m : String => m.data.take 14) _ _ _ _
          (fun m hm => (kC m hm).2) (fun m hm => (kT m hm).2) (by decide) nC nT
        refine ⟨n1, ?_⟩
        intro m hm
        rcases List.mem_append.mp hm with hm | hm
        · exact List.mem_singleton.mpr (kC m hm).1
        · exact List.mem_singleton.mpr (kT m hm).1
      split_ifs <;> (intro h; cases h; exact key _)

end RegistrationValidator

/-- C10. On an object with pairwise distinct keys the messages that
`RegistrationValidator.validate` returns are pairwise distinct. -/
theorem validate_messages_nodup (rt : Host) (kvs : List (String × JsVal))
    (r : RegistrationValidator.Validated) (hkeys : (kvs.map Prod.fst).Nodup)
    (h : RegistrationValidator.validate rt (.obj kvs) = .ok r) : r.messages.Nodup := by
  have hg := RegistrationValidator.validate_grouped rt kvs
  rw [h] at hg
  simp only [Except.map] at hg
  unfold groupedMessages at hg
  simp only [bind, Except.bind, pure, Except.pure] at hg
  cases h1 : RegistrationValidator.validateRequiredFields (.obj kvs) [] with
  | error e => rw [h1] at hg; cases hg
  | ok m1 =>
    rw [h1] at hg
    cases h2 : RegistrationValidator.validateServices rt (.obj kvs) [] with
    | error e => rw [h2] at hg; cases hg
    | ok m2 =>
      rw [h2] at hg
      cases h3 : RegistrationValidator.validateX402 (.obj kvs) [] with
      | error e => rw [h3] at hg; cases hg
      | ok m3 =>
        rw [h3] at hg
        cases h4 : RegistrationValidator.validateOptionalFields rt (.obj kvs) [] with
        | error e => rw [h4] at hg; cases hg
        | ok m4 =>
          rw [h4] at hg
          simp only [Except.ok.injEq] at hg
          rw [hg]
          obtain ⟨n1, k1⟩ := RegistrationValidator.required_keys kvs m1 h1
          obtain ⟨n2, k2⟩ := RegistrationValidator.validateServices_keys rt _ m2 h2
          obtain ⟨n3, k3⟩ := RegistrationValidator.x402_keys _ m3 h3
          obtain ⟨n4, k4⟩ := RegistrationValidator.optional_keys rt kvs m4 h4
          obtain ⟨n5, k5⟩ := RegistrationValidator.validateKeys_keys
            (RegistrationValidator.KNOWN_SPEC_FIELDS ++ ["x402support"])
            (kvs.map Prod.fst) hkeys
          obtain ⟨a1, b1⟩ := nodup_append_of_key topKey m1 m2 _ [['s', 'e']] k1
            (fun m hm => List.mem_singleton.mpr (k2 m hm)) (by decide) n1 n2
          obtain ⟨a2, b2⟩ := nodup_append_of_key topKey _ m3 _ _ b1 k3 (by decide) a1 n3
          obtain ⟨a3, b3⟩ := nodup_append_of_key topKey _ m4 _ _ b2 k4 (by decide) a2 n4
          exact (nodup_append_of_key topKey _
            (RegistrationValidator.validateExtraFields (.obj kvs) []) _ [['*']] b3
            (fun m hm => List.mem_singleton.mpr (k5 m hm).1) (by decide) a3 n5).1


/-! ## Decoding a base64 data URI -/

theorem hasEqualsG_of_infix (l r : List Char) :
    hasEqualsG (l ++ '=' :: 'g' :: r) = true := by
  induction l with
  | nil => simp [hasEqualsG]
  | cons a l ih =>
    cases l with
    | nil => simp [hasEqualsG]
    | cons b l =>
      simp only [List.cons_append, hasEqualsG, Bool.or_eq_true]
      right
      simpa using ih

theorem hasEqualsG_all_equals (cs : List Char) (h : cs.all (· == '=') = true) :
    hasEqualsG cs = false := by
  induction cs with
  | nil => rfl
  | cons a l ih =>
    cases l with
    | nil => rfl
    | cons b l =>
      simp only [List.all_cons, Bool.and_eq_true, beq_iff_eq] at h
      simp only [hasEqualsG, Bool.or_eq_false_iff, Bool.and_eq_false_imp, beq_iff_eq]
      refine ⟨fun _ => by rw [h.2.1]; decide, ih ?_⟩
      simp [h.2.1, h.2.2]

theorem hasEqualsG_padded (cs : List Char) (h : paddedBase64 cs = true) :
    hasEqualsG cs = false := by
  induction cs with
  | nil => rfl
  | cons a l ih =>
    unfold paddedBase64 at h
    split_ifs at h with ha
    · have ha' : a = '=' := by simpa using ha
      apply hasEqualsG_all_equals
      simp [ha', h]
    · simp only [Bool.and_eq_true] at h
      cases l with
      | nil => rfl
      | cons b l =>
        simp only [hasEqualsG, Bool.or_eq_false_iff, Bool.and_eq_false_imp]
        exact ⟨fun hh => absurd hh ha, ih h.2⟩

theorem hasEqualsG_append (x y : List Char) (hx : ∀ c ∈ x, c ≠ '=') :
    hasEqualsG (x ++ y) = hasEqualsG y := by
  induction x with
  | nil => rfl
  | cons a l ih =>
    have ha : a ≠ '=' := hx a (List.mem_cons_self _ _)
    have ih' := ih (fun c hc => hx c (List.mem_cons_of_mem _ hc))
    cases hl : l ++ y with
    | nil =>
      have hy : y = [] := (List.append_eq_nil.mp hl).2
      rw [List.cons_append, hl, hy]
      rfl
    | cons b t =>
      rw [List.cons_append, hl]
      simp only [hasEqualsG]
      rw [← hl, ih']
      simp [ha]

theorem jsTrim_infix_self (s : String) : (jsTrim s).data <:+: s.data := by
  unfold jsTrim
  simp only [trimEndChars_eq]
  exact List.IsInfix.trans (List.rdropWhile_prefix _ _).isInfix
    (List.dropWhile_suffix _).isInfix

/-- A base64 data URI whose payload is padded base64 text is tagged `base64`. -/
theorem classify_base64 (payload : String) (h : paddedBase64 payload.data = true) :
    UriClassifier.classify (.str ("data:application/json;base64," ++ payload)) = "base64" := by
  rw [UriClassifier.classify_str]
  have hp : startsWith (jsTrim ("data:application/json;base64," ++ payload))
      "data:application/json;base64," = true := by
    rw [startsWith_iff]
    exact jsTrim_prefix _ "ata:application/json;base64".data 'd' ',' (by decide) (by decide)
      (by rw [String.data_append]; exact List.prefix_append _ _)
  have hi : includes (jsTrim ("data:application/json;base64," ++ payload)) "enc=gzip" = false := by
    by_contra hc
    simp only [Bool.not_eq_false] at hc
    rw [includes_iff] at hc
    obtain ⟨l, r, hlr⟩ := List.IsInfix.trans hc (jsTrim_infix_self _)
    have h1 : hasEqualsG ("data:application/json;base64," ++ payload).data = true := by
      rw [← hlr]
      have : l ++ "enc=gzip".data ++ r = (l ++ ['e', 'n', 'c']) ++ '=' :: 'g' :: (['z', 'i', 'p'] ++ r) := by
        simp
      rw [this]
      exact hasEqualsG_of_infix _ _
    rw [String.data_append, hasEqualsG_append _ _ (by decide), hasEqualsG_padded _ h] at h1
    cases h1
  have h0 : jsTrim ("data:application/json;base64," ++ payload) ≠ "" := by
    intro h
    rw [h] at hp
    exact absurd hp (by decide)
  unfold UriClassifier.decisionList
  simp [h0, hp, hi]

/-- On a text of the basic plane `slice` drops as many code points as code
units. -/
theorem dropUnits_basic (n : Nat) (cs : List Char) (h : ∀ c ∈ cs, c.toNat < 0x10000) :
    dropUnits n cs = cs.drop n := by
  induction cs generalizing n with
  | nil => cases n <;> rfl
  | cons c cs ih =>
    cases n with
    | zero => rfl
    | succ n =>
      unfold dropUnits
      rw [if_pos (h c (List.mem_cons_self _ _)), List.drop_succ_cons]
      exact ih n (fun d hd => h d (List.mem_cons_of_mem _ hd))

/-- A code point above the basic plane is two units of `slice`: behind U+1F600
the text starts at the third unit, and a cut after one unit falls inside the
code point. -/
theorem slice_astral :
    slice (String.singleton (Char.ofNat 0x1F600) ++ "abc") 2 = "abc" ∧
    slice (String.singleton (Char.ofNat 0x1F600) ++ "abc") 3 = "bc" ∧
    slice (String.singleton (Char.ofNat 0x1F600) ++ "abc") 1
      = String.singleton (Char.ofNat 0xFFFD) ++ "abc" :=
  ⟨by decide, by decide, by decide⟩

/-- Dropping the units of a leading text of the basic plane leaves the rest. -/
theorem dropUnits_append (p q : List Char) (h : ∀ c ∈ p, c.toNat < 0x10000) :
    dropUnits p.length (p ++ q) = q := by
  induction p with
  | nil => cases q <;> rfl
  | cons c p ih =>
    show dropUnits (p.length + 1) (c :: (p ++ q)) = q
    unfold dropUnits
    rw [if_pos (h c (List.mem_cons_self _ _))]
    exact ih (fun d hd => h d (List.mem_cons_of_mem _ hd))

theorem slice_base64 (payload : String) :
    slice ("data:application/json;base64," ++ payload) "data:application/json;base64,".length
      = payload := by
  unfold slice
  simp only [String.data_append]
  exact String.ext (dropUnits_append "data:application/json;base64,".data payload.data
    (by decide))

/-- The base64 branch of the decoder on an encoded text: when the host codecs
invert each other on the text and the text parses to `d`, the branch returns `d`. -/
theorem decodeBase64_encoded (rt : Host) (d : JsVal) (text : String)
    (hp : rt.jsonParse text = some d)
    (h64 : rt.base64Decode (rt.base64Encode (rt.utf8Encode text)) = some (rt.utf8Encode text))
    (hu : rt.utf8Decode (rt.utf8Encode text) = text) :
    UriDecoder.decode rt
      (some ("data:application/json;base64," ++ rt.base64Encode (rt.utf8Encode text))) "base64"
      = .ok ⟨true, [], d⟩ := by
  have hdec : UriDecoder.decodeBase64 rt
      (some ("data:application/json;base64," ++ rt.base64Encode (rt.utf8Encode text)))
      = .ok ⟨true, [], d⟩ := by
    unfold UriDecoder.decodeBase64
    simp only [slice_base64, h64, hu, UriDecoder.isValidUtf8, beq_self_eq_true, Bool.not_true,
      Bool.false_eq_true, ↓reduceIte, hp]
  unfold UriDecoder.decode
  simp only [bind, Except.bind, pure, Except.pure, hdec, List.nil_append]
  rfl

/-- C4. Decoding undoes encoding: when the host codecs invert each other on
the JSON text of a document `d` (the text parses back to `d`, base64 decoding
returns the UTF-8 octets of the text, UTF-8 decoding returns the text) and
the base64 text is standard padded base64, `decodeUri` on the data URI of `d`,
with the tag omitted or given as `base64`, returns status true, no messages
and `d`. -/
theorem decodeUri_undoes_encode (rt : Host) (d : JsVal) (text : String) (tag : JsVal)
    (_hs : rt.jsonStringify d = .str text)
    (hp : rt.jsonParse text = some d)
    (h64 : rt.base64Decode (rt.base64Encode (rt.utf8Encode text)) = some (rt.utf8Encode text))
    (hu : rt.utf8Decode (rt.utf8Encode text) = text)
    (hpad : paddedBase64 (rt.base64Encode (rt.utf8Encode text)).data = true)
    (htag : tag = .undefined ∨ tag = .null ∨ tag = .str "base64") :
    Erc8004RegistryParser.decodeUri rt
      (.str ("data:application/json;base64," ++ rt.base64Encode (rt.utf8Encode text))) tag
      = .ok ⟨true, [], d⟩ := by
  have hdec := decodeBase64_encoded rt d text hp h64 hu
  have hcl := classify_base64 _ hpad
  unfold Erc8004RegistryParser.decodeUri
  rcases htag with rfl | rfl | rfl
  · simp only [bind, Except.bind, pure, Except.pure, hcl]
    exact hdec
  · simp only [bind, Except.bind, pure, Except.pure, hcl]
    exact hdec
  · simp only [bind, Except.bind, pure, Except.pure]
    exact hdec

set_option maxRecDepth 100000 in
/-- Witness for C4: the real-world base64 URI of the test suite decodes to its
document. -/
theorem decodeUri_undoes_encode_witness :
    refHost.jsonStringify Samples.realWorldJson = .str Samples.realWorldText ∧
    refHost.jsonParse Samples.realWorldText = some Samples.realWorldJson ∧
    "data:application/json;base64,"
      ++ refHost.base64Encode (refHost.utf8Encode Samples.realWorldText)
      = Samples.realWorldUri ∧
    Erc8004RegistryParser.decodeUri refHost (.str Samples.realWorldUri) .undefined
      = .ok ⟨true, [], Samples.realWorldJson⟩ :=
  ⟨rfl, rfl, by decide,
    decodeUri_undoes_encode refHost Samples.realWorldJson Samples.realWorldText .undefined
      rfl rfl rfl (by decide) (by decide) (Or.inl rfl)⟩

/-! ## Documents on which the pipeline raises -/

namespace MetadataExtractor

theorem buildEntries_raw (rt : Host) (d : JsVal) (tag : String) (a o : Option String)
    (e : Entries) (h : buildEntries rt d tag a o = .ok e) : e.raw = rt.jsonStringify d := by
  unfold buildEntries at h
  simp only [bind, Except.bind, pure, Except.pure] at h
  repeat' split at h
  all_goals (cases h <;> rfl)

theorem extract_raw (rt : Host) (d : JsVal) (tag : String) (a o : Option String)
    (c : Categories) (e : Entries) (h : extract rt d tag a o = .ok (c, e))
    (hn : (d.isNull || d.isUndefined) = false) : e.raw = rt.jsonStringify d := by
  unfold extract at h
  rw [hn] at h
  simp only [Bool.false_eq_true, ↓reduceIte, bind, Except.bind, pure, Except.pure] at h
  split at h
  · cases h
  · split at h
    · cases h
    · rename_i e' he
      cases h
      exact buildEntries_raw rt d tag a o e he

end MetadataExtractor

/-- The round trip through the pipeline on the calls that return: when the
host codecs invert each other on the JSON text of an object `d` and
`validateFromUri` on the data URI of `d` returns, the `raw` entry is the JSON
text of `d`, which parses back to `d` by the hypothesis on the codecs. -/
theorem validateFromUri_raw_roundtrip (rt : Host) (kvs : List (String × JsVal)) (text : String)
    (agentId owner : JsVal) (v : ValidatorsArg) (r : Erc8004RegistryParser.Result)
    (hs : rt.jsonStringify (.obj kvs) = .str text)
    (hp : rt.jsonParse text = some (.obj kvs))
    (h64 : rt.base64Decode (rt.base64Encode (rt.utf8Encode text)) = some (rt.utf8Encode text))
    (hu : rt.utf8Decode (rt.utf8Encode text) = text)
    (hpad : paddedBase64 (rt.base64Encode (rt.utf8Encode text)).data = true)
    (h : Erc8004RegistryParser.validateFromUri rt
      (.str ("data:application/json;base64," ++ rt.base64Encode (rt.utf8Encode text)))
      agentId owner v = .ok r) :
    r.entries.raw = .str text ∧ rt.jsonParse text = some (.obj kvs) := by
  refine ⟨?_, hp⟩
  obtain ⟨-, p, hrun, -, -, he⟩ := Erc8004RegistryParser.validateFromUri_ok rt _ _ _ _ r h
  rw [he]
  have hdec := decodeBase64_encoded rt (.obj kvs) text hp h64 hu
  have hcl := classify_base64 _ hpad
  unfold Erc8004RegistryParser.runPipeline at hrun
  simp only [Erc8004RegistryParser.stringOrNull, Erc8004RegistryParser.uriValue, hcl, hdec,
    bind, Except.bind, pure, Except.pure, JsVal.isNull, Bool.not_true, Bool.or_self,
    Bool.false_eq_true, ↓reduceIte] at hrun
  split at hrun
  · cases hrun
  · split at hrun
    · cases hrun
    · rename_i ce hce
      split at hrun
      · cases hrun
      · cases hrun
        rw [MetadataExtractor.extract_raw rt _ _ _ _ ce.1 ce.2 hce rfl, hs]

set_option maxRecDepth 100000 in
/-- The round trip on the real-world base64 URI of the test suite. -/
theorem validateFromUri_raw_roundtrip_witness :
    ∃ r, Erc8004RegistryParser.validateFromUri refHost (.str Samples.realWorldUri)
        .undefined .undefined .undefined = .ok r ∧
      r.entries.raw = .str Samples.realWorldText ∧
      refHost.jsonParse Samples.realWorldText = some (.obj Samples.realWorldFields) :=
  ⟨_, rfl, validateFromUri_raw_roundtrip refHost Samples.realWorldFields Samples.realWorldText
    .undefined .undefined .undefined _ rfl rfl rfl (by decide) (by decide) rfl⟩

/-- C3, the code on a failing input. The document with the services list
`[null]` is a JSON object, its data URI is built as the claim says and decodes
to the document, and `validateFromUri` raises a `TypeError` on it instead of
returning entries: the registration validator reads a property of the `null`
entry. -/
theorem validateFromUri_raises_on_null_service :
    Samples.nullServiceJson = .obj [("services", .arr [.null])] ∧
    refHost.jsonParse Samples.nullServiceText = some Samples.nullServiceJson ∧
    RegistrationValidator.validate refHost Samples.nullServiceJson = .error .typeError ∧
    refHost.jsonStringify Samples.nullServiceJson = .str Samples.nullServiceText ∧
    "data:application/json;base64,"
      ++ refHost.base64Encode (refHost.utf8Encode Samples.nullServiceText)
      = Samples.nullServiceUri ∧
    Erc8004RegistryParser.decodeUri refHost (.str Samples.nullServiceUri) .undefined
      = .ok ⟨true, [], Samples.nullServiceJson⟩ ∧
    Erc8004RegistryParser.validateFromUri refHost (.str Samples.nullServiceUri)
      .undefined .undefined .undefined = .error .typeError :=
  ⟨rfl, rfl, rfl, rfl, by decide, rfl, rfl⟩

/-- Evaluation for C8: `MetadataExtractor.extract` raises a `TypeError` on a
document whose services list holds `null`, and on one whose service has a
number as protocol identifier. -/
theorem extract_raises_on_malformed_service :
    MetadataExtractor.extract refHost Samples.nullServiceJson "json" none none
      = .error .typeError ∧
    MetadataExtractor.extract refHost Samples.numericProtocolJson "json" none none
      = .error .typeError :=
  ⟨rfl, rfl⟩

/-! ## Evaluations on the sample inputs -/

set_option maxRecDepth 100000 in
/-- Witness for C2: `validateFromUri` on the real-world URI of the test suite
returns messages and status false. -/
theorem status_iff_no_messages_witness :
    ∃ r, Erc8004RegistryParser.validateFromUri refHost (.str Samples.realWorldUri)
        .undefined .undefined .undefined = .ok r ∧
      r.messages = Samples.realWorldMessages ∧ r.status = false ∧
      (r.status = true ↔ r.messages = []) :=
  ⟨_, rfl, rfl, rfl, (status_iff_no_messages refHost).2.1 (.str Samples.realWorldUri)
    .undefined .undefined .undefined _ rfl⟩

set_option maxRecDepth 100000 in
/-- Witness for C7: with a validator for `mcp` that rejects the endpoint, the
messages of the registration validator are followed by the relabelled message
of the injected validator. -/
theorem messages_in_stage_order_witness :
    ∃ r, Erc8004RegistryParser.validateFromUri refHost (.str Samples.realWorldUri)
        .undefined .undefined (.mapping (some Samples.rejecting) none) = .ok r ∧
      r.messages = Samples.realWorldMessages ++ ["services[0].url (MCP): unreachable"] ∧
      stageMessages refHost (some Samples.realWorldUri)
        (.mapping (some Samples.rejecting) none) = .ok r.messages :=
  ⟨_, rfl, rfl, (messages_in_stage_order refHost).1 (.str Samples.realWorldUri)
    .undefined .undefined (.mapping (some Samples.rejecting) none) _ rfl⟩

set_option maxRecDepth 100000 in
/-- Witness for C9: the grouped messages of the deviant document. -/
theorem validate_accumulates_witness :
    groupedMessages refHost (.obj Samples.deviantFields) = .ok Samples.deviantMessages :=
  ((validate_accumulates refHost Samples.deviantFields).1).symm.trans rfl

set_option maxRecDepth 100000 in
/-- Witness for C10: the sixteen messages of the deviant document are
pairwise distinct. -/
theorem validate_messages_nodup_witness :
    (Samples.deviantFields.map Prod.fst).Nodup ∧
    RegistrationValidator.validate refHost (.obj Samples.deviantFields)
      = .ok ⟨false, Samples.deviantMessages⟩ ∧
    Samples.deviantMessages.Nodup :=
  ⟨by decide, rfl,
    validate_messages_nodup refHost Samples.deviantFields ⟨false, Samples.deviantMessages⟩
      (by decide) rfl⟩

/-! ## Messages field by field -/

theorem topKey_inv (m : String) (g : List Char) (h : topKey m = g) (hg : g ≠ ['*']) :
    m.data.take 2 = g ∧ m.data.getLast? ≠ some 'c' := by
  unfold topKey at h
  split_ifs at h with hc
  · exact absurd h.symm hg
  · exact ⟨h, hc⟩

theorem endsWith_iff (s q : String) : endsWith s q = true ↔ q.data <:+ s.data := by
  unfold endsWith
  exact List.isSuffixOf_iff_suffix

/-- A message that ends in another character than `c` does not end with the
unknown-field text. -/
theorem endsWith_unknown_false (m : String) (h : m.data.getLast? ≠ some 'c') :
    endsWith m unknownFieldText = false := by
  rw [Bool.eq_false_iff]
  intro he
  obtain ⟨t, ht⟩ := (endsWith_iff _ _).mp he
  apply h
  rw [← ht, List.getLast?_append_of_ne_nil _ (by decide)]
  decide

theorem endsWith_unknown_true (k : String) : endsWith (k ++ unknownFieldText) unknownFieldText = true := by
  rw [endsWith_iff, String.data_append]
  exact List.suffix_append _ _

/-- A message whose first two characters differ from those of `p` does not
start with `p`. -/
theorem startsWith_false_of_take (m p : String) (g : List Char) (h : m.data.take 2 = g)
    (hp : p.data.take 2 ≠ g) (hl : 2 ≤ p.data.length) : startsWith m p = false := by
  rw [Bool.eq_false_iff]
  intro hs
  obtain ⟨t, ht⟩ := (startsWith_iff _ _).mp hs
  apply hp
  rw [← h, ← ht, List.take_append_of_le_length hl]

namespace RegistrationValidator

/-- The messages of `validate` on an object, part by part. -/
theorem validate_parts (rt : Host) (kvs : List (String × JsVal)) (r : Validated)
    (h : validate rt (.obj kvs) = .ok r) :
    ∃ m2 m3, validateServices rt (.obj kvs) [] = .ok m2 ∧ validateX402 (.obj kvs) [] = .ok m3 ∧
      r.messages = (checkType (field kvs "type") [] ++ checkName (field kvs "name") [] ++
        checkDescription (field kvs "description") []) ++ m2 ++ m3 ++
        (checkImage rt (field kvs "image") [] ++ checkActive (field kvs "active") [] ++
          checkSupportedTrust (field kvs "supportedTrust") []) ++
        validateExtraFields (.obj kvs) [] := by
  have hg := validate_grouped rt kvs
  rw [h] at hg
  simp only [Except.map] at hg
  unfold groupedMessages at hg
  rw [validateRequiredFields_obj, validateOptionalFields_obj] at hg
  simp only [bind, Except.bind, pure, Except.pure] at hg
  cases h2 : validateServices rt (.obj kvs) [] with
  | error e => rw [h2] at hg; cases hg
  | ok m2 =>
    rw [h2] at hg
    cases h3 : validateX402 (.obj kvs) [] with
    | error e => rw [h3] at hg; cases hg
    | ok m3 =>
      rw [h3] at hg
      simp only [Except.ok.injEq] at hg
      exact ⟨m2, m3, rfl, rfl, hg⟩

theorem validateKeys_eq (allowed keys : List String) :
    validateKeys allowed keys [] =
      (keys.filter (fun k => !allowed.contains k)).map (· ++ unknownFieldText) := by
  induction keys with
  | nil => rfl
  | cons x xs ih =>
    unfold validateKeys
    simp only [List.nil_append]
    split_ifs with hx
    · rw [validateKeys_acc, ih]
      simp only [List.filter_cons, hx, if_true, List.map_cons]
      rfl
    · rw [ih]
      simp only [List.filter_cons, hx, if_false]
      rfl

/-- Every unknown-field message ends with the unknown-field text. -/
theorem validateExtraFields_ends (parsed : JsVal) :
    ∀ m ∈ validateExtraFields parsed [], endsWith m unknownFieldText = true := by
  intro m hm
  unfold validateExtraFields at hm
  rw [validateKeys_eq] at hm
  obtain ⟨k, -, rfl⟩ := List.mem_map.mp hm
  exact endsWith_unknown_true k

end RegistrationValidator

theorem messagesFor_append (f : String) (A B : List String) :
    messagesFor f (A ++ B) = messagesFor f A ++ messagesFor f B := by
  unfold messagesFor
  exact List.filter_append _ _

/-- A block of another group holds no message for the field. -/
theorem messagesFor_other (f : String) (g : List Char) (A : List String)
    (hA : ∀ m ∈ A, topKey m = g) (hg : g ≠ ['*']) (hf : (f ++ ": ").data.take 2 ≠ g)
    (hl : 2 ≤ (f ++ ": ").data.length) : messagesFor f A = [] := by
  unfold messagesFor
  rw [List.filter_eq_nil_iff]
  intro m hm
  rw [startsWith_false_of_take m _ g (topKey_inv m g (hA m hm) hg).1 hf hl]
  simp

/-- The unknown-field messages are messages for no field. -/
theorem messagesFor_unknown (f : String) (A : List String)
    (hA : ∀ m ∈ A, endsWith m unknownFieldText = true) : messagesFor f A = [] := by
  unfold messagesFor
  rw [List.filter_eq_nil_iff]
  intro m hm
  rw [hA m hm]
  simp

/-- The block of the field itself is kept. -/
theorem messagesFor_self (f : String) (g : List Char) (A : List String)
    (hA : ∀ m ∈ A, topKey m = g) (hg : g ≠ ['*'])
    (hs : ∀ m ∈ A, startsWith m (f ++ ": ") = true) : messagesFor f A = A := by
  unfold messagesFor
  rw [List.filter_eq_self]
  intro m hm
  rw [hs m hm, endsWith_unknown_false m (topKey_inv m g (hA m hm) hg).2]
  rfl

namespace RegistrationValidator

theorem checkType_starts (v : JsVal) :
    ∀ m ∈ checkType v [], startsWith m ("type" ++ ": ") = true := by
  unfold checkType
  split_ifs <;> simp [startsWith, String.data_append]

theorem checkName_starts (v : JsVal) :
    ∀ m ∈ checkName v [], startsWith m ("name" ++ ": ") = true := by
  unfold checkName
  split_ifs <;> simp [startsWith, String.data_append]

theorem checkDescription_starts (v : JsVal) :
    ∀ m ∈ checkDescription v [], startsWith m ("description" ++ ": ") = true := by
  unfold checkDescription
  split_ifs <;> simp [startsWith, String.data_append]

theorem checkType_spec (v : JsVal) : checkType v [] = (typeMessage v).toList := by
  cases v <;> try rfl
  rename_i s
  unfold checkType typeMessage
  by_cases hs : s = SPEC_TYPE_VALUE
  · simp [JsVal.isUndefined, JsVal.isString, JsVal.eqStr, hs]
  · simp [JsVal.isUndefined, JsVal.isString, JsVal.eqStr, hs, JsVal.toStr]

theorem checkName_spec (v : JsVal) :
    checkName v [] = (textMessage "name" "Missing required field" v).toList := by
  cases v <;> try rfl
  rename_i s
  unfold checkName textMessage
  by_cases hs : s = ""
  · simp [JsVal.isUndefined, JsVal.isString, JsVal.eqStr, hs]
  · simp [JsVal.isUndefined, JsVal.isString, JsVal.eqStr, hs]

theorem checkDescription_spec (v : JsVal) :
    checkDescription v [] = (textMessage "description" "Missing field" v).toList := by
  cases v <;> try rfl
  rename_i s
  unfold checkDescription textMessage
  by_cases hs : s = ""
  · simp [JsVal.isUndefined, JsVal.isString, JsVal.eqStr, hs]
  · simp [JsVal.isUndefined, JsVal.isString, JsVal.eqStr, hs]

/-- The messages of `validate` for a required field are the block of that field. -/
theorem messagesFor_required (rt : Host) (kvs : List (String × JsVal)) (r : Validated)
    (h : validate rt (.obj kvs) = .ok r) :
    messagesFor "type" r.messages = checkType (field kvs "type") [] ∧
    messagesFor "name" r.messages = checkName (field kvs "name") [] ∧
    messagesFor "description" r.messages = checkDescription (field kvs "description") [] := by
  obtain ⟨m2, m3, h2, h3, hm⟩ := validate_parts rt kvs r h
  have kT := (checkType_keys (field kvs "type")).2
  have kN := (checkName_keys (field kvs "name")).2
  have kD := (checkDescription_keys (field kvs "description")).2
  have k2 := (validateServices_keys rt _ m2 h2).2
  have k3 : ∀ m ∈ m3, topKey m = ['x', '4'] := fun m hx =>
    List.mem_singleton.mp ((x402_keys _ m3 h3).2 m hx)
  have kI := (checkImage_keys rt (field kvs "image")).2
  have kA := (checkActive_keys (field kvs "active")).2
  have kS := (checkSupportedTrust_keys (field kvs "supportedTrust")).2
  have kU := validateExtraFields_ends (.obj kvs)
  rw [hm]
  simp only [messagesFor_append]
  refine ⟨?_, ?_, ?_⟩
  · rw [messagesFor_self _ _ _ kT (by decide) (checkType_starts _),
      messagesFor_other _ _ _ kN (by decide) (by decide) (by decide),
      messagesFor_other _ _ _ kD (by decide) (by decide) (by decide),
      messagesFor_other _ _ _ k2 (by decide) (by decide) (by decide),
      messagesFor_other _ _ _ k3 (by decide) (by decide) (by decide),
      messagesFor_other _ _ _ kI (by decide) (by decide) (by decide),
      messagesFor_other _ _ _ kA (by decide) (by decide) (by decide),
      messagesFor_other _ _ _ kS (by decide) (by decide) (by decide),
      messagesFor_unknown _ _ kU]
    simp
  · rw [messagesFor_other _ _ _ kT (by decide) (by decide) (by decide),
      messagesFor_self _ _ _ kN (by decide) (checkName_starts _),
      messagesFor_other _ _ _ kD (by decide) (by decide) (by decide),
      messagesFor_other _ _ _ k2 (by decide) (by decide) (by decide),
      messagesFor_other _ _ _ k3 (by decide) (by decide) (by decide),
      messagesFor_other _ _ _ kI (by decide) (by decide) (by decide),
      messagesFor_other _ _ _ kA (by decide) (by decide) (by decide),
      messagesFor_other _ _ _ kS (by decide) (by decide) (by decide),
      messagesFor_unknown _ _ kU]
    simp
  · rw [messagesFor_other _ _ _ kT (by decide) (by decide) (by decide),
      messagesFor_other _ _ _ kN (by decide) (by decide) (by decide),
      messagesFor_self _ _ _ kD (by decide) (checkDescription_starts _),
      messagesFor_other _ _ _ k2 (by decide) (by decide) (by decide),
      messagesFor_other _ _ _ k3 (by decide) (by decide) (by decide),
      messagesFor_other _ _ _ kI (by decide) (by decide) (by decide),
      messagesFor_other _ _ _ kA (by decide) (by decide) (by decide),
      messagesFor_other _ _ _ kS (by decide) (by decide) (by decide),
      messagesFor_unknown _ _ kU]
    simp

end RegistrationValidator

theorem typeMessage_none (v : JsVal) : typeMessage v = none ↔ v = .str SPEC_TYPE_VALUE := by
  cases v <;> simp [typeMessage]

theorem textMessage_none (f q : String) (v : JsVal) :
    textMessage f q v = none ↔ ∃ s, v = .str s ∧ s ≠ "" := by
  cases v <;> simp [textMessage]

theorem toList_length_le {α : Type} (o : Option α) : o.toList.length ≤ 1 := by
  cases o <;> simp

/-- C11. On an object document on which `RegistrationValidator.validate`
returns, the messages for each of the fields `type`, `name` and `description`
are the message the specification gives for the value of the field (absent,
not a string, wrong value or empty string), so at most one; there is none
exactly when the field conforms: `type` is the exact specification value,
`name` and `description` are non-empty strings. -/
theorem required_field_messages (rt : Host) (kvs : List (String × JsVal))
    (r : RegistrationValidator.Validated)
    (h : RegistrationValidator.validate rt (.obj kvs) = .ok r) :
    (messagesFor "type" r.messages = (typeMessage (field kvs "type")).toList ∧
      (messagesFor "type" r.messages).length ≤ 1 ∧
      (messagesFor "type" r.messages = [] ↔ field kvs "type" = .str SPEC_TYPE_VALUE)) ∧
    (messagesFor "name" r.messages
        = (textMessage "name" "Missing required field" (field kvs "name")).toList ∧
      (messagesFor "name" r.messages).length ≤ 1 ∧
      (messagesFor "name" r.messages = [] ↔ ∃ s, field kvs "name" = .str s ∧ s ≠ "")) ∧
    (messagesFor "description" r.messages
        = (textMessage "description" "Missing field" (field kvs "description")).toList ∧
      (messagesFor "description" r.messages).length ≤ 1 ∧
      (messagesFor "description" r.messages = []
        ↔ ∃ s, field kvs "description" = .str s ∧ s ≠ "")) := by
  obtain ⟨hT, hN, hD⟩ := RegistrationValidator.messagesFor_required rt kvs r h
  rw [hT, hN, hD, RegistrationValidator.checkType_spec, RegistrationValidator.checkName_spec,
    RegistrationValidator.checkDescription_spec]
  refine ⟨⟨rfl, toList_length_le _, ?_⟩, ⟨rfl, toList_length_le _, ?_⟩,
    ⟨rfl, toList_length_le _, ?_⟩⟩
  · rw [← typeMessage_none]; cases typeMessage (field kvs "type") <;> simp
  · rw [← textMessage_none "name" "Missing required field"]
    cases textMessage "name" "Missing required field" (field kvs "name") <;> simp
  · rw [← textMessage_none "description" "Missing field"]
    cases textMessage "description" "Missing field" (field kvs "description") <;> simp

set_option maxRecDepth 100000 in
/-- Witness for C11: on the deviant document the field `type` (a number) has
the not-a-string message, `name` (empty) the empty-string message and
`description` (absent) the missing-field message. -/
theorem required_field_messages_witness :
    RegistrationValidator.validate refHost (.obj Samples.deviantFields)
      = .ok ⟨false, Samples.deviantMessages⟩ ∧
    messagesFor "type" Samples.deviantMessages = ["type: Is not type of \"string\""] ∧
    messagesFor "name" Samples.deviantMessages = ["name: Is empty string"] ∧
    messagesFor "description" Samples.deviantMessages = ["description: Missing field"] :=
  have h := required_field_messages refHost Samples.deviantFields
    ⟨false, Samples.deviantMessages⟩ rfl
  ⟨rfl, h.1.1, h.2.1.1, h.2.2.1⟩

/-! ## Unknown top-level fields -/

theorem unknownFieldMessages_append (A B : List String) :
    unknownFieldMessages (A ++ B) = unknownFieldMessages A ++ unknownFieldMessages B := by
  unfold unknownFieldMessages
  exact List.filter_append _ _

theorem unknownFieldMessages_other (g : List Char) (A : List String)
    (hA : ∀ m ∈ A, topKey m = g) (hg : g ≠ ['*']) : unknownFieldMessages A = [] := by
  unfold unknownFieldMessages
  rw [List.filter_eq_nil_iff]
  intro m hm
  rw [endsWith_unknown_false m (topKey_inv m g (hA m hm) hg).2]
  simp

theorem unknownFieldMessages_self (A : List String)
    (hA : ∀ m ∈ A, endsWith m unknownFieldText = true) : unknownFieldMessages A = A := by
  unfold unknownFieldMessages
  rw [List.filter_eq_self]
  exact hA

namespace RegistrationValidator

/-- The unknown-field messages of `validate` are the block of the last check. -/
theorem unknownFieldMessages_validate (rt : Host) (kvs : List (String × JsVal)) (r : Validated)
    (h : validate rt (.obj kvs) = .ok r) :
    unknownFieldMessages r.messages =
      ((kvs.map Prod.fst).filter (fun k => !allowedTopLevelKeys.contains k)).map
        (· ++ unknownFieldText) := by
  obtain ⟨m2, m3, h2, h3, hm⟩ := validate_parts rt kvs r h
  have k3 : ∀ m ∈ m3, topKey m = ['x', '4'] := fun m hx =>
    List.mem_singleton.mp ((x402_keys _ m3 h3).2 m hx)
  rw [hm]
  simp only [unknownFieldMessages_append]
  rw [unknownFieldMessages_other _ _ (checkType_keys (field kvs "type")).2 (by decide),
    unknownFieldMessages_other _ _ (checkName_keys (field kvs "name")).2 (by decide),
    unknownFieldMessages_other _ _ (checkDescription_keys (field kvs "description")).2
      (by decide),
    unknownFieldMessages_other _ _ (validateServices_keys rt _ m2 h2).2 (by decide),
    unknownFieldMessages_other _ _ k3 (by decide),
    unknownFieldMessages_other _ _ (checkImage_keys rt (field kvs "image")).2 (by decide),
    unknownFieldMessages_other _ _ (checkActive_keys (field kvs "active")).2 (by decide),
    unknownFieldMessages_other _ _ (checkSupportedTrust_keys (field kvs "supportedTrust")).2
      (by decide),
    unknownFieldMessages_self _ (validateExtraFields_ends (.obj kvs))]
  simp only [List.nil_append]
  unfold validateExtraFields
  rw [validateKeys_eq]
  rfl

end RegistrationValidator

theorem append_unknownFieldText_injective :
    Function.Injective (fun k : String => k ++ unknownFieldText) :=
  fun a b hab => RegistrationValidator.append_right_cancel_string a b unknownFieldText hab

/-- C15. On an object document on which `RegistrationValidator.validate`
returns, the unknown-field messages are, in the key order of the document, one
message `<key>: Unknown field not defined in ERC-8004 spec` for each top-level
key outside the allowed set; no key of the allowed set has such a message, and
each key outside it has exactly one when the keys are distinct. -/
theorem unknown_field_messages (rt : Host) (kvs : List (String × JsVal))
    (r : RegistrationValidator.Validated)
    (h : RegistrationValidator.validate rt (.obj kvs) = .ok r) :
    unknownFieldMessages r.messages =
      ((kvs.map Prod.fst).filter (fun k => !allowedTopLevelKeys.contains k)).map
        (· ++ ": Unknown field not defined in ERC-8004 spec") ∧
    (∀ k ∈ allowedTopLevelKeys,
      (k ++ ": Unknown field not defined in ERC-8004 spec") ∉ r.messages) ∧
    ((kvs.map Prod.fst).Nodup → ∀ k ∈ kvs.map Prod.fst, k ∉ allowedTopLevelKeys →
      r.messages.count (k ++ ": Unknown field not defined in ERC-8004 spec") = 1) := by
  have hu := RegistrationValidator.unknownFieldMessages_validate rt kvs r h
  refine ⟨hu, ?_, ?_⟩
  · intro k hk hmem
    have hf : (k ++ unknownFieldText) ∈ unknownFieldMessages r.messages :=
      List.mem_filter.mpr ⟨hmem, endsWith_unknown_true k⟩
    rw [hu] at hf
    obtain ⟨k2, hk2, he⟩ := List.mem_map.mp hf
    have := append_unknownFieldText_injective he
    subst this
    have := (List.mem_filter.mp hk2).2
    simp only [Bool.not_eq_true', List.contains_eq_any_beq, List.any_eq_false, beq_iff_eq] at this
    exact this k2 hk rfl
  · intro hn k hk hout
    have hc : (unknownFieldMessages r.messages).count (k ++ unknownFieldText)
        = r.messages.count (k ++ unknownFieldText) :=
      List.count_filter (endsWith_unknown_true k)
    change r.messages.count (k ++ unknownFieldText) = 1
    rw [← hc, hu]
    change List.count ((fun k : String => k ++ unknownFieldText) k) _ = 1
    rw [List.count_map_of_injective _ _ append_unknownFieldText_injective,
      List.count_filter (by simpa using hout)]
    exact List.count_eq_one_of_mem hn hk

set_option maxRecDepth 100000 in
/-- Witness for C15: the deviant document has the keys `extra` and `more`
outside the allowed set, and only they have an unknown-field message. -/
theorem unknown_field_messages_witness :
    RegistrationValidator.validate refHost (.obj Samples.deviantFields)
      = .ok ⟨false, Samples.deviantMessages⟩ ∧
    unknownFieldMessages Samples.deviantMessages =
      ["extra: Unknown field not defined in ERC-8004 spec",
        "more: Unknown field not defined in ERC-8004 spec"] :=
  ⟨rfl, (unknown_field_messages refHost Samples.deviantFields
    ⟨false, Samples.deviantMessages⟩ rfl).1.trans (by decide)⟩

/-! ## Messages of one group -/

theorem getLast?_of_endsWith_unknown (m : String) (h : endsWith m unknownFieldText = true) :
    m.data.getLast? = some 'c' := by
  obtain ⟨t, ht⟩ := (endsWith_iff _ _).mp h
  rw [← ht, List.getLast?_append_of_ne_nil _ (by decide)]
  decide

theorem topKey_of_endsWith_unknown (m : String) (h : endsWith m unknownFieldText = true) :
    topKey m = ['*'] := by
  unfold topKey
  rw [if_pos (getLast?_of_endsWith_unknown m h)]

namespace RegistrationValidator

/-- A message with the group key of the services, or of the x402 flag, is a
message of `validate` exactly when it is one of that check. -/
theorem mem_validate_group (rt : Host) (kvs : List (String × JsVal)) (r : Validated)
    (h : validate rt (.obj kvs) = .ok r) :
    ∃ m2 m3, validateServices rt (.obj kvs) [] = .ok m2 ∧ validateX402 (.obj kvs) [] = .ok m3 ∧
      ∀ m, (topKey m = ['s', 'e'] → (m ∈ r.messages ↔ m ∈ m2)) ∧
        (topKey m = ['x', '4'] → (m ∈ r.messages ↔ m ∈ m3)) := by
  obtain ⟨m2, m3, h2, h3, hm⟩ := validate_parts rt kvs r h
  refine ⟨m2, m3, h2, h3, ?_⟩
  intro m
  have kT := (checkType_keys (field kvs "type")).2 m
  have kN := (checkName_keys (field kvs "name")).2 m
  have kD := (checkDescription_keys (field kvs "description")).2 m
  have k2 := (validateServices_keys rt _ m2 h2).2 m
  have k3 : m ∈ m3 → topKey m = ['x', '4'] := fun hx =>
    List.mem_singleton.mp ((x402_keys _ m3 h3).2 m hx)
  have kI := (checkImage_keys rt (field kvs "image")).2 m
  have kA := (checkActive_keys (field kvs "active")).2 m
  have kS := (checkSupportedTrust_keys (field kvs "supportedTrust")).2 m
  have kU : m ∈ validateExtraFields (.obj kvs) [] → topKey m = ['*'] := fun hx =>
    topKey_of_endsWith_unknown m (validateExtraFields_ends (.obj kvs) m hx)
  rw [hm]
  simp only [List.mem_append]
  constructor
  · intro hk
    rw [hk] at kT kN kD k3 kI kA kS kU
    constructor
    · rintro ((((((hx | hx) | hx) | hx) | hx) | ((hx | hx) | hx)) | hx)
      · exact absurd (kT hx) (by decide)
      · exact absurd (kN hx) (by decide)
      · exact absurd (kD hx) (by decide)
      · exact hx
      · exact absurd (k3 hx) (by decide)
      · exact absurd (kI hx) (by decide)
      · exact absurd (kA hx) (by decide)
      · exact absurd (kS hx) (by decide)
      · exact absurd (kU hx) (by decide)
    · intro hx
      exact Or.inl (Or.inl (Or.inl (Or.inr hx)))
  · intro hk
    rw [hk] at kT kN kD k2 kI kA kS kU
    constructor
    · rintro ((((((hx | hx) | hx) | hx) | hx) | ((hx | hx) | hx)) | hx)
      · exact absurd (kT hx) (by decide)
      · exact absurd (kN hx) (by decide)
      · exact absurd (kD hx) (by decide)
      · exact absurd (k2 hx) (by decide)
      · exact hx
      · exact absurd (kI hx) (by decide)
      · exact absurd (kA hx) (by decide)
      · exact absurd (kS hx) (by decide)
      · exact absurd (kU hx) (by decide)
    · intro hx
      exact Or.inl (Or.inl (Or.inr hx))

/-- The x402 check on an object, block by block. -/
theorem validateX402_obj (kvs : List (String × JsVal)) :
    validateX402 (.obj kvs) [] = .ok
      (checkX402Case (!(field kvs "x402Support").isUndefined)
          (!(field kvs "x402support").isUndefined) [] ++
        checkX402Type (!(field kvs "x402Support").isUndefined)
          (if !(field kvs "x402Support").isUndefined then field kvs "x402Support"
            else if !(field kvs "x402support").isUndefined then field kvs "x402support"
            else .undefined) []) := by
  unfold validateX402
  simp only [bind, Except.bind, pure, Except.pure, JsVal.get]
  unfold field
  split_ifs <;> simp only [Except.ok.injEq] <;> rw [checkX402Type_acc]

theorem mem_checkX402Case (a b : Bool) (m : String) :
    m ∈ checkX402Case a b [] ↔ (b = true ∧ a = false) ∧
      m = "x402support: Uses lowercase \"x402support\" instead of spec-defined \"x402Support\"" := by
  unfold checkX402Case
  cases a <;> cases b <;> simp

theorem mem_checkX402Type (a : Bool) (v : JsVal) (m : String) :
    m ∈ checkX402Type a v [] ↔ (v.isUndefined = false ∧ v.isBoolean = false) ∧
      m = (if a then "x402Support" else "x402support") ++ ": Is not type of \"boolean\", got \""
        ++ v.typeof ++ "\"" := by
  unfold checkX402Type
  cases v.isUndefined <;> cases v.isBoolean <;> simp

end RegistrationValidator

/-! ## The x402 flag -/

theorem topKey_x402 (typ : String) :
    topKey "x402support: Uses lowercase \"x402support\" instead of spec-defined \"x402Support\""
      = ['x', '4'] ∧
    topKey ("x402Support: Is not type of \"boolean\", got \"" ++ typ ++ "\"") = ['x', '4'] ∧
    topKey ("x402support: Is not type of \"boolean\", got \"" ++ typ ++ "\"") = ['x', '4'] :=
  ⟨topKey_of _ _ rfl (by decide),
    topKey_of _ _ (by simp [String.data_append])
      (by rw [getLast?_data_append _ _ (by decide)]; decide),
    topKey_of _ _ (by simp [String.data_append])
      (by rw [getLast?_data_append _ _ (by decide)]; decide)⟩

/-- C14, amended. On an object document on which
`RegistrationValidator.validate` returns, the lowercase-deviation message is
emitted exactly when `x402support` is present and `x402Support` is absent; a
type-mismatch message `<variant>: Is not type of "boolean", got "<type>"` is
emitted exactly when one of the two keys is present, `<variant>` is the
selected key (`x402Support` when present, otherwise `x402support`), its value is
not a boolean and `<type>` is the `typeof` of that value. -/
theorem x402_messages (rt : Host) (kvs : List (String × JsVal))
    (r : RegistrationValidator.Validated)
    (h : RegistrationValidator.validate rt (.obj kvs) = .ok r) :
    ("x402support: Uses lowercase \"x402support\" instead of spec-defined \"x402Support\""
        ∈ r.messages ↔
      (field kvs "x402support").isUndefined = false ∧
        (field kvs "x402Support").isUndefined = true) ∧
    (∀ typ : String,
      ("x402Support: Is not type of \"boolean\", got \"" ++ typ ++ "\"") ∈ r.messages ↔
        (field kvs "x402Support").isUndefined = false ∧
          (field kvs "x402Support").isBoolean = false ∧
          typ = (field kvs "x402Support").typeof) ∧
    (∀ typ : String,
      ("x402support: Is not type of \"boolean\", got \"" ++ typ ++ "\"") ∈ r.messages ↔
        (field kvs "x402Support").isUndefined = true ∧
          (field kvs "x402support").isUndefined = false ∧
          (field kvs "x402support").isBoolean = false ∧
          typ = (field kvs "x402support").typeof) := by
  obtain ⟨m2, m3, -, h3, hmem⟩ := RegistrationValidator.mem_validate_group rt kvs r h
  rw [RegistrationValidator.validateX402_obj] at h3
  cases h3
  refine ⟨?_, ?_, ?_⟩
  · rw [(hmem _).2 (topKey_x402 "").1, List.mem_append,
      RegistrationValidator.mem_checkX402Case, RegistrationValidator.mem_checkX402Type]
    cases hU : (field kvs "x402Support").isUndefined <;>
      cases hL : (field kvs "x402support").isUndefined <;>
      simp [hU, hL, String.ext_iff, String.data_append, show JsVal.undefined.isUndefined = true from rfl]
  · intro typ
    rw [(hmem _).2 (topKey_x402 typ).2.1, List.mem_append,
      RegistrationValidator.mem_checkX402Case, RegistrationValidator.mem_checkX402Type]
    cases hU : (field kvs "x402Support").isUndefined <;>
      cases hL : (field kvs "x402support").isUndefined <;>
      simp [hU, hL, String.ext_iff, String.data_append, show JsVal.undefined.isUndefined = true from rfl]
  · intro typ
    rw [(hmem _).2 (topKey_x402 typ).2.2, List.mem_append,
      RegistrationValidator.mem_checkX402Case, RegistrationValidator.mem_checkX402Type]
    cases hU : (field kvs "x402Support").isUndefined <;>
      cases hL : (field kvs "x402support").isUndefined <;>
      simp [hU, hL, String.ext_iff, String.data_append, show JsVal.undefined.isUndefined = true from rfl]

set_option maxRecDepth 100000 in
/-- Witness for C14: the deviant document has only the lower-case key, with a
string as its value; both messages are emitted and the second one names the
lower-case key and the type `string`. -/
theorem x402_messages_witness :
    RegistrationValidator.validate refHost (.obj Samples.deviantFields)
      = .ok ⟨false, Samples.deviantMessages⟩ ∧
    "x402support: Uses lowercase \"x402support\" instead of spec-defined \"x402Support\""
      ∈ Samples.deviantMessages ∧
    ("x402support: Is not type of \"boolean\", got \"" ++ "string" ++ "\"")
      ∈ Samples.deviantMessages :=
  have h := x402_messages refHost Samples.deviantFields ⟨false, Samples.deviantMessages⟩ rfl
  ⟨rfl, h.1.mpr ⟨rfl, rfl⟩, (h.2.2 "string").mpr ⟨rfl, rfl, rfl, rfl⟩⟩

/-- Counterexample for C14: the document has neither `x402Support` nor
`x402support`. The variant selected by the rule of the claim is `x402support`,
its value is `undefined`, which is not a boolean, yet the validator returns
without any message. -/
theorem validate_silent_without_x402 :
    (field Samples.minimalFields "x402Support").isUndefined = true ∧
    (field Samples.minimalFields "x402support").isUndefined = true ∧
    (field Samples.minimalFields "x402support").isBoolean = false ∧
    RegistrationValidator.validate refHost (.obj Samples.minimalFields) = .ok ⟨true, []⟩ :=
  ⟨rfl, rfl, rfl, rfl⟩

/-! ## Messages of one service entry -/

namespace RegistrationValidator

theorem validateServices_arr (rt : Host) (kvs : List (String × JsVal)) (xs : List JsVal)
    (hs : field kvs "services" = .arr xs) (hne : xs ≠ []) :
    validateServices rt (.obj kvs) [] = validateServicesFrom rt xs 0 [] := by
  unfold validateServices
  simp only [bind, Except.bind, pure, Except.pure, JsVal.get]
  unfold field at hs
  rw [hs]
  cases xs with
  | nil => exact absurd rfl hne
  | cons x xs => rfl

/-- In the messages of the services loop, the ones that carry the index of an
entry are the messages of that entry. -/
theorem validateServicesFrom_mem (rt : Host) (xs : List JsVal) (i : Nat) (out : List String)
    (h : validateServicesFrom rt xs i [] = .ok out) (k : Nat) (s : JsVal)
    (hk : xs[k]? = some s) :
    ∃ g, validateService rt s (i + k) [] = .ok g ∧
      ∀ m, indexKey 9 m = (toString (i + k)).data → (m ∈ out ↔ m ∈ g) := by
  induction xs generalizing i out k with
  | nil => simp at hk
  | cons x xs ih =>
    unfold validateServicesFrom at h
    split at h
    · cases h
    · rename_i g hg
      rw [validateServicesFrom_acc] at h
      cases h2 : validateServicesFrom rt xs (i + 1) [] with
      | error e => rw [h2] at h; cases h
      | ok out2 =>
        rw [h2] at h
        simp only [Except.map] at h
        cases h
        obtain ⟨-, kg⟩ := validateService_keys rt x i g hg
        obtain ⟨-, ko⟩ := validateServicesFrom_keys rt xs (i + 1) out2 h2
        cases k with
        | zero =>
          simp only [List.getElem?_cons_zero, Option.some.injEq] at hk
          subst hk
          refine ⟨g, hg, ?_⟩
          intro m hm
          rw [List.mem_append]
          constructor
          · rintro (hx | hx)
            · exact hx
            · obtain ⟨j, hj, hjk⟩ := (ko m hx).2
              have e := toString_nat_injective _ _ (hm.symm.trans hjk)
              omega
          · exact Or.inl
        | succ k =>
          simp only [List.getElem?_cons_succ] at hk
          obtain ⟨g2, hg2, hmem⟩ := ih (i + 1) out2 h2 k hk
          have e : i + 1 + k = i + (k + 1) := by omega
          rw [e] at hg2 hmem
          refine ⟨g2, hg2, ?_⟩
          intro m hm
          rw [List.mem_append, ← hmem m hm]
          constructor
          · rintro (hx | hx)
            · have e2 := toString_nat_injective _ _ (hm.symm.trans (kg m hx).2)
              omega
            · exact hx
          · exact Or.inr

/-- The messages of an object entry, block by block. -/
theorem validateService_obj (rt : Host) (e : List (String × JsVal)) (i : Nat) :
    validateService rt (.obj e) i [] =
      (((field e "type").or ((field e "name").or (.str ""))).toLowerCase).map (fun n =>
        checkProtocolKey (!(field e "type").isUndefined) (!(field e "name").isUndefined) i [] ++
        checkEndpointKey (!(field e "url").isUndefined) (!(field e "endpoint").isUndefined) i [] ++
        checkProtocol ((field e "type").or ((field e "name").or (.str ""))) n i [] ++
        checkUrl rt ((field e "url").or ((field e "endpoint").or .null)) i []) := by
  unfold validateService
  simp only [bind, Except.bind, pure, Except.pure, JsVal.get]
  unfold field
  cases ((((List.lookup "type" e).getD JsVal.undefined).or
      (((List.lookup "name" e).getD JsVal.undefined).or (JsVal.str ""))).toLowerCase) with
  | error err => rfl
  | ok n =>
    simp only [Except.map, Except.ok.injEq]
    rw [checkUrl_acc, checkProtocol_acc, checkEndpointKey_acc]

/-- The messages of `validate` that carry the services group key and the index
of an object entry are the messages of the four blocks of that entry. -/
theorem mem_validate_service (rt : Host) (kvs : List (String × JsVal)) (r : Validated)
    (xs : List JsVal) (i : Nat) (e : List (String × JsVal))
    (h : validate rt (.obj kvs) = .ok r) (hs : field kvs "services" = .arr xs)
    (hi : xs[i]? = some (.obj e)) :
    ∃ n, ((field e "type").or ((field e "name").or (.str ""))).toLowerCase = .ok n ∧
      ∀ m, topKey m = ['s', 'e'] → indexKey 9 m = (toString i).data →
        (m ∈ r.messages ↔ m ∈
          checkProtocolKey (!(field e "type").isUndefined) (!(field e "name").isUndefined) i [] ++
          checkEndpointKey (!(field e "url").isUndefined) (!(field e "endpoint").isUndefined) i []
          ++ checkProtocol ((field e "type").or ((field e "name").or (.str ""))) n i [] ++
          checkUrl rt ((field e "url").or ((field e "endpoint").or .null)) i []) := by
  obtain ⟨m2, m3, h2, -, hmem⟩ := mem_validate_group rt kvs r h
  have hne : xs ≠ [] := by
    intro hx
    rw [hx] at hi
    simp at hi
  rw [validateServices_arr rt kvs xs hs hne] at h2
  obtain ⟨g, hg, hmem2⟩ := validateServicesFrom_mem rt xs 0 m2 h2 i (.obj e) hi
  rw [Nat.zero_add] at hg hmem2
  rw [validateService_obj] at hg
  cases hn : ((field e "type").or ((field e "name").or (.str ""))).toLowerCase with
  | error err => rw [hn] at hg; cases hg
  | ok n =>
    rw [hn] at hg
    simp only [Except.map, Except.ok.injEq] at hg
    refine ⟨n, rfl, ?_⟩
    intro m hk hik
    rw [(hmem m).1 hk, hmem2 m hik, hg]

end RegistrationValidator

namespace RegistrationValidator

theorem mem_checkProtocolKey (a b : Bool) (i : Nat) (m : String) :
    m ∈ checkProtocolKey a b i [] ↔
      (a = false ∧ b = false ∧
        m = "services[" ++ toString i ++ "]: Missing protocol identifier (\"type\" or \"name\")") ∨
      (a = false ∧ b = true ∧
        m = "services[" ++ toString i ++ "].name: Uses \"name\" instead of spec-defined \"type\"") := by
  unfold checkProtocolKey
  cases a <;> cases b <;> simp

theorem mem_checkEndpointKey (a b : Bool) (i : Nat) (m : String) :
    m ∈ checkEndpointKey a b i [] ↔
      (a = false ∧ b = false ∧
        m = "services[" ++ toString i ++ "]: Missing endpoint (\"url\" or \"endpoint\")") ∨
      (a = false ∧ b = true ∧
        m = "services[" ++ toString i
          ++ "].endpoint: Uses \"endpoint\" instead of spec-defined \"url\"") := by
  unfold checkEndpointKey
  cases a <;> cases b <;> simp

theorem mem_checkProtocol (v : JsVal) (n : String) (i : Nat) (m : String) :
    m ∈ checkProtocol v n i [] ↔
      (v.truthy = true ∧ KNOWN_PROTOCOLS.contains n = false) ∧
        m = "services[" ++ toString i ++ "]: Unknown protocol \"" ++ v.toStr
          ++ "\" (known: mcp, a2a, oasf, ens, did)" := by
  unfold checkProtocol
  have e : ", ".intercalate KNOWN_PROTOCOLS = "mcp, a2a, oasf, ens, did" := by decide
  rw [e]
  cases v.truthy <;> cases KNOWN_PROTOCOLS.contains n <;>
    simp [String.ext_iff, String.data_append]

theorem mem_checkUrl (rt : Host) (u : JsVal) (i : Nat) (m : String) :
    m ∈ checkUrl rt u i [] ↔
      (u.isNull = false ∧ isValidUrl rt u = false) ∧
        m = "services[" ++ toString i ++ "].url: Invalid URL format" := by
  unfold checkUrl
  cases u.isNull <;> cases isValidUrl rt u <;> simp

/-- The group key and the index of a services message. -/
theorem serviceMsg_keys (i : Nat) (lit rest : String) (hl : 12 ≤ lit.data.length)
    (hh : (lit.data.headD 'a').isDigit = false)
    (hlast : ("services[" ++ (toString i ++ (lit ++ rest))).data.getLast? ≠ some 'c') :
    topKey ("services[" ++ (toString i ++ (lit ++ rest))) = ['s', 'e'] ∧
    indexKey 9 ("services[" ++ (toString i ++ (lit ++ rest))) = (toString i).data := by
  have h := indexedMsg 9 "services[" ['s', 'e'] i lit rest _ [lit.data.take 12] rfl
    (by decide) rfl rfl hl hh (List.mem_singleton.mpr rfl) hlast
  exact ⟨h.1, h.2.1⟩

end RegistrationValidator

/-- C12. On an object document on which `RegistrationValidator.validate`
returns and whose `services` is an array with the object `e` at index `i`:
the message about `name` used for `type` is emitted exactly when the entry has
a `name` and no `type`, the message about `endpoint` used for `url` exactly
when it has an `endpoint` and no `url`, the missing-protocol message exactly
when it has neither `type` nor `name`, and the missing-endpoint message exactly
when it has neither `url` nor `endpoint`. -/
theorem service_alias_messages (rt : Host) (kvs : List (String × JsVal))
    (r : RegistrationValidator.Validated) (xs : List JsVal) (i : Nat)
    (e : List (String × JsVal))
    (h : RegistrationValidator.validate rt (.obj kvs) = .ok r)
    (hs : field kvs "services" = .arr xs) (hi : xs[i]? = some (.obj e)) :
    (("services[" ++ toString i ++ "].name: Uses \"name\" instead of spec-defined \"type\"")
        ∈ r.messages ↔
      (field e "name").isUndefined = false ∧ (field e "type").isUndefined = true) ∧
    (("services[" ++ toString i
        ++ "].endpoint: Uses \"endpoint\" instead of spec-defined \"url\"") ∈ r.messages ↔
      (field e "endpoint").isUndefined = false ∧ (field e "url").isUndefined = true) ∧
    (("services[" ++ toString i ++ "]: Missing protocol identifier (\"type\" or \"name\")")
        ∈ r.messages ↔
      (field e "type").isUndefined = true ∧ (field e "name").isUndefined = true) ∧
    (("services[" ++ toString i ++ "]: Missing endpoint (\"url\" or \"endpoint\")")
        ∈ r.messages ↔
      (field e "url").isUndefined = true ∧ (field e "endpoint").isUndefined = true) := by
  obtain ⟨n, -, hmem⟩ := RegistrationValidator.mem_validate_service rt kvs r xs i e h hs hi
  have k1 := RegistrationValidator.serviceMsg_keys i
    "].name: Uses \"name\" instead of spec-defined \"type\"" "" (by decide) (by decide)
    (by rw [String.append_empty, getLast?_data_append _ _ (by simp [String.data_append])]
        rw [getLast?_data_append _ _ (by decide)]; decide)
  have k2 := RegistrationValidator.serviceMsg_keys i
    "].endpoint: Uses \"endpoint\" instead of spec-defined \"url\"" "" (by decide) (by decide)
    (by rw [String.append_empty, getLast?_data_append _ _ (by simp [String.data_append])]
        rw [getLast?_data_append _ _ (by decide)]; decide)
  have k3 := RegistrationValidator.serviceMsg_keys i
    "]: Missing protocol identifier (\"type\" or \"name\")" "" (by decide) (by decide)
    (by rw [String.append_empty, getLast?_data_append _ _ (by simp [String.data_append])]
        rw [getLast?_data_append _ _ (by decide)]; decide)
  have k4 := RegistrationValidator.serviceMsg_keys i
    "]: Missing endpoint (\"url\" or \"endpoint\")" "" (by decide) (by decide)
    (by rw [String.append_empty, getLast?_data_append _ _ (by simp [String.data_append])]
        rw [getLast?_data_append _ _ (by decide)]; decide)
  simp only [String.append_empty, ← String.append_assoc] at k1 k2 k3 k4
  refine ⟨?_, ?_, ?_, ?_⟩
  · rw [hmem _ k1.1 k1.2]
    simp only [List.mem_append, RegistrationValidator.mem_checkProtocolKey,
      RegistrationValidator.mem_checkEndpointKey, RegistrationValidator.mem_checkProtocol,
      RegistrationValidator.mem_checkUrl]
    cases (field e "type").isUndefined <;> cases (field e "name").isUndefined <;>
      simp [String.ext_iff, String.data_append]
  · rw [hmem _ k2.1 k2.2]
    simp only [List.mem_append, RegistrationValidator.mem_checkProtocolKey,
      RegistrationValidator.mem_checkEndpointKey, RegistrationValidator.mem_checkProtocol,
      RegistrationValidator.mem_checkUrl]
    cases (field e "url").isUndefined <;> cases (field e "endpoint").isUndefined <;>
      simp [String.ext_iff, String.data_append]
  · rw [hmem _ k3.1 k3.2]
    simp only [List.mem_append, RegistrationValidator.mem_checkProtocolKey,
      RegistrationValidator.mem_checkEndpointKey, RegistrationValidator.mem_checkProtocol,
      RegistrationValidator.mem_checkUrl]
    cases (field e "type").isUndefined <;> cases (field e "name").isUndefined <;>
      simp [String.ext_iff, String.data_append]
  · rw [hmem _ k4.1 k4.2]
    simp only [List.mem_append, RegistrationValidator.mem_checkProtocolKey,
      RegistrationValidator.mem_checkEndpointKey, RegistrationValidator.mem_checkProtocol,
      RegistrationValidator.mem_checkUrl]
    cases (field e "url").isUndefined <;> cases (field e "endpoint").isUndefined <;>
      simp [String.ext_iff, String.data_append]

set_option maxRecDepth 100000 in
/-- Witness for C12: in the deviant document entry 0 has `name` and
`endpoint` but neither `type` nor `url`, and entry 1 has a `type` and no
endpoint at all. -/
theorem service_alias_messages_witness :
    RegistrationValidator.validate refHost (.obj Samples.deviantFields)
      = .ok ⟨false, Samples.deviantMessages⟩ ∧
    "services[0].name: Uses \"name\" instead of spec-defined \"type\""
      ∈ Samples.deviantMessages ∧
    "services[0].endpoint: Uses \"endpoint\" instead of spec-defined \"url\""
      ∈ Samples.deviantMessages ∧
    "services[1]: Missing endpoint (\"url\" or \"endpoint\")" ∈ Samples.deviantMessages :=
  have h0 := service_alias_messages refHost Samples.deviantFields
    ⟨false, Samples.deviantMessages⟩ _ 0 _ rfl rfl rfl
  have h1 := service_alias_messages refHost Samples.deviantFields
    ⟨false, Samples.deviantMessages⟩ _ 1 _ rfl rfl rfl
  ⟨rfl, h0.1.mpr ⟨rfl, rfl⟩, h0.2.1.mpr ⟨rfl, rfl⟩, h1.2.2.2.mpr ⟨rfl, rfl⟩⟩

/-! ## Unknown protocols -/

/-- C13, amended. On an object document on which
`RegistrationValidator.validate` returns and whose `services` is an array with
the object `e` at index `i`: the message
`services[i]: Unknown protocol "p" (known: mcp, a2a, oasf, ens, did)` is
emitted exactly when the resolved protocol identifier of the entry, the first
truthy value among `type` and `name`, is the non-empty string `p` and the
lower-cased `p` is not one of the five known protocols. -/
theorem unknown_protocol_message (rt : Host) (kvs : List (String × JsVal))
    (r : RegistrationValidator.Validated) (xs : List JsVal) (i : Nat)
    (e : List (String × JsVal))
    (h : RegistrationValidator.validate rt (.obj kvs) = .ok r)
    (hs : field kvs "services" = .arr xs) (hi : xs[i]? = some (.obj e)) (p : String) :
    ("services[" ++ toString i ++ "]: Unknown protocol \"" ++ p
        ++ "\" (known: mcp, a2a, oasf, ens, did)") ∈ r.messages ↔
      (field e "type").or ((field e "name").or (.str "")) = .str p ∧ p ≠ "" ∧
        toLowerCase p ∉ ["mcp", "a2a", "oasf", "ens", "did"] := by
  obtain ⟨n, hn, hmem⟩ := RegistrationValidator.mem_validate_service rt kvs r xs i e h hs hi
  have k := RegistrationValidator.serviceMsg_keys i "]: Unknown protocol \""
    (p ++ "\" (known: mcp, a2a, oasf, ens, did)") (by decide) (by decide)
    (by rw [getLast?_data_append _ _ (by simp [String.data_append]),
          getLast?_data_append _ _ (by simp [String.data_append]),
          getLast?_data_append _ _ (by simp [String.data_append]),
          getLast?_data_append _ _ (by decide)]; decide)
  simp only [← String.append_assoc] at k
  rw [hmem _ k.1 k.2]
  simp only [List.mem_append, RegistrationValidator.mem_checkProtocolKey,
    RegistrationValidator.mem_checkEndpointKey, RegistrationValidator.mem_checkProtocol,
    RegistrationValidator.mem_checkUrl]
  cases hv : (field e "type").or ((field e "name").or (.str "")) with
  | str q =>
    rw [hv] at hn
    simp only [JsVal.toLowerCase, Except.ok.injEq] at hn
    subst hn
    simp [String.ext_iff, String.data_append, JsVal.truthy, JsVal.toStr,
      RegistrationValidator.KNOWN_PROTOCOLS]
    constructor
    · rintro ⟨h1, h2⟩
      have hpq : p = q := String.ext h2
      subst hpq
      exact ⟨rfl, h1⟩
    · rintro ⟨h1, h2⟩
      have hpq : q = p := String.ext h1
      subst hpq
      exact ⟨h2, rfl⟩
  | _ => rw [hv] at hn; cases hn

set_option maxRecDepth 100000 in
/-- Witness for C13: entry 1 of the deviant document has the type `xyz`,
which is no known protocol, and the message names it. -/
theorem unknown_protocol_message_witness :
    RegistrationValidator.validate refHost (.obj Samples.deviantFields)
      = .ok ⟨false, Samples.deviantMessages⟩ ∧
    "services[1]: Unknown protocol \"xyz\" (known: mcp, a2a, oasf, ens, did)"
      ∈ Samples.deviantMessages :=
  ⟨rfl, (unknown_protocol_message refHost Samples.deviantFields
    ⟨false, Samples.deviantMessages⟩ _ 1 _ rfl rfl rfl "xyz").mpr ⟨rfl, by decide, by decide⟩⟩

set_option maxRecDepth 100000 in
/-- Counterexample for C13: the only service of the document carries the
empty string under `type` and `mcp` under `name`. Its `type` is present, and
the lower-cased `type` is none of the five known protocols, yet the validator
returns without any message: it resolves the identifier to `mcp`. The same
holds when the entry has only the empty `type` next to its `url`. -/
theorem validate_accepts_empty_type :
    field Samples.emptyTypeFields "services"
      = .arr [.obj [("type", .str ""), ("name", .str "mcp"),
          ("url", .str "https://mcp.example.com")]] ∧
    toLowerCase "" ∉ ["mcp", "a2a", "oasf", "ens", "did"] ∧
    RegistrationValidator.validate refHost (.obj Samples.emptyTypeFields) = .ok ⟨true, []⟩ ∧
    RegistrationValidator.validate refHost
      (.obj [("type", .str SPEC_TYPE_VALUE), ("name", .str "Agent"),
        ("description", .str "An agent"),
        ("services", .arr [.obj [("type", .str ""), ("url", .str "https://mcp.example.com")]])])
      = .ok ⟨true, []⟩ :=
  ⟨rfl, by decide, rfl, rfl⟩

/-! ## Parts of the extractor -/

theorem get_eq_propertyOf (v : JsVal) (key : String) (w : JsVal) (h : v.get key = .ok w) :
    w = propertyOf v key := by
  cases v <;> simp only [JsVal.get] at h <;> cases h <;> rfl

theorem get_ok_of_get (v : JsVal) (key key2 : String) (w : JsVal) (h : v.get key = .ok w) :
    v.get key2 = .ok (propertyOf v key2) := by
  cases v <;> simp only [JsVal.get] at h <;> cases h <;> rfl

namespace MetadataExtractor

theorem extract_parts (rt : Host) (doc : JsVal) (tag : String) (a o : Option String)
    (c : Categories) (e : Entries) (h : extract rt doc tag a o = .ok (c, e))
    (hn : (doc.isNull || doc.isUndefined) = false) :
    buildCategories doc tag = .ok c ∧ buildEntries rt doc tag a o = .ok e := by
  unfold extract at h
  rw [hn] at h
  simp only [bind, Except.bind, pure, Except.pure, Bool.false_eq_true, if_false] at h
  split at h
  · cases h
  · split at h
    · cases h
    · cases h
      exact ⟨by assumption, by assumption⟩

theorem buildCategories_parts (doc : JsVal) (tag : String) (c : Categories)
    (h : buildCategories doc tag = .ok c) :
    detectProtocols doc = .ok (c.isMcp, c.isA2A) ∧
    checkSpecCompliance doc = .ok c.isSpecCompliant := by
  unfold buildCategories at h
  simp only [bind, Except.bind, pure, Except.pure] at h
  split at h
  · cases h
  · split at h
    · cases h
    · split at h
      · cases h
      · split at h
        · cases h
        · cases h
          exact ⟨by assumption, by assumption⟩

theorem buildEntries_parts (rt : Host) (doc : JsVal) (tag : String) (a o : Option String)
    (e : Entries) (h : buildEntries rt doc tag a o = .ok e) :
    extractEndpoints doc = .ok (e.mcpEndpoint, e.a2aEndpoint) ∧
    extractServices doc = .ok e.services := by
  unfold buildEntries at h
  simp only [bind, Except.bind, pure, Except.pure] at h
  repeat' split at h
  all_goals (cases h <;> exact ⟨by assumption, by assumption⟩)

end MetadataExtractor

/-! ## The flag isSpecCompliant -/

namespace MetadataExtractor

theorem serviceDeviates_ok (s : JsVal) (b : Bool) (h : serviceDeviates s = .ok b) :
    b = usesAlias s := by
  cases s with
  | undefined => cases h
  | null => cases h
  | obj kvs =>
    unfold serviceDeviates at h
    simp only [bind, Except.bind, pure, Except.pure, JsVal.get] at h
    unfold usesAlias propertyOf field
    simp only
    split_ifs at h <;> simp_all
  | _ =>
    unfold serviceDeviates at h
    simp only [bind, Except.bind, pure, Except.pure, JsVal.get] at h
    cases h
    rfl

theorem someDeviates_ok (xs : List JsVal) (d : Bool) (h : someDeviates xs = .ok d) :
    d = xs.any usesAlias := by
  induction xs with
  | nil => cases h; rfl
  | cons x xs ih =>
    unfold someDeviates at h
    split at h
    · cases h
    · rename_i hx
      cases h
      rw [List.any_cons, ← serviceDeviates_ok x true hx]
      rfl
    · rename_i hx
      rw [List.any_cons, ← serviceDeviates_ok x false hx, ← ih h]
      rfl

theorem checkSpecCompliance_obj (kvs : List (String × JsVal)) (b : Bool)
    (h : checkSpecCompliance (.obj kvs) = .ok b) :
    b = ((field kvs "type").eqStr SPEC_TYPE_VALUE &&
      ((field kvs "name").truthy && (field kvs "name").isString) &&
      !(!(field kvs "x402support").isUndefined && (field kvs "x402Support").isUndefined) &&
      (match field kvs "services" with
        | .arr xs => !xs.any usesAlias
        | _ => true)) := by
  unfold checkSpecCompliance at h
  simp only [bind, Except.bind, pure, Except.pure, JsVal.get] at h
  unfold field
  generalize (List.lookup "type" kvs).getD JsVal.undefined = t at h ⊢
  generalize (List.lookup "name" kvs).getD JsVal.undefined = n at h ⊢
  generalize (List.lookup "x402support" kvs).getD JsVal.undefined = l at h ⊢
  generalize (List.lookup "x402Support" kvs).getD JsVal.undefined = u at h ⊢
  generalize (List.lookup "services" kvs).getD JsVal.undefined = sv at h ⊢
  cases hA : t.eqStr SPEC_TYPE_VALUE
  · simp [hA] at h; subst h; simp
  cases hB : n.truthy
  · simp [hA, hB] at h; subst h; simp
  cases hC : n.isString
  · simp [hA, hB, hC] at h; subst h; simp
  cases hD : l.isUndefined <;> cases hE : u.isUndefined <;>
    simp only [hA, hB, hC, hD, hE, Bool.not_true, Bool.not_false, Bool.or_self, Bool.and_self,
      Bool.and_true, Bool.and_false, Bool.true_and, Bool.false_and, Bool.false_eq_true,
      if_false, if_true] at h ⊢
  case false.true => cases h; rfl
  all_goals
    cases sv with
    | arr xs =>
      simp only at h ⊢
      cases hd : someDeviates xs with
      | error err => rw [hd] at h; cases h
      | ok d =>
        rw [hd] at h
        rw [← someDeviates_ok xs d hd]
        cases d <;> simp only [if_true, if_false, Bool.false_eq_true] at h <;> cases h <;> rfl
    | _ => simp only at h; cases h; rfl

end MetadataExtractor

theorem eqStr_iff (v : JsVal) (s : String) : v.eqStr s = true ↔ v = .str s := by
  cases v <;> simp [JsVal.eqStr]

theorem nonEmptyString_iff (v : JsVal) :
    (v.truthy && v.isString) = true ↔ ∃ s, v = .str s ∧ s ≠ "" := by
  cases v <;> simp [JsVal.truthy, JsVal.isString]

theorem usesAlias_false_iff (s : JsVal) :
    usesAlias s = false ↔
      ¬((propertyOf s "name").isUndefined = false ∧ (propertyOf s "type").isUndefined = true) ∧
      ¬((propertyOf s "endpoint").isUndefined = false ∧
        (propertyOf s "url").isUndefined = true) := by
  unfold usesAlias
  cases (propertyOf s "name").isUndefined <;> cases (propertyOf s "type").isUndefined <;>
    cases (propertyOf s "endpoint").isUndefined <;> cases (propertyOf s "url").isUndefined <;>
    simp

/-- C16. On an object document on which `MetadataExtractor.extract` returns,
the flag `isSpecCompliant` is true exactly when `type` is the exact
specification value, `name` is a non-empty string, it is not the case that
`x402support` is present while `x402Support` is absent, and, when `services`
is an array, no entry has `name` without `type` or `endpoint` without `url`. -/
theorem spec_compliant_iff (rt : Host) (kvs : List (String × JsVal)) (tag : String)
    (a o : Option String) (c : MetadataExtractor.Categories) (e : MetadataExtractor.Entries)
    (h : MetadataExtractor.extract rt (.obj kvs) tag a o = .ok (c, e)) :
    c.isSpecCompliant = true ↔
      field kvs "type" = .str SPEC_TYPE_VALUE ∧
      (∃ s, field kvs "name" = .str s ∧ s ≠ "") ∧
      ¬((field kvs "x402support").isUndefined = false ∧
        (field kvs "x402Support").isUndefined = true) ∧
      (∀ xs, field kvs "services" = .arr xs → ∀ s ∈ xs,
        ¬((propertyOf s "name").isUndefined = false ∧
          (propertyOf s "type").isUndefined = true) ∧
        ¬((propertyOf s "endpoint").isUndefined = false ∧
          (propertyOf s "url").isUndefined = true)) := by
  have hc := (MetadataExtractor.buildCategories_parts _ _ _
    (MetadataExtractor.extract_parts rt _ tag a o c e h rfl).1).2
  rw [MetadataExtractor.checkSpecCompliance_obj kvs _ hc]
  rw [Bool.and_eq_true, Bool.and_eq_true, Bool.and_eq_true, and_assoc, and_assoc]
  refine and_congr (eqStr_iff _ _) (and_congr (nonEmptyString_iff _) (and_congr ?_ ?_))
  · cases (field kvs "x402support").isUndefined <;>
      cases (field kvs "x402Support").isUndefined <;> simp
  · cases hs : field kvs "services" with
    | arr xs =>
      simp only [Bool.not_eq_true', List.any_eq_false, JsVal.arr.injEq, Bool.not_eq_true]
      constructor
      · intro hx ys hy s hsm
        subst hy
        exact (usesAlias_false_iff s).mp (hx s hsm)
      · intro hx s hsm
        exact (usesAlias_false_iff s).mpr (hx xs rfl s hsm)
    | _ => simp

set_option maxRecDepth 100000 in
/-- Witness for C16: the compliant document is flagged, and it meets the
four conditions. -/
theorem spec_compliant_iff_witness :
    ∃ c e, MetadataExtractor.extract refHost (.obj Samples.compliantFields) "json" none none
        = .ok (c, e) ∧ c.isSpecCompliant = true ∧
      field Samples.compliantFields "type" = .str SPEC_TYPE_VALUE ∧
      (∃ s, field Samples.compliantFields "name" = .str s ∧ s ≠ "") :=
  ⟨_, _, rfl, rfl,
    ((spec_compliant_iff refHost Samples.compliantFields "json" none none _ _ rfl).mp rfl).1,
    ((spec_compliant_iff refHost Samples.compliantFields "json" none none _ _ rfl).mp rfl).2.1⟩

/-! ## Normalized services and endpoints -/

namespace MetadataExtractor

theorem get_services (doc : JsVal) (hn : (doc.isNull || doc.isUndefined) = false) :
    doc.get "services" = .ok (propertyOf doc "services") := by
  cases doc <;> first | rfl | cases hn

theorem protocolOf_eq (s : JsVal) (hn : (s.isNull || s.isUndefined) = false) :
    protocolOf s =
      ((propertyOf s "type").or ((propertyOf s "name").or (.str ""))).toLowerCase := by
  cases s with
  | undefined => cases hn
  | null => cases hn
  | obj kvs =>
    unfold protocolOf
    simp only [bind, Except.bind, pure, Except.pure, JsVal.get, propertyOf, field]
    generalize (List.lookup "type" kvs).getD JsVal.undefined = t
    unfold JsVal.or
    split_ifs <;> rfl
  | _ => rfl

theorem not_nullish_of_protocolOf (s : JsVal) (p : String) (h : protocolOf s = .ok p) :
    (s.isNull || s.isUndefined) = false := by
  cases s <;> first | rfl | cases h

theorem protocolOf_ok (s : JsVal) (p : String) (h : protocolOf s = .ok p) :
    lowerProtocol s = some p := by
  rw [protocolOf_eq s (not_nullish_of_protocolOf s p h)] at h
  unfold lowerProtocol
  generalize (propertyOf s "type").or ((propertyOf s "name").or (.str "")) = v at h
  cases v <;> simp only [JsVal.toLowerCase, Except.ok.injEq] at h <;> first | (subst h; rfl) | cases h

theorem endpointOf_ok (s v : JsVal) (h : endpointOf s = .ok v) :
    v = (normalizedService s).endpoint := by
  cases s with
  | undefined => cases h
  | null => cases h
  | obj kvs =>
    unfold endpointOf at h
    simp only [bind, Except.bind, pure, Except.pure, JsVal.get] at h
    unfold normalizedService propertyOf field
    simp only
    unfold JsVal.or at h ⊢
    split_ifs at h ⊢ <;> cases h <;> rfl
  | _ =>
    unfold endpointOf at h
    simp only [bind, Except.bind, pure, Except.pure, JsVal.get, JsVal.truthy, JsVal.or,
      Bool.false_eq_true, if_false, Except.ok.injEq] at h
    subst h
    rfl

end MetadataExtractor

namespace MetadataExtractor

theorem extractService_ok (s : JsVal) (r : Service) (h : extractService s = .ok r) :
    r = normalizedService s := by
  cases s with
  | undefined => cases h
  | null => cases h
  | obj kvs =>
    unfold extractService endpointOf at h
    simp only [bind, Except.bind, pure, Except.pure, JsVal.get] at h
    unfold normalizedService propertyOf field
    simp only
    unfold JsVal.or at h ⊢
    split_ifs at h ⊢ <;> cases h <;> rfl
  | _ =>
    unfold extractService endpointOf at h
    simp only [bind, Except.bind, pure, Except.pure, JsVal.get, JsVal.truthy, JsVal.or,
      Bool.false_eq_true, if_false, Except.ok.injEq] at h
    subst h
    rfl

theorem extractServicesMap_ok (xs : List JsVal) (l : List Service)
    (h : extractServicesMap xs = .ok l) : l = xs.map normalizedService := by
  induction xs generalizing l with
  | nil => cases h; rfl
  | cons x xs ih =>
    unfold extractServicesMap at h
    split at h
    · cases h
    · rename_i r hr
      split at h
      · cases h
      · rename_i rs hrs
        cases h
        rw [List.map_cons, ← extractService_ok x r hr, ← ih rs hrs]

theorem extractServices_ok (doc : JsVal) (l : List Service)
    (hn : (doc.isNull || doc.isUndefined) = false) (h : extractServices doc = .ok l) :
    l = match propertyOf doc "services" with
      | .arr xs => xs.map normalizedService
      | _ => [] := by
  unfold extractServices at h
  rw [get_services doc hn] at h
  simp only [bind, Except.bind, pure, Except.pure] at h
  split at h
  · rename_i hs; rw [hs]; cases h; rfl
  · rename_i xs hne hs
    rw [hs]
    exact extractServicesMap_ok xs l h
  · rename_i h1 h2
    cases h
    split
    · rename_i xs hs
      cases xs with
      | nil => rfl
      | cons y ys => exact absurd hs (h2 (y :: ys))
    · rfl

theorem firstEndpoint_cons (p : String) (s : JsVal) (rest : List JsVal) :
    firstEndpoint p (s :: rest) =
      if lowerProtocol s = some p ∧ (normalizedService s).endpoint.isNull = false then
        (normalizedService s).endpoint
      else firstEndpoint p rest := rfl

/-- One step of the loop of `#extractEndpoints` on one of the two endpoints. -/
theorem endpoint_step (q p : String) (m0 v rest : JsVal) :
    (if (if (p == q && m0.isNull) = true then v else m0).isNull = true then rest
      else (if (p == q && m0.isNull) = true then v else m0)) =
    (if m0.isNull = true then (if some p = some q ∧ v.isNull = false then v else rest)
      else m0) := by
  cases h2 : m0.isNull
  · simp [h2]
  · by_cases h1 : p = q
    · subst h1
      cases h3 : v.isNull <;> simp [h2, h3]
    · simp [h1, h2]

theorem extractEndpointsLoop_ok (xs : List JsVal) (m0 a0 m a : JsVal)
    (h : extractEndpointsLoop xs (m0, a0) = .ok (m, a)) :
    m = (if m0.isNull then firstEndpoint "mcp" xs else m0) ∧
    a = (if a0.isNull then firstEndpoint "a2a" xs else a0) := by
  induction xs generalizing m0 a0 with
  | nil =>
    simp only [extractEndpointsLoop, Except.ok.injEq, Prod.mk.injEq] at h
    obtain ⟨rfl, rfl⟩ := h
    constructor
    · cases hm : m0.isNull
      · simp
      · cases m0 <;> first | rfl | cases hm
    · cases ha : a0.isNull
      · simp
      · cases a0 <;> first | rfl | cases ha
  | cons x xs ih =>
    unfold extractEndpointsLoop at h
    split at h
    · cases h
    · rename_i p hp
      split at h
      · cases h
      · rename_i v hv
        have hv2 := endpointOf_ok x v hv
        have hp2 := protocolOf_ok x p hp
        obtain ⟨hm, ha⟩ := ih _ _ h
        rw [hm, ha]
        rw [firstEndpoint_cons, firstEndpoint_cons, hp2, ← hv2]
        exact ⟨endpoint_step "mcp" p m0 v _, endpoint_step "a2a" p a0 v _⟩

theorem extractEndpoints_ok (doc : JsVal) (m a : JsVal)
    (hn : (doc.isNull || doc.isUndefined) = false) (h : extractEndpoints doc = .ok (m, a)) :
    (m, a) = match propertyOf doc "services" with
      | .arr xs => (firstEndpoint "mcp" xs, firstEndpoint "a2a" xs)
      | _ => (.null, .null) := by
  unfold extractEndpoints at h
  rw [get_services doc hn] at h
  simp only [bind, Except.bind, pure, Except.pure] at h
  split at h
  · rename_i hs; rw [hs]; cases h; rfl
  · rename_i xs hne hs
    rw [hs]
    obtain ⟨hm, ha⟩ := extractEndpointsLoop_ok xs _ _ m a h
    rw [hm, ha]
    rfl
  · rename_i h1 h2
    cases h
    split
    · rename_i xs hs
      cases xs with
      | nil => rfl
      | cons y ys => exact absurd hs (h2 (y :: ys))
    · rfl

end MetadataExtractor

namespace MetadataExtractor

/-- What `extract` puts into `services`, `mcpEndpoint` and `a2aEndpoint`. -/
theorem extract_services_endpoints (rt : Host) (doc : JsVal) (tag : String)
    (a o : Option String) (c : Categories) (e : Entries)
    (h : extract rt doc tag a o = .ok (c, e)) :
    (e.services = match propertyOf doc "services" with
      | .arr xs => xs.map normalizedService
      | _ => []) ∧
    ((e.mcpEndpoint, e.a2aEndpoint) = match propertyOf doc "services" with
      | .arr xs => (firstEndpoint "mcp" xs, firstEndpoint "a2a" xs)
      | _ => (.null, .null)) := by
  cases hn : (doc.isNull || doc.isUndefined)
  · obtain ⟨hs, he⟩ := buildEntries_parts rt doc tag a o e (extract_parts rt doc tag a o c e h hn).2
    exact ⟨extractServices_ok doc _ hn he, extractEndpoints_ok doc _ _ hn hs⟩
  · unfold extract at h
    rw [hn] at h
    simp only [if_true, Except.ok.injEq, Prod.mk.injEq] at h
    obtain ⟨-, rfl⟩ := h
    cases doc <;> first | exact ⟨rfl, rfl⟩ | cases hn

end MetadataExtractor

/-- C19. On every document on which `MetadataExtractor.extract` returns: when
`services` is an array, `entries.services` has the length of the array and its
i-th element is the pair of the i-th service, with the protocol `type` (else
`name`, else `null`) and the endpoint `url` (else `endpoint`, else `null`), in
source order; when `services` is absent or not an array, and when it is the
empty array, `entries.services` is empty. -/
theorem entries_services (rt : Host) (doc : JsVal) (tag : String) (a o : Option String)
    (c : MetadataExtractor.Categories) (e : MetadataExtractor.Entries)
    (h : MetadataExtractor.extract rt doc tag a o = .ok (c, e)) :
    (∀ xs, propertyOf doc "services" = .arr xs →
      e.services = xs.map normalizedService ∧ e.services.length = xs.length ∧
      ∀ (i : Nat) (s : JsVal), xs[i]? = some s →
        e.services[i]? = some (normalizedService s)) ∧
    ((∀ xs, propertyOf doc "services" ≠ .arr xs) → e.services = []) ∧
    (propertyOf doc "services" = .arr [] → e.services = []) := by
  have hs := (MetadataExtractor.extract_services_endpoints rt doc tag a o c e h).1
  refine ⟨?_, ?_, ?_⟩
  · intro xs hx
    rw [hx] at hs
    simp only at hs
    refine ⟨hs, by rw [hs, List.length_map], ?_⟩
    intro i s hi
    rw [hs, List.getElem?_map, hi]
    rfl
  · intro hx
    rw [hs]
    split
    · rename_i xs hxs
      exact absurd hxs (hx xs)
    · rfl
  · intro hx
    rw [hs, hx]
    rfl

set_option maxRecDepth 100000 in
/-- Witness for C19: the two services of the deviant document, the first one
written with the aliases `name` and `endpoint`, the second one without an
endpoint. -/
theorem entries_services_witness :
    ∃ c e, MetadataExtractor.extract refHost (.obj Samples.deviantFields) "json" none none
        = .ok (c, e) ∧
      e.services = [⟨.str "MCP", .str "not a url"⟩, ⟨.str "xyz", .null⟩] :=
  ⟨_, _, rfl, ((entries_services refHost (.obj Samples.deviantFields) "json" none none _ _
    rfl).1 _ rfl).1⟩

/-- C17, amended. On every document on which `MetadataExtractor.extract`
returns and whose `services` is an array, `entries.mcpEndpoint` is the endpoint
(`url`, else `endpoint`) of the first service whose protocol lower-cases to
`mcp` and whose endpoint is not `null`, and `entries.a2aEndpoint` that of the
first such service for `a2a`; the value is `null` when there is no such
service, and when `services` is not an array. -/
theorem first_endpoint_with_value (rt : Host) (doc : JsVal) (tag : String)
    (a o : Option String) (c : MetadataExtractor.Categories) (e : MetadataExtractor.Entries)
    (h : MetadataExtractor.extract rt doc tag a o = .ok (c, e)) :
    (∀ xs, propertyOf doc "services" = .arr xs →
      e.mcpEndpoint = firstEndpoint "mcp" xs ∧ e.a2aEndpoint = firstEndpoint "a2a" xs) ∧
    ((∀ xs, propertyOf doc "services" ≠ .arr xs) →
      e.mcpEndpoint = .null ∧ e.a2aEndpoint = .null) := by
  have hs := (MetadataExtractor.extract_services_endpoints rt doc tag a o c e h).2
  refine ⟨?_, ?_⟩
  · intro xs hx
    rw [hx] at hs
    simp only [Prod.mk.injEq] at hs
    exact hs
  · intro hx
    split at hs
    · rename_i xs hxs
      exact absurd hxs (hx xs)
    · simp only [Prod.mk.injEq] at hs
      exact hs

set_option maxRecDepth 100000 in
/-- Witness for C17: in the document with two `mcp` services the first one
has no endpoint, so the endpoint of the second one is taken. -/
theorem first_endpoint_with_value_witness :
    ∃ c e, MetadataExtractor.extract refHost (.obj Samples.twoMcpFields) "json" none none
        = .ok (c, e) ∧
      e.mcpEndpoint = .str "https://b.example" ∧ e.a2aEndpoint = .null :=
  ⟨_, _, rfl, (first_endpoint_with_value refHost (.obj Samples.twoMcpFields) "json" none none
    _ _ rfl).1 _ rfl⟩

set_option maxRecDepth 100000 in
/-- Counterexample for C17: the first service of the document whose protocol
lower-cases to `mcp` is the one at index 0, and its endpoint is `null`; yet
`entries.mcpEndpoint` is the `url` of the later `mcp` service at index 1. -/
theorem later_mcp_service_sets_endpoint :
    ∃ c e, MetadataExtractor.extract refHost (.obj Samples.twoMcpFields) "json" none none
        = .ok (c, e) ∧
      e.services = [⟨.str "mcp", .null⟩, ⟨.str "mcp", .str "https://b.example"⟩] ∧
      MetadataExtractor.protocolOf (.obj [("type", .str "mcp")]) = .ok "mcp" ∧
      MetadataExtractor.endpointOf (.obj [("type", .str "mcp")]) = .ok .null ∧
      e.mcpEndpoint = .str "https://b.example" :=
  ⟨_, _, rfl, rfl, rfl, rfl, rfl⟩

set_option maxRecDepth 100000 in
/-- Evaluation for C18: on the document whose only service has the protocol
`mcp` and no endpoint, `extract` sets `isMcp` and leaves `mcpEndpoint` at
`null`; `start` does the same on an event log that carries the document as an
inline JSON URI. On a service whose `url` is the number 5 the endpoint is that
number, not a string. -/
theorem isMcp_without_endpoint :
    (∃ c e, MetadataExtractor.extract refHost Samples.mcpWithoutEndpointJson "json" none none
        = .ok (c, e) ∧ c.isMcp = true ∧ e.mcpEndpoint = .null) ∧
    (∃ c e, MetadataExtractor.extract refHost
        (.obj [("services", .arr [.obj [("type", .str "mcp"), ("url", .num 5)]])])
        "json" none none = .ok (c, e) ∧ c.isMcp = true ∧ e.mcpEndpoint = .num 5) ∧
    (∃ r, Erc8004RegistryParser.start refHost Samples.mcpWithoutEndpointLog .undefined = .ok r ∧
      r.categories.isMcp = true ∧ r.entries.mcpEndpoint = .null ∧
      r.entries.services = [⟨.str "mcp", .null⟩]) :=
  ⟨⟨_, _, rfl, rfl, rfl⟩, ⟨_, _, rfl, rfl, rfl⟩, ⟨_, rfl, rfl, rfl, rfl⟩⟩

/-! ## Injected validators -/

namespace Erc8004RegistryParser

theorem runValidator_acc (v : Option Validator) (b : Bool) (label : String) (endpoint : JsVal)
    (i : Nat) (ms : List String) :
    runValidator v b label endpoint i ms
      = (runValidator v b label endpoint i []).map (ms ++ ·) := by
  unfold runValidator
  cases b <;> cases v <;> simp only [Except.map, List.append_nil]
  rename_i w
  cases w.validate endpoint with
  | error e => rfl
  | ok r =>
    obtain ⟨st, msgs⟩ := r
    cases st <;> simp [Except.map]

theorem runValidatorsFrom_acc (mcp a2a : Option Validator) (xs : List JsVal) (i : Nat)
    (ms : List String) :
    runValidatorsFrom mcp a2a xs i ms = (runValidatorsFrom mcp a2a xs i []).map (ms ++ ·) := by
  induction xs generalizing i ms with
  | nil => simp [runValidatorsFrom, Except.map]
  | cons x xs ih =>
    unfold runValidatorsFrom
    cases MetadataExtractor.protocolOf x with
    | error e => rfl
    | ok p =>
      cases MetadataExtractor.endpointOf x with
      | error e => rfl
      | ok v =>
        simp only
        split_ifs
        · exact ih _ _
        · rw [runValidator_acc mcp _ _ _ _ ms]
          cases runValidator mcp (p == "mcp") "MCP" v i [] with
          | error e => rfl
          | ok m1 =>
            simp only [Except.map, List.nil_append]
            rw [runValidator_acc a2a _ _ _ _ (ms ++ m1), runValidator_acc a2a _ _ _ _ m1]
            cases runValidator a2a (p == "a2a") "A2A" v i [] with
            | error e => rfl
            | ok m2 =>
              simp only [Except.map]
              rw [ih _ (ms ++ m1 ++ m2), ih _ (m1 ++ m2)]
              cases runValidatorsFrom mcp a2a xs (i + 1) [] with
              | error e => rfl
              | ok m3 => simp [Except.map]

end Erc8004RegistryParser

namespace Erc8004RegistryParser

/-- The two protocol branches of the callback on one service whose endpoint is
not `null`. -/
theorem runValidator_pair (mcp a2a : Option Validator) (x : JsVal) (p : String) (v : JsVal)
    (i : Nat) (m1 m2 : List String) (hp : lowerProtocol x = some p)
    (hv : v = (normalizedService x).endpoint) (hn : v.isNull = false)
    (h1 : runValidator mcp (p == "mcp") "MCP" v i [] = .ok m1)
    (h2 : runValidator a2a (p == "a2a") "A2A" v i [] = .ok m2) :
    m1 ++ m2 = injectedFor mcp a2a i x := by
  unfold injectedFor validatorFor
  rw [hp, ← hv]
  simp only [Option.bind, hn, Bool.false_eq_true, if_false]
  by_cases hm : p = "mcp"
  · subst hm
    have e1 : ("mcp" == "mcp") = true := by decide
    have e2 : ("mcp" == "a2a") = false := by decide
    rw [e1] at h1
    rw [e2] at h2
    unfold runValidator at h1 h2
    simp only [Except.ok.injEq] at h2
    subst h2
    rw [List.append_nil, if_pos rfl]
    cases mcp with
    | none => simp only [Except.ok.injEq] at h1; subst h1; rfl
    | some w =>
      simp only [Option.map] at h1 ⊢
      cases hw : w.validate v with
      | error e => rw [hw] at h1; cases h1
      | ok r =>
        rw [hw] at h1
        obtain ⟨st, msgs⟩ := r
        cases st <;> simp at h1 ⊢ <;> first | exact h1 | exact h1.symm
  · have e1 : (p == "mcp") = false := by simpa using hm
    rw [e1] at h1
    unfold runValidator at h1
    simp only [Except.ok.injEq] at h1
    subst h1
    rw [List.nil_append, if_neg hm]
    by_cases ha : p = "a2a"
    · subst ha
      have e2 : ("a2a" == "a2a") = true := by decide
      rw [e2] at h2
      unfold runValidator at h2
      rw [if_pos rfl]
      cases a2a with
      | none => simp only [Except.ok.injEq] at h2; subst h2; rfl
      | some w =>
        simp only [Option.map] at h2 ⊢
        cases hw : w.validate v with
        | error e => rw [hw] at h2; cases h2
        | ok r =>
          rw [hw] at h2
          obtain ⟨st, msgs⟩ := r
          cases st <;> simp at h2 ⊢ <;> first | exact h2 | exact h2.symm
    · have e2 : (p == "a2a") = false := by simpa using ha
      rw [e2] at h2
      unfold runValidator at h2
      simp only [Except.ok.injEq] at h2
      subst h2
      rw [if_neg ha]

/-- A service whose endpoint is `null` contributes nothing. -/
theorem injectedFor_null (mcp a2a : Option Validator) (i : Nat) (x : JsVal)
    (hn : (normalizedService x).endpoint.isNull = true) : injectedFor mcp a2a i x = [] := by
  unfold injectedFor
  simp only [hn, if_true]
  split <;> rfl

theorem runValidatorsFrom_ok (mcp a2a : Option Validator) (xs : List JsVal) (i : Nat)
    (out : List String) (h : runValidatorsFrom mcp a2a xs i [] = .ok out) :
    out = injectedFrom mcp a2a xs i := by
  induction xs generalizing i out with
  | nil => simp only [runValidatorsFrom, Except.ok.injEq] at h; subst h; rfl
  | cons x xs ih =>
    unfold runValidatorsFrom at h
    split at h
    · cases h
    · rename_i p hp
      split at h
      · cases h
      · rename_i v hv
        have hv2 := MetadataExtractor.endpointOf_ok x v hv
        have hp2 := MetadataExtractor.protocolOf_ok x p hp
        unfold injectedFrom
        split_ifs at h with hnull
        · rw [injectedFor_null mcp a2a i x (hv2 ▸ hnull), List.nil_append]
          exact ih _ _ h
        · simp only [Bool.not_eq_true] at hnull
          split at h
          · cases h
          · rename_i m1 h1
            rw [runValidator_acc] at h
            cases h2 : runValidator a2a (p == "a2a") "A2A" v i [] with
            | error e => rw [h2] at h; cases h
            | ok m2 =>
              rw [h2] at h
              simp only [Except.map] at h
              rw [runValidatorsFrom_acc] at h
              cases h3 : runValidatorsFrom mcp a2a xs (i + 1) [] with
              | error e => rw [h3] at h; cases h
              | ok m3 =>
                rw [h3] at h
                simp only [Except.map, Except.ok.injEq] at h
                rw [← h, ← ih _ _ h3, ← runValidator_pair mcp a2a x p v i m1 m2 hp2 hv2 hnull h1 h2]

end Erc8004RegistryParser

namespace MetadataExtractor

theorem endpointOf_eq (s : JsVal) (hn : (s.isNull || s.isUndefined) = false) :
    endpointOf s = .ok (normalizedService s).endpoint := by
  cases s with
  | undefined => cases hn
  | null => cases hn
  | obj kvs =>
    unfold endpointOf
    simp only [bind, Except.bind, pure, Except.pure, JsVal.get, normalizedService, propertyOf,
      field]
    generalize (List.lookup "url" kvs).getD JsVal.undefined = u
    unfold JsVal.or
    split_ifs <;> rfl
  | _ => rfl

end MetadataExtractor

namespace Erc8004RegistryParser

/-- Without a validator for the protocol, neither branch of the callback adds
a message, whatever the validators of the mapping do. -/
theorem runValidator_skip (mcp a2a : Option Validator) (p : String) (v : JsVal) (i : Nat)
    (ms : List String) (h : validatorFor mcp a2a p = none) :
    runValidator mcp (p == "mcp") "MCP" v i ms = .ok ms ∧
    runValidator a2a (p == "a2a") "A2A" v i ms = .ok ms := by
  unfold validatorFor at h
  by_cases hm : p = "mcp"
  · subst hm
    have e2 : ("mcp" == "a2a") = false := by decide
    rw [if_pos rfl] at h
    cases mcp with
    | some w => simp at h
    | none => rw [e2]; exact ⟨by unfold runValidator; split <;> first | rfl | simp_all,
        by unfold runValidator; rfl⟩
  · have e1 : (p == "mcp") = false := by simpa using hm
    rw [if_neg hm] at h
    rw [e1]
    refine ⟨by unfold runValidator; rfl, ?_⟩
    by_cases ha : p = "a2a"
    · subst ha
      rw [if_pos rfl] at h
      cases a2a with
      | some w => simp at h
      | none => unfold runValidator; split <;> first | rfl | simp_all
    · have e2 : (p == "a2a") = false := by simpa using ha
      rw [e2]
      unfold runValidator
      rfl

/-- Services without an endpoint, and services for whose protocol the mapping
holds no validator, are passed over: the loop returns without messages. -/
theorem runValidatorsFrom_skip (mcp a2a : Option Validator) (xs : List JsVal) (i : Nat)
    (h : ∀ s ∈ xs, ∃ p, MetadataExtractor.protocolOf s = .ok p ∧
      ((normalizedService s).endpoint.isNull = true ∨ validatorFor mcp a2a p = none)) :
    runValidatorsFrom mcp a2a xs i [] = .ok [] := by
  induction xs generalizing i with
  | nil => rfl
  | cons x xs ih =>
    obtain ⟨p, hp, hx⟩ := h x (List.mem_cons_self _ _)
    have hrest := ih (i + 1) (fun s hs => h s (List.mem_cons_of_mem _ hs))
    unfold runValidatorsFrom
    rw [hp, MetadataExtractor.endpointOf_eq x (MetadataExtractor.not_nullish_of_protocolOf x p hp)]
    simp only
    split_ifs with hnull
    · exact hrest
    · rcases hx with hx | hx
      · exact absurd hx hnull
      · rw [(runValidator_skip mcp a2a p _ i [] hx).1]
        simp only
        rw [(runValidator_skip mcp a2a p _ i [] hx).2]
        exact hrest

theorem runValidators_ok (mcp a2a : Option Validator) (doc : JsVal) (out : List String)
    (h : runValidators (.mapping mcp a2a) doc = .ok out) :
    out = match propertyOf doc "services" with
      | .arr xs => injectedFrom mcp a2a xs 0
      | _ => [] := by
  unfold runValidators at h
  simp only [bind, Except.bind, pure, Except.pure] at h
  split at h
  · cases h
  · rename_i sv hsv
    have hsv2 := get_eq_propertyOf doc "services" sv hsv
    rw [← hsv2]
    split at h
    · cases h; rfl
    · exact runValidatorsFrom_ok mcp a2a _ 0 out h
    · rename_i h1 h2
      cases h
      split
      · rename_i xs
        cases xs with
        | nil => rfl
        | cons y ys => exact absurd rfl (h2 (y :: ys))
      · rfl

end Erc8004RegistryParser

/-- C20. For every mapping of validators and every decoded document on which
the run of the injected validators returns, its messages are the contributions
of the services in ascending index: a service contributes only when the mapping
holds a validator for its lower-cased protocol (`type`, else `name`) and its
endpoint (`url`, else `endpoint`) is not `null`, and then, when the validator
answers with status false, each returned message `m` as
`services[i].url (MCP): m` or `services[i].url (A2A): m` in the order of the
validator. Services without an endpoint or without a validator for their
protocol are passed over without consulting any validator: on a list of such
services the run returns no message whatever the validators of the mapping
would do. -/
theorem injected_validator_messages (mcp a2a : Option Validator) (doc : JsVal)
    (out : List String)
    (h : Erc8004RegistryParser.runValidators (.mapping mcp a2a) doc = .ok out) :
    (out = match propertyOf doc "services" with
      | .arr xs => injectedFrom mcp a2a xs 0
      | _ => []) ∧
    (∀ (xs : List JsVal) (i : Nat),
      (∀ s ∈ xs, ∃ p, MetadataExtractor.protocolOf s = .ok p ∧
        ((normalizedService s).endpoint.isNull = true ∨ validatorFor mcp a2a p = none)) →
      Erc8004RegistryParser.runValidatorsFrom mcp a2a xs i [] = .ok []) :=
  ⟨Erc8004RegistryParser.runValidators_ok mcp a2a doc out h,
    fun xs i hx => Erc8004RegistryParser.runValidatorsFrom_skip mcp a2a xs i hx⟩

set_option maxRecDepth 100000 in
/-- Witness for C20: with a validator for `mcp` that rejects with one message
and a validator for `a2a` that rejects with two, the first service (`mcp`)
contributes one message, the second one (`a2a` without endpoint) none, and the
third one (`a2a` under the alias keys) two messages in the order of the
validator. A validator for `mcp` that raises when called is not called on an
`mcp` service without endpoint nor on an `a2a` service. -/
theorem injected_validator_messages_witness :
    Erc8004RegistryParser.runValidators
        (.mapping (some Samples.rejecting) (some Samples.rejectingTwice))
        Samples.threeServicesJson
      = .ok ["services[0].url (MCP): unreachable", "services[2].url (A2A): first",
          "services[2].url (A2A): second"] ∧
    injectedFrom (some Samples.rejecting) (some Samples.rejectingTwice)
        [.obj [("type", .str "MCP"), ("url", .str "https://mcp.example.com")],
          .obj [("type", .str "a2a")],
          .obj [("name", .str "A2A"), ("endpoint", .str "https://a2a.example.com")]] 0
      = ["services[0].url (MCP): unreachable", "services[2].url (A2A): first",
          "services[2].url (A2A): second"] ∧
    Erc8004RegistryParser.runValidatorsFrom (some Samples.raising) none
        [.obj [("type", .str "mcp")], .obj [("type", .str "a2a"), ("url", .str "https://a")]]
        0 []
      = .ok [] :=
  have h := injected_validator_messages (some Samples.rejecting) (some Samples.rejectingTwice)
    Samples.threeServicesJson _ rfl
  ⟨rfl, h.1.symm, rfl⟩

/-! ## Documents on which the validator and the extractor return -/

theorem toLowerCase_isOk (v : JsVal) : (∃ n, v.toLowerCase = .ok n) ↔ v.isString = true := by
  cases v <;> simp [JsVal.toLowerCase, JsVal.isString]

namespace RegistrationValidator

theorem validateService_returns_iff (rt : Host) (s : JsVal) (i : Nat) :
    (∃ g, validateService rt s i [] = .ok g) ↔ wellFormedService s = true := by
  cases s with
  | undefined => simp [validateService, JsVal.get, wellFormedService, JsVal.isUndefined, bind,
      Except.bind]
  | null => simp [validateService, JsVal.get, wellFormedService, JsVal.isNull, bind, Except.bind]
  | obj e =>
    rw [validateService_obj]
    unfold wellFormedService propertyOf
    simp only [JsVal.isNull, JsVal.isUndefined, Bool.or_self, Bool.not_false, Bool.true_and]
    rw [← toLowerCase_isOk]
    cases ((field e "type").or ((field e "name").or (.str ""))).toLowerCase <;>
      simp [Except.map]
  | _ => exact ⟨fun _ => rfl, fun _ => ⟨_, rfl⟩⟩

theorem validateServicesFrom_cons (rt : Host) (x : JsVal) (xs : List JsVal) (i : Nat)
    (ms : List String) :
    validateServicesFrom rt (x :: xs) i ms =
      match validateService rt x i ms with
      | .error e => .error e
      | .ok m => validateServicesFrom rt xs (i + 1) m := rfl

theorem validateServicesFrom_returns_iff (rt : Host) (xs : List JsVal) (i : Nat) :
    (∃ out, validateServicesFrom rt xs i [] = .ok out) ↔
      ∀ s ∈ xs, wellFormedService s = true := by
  induction xs generalizing i with
  | nil => simp [validateServicesFrom]
  | cons x xs ih =>
    rw [List.forall_mem_cons, ← ih (i + 1), ← validateService_returns_iff rt x i,
      validateServicesFrom_cons]
    cases hx : validateService rt x i [] with
    | error e => simp
    | ok g =>
      simp only [Except.ok.injEq, exists_eq', true_and]
      rw [validateServicesFrom_acc]
      cases validateServicesFrom rt xs (i + 1) [] <;> simp [Except.map]

/-- The validator returns on an object document exactly when every entry of
a `services` array is well formed. -/
theorem validate_returns_iff (rt : Host) (kvs : List (String × JsVal)) :
    (∃ r, validate rt (.obj kvs) = .ok r) ↔
      ∀ xs, field kvs "services" = .arr xs → ∀ s ∈ xs, wellFormedService s = true := by
  have hg := validate_grouped rt kvs
  unfold groupedMessages at hg
  rw [validateRequiredFields_obj, validateOptionalFields_obj] at hg
  simp only [bind, Except.bind, pure, Except.pure] at hg
  have hx : ∃ m3, validateX402 (.obj kvs) [] = .ok m3 := ⟨_, validateX402_obj kvs⟩
  obtain ⟨m3, h3⟩ := hx
  rw [h3] at hg
  have key : (∃ r, validate rt (.obj kvs) = .ok r) ↔
      ∃ m2, validateServices rt (.obj kvs) [] = .ok m2 := by
    cases h2 : validateServices rt (.obj kvs) [] with
    | error e =>
      rw [h2] at hg
      cases hv : validate rt (.obj kvs) with
      | error e2 => simp
      | ok r => rw [hv] at hg; simp [Except.map] at hg
    | ok m2 =>
      rw [h2] at hg
      cases hv : validate rt (.obj kvs) with
      | error e2 => rw [hv] at hg; simp [Except.map] at hg
      | ok r => simp
  rw [key]
  cases hs : field kvs "services" with
  | arr xs =>
    cases xs with
    | nil =>
      unfold validateServices
      simp only [bind, Except.bind, pure, Except.pure, JsVal.get]
      unfold field at hs
      rw [hs]
      simp
    | cons y ys =>
      rw [validateServices_arr rt kvs (y :: ys) hs (by simp), validateServicesFrom_returns_iff]
      simp
  | _ =>
    unfold validateServices
    simp only [bind, Except.bind, pure, Except.pure, JsVal.get]
    unfold field at hs
    rw [hs]
    simp

end RegistrationValidator

namespace MetadataExtractor

theorem protocolOf_returns_iff (s : JsVal) :
    (∃ p, protocolOf s = .ok p) ↔ wellFormedService s = true := by
  cases hn : (s.isNull || s.isUndefined)
  · rw [protocolOf_eq s hn, toLowerCase_isOk]
    unfold wellFormedService
    rw [hn]
    simp
  · unfold wellFormedService
    rw [hn]
    cases s <;> first
      | (simp [protocolOf, JsVal.get, bind, Except.bind]; done)
      | cases hn

theorem not_nullish_of_wellFormed (s : JsVal) (h : wellFormedService s = true) :
    (s.isNull || s.isUndefined) = false := by
  unfold wellFormedService at h
  cases hn : (s.isNull || s.isUndefined)
  · rfl
  · rw [hn] at h; simp at h

theorem detectProtocolsLoop_returns_iff (xs : List JsVal) (acc : Bool × Bool) :
    (∃ r, detectProtocolsLoop xs acc = .ok r) ↔ ∀ s ∈ xs, wellFormedService s = true := by
  induction xs generalizing acc with
  | nil => simp [detectProtocolsLoop]
  | cons x xs ih =>
    rw [List.forall_mem_cons, ← protocolOf_returns_iff x]
    obtain ⟨m, a⟩ := acc
    unfold detectProtocolsLoop
    cases hp : protocolOf x with
    | error e => simp
    | ok p =>
      simp only [Except.ok.injEq, exists_eq', true_and]
      exact ih _

theorem extractEndpointsLoop_returns (xs : List JsVal) (acc : JsVal × JsVal)
    (h : ∀ s ∈ xs, wellFormedService s = true) : ∃ r, extractEndpointsLoop xs acc = .ok r := by
  induction xs generalizing acc with
  | nil => exact ⟨_, rfl⟩
  | cons x xs ih =>
    obtain ⟨m, a⟩ := acc
    obtain ⟨p, hp⟩ := (protocolOf_returns_iff x).mpr (h x (List.mem_cons_self _ _))
    unfold extractEndpointsLoop
    rw [hp, endpointOf_eq x (not_nullish_of_protocolOf x p hp)]
    exact ih _ (fun s hs => h s (List.mem_cons_of_mem _ hs))

theorem extractService_returns (s : JsVal) (hn : (s.isNull || s.isUndefined) = false) :
    ∃ r, extractService s = .ok r := by
  unfold extractService
  rw [endpointOf_eq s hn]
  cases s with
  | undefined => cases hn
  | null => cases hn
  | obj kvs =>
    simp only [bind, Except.bind, pure, Except.pure, JsVal.get]
    split_ifs <;> exact ⟨_, rfl⟩
  | _ => exact ⟨_, rfl⟩

theorem extractServicesMap_returns (xs : List JsVal)
    (h : ∀ s ∈ xs, wellFormedService s = true) : ∃ r, extractServicesMap xs = .ok r := by
  induction xs with
  | nil => exact ⟨_, rfl⟩
  | cons x xs ih =>
    obtain ⟨r, hr⟩ := extractService_returns x
      (not_nullish_of_wellFormed x (h x (List.mem_cons_self _ _)))
    obtain ⟨rs, hrs⟩ := ih (fun s hs => h s (List.mem_cons_of_mem _ hs))
    unfold extractServicesMap
    rw [hr, hrs]
    exact ⟨_, rfl⟩

theorem serviceDeviates_returns (s : JsVal) (hn : (s.isNull || s.isUndefined) = false) :
    ∃ b, serviceDeviates s = .ok b := by
  cases s with
  | undefined => cases hn
  | null => cases hn
  | obj kvs =>
    unfold serviceDeviates
    simp only [bind, Except.bind, pure, Except.pure, JsVal.get]
    split_ifs <;> exact ⟨_, rfl⟩
  | _ => exact ⟨_, rfl⟩

theorem someDeviates_returns (xs : List JsVal)
    (h : ∀ s ∈ xs, wellFormedService s = true) : ∃ b, someDeviates xs = .ok b := by
  induction xs with
  | nil => exact ⟨_, rfl⟩
  | cons x xs ih =>
    obtain ⟨b, hb⟩ := serviceDeviates_returns x
      (not_nullish_of_wellFormed x (h x (List.mem_cons_self _ _)))
    unfold someDeviates
    rw [hb]
    cases b
    · exact ih (fun s hs => h s (List.mem_cons_of_mem _ hs))
    · exact ⟨_, rfl⟩

end MetadataExtractor

theorem get_of_not_nullish (v : JsVal) (key : String)
    (hn : (v.isNull || v.isUndefined) = false) : v.get key = .ok (propertyOf v key) := by
  cases v <;> first | rfl | cases hn

namespace MetadataExtractor

theorem detectX402_returns (doc : JsVal) (hn : (doc.isNull || doc.isUndefined) = false) :
    ∃ p, detectX402 doc = .ok p := by
  unfold detectX402
  simp only [bind, Except.bind, pure, Except.pure, get_of_not_nullish doc _ hn]
  split_ifs <;> exact ⟨_, rfl⟩

theorem detectProtocols_returns_iff (doc : JsVal)
    (hn : (doc.isNull || doc.isUndefined) = false) :
    (∃ p, detectProtocols doc = .ok p) ↔
      ∀ xs, propertyOf doc "services" = .arr xs → ∀ s ∈ xs, wellFormedService s = true := by
  unfold detectProtocols
  simp only [bind, Except.bind, pure, Except.pure, get_of_not_nullish doc _ hn]
  cases hs : propertyOf doc "services" with
  | arr xs =>
    cases xs with
    | nil => simp
    | cons y ys =>
      simp only [JsVal.arr.injEq]
      rw [detectProtocolsLoop_returns_iff]
      constructor
      · intro h xs hx
        subst hx
        exact h
      · intro h
        exact h _ rfl
  | _ => simp

theorem checkSpecCompliance_returns (doc : JsVal)
    (hn : (doc.isNull || doc.isUndefined) = false)
    (h : ∀ xs, propertyOf doc "services" = .arr xs → ∀ s ∈ xs, wellFormedService s = true) :
    ∃ b, checkSpecCompliance doc = .ok b := by
  unfold checkSpecCompliance
  simp only [bind, Except.bind, pure, Except.pure, get_of_not_nullish doc _ hn]
  split_ifs
  · exact ⟨_, rfl⟩
  · exact ⟨_, rfl⟩
  · exact ⟨_, rfl⟩
  · cases hs : propertyOf doc "services" with
    | arr xs =>
      obtain ⟨b, hb⟩ := someDeviates_returns xs (h xs hs)
      simp only [hb]
      cases b <;> exact ⟨_, rfl⟩
    | _ => exact ⟨_, rfl⟩

theorem extractEndpoints_returns (doc : JsVal)
    (hn : (doc.isNull || doc.isUndefined) = false)
    (h : ∀ xs, propertyOf doc "services" = .arr xs → ∀ s ∈ xs, wellFormedService s = true) :
    ∃ p, extractEndpoints doc = .ok p := by
  unfold extractEndpoints
  simp only [bind, Except.bind, pure, Except.pure, get_of_not_nullish doc _ hn]
  cases hs : propertyOf doc "services" with
  | arr xs =>
    cases xs with
    | nil => exact ⟨_, rfl⟩
    | cons y ys => exact extractEndpointsLoop_returns _ _ (h _ hs)
  | _ => exact ⟨_, rfl⟩

theorem extractServices_returns (doc : JsVal)
    (hn : (doc.isNull || doc.isUndefined) = false)
    (h : ∀ xs, propertyOf doc "services" = .arr xs → ∀ s ∈ xs, wellFormedService s = true) :
    ∃ l, extractServices doc = .ok l := by
  unfold extractServices
  simp only [bind, Except.bind, pure, Except.pure, get_of_not_nullish doc _ hn]
  cases hs : propertyOf doc "services" with
  | arr xs =>
    cases xs with
    | nil => exact ⟨_, rfl⟩
    | cons y ys => exact extractServicesMap_returns _ (h _ hs)
  | _ => exact ⟨_, rfl⟩

/-- The extractor returns on a document that is not `null` exactly when every
entry of a `services` array is well formed. -/
theorem extract_returns_iff (rt : Host) (doc : JsVal) (tag : String) (a o : Option String)
    (hn : (doc.isNull || doc.isUndefined) = false) :
    (∃ c e, extract rt doc tag a o = .ok (c, e)) ↔
      ∀ xs, propertyOf doc "services" = .arr xs → ∀ s ∈ xs, wellFormedService s = true := by
  constructor
  · rintro ⟨c, e, h⟩
    exact (detectProtocols_returns_iff doc hn).mp
      ⟨_, (buildCategories_parts _ _ _ (extract_parts rt doc tag a o c e h hn).1).1⟩
  · intro h
    obtain ⟨x4, h1⟩ := detectX402_returns doc hn
    obtain ⟨pr, h2⟩ := (detectProtocols_returns_iff doc hn).mpr h
    obtain ⟨sc, h3⟩ := checkSpecCompliance_returns doc hn h
    obtain ⟨ep, h4⟩ := extractEndpoints_returns doc hn h
    obtain ⟨sv, h5⟩ := extractServices_returns doc hn h
    unfold extract buildCategories buildEntries
    rw [hn]
    simp only [bind, Except.bind, pure, Except.pure, h1, h2, h3, h4, h5,
      get_of_not_nullish doc _ hn, Bool.false_eq_true, if_false]
    exact ⟨_, _, rfl⟩

end MetadataExtractor

/-! ## The event decoder, gate by gate -/

theorem get_of_truthy (v : JsVal) (key : String) (h : v.truthy = true) :
    v.get key = .ok (propertyOf v key) := by
  cases v <;> first | rfl | cases h

theorem propertyOf_of_falsy (v : JsVal) (key : String) (h : v.truthy = false) :
    propertyOf v key = .undefined := by
  cases v <;> first | rfl | cases h

namespace EventDecoder

theorem validateTopics_eq (log : JsVal) (ms : List String) :
    validateTopics log ms = .ok
      (match propertyOf log "topics" with
        | .arr (topic0 :: _) =>
          if isKnownTopic0 topic0 then (true, ms)
          else (false, ms ++
            ["log.topics[0]: Unknown event signature, not a recognized ERC-8004 event"])
        | _ => (false, ms ++ ["log: Missing or empty topics array"])) := by
  unfold validateTopics
  cases ht : log.truthy
  · rw [propertyOf_of_falsy log _ ht]
    rfl
  · simp only [Bool.not_true, Bool.false_eq_true, if_false, bind, Except.bind, pure,
      Except.pure, get_of_truthy log _ ht]
    cases propertyOf log "topics" with
    | arr xs =>
      cases xs with
      | nil => rfl
      | cons t0 rest =>
        simp only
        cases isKnownTopic0 t0 <;> rfl
    | _ => rfl

theorem truthy_of_topics (log : JsVal) (xs : List JsVal)
    (h : propertyOf log "topics" = .arr xs) : log.truthy = true := by
  cases ht : log.truthy
  · rw [propertyOf_of_falsy log _ ht] at h
    cases h
  · rfl

theorem validateData_eq (log : JsVal) (ms : List String) (ht : log.truthy = true) :
    validateData log ms = .ok
      (if (propertyOf log "data").isUndefined || (propertyOf log "data").isNull then
        (false, ms ++ ["log: Missing data field"])
      else if lengthBelow (propertyOf log "data") MIN_DATA_HEX_LENGTH then
        (false, ms ++ ["log.data: Too short for ABI-encoded string (minimum 66 bytes)"])
      else (true, ms)) := by
  unfold validateData
  simp only [bind, Except.bind, pure, Except.pure, get_of_truthy log _ ht]
  split_ifs <;> rfl

/-- The decoder on a log that passes the topics gate and the data gate. -/
theorem decode_after_gates (rt : Host) (log : JsVal) (topic0 : JsVal) (rest : List JsVal)
    (hx : propertyOf log "topics" = .arr (topic0 :: rest)) (hk : isKnownTopic0 topic0 = true)
    (hd : ((propertyOf log "data").isUndefined || (propertyOf log "data").isNull) = false)
    (hl : lengthBelow (propertyOf log "data") MIN_DATA_HEX_LENGTH = false) :
    decode rt log = .ok
      (if extractionMessages (rt.bigIntToString (JsVal.index (topic0 :: rest) 1))
          ((addressHex (JsVal.index (topic0 :: rest) 2)).bind rt.getAddress) ≠ [] then
        ⟨false, extractionMessages (rt.bigIntToString (JsVal.index (topic0 :: rest) 1))
            ((addressHex (JsVal.index (topic0 :: rest) 2)).bind rt.getAddress),
          rt.bigIntToString (JsVal.index (topic0 :: rest) 1),
          (addressHex (JsVal.index (topic0 :: rest) 2)).bind rt.getAddress, none⟩
      else
        match rt.abiDecodeString (propertyOf log "data") with
        | some uri =>
          ⟨true, [], rt.bigIntToString (JsVal.index (topic0 :: rest) 1),
            (addressHex (JsVal.index (topic0 :: rest) 2)).bind rt.getAddress, some uri⟩
        | none =>
          ⟨false, ["log.data: ABI string decoding failed"],
            rt.bigIntToString (JsVal.index (topic0 :: rest) 1),
            (addressHex (JsVal.index (topic0 :: rest) 2)).bind rt.getAddress, none⟩) := by
  have ht := truthy_of_topics log _ hx
  unfold decode
  simp only [bind, Except.bind, pure, Except.pure, validateTopics_eq, validateData_eq log _ ht,
    hx, hk, hd, hl, if_true, Bool.not_true, Bool.false_eq_true, if_false, List.nil_append,
    topicAt, get_of_truthy log _ ht, extractAgentId, extractOwnerAddress, decodeAbiString,
    extractionMessages]
  cases rt.bigIntToString (JsVal.index (topic0 :: rest) 1) with
  | none => cases (addressHex (JsVal.index (topic0 :: rest) 2)).bind rt.getAddress <;> simp
  | some a =>
    cases (addressHex (JsVal.index (topic0 :: rest) 2)).bind rt.getAddress with
    | none => simp
    | some o => cases rt.abiDecodeString (propertyOf log "data") <;> simp

end EventDecoder

/-- C21. Event gates of `EventDecoder.decode`, for every host and every value
given as event log: when `topics` is missing, not an array or empty the result
is status false, the single message about the topics and no agent identifier,
owner address or URI; when `topics[0]` is none of the two known signatures it
is the same with the single message about the signature; when the topics pass
and `data` is `undefined` or `null` it is the same with the single message
about the data. -/
theorem event_gates (rt : Host) (log : JsVal) :
    ((∀ topic0 rest, propertyOf log "topics" ≠ .arr (topic0 :: rest)) →
      EventDecoder.decode rt log
        = .ok ⟨false, ["log: Missing or empty topics array"], none, none, none⟩) ∧
    (∀ topic0 rest, propertyOf log "topics" = .arr (topic0 :: rest) →
      topic0 ≠ .str EventDecoder.REGISTERED_TOPIC0 →
      topic0 ≠ .str EventDecoder.URI_UPDATED_TOPIC0 →
      EventDecoder.decode rt log
        = .ok ⟨false,
            ["log.topics[0]: Unknown event signature, not a recognized ERC-8004 event"],
            none, none, none⟩) ∧
    (∀ topic0 rest, propertyOf log "topics" = .arr (topic0 :: rest) →
      (topic0 = .str EventDecoder.REGISTERED_TOPIC0 ∨
        topic0 = .str EventDecoder.URI_UPDATED_TOPIC0) →
      (propertyOf log "data" = .undefined ∨ propertyOf log "data" = .null) →
      EventDecoder.decode rt log
        = .ok ⟨false, ["log: Missing data field"], none, none, none⟩) := by
  refine ⟨?_, ?_, ?_⟩
  · intro h
    have hv : EventDecoder.validateTopics log []
        = .ok (false, ["log: Missing or empty topics array"]) := by
      rw [EventDecoder.validateTopics_eq]
      split
      · rename_i t0 rest heq
        exact absurd heq (h t0 rest)
      · rfl
    unfold EventDecoder.decode
    simp only [bind, Except.bind, pure, Except.pure, hv]
    rfl
  · intro t0 rest hx h1 h2
    have hk : EventDecoder.isKnownTopic0 t0 = false := by
      cases t0 <;> try rfl
      rename_i s
      simp only [EventDecoder.isKnownTopic0, EventDecoder.KNOWN_TOPIC0S, List.contains_cons,
        List.contains_nil, Bool.or_false, Bool.or_eq_false_iff, beq_eq_false_iff_ne, ne_eq]
      exact ⟨fun hs => h1 (by rw [hs]), fun hs => h2 (by rw [hs])⟩
    unfold EventDecoder.decode
    simp only [bind, Except.bind, pure, Except.pure, EventDecoder.validateTopics_eq, hx, hk]
    rfl
  · intro t0 rest hx hk hd
    have hk2 : EventDecoder.isKnownTopic0 t0 = true := by
      rcases hk with rfl | rfl <;> decide
    have ht := EventDecoder.truthy_of_topics log _ hx
    have hd2 : ((propertyOf log "data").isUndefined || (propertyOf log "data").isNull)
        = true := by
      rcases hd with hd | hd <;> rw [hd] <;> rfl
    unfold EventDecoder.decode
    simp only [bind, Except.bind, pure, Except.pure, EventDecoder.validateTopics_eq, hx, hk2,
      EventDecoder.validateData_eq log _ ht, hd2]
    rfl

/-- Witness for C21: the three rejected logs of the test suite. -/
theorem event_gates_witness :
    EventDecoder.decode refHost Samples.logMissingTopics
      = .ok ⟨false, ["log: Missing or empty topics array"], none, none, none⟩ ∧
    EventDecoder.decode refHost Samples.unknownEventLog
      = .ok ⟨false,
          ["log.topics[0]: Unknown event signature, not a recognized ERC-8004 event"],
          none, none, none⟩ ∧
    EventDecoder.decode refHost Samples.logMissingData
      = .ok ⟨false, ["log: Missing data field"], none, none, none⟩ :=
  ⟨(event_gates refHost Samples.logMissingTopics).1 (fun _ _ h => by cases h),
    (event_gates refHost Samples.unknownEventLog).2.1 _ _ rfl
      (by simp [EventDecoder.REGISTERED_TOPIC0]) (by simp [EventDecoder.URI_UPDATED_TOPIC0]),
    (event_gates refHost Samples.logMissingData).2.2 _ _ rfl (Or.inl rfl) (Or.inl rfl)⟩

/-- A string has at least as many UTF-16 code units as code points. -/
theorem length_le_utf16Length (s : String) : s.length ≤ utf16Length s := by
  have h : ∀ cs : List Char,
      cs.length ≤ (cs.map (fun c => if c.toNat < 0x10000 then 1 else 2)).sum := by
    intro cs
    induction cs with
    | nil => exact Nat.le_refl _
    | cons c cs ih =>
      simp only [List.length_cons, List.map_cons, List.sum_cons]
      split <;> omega
  exact h s.data

/-- A string of the basic plane, such as a text of hexadecimal digits, has as
many UTF-16 code units as code points. -/
theorem utf16Length_basic (s : String) (h : ∀ c ∈ s.data, c.toNat < 0x10000) :
    utf16Length s = s.length := by
  have hh : ∀ cs : List Char, (∀ c ∈ cs, c.toNat < 0x10000) →
      (cs.map (fun c => if c.toNat < 0x10000 then 1 else 2)).sum = cs.length := by
    intro cs
    induction cs with
    | nil => intro _; rfl
    | cons c cs ih =>
      intro hc
      simp only [List.length_cons, List.map_cons, List.sum_cons,
        if_pos (hc c (List.mem_cons_self _ _)),
        ih (fun d hd => hc d (List.mem_cons_of_mem _ hd))]
      omega
  exact hh s.data h

/-- The length comparison on a string counts UTF-16 code units. -/
theorem EventDecoder.lengthBelow_str (s : String) (n : Nat) :
    EventDecoder.lengthBelow (.str s) n = decide (utf16Length s < n) := by
  simp only [EventDecoder.lengthBelow, EventDecoder.lengthOf, JsVal.lessThan, Nat.cast_lt]

/-- The length comparison on an object reads its own property `length` and
converts it to a number: the object passes the gate of 66 with the length 66
and is stopped with the length `'0x41'`, the number 65. -/
theorem EventDecoder.lengthBelow_object :
    EventDecoder.lengthBelow (.obj [("length", .num 66)]) 66 = false ∧
    EventDecoder.lengthBelow (.obj [("length", .str "0x41")]) 66 = true ∧
    EventDecoder.lengthBelow (.obj [("length", .str " 65.5 ")]) 66 = true ∧
    EventDecoder.lengthBelow (.obj [("length", .str "sixty")]) 66 = false ∧
    EventDecoder.lengthBelow (.obj []) 66 = false :=
  ⟨by decide, by decide, by decide, by decide, by decide⟩

/-- C22, amended. For every event log with a recognized `topics[0]` whose
`data` is a string of fewer than 66 UTF-16 code units, the value of
`data.length` with the prefix `0x` counted, so in particular `0x` followed by
fewer than 64 hexadecimal digits, `EventDecoder.decode` returns status false,
the single too-short message and no agent identifier, owner address or URI. -/
theorem data_length_gate (rt : Host) (log : JsVal) (topic0 : JsVal) (rest : List JsVal)
    (data : String)
    (hx : propertyOf log "topics" = .arr (topic0 :: rest))
    (hk : topic0 = .str EventDecoder.REGISTERED_TOPIC0 ∨
      topic0 = .str EventDecoder.URI_UPDATED_TOPIC0)
    (hd : propertyOf log "data" = .str data) (hl : utf16Length data < 66) :
    EventDecoder.decode rt log
      = .ok ⟨false, ["log.data: Too short for ABI-encoded string (minimum 66 bytes)"],
          none, none, none⟩ := by
  have hk2 : EventDecoder.isKnownTopic0 topic0 = true := by
    rcases hk with rfl | rfl <;> decide
  have ht := EventDecoder.truthy_of_topics log _ hx
  unfold EventDecoder.decode
  simp only [bind, Except.bind, pure, Except.pure, EventDecoder.validateTopics_eq, hx, hk2,
    EventDecoder.validateData_eq log _ ht, hd, EventDecoder.lengthBelow_str,
    EventDecoder.MIN_DATA_HEX_LENGTH, JsVal.isUndefined, JsVal.isNull, Bool.or_self,
    Bool.false_eq_true, if_false, decide_eq_true hl, if_true]
  rfl

/-- Witness for C22: the log with short data of the test suite. -/
theorem data_length_gate_witness :
    EventDecoder.decode refHost Samples.logShortData
      = .ok ⟨false, ["log.data: Too short for ABI-encoded string (minimum 66 bytes)"],
          none, none, none⟩ :=
  data_length_gate refHost Samples.logShortData _ _ "0x0000000000000000" rfl (Or.inl rfl) rfl
    (by decide)

set_option maxRecDepth 100000 in
/-- Counterexample to C22 as stated: the data of `Samples.logOneWordData` is
`0x` followed by 64 hexadecimal digits, fewer than 66, and the decoder passes
the length gate: it extracts the agent identifier and the owner address and
reports the failed ABI decoding, not the too-short message. -/
theorem data_length_gate_counterexample :
    propertyOf Samples.logOneWordData "data"
      = .str ("0x" ++ "0000000000000000000000000000000000000000000000000000000000000020") ∧
    "0000000000000000000000000000000000000000000000000000000000000020".length = 64 ∧
    EventDecoder.decode refHost Samples.logOneWordData
      = .ok ⟨false, ["log.data: ABI string decoding failed"], some "42",
          some Samples.ownerAddress, none⟩ :=
  ⟨rfl, rfl, rfl⟩

set_option maxRecDepth 100000 in
/-- The length gate counts UTF-16 code units: the data of
`Samples.logAstralData` has 65 code points and the length 66, it passes the
gate, and the decoder reports the failed ABI decoding. -/
theorem EventDecoder.decode_astral_data :
    (∃ d : String, propertyOf Samples.logAstralData "data" = .str d ∧
      d.length = 65 ∧ utf16Length d = 66) ∧
    EventDecoder.lengthBelow (propertyOf Samples.logAstralData "data") 66 = false ∧
    EventDecoder.decode refHost Samples.logAstralData
      = .ok ⟨false, ["log.data: ABI string decoding failed"], some "42",
          some Samples.ownerAddress, none⟩ :=
  ⟨⟨_, rfl, by decide, by decide⟩, by decide, rfl⟩

/-! ## Extraction from the topics -/

/-- C23. For every host and every event log that passes the topics gate and
the data gate: when `topics[1]` cannot be decoded as an agent identifier or
`topics[2]` cannot be decoded as an address, `EventDecoder.decode` returns
status false and no URI, with the two results of the extractions (so a value
that was decoded is returned) and with exactly the messages of the failed
extractions, both when both fail; none of the messages starts with `log.data`,
and the result is the same whatever the ABI decoder of the host does, so the
data is not decoded. -/
theorem extraction_failures (rt : Host) (log : JsVal) (topic0 : JsVal) (rest : List JsVal)
    (hx : propertyOf log "topics" = .arr (topic0 :: rest))
    (hk : EventDecoder.isKnownTopic0 topic0 = true)
    (hd : ((propertyOf log "data").isUndefined || (propertyOf log "data").isNull) = false)
    (hl : EventDecoder.lengthBelow (propertyOf log "data") EventDecoder.MIN_DATA_HEX_LENGTH
      = false)
    (hfail : rt.bigIntToString (JsVal.index (topic0 :: rest) 1) = none ∨
      (EventDecoder.addressHex (JsVal.index (topic0 :: rest) 2)).bind rt.getAddress = none) :
    ∃ d, EventDecoder.decode rt log = .ok d ∧
      d.status = false ∧ d.decodedAgentUri = none ∧
      d.agentId = rt.bigIntToString (JsVal.index (topic0 :: rest) 1) ∧
      d.ownerAddress
        = (EventDecoder.addressHex (JsVal.index (topic0 :: rest) 2)).bind rt.getAddress ∧
      d.messages = extractionMessages d.agentId d.ownerAddress ∧
      (d.agentId = none → d.ownerAddress = none →
        d.messages = ["log.topics[1]: Cannot decode as uint256 agentId",
          "log.topics[2]: Cannot decode as address"]) ∧
      (∀ m ∈ d.messages, startsWith m "log.data" = false) ∧
      ∀ abi, EventDecoder.decode { rt with abiDecodeString := abi } log = .ok d := by
  have hne : extractionMessages (rt.bigIntToString (JsVal.index (topic0 :: rest) 1))
      ((EventDecoder.addressHex (JsVal.index (topic0 :: rest) 2)).bind rt.getAddress) ≠ [] := by
    unfold extractionMessages
    rcases hfail with h | h <;> rw [h] <;> simp
  refine ⟨_, by rw [EventDecoder.decode_after_gates rt log topic0 rest hx hk hd hl, if_pos hne],
    rfl, rfl, rfl, rfl, rfl, ?_, ?_, ?_⟩
  · intro ha ho
    simp only at ha ho
    simp only [ha, ho]
    rfl
  · intro m hm
    simp only [extractionMessages] at hm
    have hm2 : m = "log.topics[1]: Cannot decode as uint256 agentId" ∨
        m = "log.topics[2]: Cannot decode as address" := by
      rcases List.mem_append.mp hm with h | h
      · split_ifs at h
        · exact Or.inl (List.mem_singleton.mp h)
        · cases h
      · split_ifs at h
        · exact Or.inr (List.mem_singleton.mp h)
        · cases h
    rcases hm2 with rfl | rfl <;> decide
  · intro abi
    rw [EventDecoder.decode_after_gates { rt with abiDecodeString := abi } log topic0 rest hx hk
      hd hl, if_pos hne]

set_option maxRecDepth 100000 in
/-- Witness for C23: a log whose `topics[1]` and `topics[2]` both fail, and a
log whose `topics[2]` alone fails and whose agent identifier is returned. -/
theorem extraction_failures_witness :
    (∃ d, EventDecoder.decode refHost Samples.logBadTopics = .ok d ∧
      d.status = false ∧ d.decodedAgentUri = none ∧
      d.agentId = refHost.bigIntToString (.str "0xzz") ∧
      d.ownerAddress = (EventDecoder.addressHex (.str "0x1234")).bind refHost.getAddress ∧
      d.messages = extractionMessages d.agentId d.ownerAddress ∧
      (d.agentId = none → d.ownerAddress = none →
        d.messages = ["log.topics[1]: Cannot decode as uint256 agentId",
          "log.topics[2]: Cannot decode as address"]) ∧
      (∀ m ∈ d.messages, startsWith m "log.data" = false) ∧
      ∀ abi, EventDecoder.decode { refHost with abiDecodeString := abi } Samples.logBadTopics
        = .ok d) ∧
    EventDecoder.decode refHost Samples.logBadTopics
      = .ok ⟨false, ["log.topics[1]: Cannot decode as uint256 agentId",
          "log.topics[2]: Cannot decode as address"], none, none, none⟩ ∧
    EventDecoder.decode refHost Samples.logBadOwner
      = .ok ⟨false, ["log.topics[2]: Cannot decode as address"], some "42", none, none⟩ :=
  ⟨extraction_failures refHost Samples.logBadTopics _ _ rfl rfl rfl rfl (Or.inl rfl), rfl, rfl⟩

namespace EventDecoder

/-- The decoder on a log that fails the topics gate. -/
theorem decode_gate_topics (rt : Host) (log : JsVal)
    (h : ∀ t0 rest, propertyOf log "topics" = .arr (t0 :: rest) → isKnownTopic0 t0 = false) :
    ∃ m, decode rt log = .ok ⟨false, [m], none, none, none⟩ := by
  have hv : ∃ m, validateTopics log [] = .ok (false, [m]) := by
    rw [validateTopics_eq]
    split
    · rename_i t0 rest heq
      rw [h t0 rest heq]
      exact ⟨_, rfl⟩
    · exact ⟨_, rfl⟩
  obtain ⟨m, hm⟩ := hv
  refine ⟨m, ?_⟩
  unfold decode
  simp only [bind, Except.bind, pure, Except.pure, hm]
  rfl

/-- The decoder on a log that passes the topics gate and fails the data gate. -/
theorem decode_gate_data (rt : Host) (log : JsVal) (topic0 : JsVal) (rest : List JsVal)
    (hx : propertyOf log "topics" = .arr (topic0 :: rest)) (hk : isKnownTopic0 topic0 = true)
    (h : ((propertyOf log "data").isUndefined || (propertyOf log "data").isNull) = true ∨
      lengthBelow (propertyOf log "data") MIN_DATA_HEX_LENGTH = true) :
    ∃ m, decode rt log = .ok ⟨false, [m], none, none, none⟩ := by
  have ht := truthy_of_topics log _ hx
  have hv : ∃ m, validateData log [] = .ok (false, [m]) := by
    rw [validateData_eq log _ ht]
    by_cases h0 : ((propertyOf log "data").isUndefined || (propertyOf log "data").isNull) = true
    · rw [if_pos h0]
      exact ⟨_, rfl⟩
    · rw [if_neg h0, if_pos (h.resolve_left h0)]
      exact ⟨_, rfl⟩
  have hvt : validateTopics log [] = .ok (true, []) := by
    rw [validateTopics_eq, hx]
    simp only [hk, if_true]
  obtain ⟨m, hm⟩ := hv
  refine ⟨m, ?_⟩
  unfold decode
  simp only [bind, Except.bind, pure, Except.pure, hvt, hm]
  rfl

/-- The decoder never raises, and what it returns without a message of a gate
holds the results of the two extractions. -/
theorem decode_shape (rt : Host) (log : JsVal) :
    (∃ m, decode rt log = .ok ⟨false, [m], none, none, none⟩) ∨
    ∃ (d : Decoded) (topic1 : JsVal) (address : Option String),
      decode rt log = .ok d ∧ d.agentId = rt.bigIntToString topic1 ∧
      d.ownerAddress = address.bind rt.getAddress := by
  by_cases h : ∀ t0 rest, propertyOf log "topics" = .arr (t0 :: rest) → isKnownTopic0 t0 = false
  · exact Or.inl (decode_gate_topics rt log h)
  · push_neg at h
    obtain ⟨t0, rest, hx, hk⟩ := h
    have hk2 : isKnownTopic0 t0 = true := by simpa using hk
    cases hd : ((propertyOf log "data").isUndefined || (propertyOf log "data").isNull)
    · cases hl : lengthBelow (propertyOf log "data") MIN_DATA_HEX_LENGTH
      · right
        refine ⟨_, JsVal.index (t0 :: rest) 1, addressHex (JsVal.index (t0 :: rest) 2),
          decode_after_gates rt log t0 rest hx hk2 hd hl, ?_, ?_⟩
        · split_ifs
          · rfl
          · split <;> rfl
        · split_ifs
          · rfl
          · split <;> rfl
      · exact Or.inl (decode_gate_data rt log t0 rest hx hk2 (Or.inr hl))
    · exact Or.inl (decode_gate_data rt log t0 rest hx hk2 (Or.inl hd))

theorem decode_returns (rt : Host) (log : JsVal) : ∃ d, decode rt log = .ok d := by
  rcases decode_shape rt log with ⟨m, h⟩ | ⟨d, _, _, h, _⟩
  · exact ⟨_, h⟩
  · exact ⟨d, h⟩

/-- What the decoder returns as agent identifier and owner address comes from
the host, or is `null`. -/
theorem decode_values (rt : Host) (log : JsVal) (d : Decoded) (h : decode rt log = .ok d) :
    (d.agentId = none ∨ ∃ v, d.agentId = rt.bigIntToString v) ∧
    (d.ownerAddress = none ∨ ∃ s, d.ownerAddress = rt.getAddress s) := by
  rcases decode_shape rt log with ⟨m, hm⟩ | ⟨d2, t, a, hd, h1, h2⟩
  · rw [hm] at h
    cases h
    exact ⟨Or.inl rfl, Or.inl rfl⟩
  · rw [hd] at h
    cases h
    refine ⟨Or.inr ⟨t, h1⟩, ?_⟩
    cases a with
    | none => exact Or.inl h2
    | some s => exact Or.inr ⟨s, h2⟩

end EventDecoder

namespace MetadataExtractor

theorem orNull_eq (id : Option String) : orNull id = if id = some "" then none else id := by
  cases id with
  | none => rfl
  | some s =>
    unfold orNull
    by_cases h : s = ""
    · subst h
      rfl
    · simp [h]

theorem orNull_of_ne (id : Option String) (h : id ≠ some "") : orNull id = id := by
  rw [orNull_eq, if_neg h]

end MetadataExtractor

/-! ## Results without a document -/

/-- C26. For every host whose decimal rendering of an integer and whose
spelling of an address are never the empty string, every event log object and
every validators argument that is absent, `null` or a mapping: when
`EventDecoder.decode` returns status false, `start` returns a result whose
status is false, whose messages are those of the event decoder, whose
categories have `isEmpty` true, `isActive` null and every other flag false, and
whose entries carry the agent identifier and the owner address of the event
decoder, the tag `empty`, no services, `x402Support` false and `null` in every
other field. -/
theorem start_after_failed_decode (rt : Host) (fields : List (String × JsVal))
    (additionalValidators : ValidatorsArg) (d : EventDecoder.Decoded)
    (hv : additionalValidators ≠ .notObject)
    (hb : ∀ v, rt.bigIntToString v ≠ some "") (ha : ∀ s, rt.getAddress s ≠ some "")
    (hd : EventDecoder.decode rt (.obj fields) = .ok d) (hs : d.status = false) :
    Erc8004RegistryParser.start rt (.obj fields) additionalValidators
      = .ok {
          status := false
          messages := d.messages
          categories := {
            isEmpty := true, isBase64 := false, isHttp := false, isIpfs := false,
            isJson := false, isGzip := false, isUnknown := false, isParseable := false,
            isSpecCompliant := false, isX402 := false, isMcp := false, isA2A := false,
            isActive := none }
          entries := {
            agentId := d.agentId, ownerAddress := d.ownerAddress, uriAgentType := "empty",
            name := .null, description := .null, x402Support := .bool false, services := [],
            mcpEndpoint := .null, a2aEndpoint := .null, image := .null, active := .null,
            supportedTrust := .null, raw := .null } } := by
  have hm : d.messages ≠ [] := by
    intro h
    have := (EventDecoder.eventDecode_status rt _ d hd).mpr h
    rw [hs] at this
    cases this
  have hlen : (d.messages.length == 0) = false := by
    cases hml : d.messages with
    | nil => exact absurd hml hm
    | cons m ms => rfl
  obtain ⟨h1, h2⟩ := EventDecoder.decode_values rt _ d hd
  have e1 : MetadataExtractor.orNull d.agentId = d.agentId := by
    apply MetadataExtractor.orNull_of_ne
    rcases h1 with h | ⟨v, h⟩
    · rw [h]; simp
    · rw [h]; exact hb v
  have e2 : MetadataExtractor.orNull d.ownerAddress = d.ownerAddress := by
    apply MetadataExtractor.orNull_of_ne
    rcases h2 with h | ⟨v, h⟩
    · rw [h]; simp
    · rw [h]; exact ha v
  have hc : (Validation.validationStart (.obj fields)
      (Erc8004RegistryParser.withDefault additionalValidators)).status = true := by
    cases additionalValidators with
    | notObject => exact absurd rfl hv
    | _ => rfl
  unfold Erc8004RegistryParser.start
  simp only [bind, Except.bind, pure, Except.pure, hc, hd, hs, Bool.not_true, Bool.not_false,
    Bool.false_eq_true, if_false, Bool.true_or, if_true, MetadataExtractor.extract_null,
    Erc8004RegistryParser.buildResult, List.nil_append, hlen,
    MetadataExtractor.buildEmptyEntries, e1, e2]
  rfl

theorem toString_nat_ne_empty (n : Nat) : toString n ≠ "" := by
  intro h
  have hv := (toString_digits n).2
  rw [h] at hv
  have h0 : n = 0 := hv.symm
  subst h0
  exact absurd h (by decide)

theorem toString_int_ne_empty (n : Int) : toString n ≠ "" := by
  cases n with
  | ofNat m => exact toString_nat_ne_empty m
  | negSucc m =>
    show "-" ++ toString (m + 1) ≠ ""
    intro h
    have := congrArg String.length h
    simp only [String.length_append] at this
    have h1 : "-".length = 1 := rfl
    have h0 : "".length = 0 := rfl
    omega

namespace RefHost

theorem bigIntToString_ne_empty (v : JsVal) : bigIntToString v ≠ some "" := by
  have hmap : ∀ x : Option Int, x.map (fun n => toString n) ≠ some "" := by
    intro x
    cases x with
    | none => simp
    | some n =>
      simp only [Option.map_some', ne_eq, Option.some.injEq]
      exact toString_int_ne_empty n
  cases v with
  | undefined => simp [bigIntToString]
  | null => simp [bigIntToString]
  | bool b => cases b <;> simp [bigIntToString]
  | num n =>
    simp only [bigIntToString, ne_eq, Option.some.injEq]
    exact toString_int_ne_empty n
  | str s => exact hmap _
  | arr xs => exact hmap _
  | obj kvs => exact hmap (parseBigInt (JsVal.obj kvs).toStr)

theorem getAddress_ne_empty (s : String) : getAddress s ≠ some "" := by
  unfold getAddress
  split
  · split_ifs <;> simp [String.ext_iff]
  · simp

end RefHost

set_option maxRecDepth 100000 in
/-- Witness for C26: the log whose owner topic is not decodable; the entries
carry the agent identifier 42 and no owner address. -/
theorem start_after_failed_decode_witness :
    Erc8004RegistryParser.start refHost Samples.logBadOwner .undefined
      = .ok {
          status := false
          messages := ["log.topics[2]: Cannot decode as address"]
          categories := {
            isEmpty := true, isBase64 := false, isHttp := false, isIpfs := false,
            isJson := false, isGzip := false, isUnknown := false, isParseable := false,
            isSpecCompliant := false, isX402 := false, isMcp := false, isA2A := false,
            isActive := none }
          entries := {
            agentId := some "42", ownerAddress := none, uriAgentType := "empty",
            name := .null, description := .null, x402Support := .bool false, services := [],
            mcpEndpoint := .null, a2aEndpoint := .null, image := .null, active := .null,
            supportedTrust := .null, raw := .null } } :=
  start_after_failed_decode refHost _ .undefined
    ⟨false, ["log.topics[2]: Cannot decode as address"], some "42", none, none⟩
    (by simp) RefHost.bigIntToString_ne_empty RefHost.getAddress_ne_empty rfl rfl

/-- C27, amended. When the document is `null` or `undefined`, for every tag
of the closed set and every agent identifier and owner address,
`MetadataExtractor.extract` returns categories in which exactly the flag of
the tag is true among the seven type flags, `isParseable`, `isSpecCompliant`,
`isX402`, `isMcp` and `isA2A` are false and `isActive` is null, and entries in
which the agent identifier and the owner address are the given values, with
`null` for a given empty string, the tag is the given tag, there are no
services, `x402Support` is false and every other field is `null`. -/
theorem extract_without_document (rt : Host) (document : JsVal) (tag : String)
    (agentId ownerAddress : Option String)
    (hd : document = .null ∨ document = .undefined) (ht : tag ∈ UriClassifier.tags) :
    ∃ c e, MetadataExtractor.extract rt document tag agentId ownerAddress = .ok (c, e) ∧
      flagOf c tag = true ∧ (typeFlags c).count true = 1 ∧
      c.isParseable = false ∧ c.isSpecCompliant = false ∧ c.isX402 = false ∧
      c.isMcp = false ∧ c.isA2A = false ∧ c.isActive = none ∧
      e = {
        agentId := if agentId = some "" then none else agentId
        ownerAddress := if ownerAddress = some "" then none else ownerAddress
        uriAgentType := tag
        name := .null, description := .null, x402Support := .bool false, services := [],
        mcpEndpoint := .null, a2aEndpoint := .null, image := .null, active := .null,
        supportedTrust := .null, raw := .null } := by
  have hx : MetadataExtractor.extract rt document tag agentId ownerAddress
      = .ok (MetadataExtractor.buildEmptyCategories tag,
          MetadataExtractor.buildEmptyEntries tag agentId ownerAddress) := by
    rcases hd with rfl | rfl <;> rfl
  obtain ⟨h1, h2⟩ := MetadataExtractor.buildEmptyCategories_flags tag ht
  refine ⟨_, _, hx, h2, h1, rfl, rfl, rfl, rfl, rfl, rfl, ?_⟩
  unfold MetadataExtractor.buildEmptyEntries
  rw [MetadataExtractor.orNull_eq, MetadataExtractor.orNull_eq]

/-- Witness for C27: no document, the tag `http` and both values given. -/
theorem extract_without_document_witness :
    ∃ c e, MetadataExtractor.extract refHost .undefined "http" (some "42")
        (some Samples.ownerAddress) = .ok (c, e) ∧
      flagOf c "http" = true ∧ (typeFlags c).count true = 1 ∧
      c.isParseable = false ∧ c.isSpecCompliant = false ∧ c.isX402 = false ∧
      c.isMcp = false ∧ c.isA2A = false ∧ c.isActive = none ∧
      e = {
        agentId := if some "42" = some "" then none else some "42"
        ownerAddress :=
          if some Samples.ownerAddress = some "" then none else some Samples.ownerAddress
        uriAgentType := "http"
        name := .null, description := .null, x402Support := .bool false, services := [],
        mcpEndpoint := .null, a2aEndpoint := .null, image := .null, active := .null,
        supportedTrust := .null, raw := .null } :=
  extract_without_document refHost .undefined "http" (some "42") (some Samples.ownerAddress)
    (Or.inr rfl) (by decide)

/-- Counterexample to C27 as stated: without a document and with the empty
string given as agent identifier and as owner address, the entries hold `null`
in both fields, not the given values. -/
theorem extract_without_document_counterexample :
    ∃ c e, MetadataExtractor.extract refHost .null "empty" (some "") (some "") = .ok (c, e) ∧
      e.agentId = none ∧ e.ownerAddress = none ∧
      e.agentId ≠ some "" ∧ e.ownerAddress ≠ some "" :=
  ⟨_, _, rfl, rfl, rfl, by simp [MetadataExtractor.buildEmptyEntries, MetadataExtractor.orNull],
    by simp [MetadataExtractor.buildEmptyEntries, MetadataExtractor.orNull]⟩

/-! ## The empty URI -/

theorem jsTrim_whitespace (s : String) (h : ∀ c ∈ s.data, isJsWhitespace c = true) :
    jsTrim s = "" := by
  unfold jsTrim
  have : s.data.dropWhile isJsWhitespace = [] := List.dropWhile_eq_nil_iff.mpr h
  rw [this]
  rfl

theorem classify_whitespace (s : String) (h : ∀ c ∈ s.data, isJsWhitespace c = true) :
    UriClassifier.classify (.str s) = "empty" := by
  rw [UriClassifier.classify_str, jsTrim_whitespace s h]
  rfl

/-- C28. For every host, every agent URI that is `null`, the empty string or a
string of whitespace only, every agent identifier and owner address that pass
the parameter check (absent, `null` or a string) and every validators argument
that is absent, `null` or a mapping, `validateFromUri` returns status false,
exactly the message of the empty URI, and categories with `isEmpty` true,
`isActive` null and every other flag false. -/
theorem validateFromUri_empty (rt : Host) (agentUri agentId ownerAddress : JsVal)
    (additionalValidators : ValidatorsArg)
    (hu : agentUri = .null ∨ ∃ s, agentUri = .str s ∧ ∀ c ∈ s.data, isJsWhitespace c = true)
    (ha : agentId = .undefined ∨ agentId = .null ∨ ∃ s, agentId = .str s)
    (ho : ownerAddress = .undefined ∨ ownerAddress = .null ∨ ∃ s, ownerAddress = .str s)
    (hv : additionalValidators ≠ .notObject) :
    ∃ r, Erc8004RegistryParser.validateFromUri rt agentUri agentId ownerAddress
        additionalValidators = .ok r ∧
      r.status = false ∧
      r.messages = ["uri: Is empty, agent has no Registration File"] ∧
      r.categories = {
        isEmpty := true, isBase64 := false, isHttp := false, isIpfs := false,
        isJson := false, isGzip := false, isUnknown := false, isParseable := false,
        isSpecCompliant := false, isX402 := false, isMcp := false, isA2A := false,
        isActive := none } := by
  have hcl : UriClassifier.classify
      (Erc8004RegistryParser.uriValue (Erc8004RegistryParser.stringOrNull agentUri))
        = "empty" := by
    rcases hu with rfl | ⟨s, rfl, hs⟩
    · rfl
    · exact classify_whitespace s hs
  have hc : (Validation.validationValidateFromUri agentUri agentId ownerAddress
      (Erc8004RegistryParser.withDefault additionalValidators)).status = true := by
    have h1 : Validation.checkRequiredString agentUri "agentUri" [] = [] := by
      rcases hu with rfl | ⟨s, rfl, _⟩ <;> rfl
    have h2 : Validation.checkStringOrNull agentId "agentId" [] = [] := by
      rcases ha with rfl | rfl | ⟨s, rfl⟩ <;> rfl
    have h3 : Validation.checkStringOrNull ownerAddress "ownerAddress" [] = [] := by
      rcases ho with rfl | rfl | ⟨s, rfl⟩ <;> rfl
    have h4 : Validation.checkValidators
        (Erc8004RegistryParser.withDefault additionalValidators) [] = [] := by
      cases additionalValidators with
      | notObject => exact absurd rfl hv
      | _ => rfl
    unfold Validation.validationValidateFromUri
    simp only [h1, h2, h3, h4]
    rfl
  have hp : Erc8004RegistryParser.runPipeline rt (Erc8004RegistryParser.stringOrNull agentUri)
      (Erc8004RegistryParser.stringOrNull agentId)
      (Erc8004RegistryParser.stringOrNull ownerAddress)
      (Erc8004RegistryParser.withDefault additionalValidators)
      = .ok ⟨["uri: Is empty, agent has no Registration File"],
          MetadataExtractor.buildEmptyCategories "empty",
          MetadataExtractor.buildEmptyEntries "empty"
            (Erc8004RegistryParser.stringOrNull agentId)
            (Erc8004RegistryParser.stringOrNull ownerAddress)⟩ := by
    unfold Erc8004RegistryParser.runPipeline
    simp only [hcl]
    rfl
  have hr : Erc8004RegistryParser.validateFromUri rt agentUri agentId ownerAddress
      additionalValidators
      = .ok ⟨false, ["uri: Is empty, agent has no Registration File"],
          MetadataExtractor.buildEmptyCategories "empty",
          MetadataExtractor.buildEmptyEntries "empty"
            (Erc8004RegistryParser.stringOrNull agentId)
            (Erc8004RegistryParser.stringOrNull ownerAddress)⟩ := by
    unfold Erc8004RegistryParser.validateFromUri
    simp only [bind, Except.bind, pure, Except.pure, hc, hp, Bool.not_true, Bool.false_eq_true,
      if_false]
    rfl
  exact ⟨_, hr, rfl, rfl, rfl⟩

/-- Witness for C28: a URI of whitespace only, with an agent identifier, no
owner address and a validator for MCP. -/
theorem validateFromUri_empty_witness :
    ∃ r, Erc8004RegistryParser.validateFromUri refHost (.str " \t\n") (.str "42") .undefined
        (.mapping (some Samples.rejecting) none) = .ok r ∧
      r.status = false ∧
      r.messages = ["uri: Is empty, agent has no Registration File"] ∧
      r.categories = {
        isEmpty := true, isBase64 := false, isHttp := false, isIpfs := false,
        isJson := false, isGzip := false, isUnknown := false, isParseable := false,
        isSpecCompliant := false, isX402 := false, isMcp := false, isA2A := false,
        isActive := none } :=
  validateFromUri_empty refHost (.str " \t\n") (.str "42") .undefined
    (.mapping (some Samples.rejecting) none)
    (Or.inr ⟨_, rfl, by decide⟩) (Or.inr (Or.inr ⟨_, rfl⟩)) (Or.inl rfl) (by simp)

/-! ## Unresolved formats -/

/-- C29. `UriDecoder.decode` with the tag `http` returns status false, the
single HTTP message and no document, and with the tag `unknown` or any tag
outside the six tags it handles it returns status false, the single
unknown-format message and no document; for every host and every URI, so
neither result depends on the URI. -/
theorem decode_unresolved_tags (rt : Host) (uri : Option String) :
    UriDecoder.decode rt uri "http"
      = .ok ⟨false, ["uri: HTTP URL detected, metadata not resolved (requires fetch)"], .null⟩ ∧
    UriDecoder.decode rt uri "unknown"
      = .ok ⟨false, ["uri: Unknown format, cannot classify"], .null⟩ ∧
    ∀ tag : String, tag ∉ ["empty", "http", "ipfs", "gzip", "base64", "json"] →
      UriDecoder.decode rt uri tag
        = .ok ⟨false, ["uri: Unknown format, cannot classify"], .null⟩ := by
  refine ⟨rfl, rfl, ?_⟩
  intro tag h
  simp only [List.mem_cons, List.mem_singleton, List.not_mem_nil, or_false, not_or] at h
  obtain ⟨h1, h2, h3, h4, h5, h6⟩ := h
  unfold UriDecoder.decode
  simp [h1, h2, h3, h4, h5, h6]

namespace UriDecoder

theorem removeFirst_append (pat rest : List Char) (h : pat ≠ []) :
    removeFirst pat (pat ++ rest) = rest := by
  cases hp : pat ++ rest with
  | nil =>
    have := List.append_eq_nil.mp hp
    exact absurd this.1 h
  | cons c cs =>
    unfold removeFirst
    rw [← hp, if_pos (List.isPrefixOf_iff_prefix.mpr (List.prefix_append pat rest)),
      List.drop_left]

theorem checkIpfsCid_prefixed (c : String) :
    checkIpfsCid (some ("ipfs://" ++ c)) = .ok (looksLikeAddress c.data) := by
  unfold checkIpfsCid
  simp only [String.data_append]
  rw [removeFirst_append _ _ (by decide)]

end UriDecoder

/-- C30. For every URI `ipfs://` followed by `c`, `UriDecoder.decode` with
the tag `ipfs` returns status false and no document; the messages are the
address warning followed by the gateway message when `c` is `0x` followed by
exactly forty hexadecimal digits, and the gateway message alone otherwise. -/
theorem decode_ipfs (rt : Host) (c : String) :
    ((∃ hex : List Char, c.data = '0' :: 'x' :: hex ∧ hex.length = 40 ∧
        ∀ d ∈ hex, UriDecoder.isHexDigit d = true) →
      UriDecoder.decode rt (some ("ipfs://" ++ c)) "ipfs"
        = .ok ⟨false,
            ["uri: IPFS CID looks like an Ethereum address, not a valid content hash",
              "uri: IPFS URI detected, metadata not resolved (requires gateway)"], .null⟩) ∧
    ((¬ ∃ hex : List Char, c.data = '0' :: 'x' :: hex ∧ hex.length = 40 ∧
        ∀ d ∈ hex, UriDecoder.isHexDigit d = true) →
      UriDecoder.decode rt (some ("ipfs://" ++ c)) "ipfs"
        = .ok ⟨false, ["uri: IPFS URI detected, metadata not resolved (requires gateway)"],
            .null⟩) := by
  have hd : UriDecoder.decode rt (some ("ipfs://" ++ c)) "ipfs"
      = .ok ⟨false, (if UriDecoder.looksLikeAddress c.data = true then
          ["uri: IPFS CID looks like an Ethereum address, not a valid content hash"] else [])
        ++ ["uri: IPFS URI detected, metadata not resolved (requires gateway)"], .null⟩ := by
    unfold UriDecoder.decode
    rw [if_neg (by decide), if_neg (by decide), if_pos (by decide)]
    simp only [bind, Except.bind, pure, Except.pure, UriDecoder.checkIpfsCid_prefixed,
      List.nil_append]
  have hl : UriDecoder.looksLikeAddress c.data = true ↔
      ∃ hex : List Char, c.data = '0' :: 'x' :: hex ∧ hex.length = 40 ∧
        ∀ d ∈ hex, UriDecoder.isHexDigit d = true := by
    unfold UriDecoder.looksLikeAddress
    constructor
    · intro h
      split at h
      · rename_i hex heq
        simp only [Bool.and_eq_true, beq_iff_eq, List.all_eq_true] at h
        exact ⟨hex, heq, h.1, h.2⟩
      · cases h
    · rintro ⟨hex, hc, hlen, hall⟩
      rw [hc]
      simp only [Bool.and_eq_true, beq_iff_eq, List.all_eq_true]
      exact ⟨hlen, hall⟩
  rw [hd]
  constructor
  · intro h
    rw [if_pos (hl.mpr h)]
    rfl
  · intro h
    rw [if_neg (fun hx => h (hl.mp hx))]
    rfl

namespace RefHost

theorem utf8DecodeChars_nil : utf8DecodeChars [] = [] := by
  unfold utf8DecodeChars
  rfl

theorem char_range (c : Char) :
    c.toNat < 0xD800 ∨ (0xDFFF < c.toNat ∧ c.toNat < 0x110000) := c.valid

theorem utf8Char_lt (c : Char) : ∀ b ∈ utf8Char c, b < 256 := by
  have hc := char_range c
  intro b hb
  unfold utf8Char at hb
  simp only at hb
  split_ifs at hb <;> simp only [List.mem_cons, List.mem_singleton, List.not_mem_nil,
    or_false] at hb <;> omega

/-- Decoding the octets of one character gives the character back. -/
theorem utf8DecodeChars_char (c : Char) (rest : Bytes) :
    utf8DecodeChars (utf8Char c ++ rest) = c :: utf8DecodeChars rest := by
  have hc := char_range c
  have hof : ∀ n, n = c.toNat → Char.ofNat n = c := by
    intro n hn
    rw [hn]
    exact Char.ofNat_toNat c
  unfold utf8Char
  simp only
  split_ifs with h1 h2 h3
  · rw [List.singleton_append, utf8DecodeChars.eq_def]
    simp only [if_pos h1, hof _ rfl]
  · rw [utf8DecodeChars.eq_def]
    simp only [List.cons_append, List.nil_append]
    have ha1 : ¬ (192 + c.toNat / 64 < 128) := by omega
    have ha2 : 194 ≤ 192 + c.toNat / 64 := by omega
    have ha3 : 192 + c.toNat / 64 < 224 := by omega
    have hb : isCont (128 + c.toNat % 64) = true := by
      simp only [isCont, Bool.and_eq_true, decide_eq_true_eq]
      omega
    have hv : (192 + c.toNat / 64 - 192) * 64 + (128 + c.toNat % 64 - 128) = c.toNat := by
      omega
    rcases rest with _ | ⟨x, _ | ⟨y, rest⟩⟩ <;>
      simp only [if_neg ha1, ha2, ha3, hb, decide_True, Bool.and_self, if_true, hv, hof _ rfl,
        utf8DecodeChars_nil]
  · rw [utf8DecodeChars.eq_def]
    simp only [List.cons_append, List.nil_append]
    have ha1 : ¬ (224 + c.toNat / 4096 < 128) := by omega
    have ha2 : ¬ (224 + c.toNat / 4096 < 224) := by omega
    have ha3 : 224 ≤ 224 + c.toNat / 4096 := by omega
    have ha4 : 224 + c.toNat / 4096 < 240 := by omega
    have hb : isCont (128 + c.toNat / 64 % 64) = true := by
      simp only [isCont, Bool.and_eq_true, decide_eq_true_eq]
      omega
    have hb2 : isCont (128 + c.toNat % 64) = true := by
      simp only [isCont, Bool.and_eq_true, decide_eq_true_eq]
      omega
    have hv : (224 + c.toNat / 4096 - 224) * 4096 + (128 + c.toNat / 64 % 64 - 128) * 64
        + (128 + c.toNat % 64 - 128) = c.toNat := by
      omega
    have hs : ¬ (55296 ≤ c.toNat ∧ c.toNat < 57344) := by omega
    have h8 : 2048 ≤ c.toNat := by omega
    rcases rest with _ | ⟨x, rest⟩ <;>
      simp only [if_neg ha1, ha2, ha3, ha4, hb, hb2, decide_True, decide_False, Bool.and_self,
        Bool.and_false, Bool.false_and, Bool.false_eq_true, if_false, if_true, hv, hof _ rfl,
        utf8DecodeChars_nil, h8, hs, Bool.not_false, Bool.and_true, ← Bool.decide_and]
  · rw [utf8DecodeChars.eq_def]
    simp only [List.cons_append, List.nil_append]
    have ha1 : ¬ (240 + c.toNat / 262144 < 128) := by omega
    have ha2 : ¬ (240 + c.toNat / 262144 < 224) := by omega
    have ha3 : ¬ (240 + c.toNat / 262144 < 240) := by omega
    have ha4 : 240 ≤ 240 + c.toNat / 262144 := by omega
    have ha5 : 240 + c.toNat / 262144 < 245 := by omega
    have hb : isCont (128 + c.toNat / 4096 % 64) = true := by
      simp only [isCont, Bool.and_eq_true, decide_eq_true_eq]
      omega
    have hb2 : isCont (128 + c.toNat / 64 % 64) = true := by
      simp only [isCont, Bool.and_eq_true, decide_eq_true_eq]
      omega
    have hb3 : isCont (128 + c.toNat % 64) = true := by
      simp only [isCont, Bool.and_eq_true, decide_eq_true_eq]
      omega
    have hv : (240 + c.toNat / 262144 - 240) * 262144 + (128 + c.toNat / 4096 % 64 - 128) * 4096
        + (128 + c.toNat / 64 % 64 - 128) * 64 + (128 + c.toNat % 64 - 128) = c.toNat := by
      omega
    have h8 : 65536 ≤ c.toNat := by omega
    have h9 : c.toNat < 1114112 := by omega
    simp only [if_neg ha1, ha2, ha3, ha4, ha5, hb, hb2, hb3, decide_True, decide_False,
      Bool.and_self, Bool.and_false, Bool.false_and, Bool.false_eq_true, if_false, if_true, hv,
      hof _ rfl, h8, h9, Bool.and_true]

theorem utf8DecodeChars_encode (cs : List Char) :
    utf8DecodeChars (cs.flatMap utf8Char) = cs := by
  induction cs with
  | nil => exact utf8DecodeChars_nil
  | cons c cs ih => rw [List.flatMap_cons, utf8DecodeChars_char, ih]

theorem utf8Encode_lt (s : String) : ∀ b ∈ utf8Encode s, b < 256 := by
  intro b hb
  unfold utf8Encode at hb
  obtain ⟨c, _, hc⟩ := List.mem_flatMap.mp hb
  exact utf8Char_lt c b hc

theorem map_mod_of_lt (bs : Bytes) (h : ∀ b ∈ bs, b < 256) : bs.map (· % 256) = bs := by
  induction bs with
  | nil => rfl
  | cons b bs ih =>
    rw [List.map_cons, ih (fun x hx => h x (List.mem_cons_of_mem _ hx)),
      Nat.mod_eq_of_lt (h b (List.mem_cons_self _ _))]

/-- Decoding undoes encoding, for every string. -/
theorem utf8Decode_encode (s : String) : utf8Decode (utf8Encode s) = s := by
  unfold utf8Decode
  rw [map_mod_of_lt _ (utf8Encode_lt s)]
  unfold utf8Encode
  rw [utf8DecodeChars_encode]

end RefHost

namespace RefHost

theorem hexVal_hexDigit (n : Nat) : hexVal (hexDigit n) = some (n % 16) := by
  unfold hexDigit
  have h : n % 16 < 16 := Nat.mod_lt _ (by decide)
  generalize n % 16 = m at h
  interval_cases m <;> rfl

theorem hexBytes_cons (a b : Char) (rest : List Char) :
    hexBytes (a :: b :: rest)
      = match hexVal a, hexVal b, hexBytes rest with
        | some x, some y, some bs => some ((x * 16 + y) :: bs)
        | _, _, _ => none := by
  simp only [hexBytes]

theorem hexBytes_flatMap (bs : Bytes) (h : ∀ b ∈ bs, b < 256) :
    hexBytes (bs.flatMap hexOfByte) = some bs := by
  induction bs with
  | nil => rfl
  | cons b bs ih =>
    have hb : b < 256 := h b (List.mem_cons_self _ _)
    rw [List.flatMap_cons, hexOfByte, List.cons_append, List.cons_append, List.nil_append,
      hexBytes_cons, hexVal_hexDigit, hexVal_hexDigit,
      ih (fun x hx => h x (List.mem_cons_of_mem _ hx))]
    simp only [Option.some.injEq, List.cons.injEq, and_true]
    omega

theorem beNat_concat (xs : Bytes) (b : Nat) : beNat (xs ++ [b]) = beNat xs * 256 + b := by
  simp [beNat, List.foldl_append]

theorem beNat_beBytes (k n : Nat) : beNat (beBytes k n) = n % 256 ^ k := by
  induction k generalizing n with
  | zero => simp [beBytes, beNat, Nat.mod_one]
  | succ k ih =>
    rw [beBytes, beNat_concat, ih, pow_succ, mul_comm (256 ^ k) 256, Nat.mod_mul]
    ring

theorem beBytes_length (k n : Nat) : (beBytes k n).length = k := by
  induction k generalizing n with
  | zero => rfl
  | succ k ih => rw [beBytes, List.length_append, ih]; rfl

theorem beBytes_lt (k n : Nat) : ∀ b ∈ beBytes k n, b < 256 := by
  induction k generalizing n with
  | zero => intro b hb; cases hb
  | succ k ih =>
    intro b hb
    rw [beBytes] at hb
    rcases List.mem_append.mp hb with h | h
    · exact ih _ b h
    · rw [List.mem_singleton.mp h]
      exact Nat.mod_lt _ (by decide)

end RefHost

namespace RefHost

/-- The ABI decoder inverts the ABI encoder on the UTF-8 octets of every
string whose length fits a word. -/
theorem abiDecodeString_encode (s : String) (hlen : (utf8Encode s).length < 2 ^ 256) :
    abiDecodeString (.str (abiEncodeString (utf8Encode s))) = some s := by
  have hW : (beBytes 32 32).length = 32 := beBytes_length _ _
  have hL : (beBytes 32 (utf8Encode s).length).length = 32 := beBytes_length _ _
  have hWL : (beBytes 32 32 ++ beBytes 32 (utf8Encode s).length).length = 32 + 32 := by
    rw [List.length_append, hW, hL]
  generalize hP : List.replicate ((32 - (utf8Encode s).length % 32) % 32) 0 = P
  have hPlt : ∀ b ∈ P, b < 256 := by
    intro b hb
    rw [← hP] at hb
    rw [List.eq_of_mem_replicate hb]
    decide
  have hlt : ∀ b ∈ beBytes 32 32 ++ beBytes 32 (utf8Encode s).length ++ utf8Encode s ++ P,
      b < 256 := by
    intro b hb
    simp only [List.mem_append] at hb
    rcases hb with ((h | h) | h) | h
    · exact beBytes_lt _ _ b h
    · exact beBytes_lt _ _ b h
    · exact utf8Encode_lt s b h
    · exact hPlt b h
  have e1 : (beBytes 32 32 ++ beBytes 32 (utf8Encode s).length ++ utf8Encode s ++ P).take 32
      = beBytes 32 32 := by
    rw [List.append_assoc, List.append_assoc]
    exact List.take_left' hW
  have e2 : beNat (beBytes 32 32) = 32 := by
    rw [beNat_beBytes]
    norm_num
  have e3 : ((beBytes 32 32 ++ beBytes 32 (utf8Encode s).length ++ utf8Encode s ++ P).drop
      32).take 32 = beBytes 32 (utf8Encode s).length := by
    rw [List.append_assoc, List.append_assoc, List.drop_left' hW]
    exact List.take_left' hL
  have e4 : beNat (beBytes 32 (utf8Encode s).length) = (utf8Encode s).length := by
    rw [beNat_beBytes]
    apply Nat.mod_eq_of_lt
    calc (utf8Encode s).length < 2 ^ 256 := hlen
      _ = 256 ^ 32 := by norm_num
  have e5 : ((beBytes 32 32 ++ beBytes 32 (utf8Encode s).length ++ utf8Encode s ++ P).drop
      (32 + 32)).take (utf8Encode s).length = utf8Encode s := by
    rw [List.append_assoc, List.drop_left' hWL]
    exact List.take_left' rfl
  have e6 : (beBytes 32 32 ++ beBytes 32 (utf8Encode s).length ++ utf8Encode s ++ P).length
      = 32 + 32 + (utf8Encode s).length + P.length := by
    simp only [List.length_append, hW, hL]
  unfold abiDecodeString abiEncodeString
  simp only [hP, hexBytes_flatMap _ hlt, e1, e2, e3, e4, e5, e6, utf8Decode_encode,
    beq_self_eq_true, Bool.and_true]
  rw [if_pos]
  simp only [Bool.and_eq_true, decide_eq_true_eq]
  omega

end RefHost

namespace RefHost

theorem hexDigit_cases (c : Char) (h : UriDecoder.isHexDigit c = true) :
    (48 ≤ c.toNat ∧ c.toNat ≤ 57) ∨ (97 ≤ c.toNat ∧ c.toNat ≤ 102) ∨
      (65 ≤ c.toNat ∧ c.toNat ≤ 70) := by
  unfold UriDecoder.isHexDigit at h
  simp only [Bool.or_eq_true, Bool.and_eq_true, decide_eq_true_eq] at h
  have e : ∀ a b : Char, a ≤ b ↔ a.toNat ≤ b.toNat := fun a b => Iff.rfl
  simp only [e] at h
  rcases h with (h | h) | h
  · exact Or.inl h
  · exact Or.inr (Or.inl h)
  · exact Or.inr (Or.inr h)

theorem not_whitespace_of_hexDigit (c : Char) (h : UriDecoder.isHexDigit c = true) :
    isJsWhitespace c = false := by
  have hc := hexDigit_cases c h
  unfold isJsWhitespace
  simp only [Bool.or_eq_false_iff, Bool.and_eq_false_iff, beq_eq_false_iff_ne, ne_eq,
    decide_eq_false_iff_not]
  omega

theorem hexVal_of_hexDigit (c : Char) (h : UriDecoder.isHexDigit c = true) :
    ∃ d, hexVal c = some d ∧ d < 16 := by
  have hc := hexDigit_cases c h
  have e : ∀ a b : Char, a ≤ b ↔ a.toNat ≤ b.toNat := fun a b => Iff.rfl
  unfold hexVal
  rcases hc with hc | hc | hc
  · refine ⟨c.toNat - 48, ?_, by omega⟩
    rw [if_pos]
    simp only [Bool.and_eq_true, decide_eq_true_eq, e]
    exact hc
  · refine ⟨c.toNat - 87, ?_, by omega⟩
    rw [if_neg, if_pos]
    · simp only [Bool.and_eq_true, decide_eq_true_eq, e]
      exact hc
    · simp only [Bool.and_eq_true, decide_eq_true_eq, e]
      intro hx
      have : ('9' : Char).toNat = 57 := rfl
      omega
  · refine ⟨c.toNat - 55, ?_, by omega⟩
    rw [if_neg, if_neg, if_pos]
    · simp only [Bool.and_eq_true, decide_eq_true_eq, e]
      exact hc
    · simp only [Bool.and_eq_true, decide_eq_true_eq, e]
      intro hx
      have : ('a' : Char).toNat = 97 := rfl
      omega
    · simp only [Bool.and_eq_true, decide_eq_true_eq, e]
      intro hx
      have : ('9' : Char).toNat = 57 := rfl
      omega

theorem hexNat_eq (hex : List Char) (acc : Nat) (h : ∀ c ∈ hex, UriDecoder.isHexDigit c = true) :
    hexNat acc hex
      = some (hex.foldl (fun acc c => acc * 16 + (hexVal c).getD 0) acc) := by
  induction hex generalizing acc with
  | nil => rfl
  | cons c cs ih =>
    obtain ⟨d, hd, _⟩ := hexVal_of_hexDigit c (h c (List.mem_cons_self _ _))
    rw [hexNat]
    simp only [hd, List.foldl_cons, Option.getD_some]
    exact ih _ (fun x hx => h x (List.mem_cons_of_mem _ hx))

theorem foldl_hex_lt (hex : List Char) (acc : Nat)
    (h : ∀ c ∈ hex, UriDecoder.isHexDigit c = true) :
    hex.foldl (fun acc c => acc * 16 + (hexVal c).getD 0) acc < (acc + 1) * 16 ^ hex.length := by
  induction hex generalizing acc with
  | nil => simp
  | cons c cs ih =>
    obtain ⟨d, hd, hlt⟩ := hexVal_of_hexDigit c (h c (List.mem_cons_self _ _))
    simp only [List.foldl_cons, hd, Option.getD_some, List.length_cons]
    calc _ < (acc * 16 + d + 1) * 16 ^ cs.length :=
          ih _ (fun x hx => h x (List.mem_cons_of_mem _ hx))
      _ ≤ ((acc + 1) * 16) * 16 ^ cs.length := Nat.mul_le_mul_right _ (by omega)
      _ = (acc + 1) * 16 ^ (cs.length + 1) := by ring

/-- The value of a text of `k` hexadecimal digits is below `16 ^ k`. -/
theorem hexValue_lt (hex : List Char) (h : ∀ c ∈ hex, UriDecoder.isHexDigit c = true) :
    hexValue hex < 16 ^ hex.length := by
  have := foldl_hex_lt hex 0 h
  simpa [hexValue] using this

theorem jsTrim_hex (hex : List Char) (d : Char) (hd : UriDecoder.isHexDigit d = true) :
    jsTrim ⟨'0' :: 'x' :: (hex ++ [d])⟩ = ⟨'0' :: 'x' :: (hex ++ [d])⟩ := by
  unfold jsTrim
  have e1 : ('0' :: 'x' :: (hex ++ [d])).dropWhile isJsWhitespace = '0' :: 'x' :: (hex ++ [d]) := by
    rw [List.dropWhile_cons]
    rfl
  simp only [e1]
  have e2 : '0' :: 'x' :: (hex ++ [d]) = (('0' :: 'x' :: hex) ++ [d]) ++ [] := by simp
  rw [e2, trimEndChars_append _ _ _ (not_whitespace_of_hexDigit d hd)]
  rfl

/-- The reference `BigInt` reads `0x` followed by hexadecimal digits as the
number the digits spell, and prints it in decimal. -/
theorem bigIntToString_hex (hex : List Char) (hne : hex ≠ [])
    (h : ∀ c ∈ hex, UriDecoder.isHexDigit c = true) :
    bigIntToString (.str ⟨'0' :: 'x' :: hex⟩) = some (toString (hexValue hex)) := by
  obtain ⟨front, d, rfl⟩ : ∃ front d, hex = front ++ [d] :=
    ⟨hex.dropLast, hex.getLast hne, (List.dropLast_append_getLast hne).symm⟩
  have hd : UriDecoder.isHexDigit d = true := h d (by simp)
  have hp : parseBigInt ⟨'0' :: 'x' :: (front ++ [d])⟩
      = (hexNat 0 (front ++ [d])).map Int.ofNat := by
    unfold parseBigInt
    rw [jsTrim_hex front d hd]
    cases front <;> rfl
  show (parseBigInt (JsVal.str ⟨'0' :: 'x' :: (front ++ [d])⟩).toStr).map _ = _
  rw [show (JsVal.str ⟨'0' :: 'x' :: (front ++ [d])⟩).toStr = ⟨'0' :: 'x' :: (front ++ [d])⟩
    from rfl, hp, hexNat_eq _ _ h]
  rfl

theorem getAddress_of_hex (hex : List Char) (hl : hex.length = 40)
    (h : ∀ c ∈ hex, UriDecoder.isHexDigit c = true)
    (hc : hasMixedCase hex = false ∨ toChecksum hex = hex) :
    getAddress ⟨'0' :: 'x' :: hex⟩ = some ⟨'0' :: 'x' :: toChecksum hex⟩ := by
  unfold getAddress
  simp only
  rw [if_pos (by simp [hl, List.all_eq_true]; exact h)]
  rcases hc with hc | hc
  · simp [hc]
  · simp [hc]

end RefHost

/-! ## Agent identifier and ABI string -/

set_option maxRecDepth 100000 in
/-- C24, evaluation of the code. On the log of the test suite the agent
identifier is the decimal text `42` of the word `0x...2a`; on a log whose
`topics[1]` is the text `-5` the decoder returns status true and the agent
identifier `-5`, and on a log whose `topics[1]` is `0x1` followed by 64 zeros it
returns status true and the decimal text of `2^256`: neither is the rendering
of an unsigned integer below `2^256`, and no message is given. -/
theorem agentId_outside_uint256 :
    EventDecoder.decode refHost Samples.registeredLogEmpty
      = .ok ⟨true, [], some "42", some Samples.ownerAddress, some ""⟩ ∧
    EventDecoder.decode refHost Samples.logNegativeAgentId
      = .ok ⟨true, [], some "-5", some Samples.ownerAddress, some ""⟩ ∧
    EventDecoder.decode refHost Samples.logWideAgentId
      = .ok ⟨true, [], some (toString (2 ^ 256 : Nat)), some Samples.ownerAddress, some ""⟩ :=
  ⟨rfl, rfl, rfl⟩

theorem isHexWord_iff (w : String) :
    isHexWord w = true ↔ ∃ hex : List Char, w = ⟨'0' :: 'x' :: hex⟩ ∧ hex.length = 64 ∧
      ∀ c ∈ hex, UriDecoder.isHexDigit c = true := by
  unfold isHexWord
  constructor
  · intro h
    split at h
    · rename_i hex heq
      simp only [Bool.and_eq_true, beq_iff_eq, List.all_eq_true] at h
      exact ⟨hex, String.ext heq, h.1, h.2⟩
    · cases h
  · rintro ⟨hex, rfl, hl, hall⟩
    simp only [Bool.and_eq_true, beq_iff_eq, List.all_eq_true]
    exact ⟨hl, hall⟩

theorem abiEncodeString_length (content : Bytes) : 66 ≤ (abiEncodeString content).length := by
  unfold abiEncodeString
  show 66 ≤ ('0' :: 'x' :: _ : List Char).length
  rw [List.append_assoc, List.append_assoc, List.flatMap_append]
  have h : ((beBytes 32 32).flatMap hexOfByte).length = 64 := by decide
  simp only [List.length_cons, List.length_append, h]
  omega

/-- C25, amended. On the reference host, for every string `s` whose UTF-8
length fits a word: an event log object whose `topics[0]` is a recognized
signature, whose `topics[1]` and `topics[2]` are 32-byte words in hexadecimal,
the last forty digits of `topics[2]` written in one letter case or in their
EIP-55 spelling, and whose data is the ABI encoding of `s` as a single dynamic
string is decoded by `decodeEventLog` with status true, no messages, the
decimal text of `topics[1]`, the EIP-55 spelling of the address and the URI
`s`. -/
theorem abi_string_round_trip (s : String) (fields : List (String × JsVal)) (topic0 : JsVal)
    (topic1 topic2 : String) (rest : List JsVal)
    (hlen : (refHost.utf8Encode s).length < 2 ^ 256)
    (hx : propertyOf (.obj fields) "topics"
      = .arr (topic0 :: .str topic1 :: .str topic2 :: rest))
    (hk : topic0 = .str EventDecoder.REGISTERED_TOPIC0 ∨
      topic0 = .str EventDecoder.URI_UPDATED_TOPIC0)
    (h1 : isHexWord topic1 = true) (h2 : isHexWord topic2 = true)
    (hc : RefHost.hasMixedCase (topic2.data.drop 26) = false ∨
      RefHost.toChecksum (topic2.data.drop 26) = topic2.data.drop 26)
    (hd : propertyOf (.obj fields) "data" = .str (abiEncodeString (refHost.utf8Encode s))) :
    Erc8004RegistryParser.decodeEventLog refHost (.obj fields)
      = .ok ⟨true, [], some (toString (hexValue (topic1.data.drop 2))),
          some ⟨'0' :: 'x' :: RefHost.toChecksum (topic2.data.drop 26)⟩, some s⟩ := by
  obtain ⟨hex1, rfl, hl1, hall1⟩ := (isHexWord_iff topic1).mp h1
  obtain ⟨hex2, rfl, hl2, hall2⟩ := (isHexWord_iff topic2).mp h2
  have e26 : (⟨'0' :: 'x' :: hex2⟩ : String).data.drop 26 = hex2.drop 24 := rfl
  have e2 : (⟨'0' :: 'x' :: hex1⟩ : String).data.drop 2 = hex1 := rfl
  rw [e26] at hc
  rw [e26, e2]
  have hk2 : EventDecoder.isKnownTopic0 topic0 = true := by
    rcases hk with rfl | rfl <;> decide
  have hne1 : hex1 ≠ [] := by
    intro h
    rw [h] at hl1
    cases hl1
  have i1 : JsVal.index
      (topic0 :: .str ⟨'0' :: 'x' :: hex1⟩ :: .str ⟨'0' :: 'x' :: hex2⟩ :: rest) 1
      = .str ⟨'0' :: 'x' :: hex1⟩ := rfl
  have hbasic : ∀ c ∈ hex2, c.toNat < 0x10000 := by
    intro c hc2
    have := RefHost.hexDigit_cases c (hall2 c hc2)
    omega
  have i2 : EventDecoder.addressHex (JsVal.index
      (topic0 :: .str ⟨'0' :: 'x' :: hex1⟩ :: .str ⟨'0' :: 'x' :: hex2⟩ :: rest) 2)
      = some ⟨'0' :: 'x' :: hex2.drop 24⟩ := by
    show some ("0x" ++ (⟨dropUnits 24 hex2⟩ : String)) = _
    rw [dropUnits_basic 24 hex2 hbasic]
    rfl
  have pb : refHost.bigIntToString = RefHost.bigIntToString := rfl
  have hb : refHost.bigIntToString (.str ⟨'0' :: 'x' :: hex1⟩)
      = some (toString (hexValue hex1)) := by
    rw [pb]
    exact RefHost.bigIntToString_hex hex1 hne1 hall1
  have hdrop : ∀ c ∈ hex2.drop 24, UriDecoder.isHexDigit c = true :=
    fun c hc => hall2 c (List.mem_of_mem_drop hc)
  have hlen2 : (hex2.drop 24).length = 40 := by
    rw [List.length_drop, hl2]
  have pa : refHost.getAddress = RefHost.getAddress := rfl
  have ha : refHost.getAddress ⟨'0' :: 'x' :: hex2.drop 24⟩
      = some ⟨'0' :: 'x' :: RefHost.toChecksum (hex2.drop 24)⟩ := by
    rw [pa]
    exact RefHost.getAddress_of_hex (hex2.drop 24) hlen2 hdrop hc
  have hu : refHost.abiDecodeString (propertyOf (.obj fields) "data") = some s := by
    rw [hd, show refHost.abiDecodeString = RefHost.abiDecodeString from rfl,
      show refHost.utf8Encode = RefHost.utf8Encode from rfl]
    exact RefHost.abiDecodeString_encode s hlen
  have hg1 : ((propertyOf (.obj fields) "data").isUndefined ||
      (propertyOf (.obj fields) "data").isNull) = false := by
    rw [hd]
    rfl
  have hg2 : EventDecoder.lengthBelow (propertyOf (.obj fields) "data")
      EventDecoder.MIN_DATA_HEX_LENGTH = false := by
    rw [hd]
    have := abiEncodeString_length (refHost.utf8Encode s)
    have := length_le_utf16Length (abiEncodeString (refHost.utf8Encode s))
    simp only [EventDecoder.lengthBelow_str, EventDecoder.MIN_DATA_HEX_LENGTH,
      decide_eq_false_iff_not]
    omega
  have hdec := EventDecoder.decode_after_gates refHost (.obj fields) topic0 _ hx hk2 hg1 hg2
  rw [i1, i2, hb, Option.some_bind, ha, hu] at hdec
  have hs : (Validation.validationStart (.obj fields) .undefined).status = true := rfl
  unfold Erc8004RegistryParser.decodeEventLog
  simp only [bind, Except.bind, pure, Except.pure, hs, Bool.not_true, Bool.false_eq_true,
    if_false]
  rw [hdec]
  simp only [extractionMessages, Option.isNone_some, Bool.false_eq_true, if_false,
    List.append_nil, ne_eq, not_true_eq_false]

set_option maxRecDepth 100000 in
/-- Witness for C25: the two decodable logs of the test suite, whose data are
the ABI encodings of the base64 URI and of the empty string. -/
theorem abi_string_round_trip_witness :
    abiEncodeString (refHost.utf8Encode Samples.validBase64Uri) = Samples.abiSpecUri ∧
    abiEncodeString (refHost.utf8Encode "") = Samples.abiEmptyUri ∧
    Erc8004RegistryParser.decodeEventLog refHost Samples.registeredLogBase64
      = .ok ⟨true, [], some "42", some Samples.ownerAddress, some Samples.validBase64Uri⟩ ∧
    Erc8004RegistryParser.decodeEventLog refHost Samples.registeredLogEmpty
      = .ok ⟨true, [], some "42", some Samples.ownerAddress, some ""⟩ :=
  ⟨by decide, by decide,
    abi_string_round_trip Samples.validBase64Uri _ _
      "0x000000000000000000000000000000000000000000000000000000000000002a"
      "0x0000000000000000000000008ec6c9a8a6b0d69f48734c4b7ecd1cbb190a0d69" []
      (by decide) rfl (Or.inl rfl) rfl rfl (Or.inl rfl)
      (congrArg JsVal.str (show Samples.abiSpecUri
        = abiEncodeString (refHost.utf8Encode Samples.validBase64Uri) by decide)),
    abi_string_round_trip "" _ _
      "0x000000000000000000000000000000000000000000000000000000000000002a"
      "0x0000000000000000000000008ec6c9a8a6b0d69f48734c4b7ecd1cbb190a0d69" []
      (by decide) rfl (Or.inl rfl) rfl rfl (Or.inl rfl)
      (congrArg JsVal.str (show Samples.abiEmptyUri
        = abiEncodeString (refHost.utf8Encode "") by decide))⟩

set_option maxRecDepth 100000 in
/-- Counterexample to C25 as stated: `Samples.logMixedCaseOwner` has a
recognized signature, two 32-byte words in hexadecimal and the ABI encoding
of the empty string as data, and it is decoded with status false and the
message of the address, because the address part of `topics[2]` is in mixed
case and is not the EIP-55 spelling. -/
theorem abi_string_round_trip_counterexample :
    isHexWord "0x000000000000000000000000000000000000000000000000000000000000002a" = true ∧
    isHexWord "0x0000000000000000000000008EC6c9a8a6b0d69f48734c4b7ecd1cbb190a0d69" = true ∧
    propertyOf Samples.logMixedCaseOwner "data"
      = .str (abiEncodeString (refHost.utf8Encode "")) ∧
    Erc8004RegistryParser.decodeEventLog refHost Samples.logMixedCaseOwner
      = .ok ⟨false, ["log.topics[2]: Cannot decode as address"], some "42", none, none⟩ ∧
    Erc8004RegistryParser.decodeEventLog refHost Samples.registeredLogEmpty
      = .ok ⟨true, [], some "42", some Samples.ownerAddress, some ""⟩ :=
  ⟨by decide, by decide, rfl, rfl, rfl⟩

/-! ## The decoders of a URI -/

namespace UriDecoder

/-- The base64 branch on a string, case by case. -/
theorem decodeBase64_some (rt : Host) (u : String) :
    decodeBase64 rt (some u) = .ok
      (match rt.base64Decode (slice u 29) with
        | none => ⟨false, ["uri: Invalid base64 encoding"], .null⟩
        | some buffer =>
          if rt.base64Encode (rt.utf8Encode (rt.utf8Decode buffer)) = slice u 29 then
            match rt.jsonParse (rt.utf8Decode buffer) with
            | none => ⟨false, ["uri: Contains inline JSON but parsing failed"], .null⟩
            | some parsed => ⟨true, [], parsed⟩
          else ⟨false, ["uri: Decoded base64 is not valid UTF-8"], .null⟩) := by
  unfold decodeBase64
  have h29 : "data:application/json;base64,".length = 29 := by decide
  simp only [h29, List.nil_append, isValidUtf8]
  cases rt.base64Decode (slice u 29) with
  | none => rfl
  | some buffer =>
    simp only
    by_cases hv : rt.base64Encode (rt.utf8Encode (rt.utf8Decode buffer)) = slice u 29
    · simp only [hv, beq_self_eq_true, Bool.not_true, Bool.false_eq_true, if_false, if_true]
      cases rt.jsonParse (rt.utf8Decode buffer) <;> rfl
    · have hb : (rt.base64Encode (rt.utf8Encode (rt.utf8Decode buffer)) == slice u 29) = false :=
        beq_eq_false_iff_ne.mpr hv
      simp only [hb, Bool.not_false, if_true, hv, if_false]

theorem decode_base64_tag (rt : Host) (uri : Option String) :
    decode rt uri "base64"
      = (decodeBase64 rt uri).map
          (fun r => ⟨r.status, r.messages, r.decodedRegistrationFile⟩) := by
  unfold decode
  rw [if_neg (by decide), if_neg (by decide), if_neg (by decide), if_neg (by decide),
    if_pos (by decide)]
  cases decodeBase64 rt uri <;> rfl

end UriDecoder

/-- C33. For every host and every URI with the tag `base64`, with the payload
being the URI without its first 29 characters: when `UriDecoder.decode`
returns status true, the base64 decoder returned octets and the payload equals
the base64 encoding of the UTF-8 octets of the text decoded from them; and
whenever the decoder returned octets and that re-encoding differs from the
payload, the result is status false, no document and exactly the message
`uri: Decoded base64 is not valid UTF-8`. -/
theorem base64_round_trip_check (rt : Host) (uri : String) :
    (∀ r, UriDecoder.decode rt (some uri) "base64" = .ok r → r.status = true →
      ∃ buffer, rt.base64Decode (slice uri 29) = some buffer ∧
        slice uri 29 = rt.base64Encode (rt.utf8Encode (rt.utf8Decode buffer))) ∧
    (∀ buffer, rt.base64Decode (slice uri 29) = some buffer →
      rt.base64Encode (rt.utf8Encode (rt.utf8Decode buffer)) ≠ slice uri 29 →
      UriDecoder.decode rt (some uri) "base64"
        = .ok ⟨false, ["uri: Decoded base64 is not valid UTF-8"], .null⟩) := by
  rw [UriDecoder.decode_base64_tag, UriDecoder.decodeBase64_some]
  constructor
  · intro r h hs
    cases hb : rt.base64Decode (slice uri 29) with
    | none =>
      rw [hb] at h
      cases h
      cases hs
    | some buffer =>
      rw [hb] at h
      refine ⟨buffer, rfl, ?_⟩
      by_cases hv : rt.base64Encode (rt.utf8Encode (rt.utf8Decode buffer)) = slice uri 29
      · exact hv.symm
      · simp only [hv, if_false] at h
        cases h
        cases hs
  · intro buffer hb hne
    rw [hb]
    simp only [hne, if_false]
    rfl

namespace UriDecoder

/-- On a string the decoder returns, for every tag. -/
theorem decode_string_returns (rt : Host) (u : String) (tag : String) :
    ∃ r, decode rt (some u) tag = .ok r := by
  unfold decode
  split_ifs
  · exact ⟨_, rfl⟩
  · exact ⟨_, rfl⟩
  · exact ⟨_, rfl⟩
  · simp only [bind, Except.bind, pure, Except.pure, decodeGzip]
    cases matchBase64 u.data with
    | none => exact ⟨_, rfl⟩
    | some p =>
      simp only
      cases (rt.base64Decode ⟨p⟩).bind rt.gunzipSync with
      | none => exact ⟨_, rfl⟩
      | some z =>
        simp only
        cases rt.jsonParse (rt.utf8Decode z) <;> exact ⟨_, rfl⟩
  · rw [decodeBase64_some]
    exact ⟨_, rfl⟩
  · exact ⟨_, rfl⟩
  · exact ⟨_, rfl⟩

end UriDecoder

/-- C39, the code on every parameter-valid call. With a string as URI
`decodeUri` returns for every tag that is absent, `null` or a string; with
`null` as URI it raises a `TypeError` when the tag is `base64`, `gzip` or
`ipfs`, although the parameter check accepts the call, and it returns for
every other tag. -/
theorem decodeUri_raises_on_null_uri (rt : Host) :
    (∀ (s : String) (tag : JsVal),
      (tag = .undefined ∨ tag = .null ∨ ∃ t, tag = .str t) →
      ∃ r, Erc8004RegistryParser.decodeUri rt (.str s) tag = .ok r) ∧
    (∀ t : String, t = "base64" ∨ t = "gzip" ∨ t = "ipfs" →
      (Validation.validationDecodeUri .null (.str t)).status = true ∧
      Erc8004RegistryParser.decodeUri rt .null (.str t) = .error .typeError) ∧
    (∀ tag : JsVal, (tag = .undefined ∨ tag = .null ∨ ∃ t, tag = .str t) →
      tag ≠ .str "base64" → tag ≠ .str "gzip" → tag ≠ .str "ipfs" →
      ∃ r, Erc8004RegistryParser.decodeUri rt .null tag = .ok r) := by
  refine ⟨?_, ?_, ?_⟩
  · intro s tag ht
    have hc : (Validation.validationDecodeUri (.str s) tag).status = true := by
      rcases ht with rfl | rfl | ⟨t, rfl⟩ <;> rfl
    unfold Erc8004RegistryParser.decodeUri
    simp only [bind, Except.bind, pure, Except.pure, hc, Bool.not_true, Bool.false_eq_true,
      if_false]
    exact UriDecoder.decode_string_returns rt s _
  · intro t ht
    rcases ht with rfl | rfl | rfl <;> exact ⟨rfl, rfl⟩
  · intro tag ht h1 h2 h3
    have hc : (Validation.validationDecodeUri .null tag).status = true := by
      rcases ht with rfl | rfl | ⟨t, rfl⟩ <;> rfl
    unfold Erc8004RegistryParser.decodeUri
    simp only [bind, Except.bind, pure, Except.pure, hc, Bool.not_true, Bool.false_eq_true,
      if_false]
    rcases ht with rfl | rfl | ⟨t, rfl⟩
    · exact ⟨_, rfl⟩
    · exact ⟨_, rfl⟩
    · have n1 : t ≠ "base64" := fun h => h1 (by rw [h])
      have n2 : t ≠ "gzip" := fun h => h2 (by rw [h])
      have n3 : t ≠ "ipfs" := fun h => h3 (by rw [h])
      by_cases h0 : t = ""
      · subst h0
        exact ⟨_, rfl⟩
      · simp only [bne_iff_ne, ne_eq, h0, not_false_eq_true, if_true,
          Erc8004RegistryParser.stringOrNull]
        unfold UriDecoder.decode
        simp only [beq_iff_eq, n1, n2, n3, if_false]
        split_ifs <;> exact ⟨_, rfl⟩

set_option maxRecDepth 100000 in
/-- C36, evaluation of the code. The base64 URI of the test suite behind one
space trims to the URI itself and is classified as `base64` like it, but
`decodeUri` with the tag omitted decodes the URI itself to its document and
the URI behind the space to status false with the message of the re-encoding
check: the decoder cuts the prefix from the untrimmed text. -/
theorem decodeUri_untrimmed :
    jsTrim Samples.spacedBase64Uri = Samples.validBase64Uri ∧
    UriClassifier.classify (.str Samples.spacedBase64Uri) = "base64" ∧
    UriClassifier.classify (.str Samples.validBase64Uri) = "base64" ∧
    Erc8004RegistryParser.decodeUri refHost (.str Samples.validBase64Uri) .undefined
      = .ok ⟨true, [], Samples.specCompliantJson⟩ ∧
    Erc8004RegistryParser.decodeUri refHost (.str Samples.spacedBase64Uri) .undefined
      = .ok ⟨false, ["uri: Decoded base64 is not valid UTF-8"], .null⟩ :=
  ⟨by decide, by decide, by decide, rfl, rfl⟩

/-! ## The x402 flag -/

namespace MetadataExtractor

theorem detectX402_eq (doc : JsVal) (hn : (doc.isNull || doc.isUndefined) = false) :
    detectX402 doc = .ok
      (if (propertyOf doc "x402Support").isUndefined = false then
        ((propertyOf doc "x402Support").isTrue, propertyOf doc "x402Support")
      else if (propertyOf doc "x402support").isUndefined = false then
        ((propertyOf doc "x402support").isTrue, propertyOf doc "x402support")
      else (false, .bool false)) := by
  unfold detectX402
  simp only [bind, Except.bind, pure, Except.pure, get_of_not_nullish doc _ hn]
  cases (propertyOf doc "x402Support").isUndefined <;>
    cases (propertyOf doc "x402support").isUndefined <;> rfl

theorem buildCategories_x402 (doc : JsVal) (tag : String) (c : Categories)
    (h : buildCategories doc tag = .ok c) :
    ∃ p, detectX402 doc = .ok p ∧ c.isX402 = p.1 := by
  unfold buildCategories at h
  simp only [bind, Except.bind, pure, Except.pure] at h
  split at h
  · cases h
  · rename_i p hp
    refine ⟨p, hp, ?_⟩
    split at h
    · cases h
    · split at h
      · cases h
      · split at h
        · cases h
        · cases h
          rfl

theorem buildEntries_x402 (rt : Host) (doc : JsVal) (tag : String) (a o : Option String)
    (e : Entries) (h : buildEntries rt doc tag a o = .ok e) :
    ∃ p, detectX402 doc = .ok p ∧ e.x402Support = if p.1 = true then p.2 else .bool false := by
  unfold buildEntries at h
  simp only [bind, Except.bind, pure, Except.pure] at h
  split at h
  · cases h
  · split at h
    · cases h
    · split at h
      · cases h
      · rename_i p hp
        refine ⟨p, hp, ?_⟩
        split at h
        · cases h
        · split at h
          · cases h
          · split at h
            · cases h
            · split at h
              · cases h
              · split at h
                · cases h
                · cases h
                  rfl

theorem isTrue_iff (v : JsVal) : v.isTrue = true ↔ v = .bool true := by
  cases v with
  | bool b => cases b <;> simp [JsVal.isTrue]
  | _ => simp [JsVal.isTrue]

theorem isTrue_select (v : JsVal) :
    (if (v.isTrue, v).1 = true then (v.isTrue, v).2 else JsVal.bool false) = .bool v.isTrue := by
  cases v with
  | bool b => cases b <;> rfl
  | _ => rfl

end MetadataExtractor

/-- C40. For every host, document, tag, agent identifier and owner address
for which `MetadataExtractor.extract` returns: `entries.x402Support` is the
boolean `categories.isX402`, and both are true exactly when the selected flag
value, `x402Support` when that property is not `undefined` and `x402support`
otherwise, is the boolean `true`; so with both present the lower-case property
has no influence. -/
theorem x402_support_flag (rt : Host) (document : JsVal) (tag : String)
    (agentId ownerAddress : Option String) (c : MetadataExtractor.Categories)
    (e : MetadataExtractor.Entries)
    (h : MetadataExtractor.extract rt document tag agentId ownerAddress = .ok (c, e)) :
    e.x402Support = .bool c.isX402 ∧
    (c.isX402 = true ↔
      (if (propertyOf document "x402Support").isUndefined = false then
          propertyOf document "x402Support"
        else propertyOf document "x402support") = .bool true) ∧
    ((propertyOf document "x402Support").isUndefined = false →
      (c.isX402 = true ↔ propertyOf document "x402Support" = .bool true)) := by
  have key : e.x402Support = .bool c.isX402 ∧
      (c.isX402 = true ↔
        (if (propertyOf document "x402Support").isUndefined = false then
            propertyOf document "x402Support"
          else propertyOf document "x402support") = .bool true) := by
    cases hn : (document.isNull || document.isUndefined)
    · obtain ⟨hc, he⟩ := MetadataExtractor.extract_parts rt document tag agentId ownerAddress
        c e h hn
      obtain ⟨p, hp, hcx⟩ := MetadataExtractor.buildCategories_x402 document tag c hc
      obtain ⟨q, hq, hex⟩ := MetadataExtractor.buildEntries_x402 rt document tag agentId
        ownerAddress e he
      rw [MetadataExtractor.detectX402_eq document hn] at hp hq
      cases hp
      cases hq
      by_cases h1 : (propertyOf document "x402Support").isUndefined = false
      · rw [if_pos h1] at hcx hex
        rw [if_pos h1, hcx, hex]
        exact ⟨MetadataExtractor.isTrue_select _, MetadataExtractor.isTrue_iff _⟩
      · rw [if_neg h1] at hcx hex
        rw [if_neg h1]
        by_cases h2 : (propertyOf document "x402support").isUndefined = false
        · rw [if_pos h2] at hcx hex
          rw [hcx, hex]
          exact ⟨MetadataExtractor.isTrue_select _, MetadataExtractor.isTrue_iff _⟩
        · rw [if_neg h2] at hcx hex
          rw [hcx, hex]
          refine ⟨rfl, ?_⟩
          simp only [Bool.false_eq_true, false_iff]
          intro hv
          rw [hv] at h2
          exact h2 rfl
    · have hx : MetadataExtractor.extract rt document tag agentId ownerAddress
          = .ok (MetadataExtractor.buildEmptyCategories tag,
            MetadataExtractor.buildEmptyEntries tag agentId ownerAddress) := by
        unfold MetadataExtractor.extract
        rw [if_pos hn]
      rw [hx] at h
      cases h
      refine ⟨rfl, ?_⟩
      have hp : ∀ k, propertyOf document k = .undefined := by
        intro k
        cases document <;> first | rfl | cases hn
      rw [hp, hp]
      simp [MetadataExtractor.buildEmptyCategories]
  refine ⟨key.1, key.2, ?_⟩
  intro h1
  have := key.2
  rw [if_pos h1] at this
  exact this

set_option maxRecDepth 100000 in
/-- Witness for C40: a document with `x402Support` false and `x402support`
true; the flag and the entry are false. -/
theorem x402_support_flag_witness :
    ∃ c e, MetadataExtractor.extract refHost
        (.obj [("x402Support", .bool false), ("x402support", .bool true)]) "json" none none
        = .ok (c, e) ∧ c.isX402 = false ∧
      e.x402Support = .bool c.isX402 ∧
      (c.isX402 = true ↔
        (if (propertyOf (.obj [("x402Support", .bool false), ("x402support", .bool true)])
              "x402Support").isUndefined = false then
            propertyOf (.obj [("x402Support", .bool false), ("x402support", .bool true)])
              "x402Support"
          else propertyOf (.obj [("x402Support", .bool false), ("x402support", .bool true)])
            "x402support") = .bool true) ∧
      ((propertyOf (.obj [("x402Support", .bool false), ("x402support", .bool true)])
          "x402Support").isUndefined = false →
        (c.isX402 = true ↔
          propertyOf (.obj [("x402Support", .bool false), ("x402support", .bool true)])
            "x402Support" = .bool true)) :=
  ⟨_, _, rfl, rfl,
    x402_support_flag refHost (.obj [("x402Support", .bool false), ("x402support", .bool true)])
      "json" none none _ _ rfl⟩

/-! ## Validation and the compliance flag -/

namespace RegistrationValidator

theorem validateServicesFrom_nil (rt : Host) (xs : List JsVal) (i : Nat)
    (h : validateServicesFrom rt xs i [] = .ok []) :
    ∀ s ∈ xs, ∃ j, validateService rt s j [] = .ok [] := by
  induction xs generalizing i with
  | nil => intro s hs; cases hs
  | cons x xs ih =>
    rw [validateServicesFrom_cons] at h
    cases hv : validateService rt x i [] with
    | error e => rw [hv] at h; cases h
    | ok g =>
      rw [hv] at h
      simp only at h
      rw [validateServicesFrom_acc] at h
      cases hr : validateServicesFrom rt xs (i + 1) [] with
      | error e => rw [hr] at h; cases h
      | ok out =>
        rw [hr] at h
        simp only [Except.map, Except.ok.injEq, List.append_eq_nil] at h
        obtain ⟨hg, ho⟩ := h
        intro s hs
        rcases List.mem_cons.mp hs with rfl | hs
        · exact ⟨i, by rw [hv, hg]⟩
        · exact ih (i + 1) (by rw [hr, ho]) s hs

theorem checkProtocolKey_nil (a b : Bool) (i : Nat) (h : checkProtocolKey a b i [] = []) :
    (!a && b) = false := by
  unfold checkProtocolKey at h
  cases a <;> cases b <;> simp at h ⊢

theorem checkEndpointKey_nil (a b : Bool) (i : Nat) (h : checkEndpointKey a b i [] = []) :
    (!a && b) = false := by
  unfold checkEndpointKey at h
  cases a <;> cases b <;> simp at h ⊢

theorem checkX402Case_nil (a b : Bool) (h : checkX402Case a b [] = []) :
    (!a && b) = false := by
  unfold checkX402Case at h
  cases a <;> cases b <;> simp at h ⊢

theorem usesAlias_of_validateService_nil (rt : Host) (s : JsVal) (j : Nat)
    (h : validateService rt s j [] = .ok []) : usesAlias s = false := by
  cases s with
  | obj e =>
    rw [validateService_obj] at h
    cases hl : ((field e "type").or ((field e "name").or (.str ""))).toLowerCase with
    | error err => rw [hl] at h; cases h
    | ok n =>
      rw [hl] at h
      simp only [Except.map, Except.ok.injEq, List.append_eq_nil] at h
      obtain ⟨⟨⟨h1, h2⟩, _⟩, _⟩ := h
      have a1 := checkProtocolKey_nil _ _ _ h1
      have a2 := checkEndpointKey_nil _ _ _ h2
      unfold usesAlias
      show (!(field e "name").isUndefined && (field e "type").isUndefined ||
        !(field e "endpoint").isUndefined && (field e "url").isUndefined) = false
      rw [Bool.not_not] at a1 a2
      rw [Bool.and_comm, a1, Bool.and_comm (!(field e "endpoint").isUndefined), a2]
      rfl
  | _ => rfl

end RegistrationValidator

/-- An object document that the validator accepts is flagged compliant. -/
theorem compliant_of_validate_true (rt : Host) (kvs : List (String × JsVal)) (tag : String)
    (a o : Option String) (v : RegistrationValidator.Validated)
    (hv : RegistrationValidator.validate rt (.obj kvs) = .ok v) (hs : v.status = true) :
    ∃ c e, MetadataExtractor.extract rt (.obj kvs) tag a o = .ok (c, e) ∧
      c.isSpecCompliant = true := by
  have hm : v.messages = [] := (RegistrationValidator.validate_status rt _ v hv).mp hs
  obtain ⟨m2, m3, h2, h3, hparts⟩ := RegistrationValidator.validate_parts rt kvs v hv
  rw [hm] at hparts
  have hall := hparts.symm
  simp only [List.append_eq_nil] at hall
  obtain ⟨⟨⟨⟨⟨⟨hty, hna⟩, _⟩, hm2⟩, hm3⟩, _⟩, _⟩ := hall
  -- the required fields
  have htype : field kvs "type" = .str SPEC_TYPE_VALUE := by
    rw [RegistrationValidator.checkType_spec] at hty
    apply (typeMessage_none _).mp
    cases ht : typeMessage (field kvs "type") with
    | none => rfl
    | some m => rw [ht] at hty; cases hty
  have hname : ∃ s, field kvs "name" = .str s ∧ s ≠ "" := by
    rw [RegistrationValidator.checkName_spec] at hna
    apply (textMessage_none "name" "Missing required field" _).mp
    cases ht : textMessage "name" "Missing required field" (field kvs "name") with
    | none => rfl
    | some m => rw [ht] at hna; cases hna
  -- the x402 flag
  have hx : (!(field kvs "x402support").isUndefined && (field kvs "x402Support").isUndefined)
      = false := by
    rw [RegistrationValidator.validateX402_obj, hm3] at h3
    simp only [Except.ok.injEq, List.append_eq_nil] at h3
    have hc := RegistrationValidator.checkX402Case_nil _ _ h3.1
    rw [Bool.not_not] at hc
    rw [Bool.and_comm]
    exact hc
  -- the services
  have hal : ∀ xs, field kvs "services" = .arr xs → xs.any usesAlias = false := by
    intro xs hf
    cases xs with
    | nil => rfl
    | cons x xs =>
      rw [hm2, RegistrationValidator.validateServices_arr rt kvs (x :: xs) hf (by simp)] at h2
      have hno := RegistrationValidator.validateServicesFrom_nil rt (x :: xs) 0 h2
      rw [List.any_eq_false]
      intro s hs
      obtain ⟨j, hj⟩ := hno s hs
      simp [RegistrationValidator.usesAlias_of_validateService_nil rt s j hj]
  -- the extractor returns
  have hret : ∃ c e, MetadataExtractor.extract rt (.obj kvs) tag a o = .ok (c, e) :=
    (MetadataExtractor.extract_returns_iff rt (.obj kvs) tag a o rfl).mpr
      ((RegistrationValidator.validate_returns_iff rt kvs).mp ⟨v, hv⟩)
  obtain ⟨c, e, hce⟩ := hret
  refine ⟨c, e, hce, ?_⟩
  obtain ⟨hc, _⟩ := MetadataExtractor.extract_parts rt (.obj kvs) tag a o c e hce rfl
  obtain ⟨_, hcs⟩ := MetadataExtractor.buildCategories_parts (.obj kvs) tag c hc
  rw [MetadataExtractor.checkSpecCompliance_obj kvs _ hcs, (eqStr_iff _ _).mpr htype,
    (nonEmptyString_iff _).mpr hname, hx]
  cases hf : field kvs "services" with
  | arr xs =>
    simp only [hal xs hf]
    rfl
  | _ => rfl

/-- C37. For every host and every object document on which
`RegistrationValidator.validate` returns status true, `MetadataExtractor.extract`
returns, for every tag, agent identifier and owner address, categories with
`isSpecCompliant` true. The converse fails: for the document with the required
`type` and `name` and no `description` the flag is true and the validator
returns status false with the message of the missing description. -/
theorem compliance_follows_validation :
    (∀ (rt : Host) (fields : List (String × JsVal)) (tag : String)
      (agentId ownerAddress : Option String) (v : RegistrationValidator.Validated),
      RegistrationValidator.validate rt (.obj fields) = .ok v → v.status = true →
      ∃ c e, MetadataExtractor.extract rt (.obj fields) tag agentId ownerAddress = .ok (c, e) ∧
        c.isSpecCompliant = true) ∧
    (∃ c e, MetadataExtractor.extract refHost (.obj Samples.noDescriptionFields) "json" none none
        = .ok (c, e) ∧ c.isSpecCompliant = true) ∧
    RegistrationValidator.validate refHost (.obj Samples.noDescriptionFields)
      = .ok ⟨false, ["description: Missing field"]⟩ :=
  ⟨fun rt kvs tag a o v hv hs => compliant_of_validate_true rt kvs tag a o v hv hs,
    ⟨_, _, rfl, rfl⟩, rfl⟩

namespace MetadataExtractor

theorem buildCategories_parseable (doc : JsVal) (tag : String) (c : Categories)
    (h : buildCategories doc tag = .ok c) : c.isParseable = true := by
  unfold buildCategories at h
  simp only [bind, Except.bind, pure, Except.pure] at h
  split at h
  · cases h
  · split at h
    · cases h
    · split at h
      · cases h
      · split at h
        · cases h
        · cases h
          rfl

end MetadataExtractor

namespace RegistrationValidator

theorem validate_true_obj (rt : Host) (d : JsVal) (val : Validated)
    (hval : validate rt d = .ok val) (hvs : val.status = true) : ∃ kvs, d = .obj kvs := by
  cases d with
  | obj kvs => exact ⟨kvs, rfl⟩
  | _ =>
    unfold validate at hval
    cases hval
    cases hvs

end RegistrationValidator

namespace Erc8004RegistryParser

/-- The two ways in which a pipeline run returns: without a document, with
the messages of the decoder and the document-absent records, or with a
document, with the messages of the three stages and the records of the
extractor. -/
theorem runPipeline_cases (rt : Host) (uri a o : Option String) (v : ValidatorsArg)
    (p : PipelineResult) (h : runPipeline rt uri a o v = .ok p) :
    ∃ dec, UriDecoder.decode rt uri (UriClassifier.classify (uriValue uri)) = .ok dec ∧
      (((!dec.status || dec.decodedRegistrationFile.isNull) = true ∧
        p = ⟨dec.messages,
          MetadataExtractor.buildEmptyCategories (UriClassifier.classify (uriValue uri)),
          MetadataExtractor.buildEmptyEntries (UriClassifier.classify (uriValue uri)) a o⟩) ∨
      ((!dec.status || dec.decodedRegistrationFile.isNull) = false ∧
        ∃ val c e vm,
          RegistrationValidator.validate rt dec.decodedRegistrationFile = .ok val ∧
          MetadataExtractor.extract rt dec.decodedRegistrationFile
            (UriClassifier.classify (uriValue uri)) a o = .ok (c, e) ∧
          runValidators v dec.decodedRegistrationFile = .ok vm ∧
          p = ⟨dec.messages ++ val.messages ++ vm, c, e⟩)) := by
  unfold runPipeline at h
  simp only [bind, Except.bind, pure, Except.pure, List.nil_append] at h
  split at h
  · cases h
  · rename_i dec hdec
    refine ⟨dec, hdec, ?_⟩
    cases hc : (!dec.status || dec.decodedRegistrationFile.isNull)
    · right
      simp only [hc, Bool.false_eq_true, if_false] at h
      split at h
      · cases h
      · rename_i val hval
        split at h
        · cases h
        · rename_i ce hce
          split at h
          · cases h
          · rename_i vm hvm
            cases h
            exact ⟨rfl, val, ce.1, ce.2, vm, hval, hce, hvm, rfl⟩
    · left
      simp only [hc, if_true] at h
      rw [MetadataExtractor.extract_null] at h
      cases h
      exact ⟨rfl, rfl⟩

end Erc8004RegistryParser

/-- C38, amended. For every host whose `JSON.stringify` never returns `null`,
every URI, agent identifier, owner address and validators argument: when
`validateFromUri` returns status true, the decoder returned status true with
no messages and a document `d`; when `d` is not `null`, `isParseable` and
`isSpecCompliant` are true and `entries.raw` is the text of `d`, not `null`;
when `d` is `null` (the decoded text was the JSON text `null`), `isParseable`
and `isSpecCompliant` are false and `entries.raw` is `null`. -/
theorem status_true_document (rt : Host) (agentUri agentId ownerAddress : JsVal)
    (additionalValidators : ValidatorsArg) (r : Erc8004RegistryParser.Result)
    (hj : ∀ v, rt.jsonStringify v ≠ .null)
    (h : Erc8004RegistryParser.validateFromUri rt agentUri agentId ownerAddress
      additionalValidators = .ok r)
    (hs : r.status = true) :
    ∃ d, UriDecoder.decode rt (Erc8004RegistryParser.stringOrNull agentUri)
        (UriClassifier.classify agentUri) = .ok ⟨true, [], d⟩ ∧
      (d ≠ .null →
        r.categories.isParseable = true ∧ r.categories.isSpecCompliant = true ∧
        r.entries.raw = rt.jsonStringify d ∧ r.entries.raw ≠ .null) ∧
      (d = .null →
        r.categories.isParseable = false ∧ r.categories.isSpecCompliant = false ∧
        r.entries.raw = .null) := by
  have hm : r.messages = [] :=
    (Erc8004RegistryParser.validateFromUri_status rt _ _ _ _ r h).mp hs
  obtain ⟨hu, p, hp, e1, e2, e3⟩ :=
    Erc8004RegistryParser.validateFromUri_ok rt _ _ _ _ r h
  have huv := Erc8004RegistryParser.uriValue_stringOrNull agentUri hu
  obtain ⟨dec, hdec, hcase⟩ := Erc8004RegistryParser.runPipeline_cases rt _ _ _ _ p hp
  rw [huv] at hdec hcase
  rw [hm] at e1
  rcases hcase with ⟨hc, rfl⟩ | ⟨hc, val, c, e, vm, hval, hce, hvm, rfl⟩
  · simp only at e1
    have hst : dec.status = true := (UriDecoder.uriDecode_status rt _ _ dec hdec).mpr e1.symm
    have hnull : dec.decodedRegistrationFile = .null := by
      rw [hst] at hc
      simp only [Bool.not_true, Bool.false_or] at hc
      cases hd : dec.decodedRegistrationFile <;> rw [hd] at hc <;> first | rfl | cases hc
    obtain ⟨st, ms, d⟩ := dec
    simp only at hst hnull e1
    subst hst hnull
    refine ⟨.null, by rw [hdec, ← e1], fun hne => absurd rfl hne, fun _ => ?_⟩
    rw [e2, e3]
    exact ⟨rfl, rfl, rfl⟩
  · simp only at e1
    have e1' := e1.symm
    simp only [List.append_eq_nil] at e1'
    obtain ⟨⟨hdm, hvm0⟩, _⟩ := e1'
    have hst : dec.status = true := (UriDecoder.uriDecode_status rt _ _ dec hdec).mpr hdm
    have hnn : dec.decodedRegistrationFile.isNull = false := by
      rw [hst] at hc
      simpa using hc
    have hvs : val.status = true := (RegistrationValidator.validate_status rt _ val hval).mpr hvm0
    obtain ⟨st, ms, d⟩ := dec
    simp only at hst hnn hdm hval hce
    subst hst hdm
    obtain ⟨kvs, rfl⟩ := RegistrationValidator.validate_true_obj rt d val hval hvs
    refine ⟨.obj kvs, hdec, fun _ => ?_, fun hd => ?_⟩
    · rw [e2, e3]
      simp only
      obtain ⟨hbc, _⟩ := MetadataExtractor.extract_parts rt (.obj kvs) _ _ _ c e hce rfl
      have hraw := MetadataExtractor.extract_raw rt (.obj kvs) _ _ _ c e hce rfl
      refine ⟨MetadataExtractor.buildCategories_parseable _ _ c hbc, ?_, hraw, ?_⟩
      · obtain ⟨c2, e2', hce2, hcomp⟩ :=
          compliant_of_validate_true rt kvs (UriClassifier.classify agentUri)
            (Erc8004RegistryParser.stringOrNull agentId)
            (Erc8004RegistryParser.stringOrNull ownerAddress) val hval hvs
        rw [hce] at hce2
        cases hce2
        exact hcomp
      · rw [hraw]
        exact hj _
    · cases hd

namespace RefHost

theorem jsonStringify_ne_null (v : JsVal) : jsonStringify v ≠ .null := by
  unfold jsonStringify
  cases stringify v <;> simp

end RefHost

set_option maxRecDepth 100000 in
/-- Witness for C38: the base64 URI of the test suite; the result has status
true and the decoded document is `SPEC_COMPLIANT_JSON`. -/
theorem status_true_document_witness :
    ∃ r, Erc8004RegistryParser.validateFromUri refHost (.str Samples.validBase64Uri)
        .undefined .undefined .undefined = .ok r ∧ r.status = true ∧
      ∃ d, UriDecoder.decode refHost
          (Erc8004RegistryParser.stringOrNull (.str Samples.validBase64Uri))
          (UriClassifier.classify (.str Samples.validBase64Uri)) = .ok ⟨true, [], d⟩ ∧
        (d ≠ .null →
          r.categories.isParseable = true ∧ r.categories.isSpecCompliant = true ∧
          r.entries.raw = refHost.jsonStringify d ∧ r.entries.raw ≠ .null) ∧
        (d = .null →
          r.categories.isParseable = false ∧ r.categories.isSpecCompliant = false ∧
          r.entries.raw = .null) :=
  ⟨_, rfl, rfl,
    status_true_document refHost (.str Samples.validBase64Uri) .undefined .undefined .undefined
      _ RefHost.jsonStringify_ne_null rfl rfl⟩

set_option maxRecDepth 100000 in
/-- Counterexample to C38 as stated: on the URI whose payload is the base64
text of the JSON text `null`, `validateFromUri` returns status true and no
messages, with `isParseable` and `isSpecCompliant` false and `entries.raw`
`null`. -/
theorem status_true_without_document :
    ∃ r, Erc8004RegistryParser.validateFromUri refHost (.str Samples.nullDocumentUri)
        .undefined .undefined .undefined = .ok r ∧
      r.status = true ∧ r.messages = [] ∧ r.categories.isParseable = false ∧
      r.categories.isSpecCompliant = false ∧ r.entries.raw = .null :=
  ⟨_, rfl, rfl, rfl, rfl, rfl, rfl⟩

/-! ## The payload of a gzip URI -/

namespace UriDecoder

theorem matchBase64_cons (c : Char) (rest : List Char) :
    matchBase64 (c :: rest)
      = if ("base64,".data.isPrefixOf (c :: rest) && !((c :: rest).drop 7).isEmpty
            && ((c :: rest).drop 7).all (fun d => !isLineTerminator d)) = true then
          some ((c :: rest).drop 7)
        else matchBase64 rest := rfl

/-- The test at one position of `matchBase64`, in words. -/
theorem marker_here (cs : List Char) :
    ("base64,".data.isPrefixOf cs && !(cs.drop 7).isEmpty
        && (cs.drop 7).all (fun d => !isLineTerminator d)) = true ↔
      ∃ p, cs = "base64,".data ++ p ∧ p ≠ [] ∧ ∀ d ∈ p, isLineTerminator d = false := by
  constructor
  · intro h
    simp only [Bool.and_eq_true, Bool.not_eq_true', List.isEmpty_eq_false, List.all_eq_true,
      ne_eq] at h
    obtain ⟨⟨hp, hne⟩, hall⟩ := h
    obtain ⟨t, ht⟩ := List.isPrefixOf_iff_prefix.mp hp
    have hd : cs.drop 7 = t := by
      rw [← ht]
      exact List.drop_left' rfl
    rw [hd] at hne hall
    exact ⟨t, ht.symm, hne, hall⟩
  · rintro ⟨p, rfl, hne, hall⟩
    have hd : ("base64,".data ++ p).drop 7 = p := List.drop_left' rfl
    simp only [hd, Bool.and_eq_true, Bool.not_eq_true', List.isEmpty_eq_false, List.all_eq_true,
      ne_eq]
    exact ⟨⟨List.isPrefixOf_iff_prefix.mpr (List.prefix_append _ _), hne⟩, hall⟩

/-- The capture group is the text behind the leftmost `base64,` that is
followed by at least one character and by no line terminator. -/
theorem matchBase64_leftmost (pre p : List Char) (hne : p ≠ [])
    (hall : ∀ d ∈ p, isLineTerminator d = false)
    (hmin : ∀ pre2 p2, pre ++ "base64,".data ++ p = pre2 ++ "base64,".data ++ p2 →
      pre2.length < pre.length → ∃ d ∈ p2, isLineTerminator d = true) :
    matchBase64 (pre ++ "base64,".data ++ p) = some p := by
  induction pre with
  | nil =>
    have e : [] ++ "base64,".data ++ p = 'b' :: ("ase64,".data ++ p) := rfl
    have hh := (marker_here ([] ++ "base64,".data ++ p)).mpr ⟨p, rfl, hne, hall⟩
    have hd : ([] ++ "base64,".data ++ p).drop 7 = p := List.drop_left' rfl
    rw [e] at hh hd ⊢
    rw [matchBase64_cons, if_pos hh, hd]
  | cons a pre ih =>
    show matchBase64 (a :: (pre ++ "base64,".data ++ p)) = some p
    rw [matchBase64_cons, if_neg]
    · apply ih
      intro pre2 p2 he hl
      exact hmin (a :: pre2) p2 (by simp only [List.cons_append, he])
        (by simp only [List.length_cons]; omega)
    · intro hh
      obtain ⟨q, hq, _, hqall⟩ := (marker_here _).mp hh
      obtain ⟨d, hd, hdl⟩ := hmin [] q (by simpa using hq) (by simp)
      rw [hqall d hd] at hdl
      cases hdl

/-- There is no capture group when no `base64,` is followed by at least one
character and by no line terminator. -/
theorem matchBase64_none (cs : List Char)
    (h : ∀ pre p, cs = pre ++ "base64,".data ++ p →
      p = [] ∨ ∃ d ∈ p, isLineTerminator d = true) :
    matchBase64 cs = none := by
  induction cs with
  | nil => rfl
  | cons c rest ih =>
    rw [matchBase64_cons, if_neg]
    · apply ih
      intro pre p he
      exact h (c :: pre) p (by simp only [List.cons_append, he])
    · intro hh
      obtain ⟨q, hq, hqne, hqall⟩ := (marker_here _).mp hh
      rcases h [] q (by simpa using hq) with h0 | ⟨d, hd, hdl⟩
      · exact hqne h0
      · rw [hqall d hd] at hdl
        cases hdl

theorem decode_gzip_tag (rt : Host) (u : String) :
    decode rt (some u) "gzip" = .ok
      (match matchBase64 u.data with
        | none =>
          ⟨false, ["uri: Gzip encoding detected but not decodable in this environment"], .null⟩
        | some p =>
          match (rt.base64Decode ⟨p⟩).bind rt.gunzipSync with
          | none =>
            ⟨false, ["uri: Gzip encoding detected but not decodable in this environment"],
              .null⟩
          | some unzipped =>
            match rt.jsonParse (rt.utf8Decode unzipped) with
            | none => ⟨false, ["uri: Contains inline JSON but parsing failed"], .null⟩
            | some parsed => ⟨true, [], parsed⟩) := by
  unfold decode
  rw [if_neg (by decide), if_neg (by decide), if_neg (by decide), if_pos (by decide)]
  simp only [bind, Except.bind, pure, Except.pure, decodeGzip, List.nil_append]
  cases matchBase64 u.data with
  | none => rfl
  | some p =>
    simp only
    cases (rt.base64Decode ⟨p⟩).bind rt.gunzipSync with
    | none => rfl
    | some z =>
      simp only
      cases rt.jsonParse (rt.utf8Decode z) <;> rfl

end UriDecoder

/-- C31, amended. For every host and every URI with the tag `gzip`: when the
URI is `pre`, the marker `base64,` and a text `p` of at least one character
without a line terminator, and every earlier occurrence of the marker is
followed by a line terminator somewhere, the capture group is `p`, and the
result is that of base64 decoding, decompressing and parsing `p`; when no
occurrence of the marker is followed by at least one character and by no line
terminator, in particular when the marker does not occur, the result is status
false, no document and exactly the message that gzip is not decodable. -/
theorem gzip_payload (rt : Host) (uri : String) :
    (∀ pre p : List Char, uri.data = pre ++ "base64,".data ++ p → p ≠ [] →
      (∀ d ∈ p, UriDecoder.isLineTerminator d = false) →
      (∀ pre2 p2, uri.data = pre2 ++ "base64,".data ++ p2 → pre2.length < pre.length →
        ∃ d ∈ p2, UriDecoder.isLineTerminator d = true) →
      UriDecoder.matchBase64 uri.data = some p ∧
      UriDecoder.decode rt (some uri) "gzip" = .ok
        (match (rt.base64Decode ⟨p⟩).bind rt.gunzipSync with
          | none =>
            ⟨false, ["uri: Gzip encoding detected but not decodable in this environment"],
              .null⟩
          | some unzipped =>
            match rt.jsonParse (rt.utf8Decode unzipped) with
            | none => ⟨false, ["uri: Contains inline JSON but parsing failed"], .null⟩
            | some parsed => ⟨true, [], parsed⟩)) ∧
    ((∀ pre p : List Char, uri.data = pre ++ "base64,".data ++ p →
        p = [] ∨ ∃ d ∈ p, UriDecoder.isLineTerminator d = true) →
      UriDecoder.decode rt (some uri) "gzip" = .ok
        ⟨false, ["uri: Gzip encoding detected but not decodable in this environment"],
          .null⟩) := by
  constructor
  · intro pre p hu hne hall hmin
    have hm : UriDecoder.matchBase64 uri.data = some p := by
      rw [hu]
      apply UriDecoder.matchBase64_leftmost pre p hne hall
      intro pre2 p2 he hl
      exact hmin pre2 p2 (by rw [hu, he]) hl
    refine ⟨hm, ?_⟩
    rw [UriDecoder.decode_gzip_tag, hm]
  · intro h
    rw [UriDecoder.decode_gzip_tag, UriDecoder.matchBase64_none uri.data h]

set_option maxRecDepth 100000 in
/-- Counterexample to C31 as stated: in `Samples.twoMarkerUri`, which the
classifier tags `gzip`, the marker occurs twice; the text behind its last
occurrence is `BBBB`, and the capture group that the decoder hands on is the
text behind the first occurrence, `AAAAbase64,BBBB`. -/
theorem gzip_payload_counterexample :
    UriClassifier.classify (.str Samples.twoMarkerUri) = "gzip" ∧
    afterLast "base64,".data Samples.twoMarkerUri.data = some "BBBB".data ∧
    UriDecoder.matchBase64 Samples.twoMarkerUri.data = some "AAAAbase64,BBBB".data ∧
    refHost.base64Decode "AAAAbase64,BBBB" ≠ refHost.base64Decode "BBBB" :=
  ⟨by decide, by decide, by decide, by decide⟩

/-! ## Invalid base64 -/

namespace RefHost

theorem isBase64Char_sextetChar (n : Nat) : isBase64Char (sextetChar n) = true := by
  unfold sextetChar
  have h : n % 64 < 64 := Nat.mod_lt _ (by decide)
  generalize n % 64 = m at h
  interval_cases m <;> rfl

theorem isStandardBase64_group (w x y z : Char) (rest : List Char)
    (hw : isBase64Char w = true) (hx : isBase64Char x = true) (hy : isBase64Char y = true)
    (hz : isBase64Char z = true) (hr : isStandardBase64 rest = true) :
    isStandardBase64 (w :: x :: y :: z :: rest) = true := by
  unfold isStandardBase64
  simp only [hw, hx, hy, hz, hr, Bool.and_self, Bool.true_and, Bool.or_true, ite_self]

/-- The reference encoder writes valid base64. -/
theorem base64Encode_standard (bs : Bytes) :
    isStandardBase64 (base64Encode bs).data = true := by
  induction bs using base64Encode.induct with
  | case1 => rfl
  | case2 a =>
    unfold base64Encode
    unfold isStandardBase64
    simp [isBase64Char_sextetChar]
  | case3 a b =>
    unfold base64Encode
    unfold isStandardBase64
    simp [isBase64Char_sextetChar]
  | case4 a b c rest ih =>
    unfold base64Encode
    rw [String.data_append]
    exact isStandardBase64_group _ _ _ _ _ (isBase64Char_sextetChar _)
      (isBase64Char_sextetChar _) (isBase64Char_sextetChar _) (isBase64Char_sextetChar _) ih

end RefHost

/-- C32, amended. For every host whose base64 encoder writes valid base64
and every URI with the tag `base64` whose payload, the URI without its first
29 characters, is not a valid base64 text: `UriDecoder.decode` returns status
false, no document and exactly one message, `uri: Decoded base64 is not valid
UTF-8` when the base64 decoder of the host returns and `uri: Invalid base64
encoding` when it raises. -/
theorem invalid_base64_payload (rt : Host) (uri : String)
    (henc : ∀ bs, isStandardBase64 (rt.base64Encode bs).data = true)
    (hbad : isStandardBase64 (slice uri 29).data = false) :
    UriDecoder.decode rt (some uri) "base64" = .ok
      ⟨false,
        [if (rt.base64Decode (slice uri 29)).isSome = true then
            "uri: Decoded base64 is not valid UTF-8"
          else "uri: Invalid base64 encoding"],
        .null⟩ := by
  rw [UriDecoder.decode_base64_tag, UriDecoder.decodeBase64_some]
  cases hb : rt.base64Decode (slice uri 29) with
  | none => rfl
  | some buffer =>
    have hne : rt.base64Encode (rt.utf8Encode (rt.utf8Decode buffer)) ≠ slice uri 29 := by
      intro he
      have := henc (rt.utf8Encode (rt.utf8Decode buffer))
      rw [he, hbad] at this
      cases this
    simp only [hne, if_false]
    rfl

set_option maxRecDepth 100000 in
/-- Witness for C32: the invalid base64 URI of the test suite on the reference
host, whose decoder never raises. -/
theorem invalid_base64_payload_witness :
    slice Samples.invalidBase64Uri 29 = "!!!invalid-base64!!!" ∧
    UriDecoder.decode refHost (some Samples.invalidBase64Uri) "base64" = .ok
      ⟨false,
        [if (refHost.base64Decode (slice Samples.invalidBase64Uri 29)).isSome = true then
            "uri: Decoded base64 is not valid UTF-8"
          else "uri: Invalid base64 encoding"],
        .null⟩ :=
  ⟨by decide,
    invalid_base64_payload refHost Samples.invalidBase64Uri RefHost.base64Encode_standard
      (by decide)⟩

set_option maxRecDepth 100000 in
/-- Counterexample to C32 as stated: on the invalid base64 URI of the test
suite the decoder of the reference host, like `Buffer.from`, does not raise,
and the single message is the one of the re-encoding check, not `uri: Invalid
base64 encoding`. -/
theorem invalid_base64_message :
    UriClassifier.classify (.str Samples.invalidBase64Uri) = "base64" ∧
    Erc8004RegistryParser.decodeUri refHost (.str Samples.invalidBase64Uri) .undefined
      = .ok ⟨false, ["uri: Decoded base64 is not valid UTF-8"], .null⟩ ∧
    "uri: Decoded base64 is not valid UTF-8" ≠ "uri: Invalid base64 encoding" :=
  ⟨by decide, rfl, by decide⟩

/-! ## The parameter contract of `validateFromUri` -/

namespace Validation

theorem validationValidateFromUri_messages (agentUri agentId ownerAddress : JsVal)
    (v : ValidatorsArg) :
    validationValidateFromUri agentUri agentId ownerAddress (Erc8004RegistryParser.withDefault v)
      = finish (parameterViolations agentUri agentId ownerAddress v) := by
  unfold validationValidateFromUri parameterViolations
  cases agentUri <;> cases agentId <;> cases ownerAddress <;> cases v <;> rfl

theorem finish_nil : finish [] = ⟨true, []⟩ := rfl

theorem finish_cons (m : String) (ms : List String) : finish (m :: ms) = ⟨false, m :: ms⟩ := by
  simp [finish]

end Validation

namespace UriDecoder

/-- Every message of the decoder is about the URI. -/
theorem decode_messages_uri (rt : Host) (uri : Option String) (tag : String) (r : Decoded)
    (h : decode rt uri tag = .ok r) : ∀ m ∈ r.messages, m.data.take 5 = "uri: ".data := by
  unfold decode at h
  simp only [List.nil_append] at h
  split_ifs at h
  · cases h
    intro m hm
    rw [List.mem_singleton.mp hm]
    rfl
  · cases h
    intro m hm
    rw [List.mem_singleton.mp hm]
    rfl
  · simp only [bind, Except.bind, pure, Except.pure] at h
    split at h
    · cases h
    · cases h
      intro m hm
      simp only [List.mem_append, List.mem_singleton] at hm
      rcases hm with hm | hm
      · split_ifs at hm
        · rw [List.mem_singleton.mp hm]
          rfl
        · cases hm
      · rw [hm]
        rfl
  · simp only [bind, Except.bind, pure, Except.pure] at h
    split at h
    · cases h
    · rename_i g hg
      cases h
      unfold decodeGzip at hg
      split at hg
      · cases hg
      · simp only [List.nil_append] at hg
        intro m hm
        split at hg
        · cases hg; rw [List.mem_singleton.mp hm]; rfl
        · split at hg
          · cases hg; rw [List.mem_singleton.mp hm]; rfl
          · split at hg
            · cases hg; rw [List.mem_singleton.mp hm]; rfl
            · cases hg; cases hm
  · simp only [bind, Except.bind, pure, Except.pure] at h
    split at h
    · cases h
    · rename_i g hg
      cases h
      unfold decodeBase64 at hg
      split at hg
      · cases hg
      · simp only [List.nil_append] at hg
        intro m hm
        split at hg
        · cases hg; rw [List.mem_singleton.mp hm]; rfl
        · split at hg
          · cases hg; rw [List.mem_singleton.mp hm]; rfl
          · split at hg
            · cases hg; rw [List.mem_singleton.mp hm]; rfl
            · cases hg; cases hm
  · cases h
    intro m hm
    unfold decodeJson at hm
    simp only [List.nil_append] at hm
    split at hm
    · rw [List.mem_singleton.mp hm]; rfl
    · cases hm
  · cases h
    intro m hm
    rw [List.mem_singleton.mp hm]
    rfl

end UriDecoder

namespace RegistrationValidator

/-- The groups of the messages of the validator on an object document. -/
theorem validate_topKeys (rt : Host) (kvs : List (String × JsVal)) (r : Validated)
    (h : validate rt (.obj kvs) = .ok r) :
    ∀ m ∈ r.messages, topKey m ∈ [['t', 'y'], ['n', 'a'], ['d', 'e'], ['s', 'e'], ['x', '4'],
      ['i', 'm'], ['a', 'c'], ['s', 'u'], ['*']] := by
  obtain ⟨m2, m3, h2, h3, hparts⟩ := validate_parts rt kvs r h
  obtain ⟨_, k1⟩ := required_keys kvs _ (validateRequiredFields_obj kvs)
  obtain ⟨_, k2⟩ := validateServices_keys rt _ m2 h2
  obtain ⟨_, k3⟩ := x402_keys _ m3 h3
  obtain ⟨_, k4⟩ := optional_keys rt kvs _ (validateOptionalFields_obj rt kvs)
  intro m hm
  rw [hparts] at hm
  simp only [List.mem_append] at hm
  rcases hm with (((hm | hm) | hm) | hm) | hm
  · have := k1 m (by simp only [List.mem_append]; exact hm)
    simp only [List.mem_cons, List.mem_singleton, List.not_mem_nil, or_false] at this ⊢
    tauto
  · rw [k2 m hm]
    decide
  · have := k3 m hm
    simp only [List.mem_cons, List.mem_singleton, List.not_mem_nil, or_false] at this ⊢
    tauto
  · have := k4 m (by simp only [List.mem_append]; exact hm)
    simp only [List.mem_cons, List.mem_singleton, List.not_mem_nil, or_false] at this ⊢
    tauto
  · rw [topKey_of_endsWith_unknown m (validateExtraFields_ends (.obj kvs) m hm)]
    decide

end RegistrationValidator

namespace Erc8004RegistryParser

theorem injectedFrom_services (mcp a2a : Option Validator) (xs : List JsVal) (i : Nat) :
    ∀ m ∈ injectedFrom mcp a2a xs i, m.data.take 5 = "servi".data := by
  induction xs generalizing i with
  | nil => intro m hm; cases hm
  | cons x xs ih =>
    intro m hm
    unfold injectedFrom at hm
    rcases List.mem_append.mp hm with h | h
    · unfold injectedFor at h
      simp only at h
      split at h
      · cases h
      · split_ifs at h
        · cases h
        · split at h
          · split_ifs at h
            · cases h
            · obtain ⟨t, _, rfl⟩ := List.mem_map.mp h
              simp only [String.data_append]
              rfl
          · cases h
    · exact ih (i + 1) m h

theorem runValidators_services (v : ValidatorsArg) (doc : JsVal) (out : List String)
    (h : runValidators v doc = .ok out) : ∀ m ∈ out, m.data.take 5 = "servi".data := by
  cases v with
  | mapping mcp a2a =>
    rw [runValidators_ok mcp a2a doc out h]
    cases propertyOf doc "services" with
    | arr xs => exact injectedFrom_services mcp a2a xs 0
    | _ => intro m hm; cases hm
  | _ =>
    cases h
    intro m hm
    cases hm

end Erc8004RegistryParser

theorem violationTexts_shape :
    ∀ t ∈ parameterViolationTexts,
      t.data.take 5 ≠ "uri: ".data ∧ t.data.take 5 ≠ "servi".data ∧
      topKey t ∉ [['t', 'y'], ['n', 'a'], ['d', 'e'], ['s', 'e'], ['x', '4'],
        ['i', 'm'], ['a', 'c'], ['s', 'u'], ['*']] ∧
      t ≠ "json: Is null or undefined" ∧ t ≠ "json: Is not a valid object" := by
  decide

namespace Erc8004RegistryParser

/-- No message of a pipeline run is the text of a parameter violation. -/
theorem runPipeline_no_violation (rt : Host) (uri a o : Option String) (v : ValidatorsArg)
    (p : PipelineResult) (h : runPipeline rt uri a o v = .ok p) :
    ∀ m ∈ p.messages, m ∉ parameterViolationTexts := by
  intro m hm hin
  obtain ⟨s1, s2, s3, s4, s5⟩ := violationTexts_shape m hin
  obtain ⟨dec, hdec, hcase⟩ := runPipeline_cases rt uri a o v p h
  have hd := UriDecoder.decode_messages_uri rt uri _ dec hdec
  rcases hcase with ⟨_, rfl⟩ | ⟨_, val, c, e, vm, hval, _, hvm, rfl⟩
  · exact s1 (hd m hm)
  · simp only [List.mem_append] at hm
    rcases hm with (hm | hm) | hm
    · exact s1 (hd m hm)
    · cases hdoc : dec.decodedRegistrationFile with
      | obj kvs =>
        rw [hdoc] at hval
        exact s3 (RegistrationValidator.validate_topKeys rt kvs val hval m hm)
      | undefined =>
        rw [hdoc] at hval
        cases hval
        exact s4 (List.mem_singleton.mp hm)
      | null =>
        rw [hdoc] at hval
        cases hval
        exact s4 (List.mem_singleton.mp hm)
      | bool b =>
        rw [hdoc] at hval
        cases hval
        exact s5 (List.mem_singleton.mp hm)
      | num n =>
        rw [hdoc] at hval
        cases hval
        exact s5 (List.mem_singleton.mp hm)
      | str s =>
        rw [hdoc] at hval
        cases hval
        exact s5 (List.mem_singleton.mp hm)
      | arr xs =>
        rw [hdoc] at hval
        cases hval
        exact s5 (List.mem_singleton.mp hm)
    · exact s2 (runValidators_services v _ vm hvm m hm)

end Erc8004RegistryParser

/-- C35, amended. For every host and all arguments of `validateFromUri`: when
the list of parameter violations is not empty, the call raises the error
whose message is the violations in the order `agentUri`, `agentId`,
`ownerAddress`, `additionalValidators`, joined with a comma and a blank, and no
pipeline stage runs; when the list is empty, no parameter error is raised:
the call is the pipeline run on the arguments, it returns exactly when the
pipeline run returns, and no message of a returned result is the text of a
parameter violation. -/
theorem parameter_contract (rt : Host) (agentUri agentId ownerAddress : JsVal)
    (additionalValidators : ValidatorsArg) :
    (parameterViolations agentUri agentId ownerAddress additionalValidators ≠ [] →
      Erc8004RegistryParser.validateFromUri rt agentUri agentId ownerAddress
          additionalValidators
        = .error (.error (", ".intercalate
            (parameterViolations agentUri agentId ownerAddress additionalValidators)))) ∧
    (parameterViolations agentUri agentId ownerAddress additionalValidators = [] →
      Erc8004RegistryParser.validateFromUri rt agentUri agentId ownerAddress
          additionalValidators
        = (Erc8004RegistryParser.runPipeline rt (Erc8004RegistryParser.stringOrNull agentUri)
            (Erc8004RegistryParser.stringOrNull agentId)
            (Erc8004RegistryParser.stringOrNull ownerAddress)
            (Erc8004RegistryParser.withDefault additionalValidators)).map
          (fun p => ⟨p.messages.length == 0, p.messages, p.categories, p.entries⟩) ∧
      ∀ r, Erc8004RegistryParser.validateFromUri rt agentUri agentId ownerAddress
          additionalValidators = .ok r →
        ∀ m ∈ r.messages, m ∉ parameterViolationTexts) := by
  have hv := Validation.validationValidateFromUri_messages agentUri agentId ownerAddress
    additionalValidators
  constructor
  · intro hne
    cases hp : parameterViolations agentUri agentId ownerAddress additionalValidators with
    | nil => exact absurd hp hne
    | cons m ms =>
      rw [hp, Validation.finish_cons] at hv
      unfold Erc8004RegistryParser.validateFromUri
      simp only [bind, Except.bind, pure, Except.pure, hv, Bool.not_false, if_true]
      rfl
  · intro hnil
    rw [hnil, Validation.finish_nil] at hv
    have heq : Erc8004RegistryParser.validateFromUri rt agentUri agentId ownerAddress
        additionalValidators
        = (Erc8004RegistryParser.runPipeline rt (Erc8004RegistryParser.stringOrNull agentUri)
            (Erc8004RegistryParser.stringOrNull agentId)
            (Erc8004RegistryParser.stringOrNull ownerAddress)
            (Erc8004RegistryParser.withDefault additionalValidators)).map
          (fun p => ⟨p.messages.length == 0, p.messages, p.categories, p.entries⟩) := by
      unfold Erc8004RegistryParser.validateFromUri
      simp only [bind, Except.bind, pure, Except.pure, hv, Bool.not_true, Bool.false_eq_true,
        if_false]
      cases Erc8004RegistryParser.runPipeline rt (Erc8004RegistryParser.stringOrNull agentUri)
        (Erc8004RegistryParser.stringOrNull agentId)
        (Erc8004RegistryParser.stringOrNull ownerAddress)
        (Erc8004RegistryParser.withDefault additionalValidators) <;> rfl
    refine ⟨heq, ?_⟩
    intro r hr m hm
    obtain ⟨_, p, hp, e1, _, _⟩ :=
      Erc8004RegistryParser.validateFromUri_ok rt _ _ _ _ r hr
    rw [e1] at hm
    exact Erc8004RegistryParser.runPipeline_no_violation rt _ _ _ _ p hp m hm

set_option maxRecDepth 100000 in
/-- Witness for C35, two calls on the reference host: a call with four
violations raises their texts joined in the order of the arguments, and the
call of the test suite with the base64 URI returns. -/
theorem parameter_contract_witness :
    Erc8004RegistryParser.validateFromUri refHost .undefined (.num 1) (.bool true) .notObject
      = .error (.error ("agentUri: Missing value, agentId: Must be a string or null, "
          ++ "ownerAddress: Must be a string or null, "
          ++ "additionalValidators: Must be an object")) ∧
    ∃ r, Erc8004RegistryParser.validateFromUri refHost (.str Samples.validBase64Uri) .undefined
        .undefined .undefined = .ok r ∧ r.messages = [] :=
  ⟨(parameter_contract refHost .undefined (.num 1) (.bool true) .notObject).1 (by decide),
    ⟨_, rfl, rfl⟩⟩

set_option maxRecDepth 100000 in
/-- Counterexample to C35 as stated: the call on the data URI of the document
whose list of services holds `null` has no parameter violation and does not
return a result; it raises a `TypeError` in the registration validator. -/
theorem valid_parameters_raise :
    parameterViolations (.str Samples.nullServiceUri) .undefined .undefined .undefined = [] ∧
    Erc8004RegistryParser.validateFromUri refHost (.str Samples.nullServiceUri) .undefined
      .undefined .undefined = .error .typeError :=
  ⟨rfl, rfl⟩

namespace UriDecoder

/-- An occurrence of the marker behind `pre` shows at position `pre.length`. -/
theorem marker_at (cs pre p : List Char) (h : cs = pre ++ "base64,".data ++ p) :
    "base64,".data.isPrefixOf (cs.drop pre.length) = true := by
  rw [h, List.append_assoc, List.drop_left' rfl]
  exact List.isPrefixOf_iff_prefix.mpr (List.prefix_append _ _)

end UriDecoder

set_option maxRecDepth 100000 in
/-- Witness for C31: in the gzip URI of the test suite the marker occurs once,
behind 39 characters, and the capture group is the base64 text behind it. -/
theorem gzip_payload_witness :
    UriDecoder.matchBase64 Samples.gzipUri.data
      = some (Samples.gzipUri.data.drop 46) ∧
    UriDecoder.decode refHost (some Samples.gzipUri) "gzip" = .ok
      (match (refHost.base64Decode ⟨Samples.gzipUri.data.drop 46⟩).bind refHost.gunzipSync with
        | none =>
          ⟨false, ["uri: Gzip encoding detected but not decodable in this environment"],
            .null⟩
        | some unzipped =>
          match refHost.jsonParse (refHost.utf8Decode unzipped) with
          | none => ⟨false, ["uri: Contains inline JSON but parsing failed"], .null⟩
          | some parsed => ⟨true, [], parsed⟩) :=
  (gzip_payload refHost Samples.gzipUri).1 (Samples.gzipUri.data.take 39)
    (Samples.gzipUri.data.drop 46) (by decide) (by decide) (by decide)
    (fun pre2 p2 he hl => by
      have hm := UriDecoder.marker_at _ pre2 p2 he
      have hall : ∀ n, n < 39 →
          "base64,".data.isPrefixOf (Samples.gzipUri.data.drop n) = false := by decide
      have hl2 : pre2.length < 39 := hl
      rw [hall pre2.length hl2] at hm
      cases hm)

/-! ## The document `null` -/

namespace UriDecoder

/-- A successful decoding returns what `JSON.parse` returned for the decoded
text of the URI. -/
theorem decode_true_text (rt : Host) (uri : Option String) (tag : String) (r : Decoded)
    (h : decode rt uri tag = .ok r) (hs : r.status = true) :
    ∃ text, decodedText rt uri tag = some text ∧
      rt.jsonParse text = some r.decodedRegistrationFile := by
  rcases decode_cases rt uri tag r h with ⟨hf, _⟩ | ⟨_, ht⟩
  · rw [hs] at hf; cases hf
  rcases ht with rfl | rfl | rfl
  · cases uri with
    | none =>
      unfold decode at h
      rw [if_neg (by decide), if_neg (by decide), if_neg (by decide), if_pos (by decide)] at h
      cases h
    | some u =>
      rw [decode_gzip_tag] at h
      cases hm : matchBase64 u.data with
      | none => rw [hm] at h; cases h; cases hs
      | some p =>
        cases hz : (rt.base64Decode ⟨p⟩).bind rt.gunzipSync with
        | none => rw [hm] at h; simp only [hz] at h; cases h; cases hs
        | some z =>
          cases hp : rt.jsonParse (rt.utf8Decode z) with
          | none => rw [hm] at h; simp only [hz, hp] at h; cases h; cases hs
          | some parsed =>
            rw [hm] at h
            simp only [hz, hp] at h
            cases h
            refine ⟨rt.utf8Decode z, ?_, hp⟩
            unfold decodedText
            rw [if_neg (by decide), if_neg (by decide), if_pos rfl]
            simp only [Option.some_bind, hm, hz, Option.map_some']
  · cases uri with
    | none =>
      unfold decode at h
      rw [if_neg (by decide), if_neg (by decide), if_neg (by decide), if_neg (by decide),
        if_pos (by decide)] at h
      cases h
    | some u =>
      rw [decode_base64_tag, decodeBase64_some] at h
      cases hb : rt.base64Decode (slice u 29) with
      | none => rw [hb] at h; cases h; cases hs
      | some buffer =>
        rw [hb] at h
        by_cases hv : rt.base64Encode (rt.utf8Encode (rt.utf8Decode buffer)) = slice u 29
        · cases hp : rt.jsonParse (rt.utf8Decode buffer) with
          | none => simp only [hv, if_true, hp] at h; cases h; cases hs
          | some parsed =>
            simp only [hv, if_true, hp] at h
            cases h
            refine ⟨rt.utf8Decode buffer, ?_, hp⟩
            unfold decodedText
            rw [if_neg (by decide), if_pos rfl]
            simp only [Option.some_bind, hb, Option.map_some']
        · simp only [hv, if_false] at h
          cases h
          cases hs
  · unfold decode at h
    rw [if_neg (by decide), if_neg (by decide), if_neg (by decide), if_neg (by decide),
      if_neg (by decide), if_pos (by decide)] at h
    cases h
    unfold decodeJson at hs ⊢
    simp only [List.nil_append] at hs ⊢
    cases hp : rt.jsonParse (uri.getD "null") with
    | none => rw [hp] at hs; cases hs
    | some parsed => exact ⟨_, if_pos rfl, hp⟩

end UriDecoder

/-- C34, amended. For every host, URI and tag, in what `UriDecoder.decode`
returns, the decoded text being the text that the branch of the tag decodes
from the URI and hands to `JSON.parse`: with status true the tag is one of
`gzip`, `base64`, `json`, there are no messages, the URI has a decoded text
and the document is the value that `JSON.parse` returned for it; with status
false the document is `null` and there is a message; so the document is `null`
only together with status false and a message, or together with status true,
no messages and a decoded text that parses to `null`. -/
theorem null_document_cases (rt : Host) (uri : Option String) (tag : String)
    (r : UriDecoder.Decoded) (h : UriDecoder.decode rt uri tag = .ok r) :
    (r.status = true →
      (tag = "gzip" ∨ tag = "base64" ∨ tag = "json") ∧ r.messages = [] ∧
        ∃ text, decodedText rt uri tag = some text ∧
          rt.jsonParse text = some r.decodedRegistrationFile) ∧
    (r.status = false → r.decodedRegistrationFile = .null ∧ r.messages ≠ []) ∧
    (r.decodedRegistrationFile = .null →
      (r.status = false ∧ r.messages ≠ []) ∨
        (r.status = true ∧ r.messages = [] ∧
          ∃ text, decodedText rt uri tag = some text ∧ rt.jsonParse text = some .null)) := by
  have hst := UriDecoder.uriDecode_status rt uri tag r h
  have hc := UriDecoder.decode_cases rt uri tag r h
  have h1 : r.status = true →
      (tag = "gzip" ∨ tag = "base64" ∨ tag = "json") ∧ r.messages = [] ∧
        ∃ text, decodedText rt uri tag = some text ∧
          rt.jsonParse text = some r.decodedRegistrationFile := by
    intro hs
    rcases hc with ⟨hf, _⟩ | ⟨_, ht⟩
    · rw [hs] at hf; cases hf
    · exact ⟨ht, hst.mp hs, UriDecoder.decode_true_text rt uri tag r h hs⟩
  have h2 : r.status = false → r.decodedRegistrationFile = .null ∧ r.messages ≠ [] := by
    intro hs
    rcases hc with ⟨_, hn⟩ | ⟨ht, _⟩
    · refine ⟨hn, fun hm => ?_⟩
      rw [hst.mpr hm] at hs
      cases hs
    · rw [hs] at ht; cases ht
  refine ⟨h1, h2, ?_⟩
  intro hn
  cases hs : r.status
  · exact Or.inl ⟨rfl, (h2 hs).2⟩
  · obtain ⟨_, hm, text, hd, ht⟩ := h1 hs
    rw [hn] at ht
    exact Or.inr ⟨rfl, hm, text, hd, ht⟩

set_option maxRecDepth 100000 in
/-- Witness for C34: the base64 URI of the test suite, decoded with status
true to its document. -/
theorem null_document_cases_witness :
    UriDecoder.decode refHost (some Samples.validBase64Uri) "base64"
      = .ok ⟨true, [], Samples.specCompliantJson⟩ ∧
    ((true = true →
      ("base64" = "gzip" ∨ "base64" = "base64" ∨ "base64" = "json") ∧
        ([] : List String) = [] ∧
        ∃ text, decodedText refHost (some Samples.validBase64Uri) "base64" = some text ∧
          refHost.jsonParse text = some Samples.specCompliantJson) ∧
    (true = false → Samples.specCompliantJson = .null ∧ ([] : List String) ≠ []) ∧
    (Samples.specCompliantJson = .null →
      (true = false ∧ ([] : List String) ≠ []) ∨
        (true = true ∧ ([] : List String) = [] ∧
          ∃ text, decodedText refHost (some Samples.validBase64Uri) "base64" = some text ∧
            refHost.jsonParse text = some .null))) :=
  ⟨rfl, null_document_cases refHost (some Samples.validBase64Uri) "base64"
    ⟨true, [], Samples.specCompliantJson⟩ rfl⟩

set_option maxRecDepth 100000 in
/-- Counterexample to C34 as stated: the URI whose payload is the base64 text
of the JSON text `null` is tagged `base64`, its decoded text is `null`, and it
is decoded with status true, no messages and the document `null`. -/
theorem null_document_counterexample :
    UriClassifier.classify (.str Samples.nullDocumentUri) = "base64" ∧
    decodedText refHost (some Samples.nullDocumentUri) "base64" = some "null" ∧
    UriDecoder.decode refHost (some Samples.nullDocumentUri) "base64"
      = .ok ⟨true, [], .null⟩ ∧
    Erc8004RegistryParser.decodeUri refHost (.str Samples.nullDocumentUri) .undefined
      = .ok ⟨true, [], .null⟩ :=
  ⟨by decide, by decide, rfl, rfl⟩

end Erc8004
